import Mathlib

/-!
# Verification development for `runtime/vm/flow_graph_compiler_x64.cc`

A shallow embedding of the x64 back end of the optimizing compiler: the
deoptimization-info builder walk, the parallel-move resolver, the parameter
binder, the inline type tests and the call-site emitters, together with the
properties proved about them.

Conventions.
* Handles to VM objects (`Code`, `Function`, `Value*`, symbols, constants) are
  natural numbers: only their identity matters.
* Code emitted through the assembler is embedded by its meaning: either the
  list of emitted instructions with an interpreter for it, or directly the
  function the emitted instructions compute on the registers they use, the
  instruction being quoted beside each step.
* An `ASSERT` or `UNREACHABLE` that fails is the result `none`.
-/

namespace Dart

/-! ## Location model (`vm/locations.h`) -/

/-- General purpose registers, by their hardware encoding. -/
abbrev Register := Nat

/-- XMM registers, by their hardware encoding. -/
abbrev FpuRegister := Nat

def RAX : Register := 0
def RCX : Register := 1
def RDX : Register := 2
def RBX : Register := 3
def RSP : Register := 4
def RBP : Register := 5
def RSI : Register := 6
def RDI : Register := 7
def R10 : Register := 10
def R12 : Register := 12
def R13 : Register := 13

def XMM0 : FpuRegister := 0

/-- A machine word. -/
abbrev Word := Int

/-- A VM object a constant location can name: a Smi or an object in the heap,
identified by its handle. -/
inductive Object where
  | smi (value : Int)
  | heap (id : Nat)
  deriving DecidableEq

namespace Object

def IsSmi : Object → Bool
  | smi _ => true
  | heap _ => false

/-- The tagged word of the object: `Smi::RawValue` shifts the value by
`kSmiTagShift = 1` (tag bit 0), a heap pointer carries `kHeapObjectTag = 1`. -/
def raw : Object → Word
  | smi value => 2 * value
  | heap id => 2 * (id : Int) + 1

end Object

/-- Where a value lives: the kinds of `Location` the back end distinguishes.
Two locations are the same storage exactly when they are equal. -/
inductive Location where
  | invalid
  | constant (obj : Object)
  | reg (r : Register)
  | fpuReg (r : FpuRegister)
  | stackSlot (index : Int)
  | doubleStackSlot (index : Int)
  | quadStackSlot (index : Int)
  deriving DecidableEq

namespace Location

def NoLocation : Location := invalid

def IsInvalid : Location → Bool
  | invalid => true
  | _ => false

def IsConstant : Location → Bool
  | constant _ => true
  | _ => false

def IsRegister : Location → Bool
  | reg _ => true
  | _ => false

def IsFpuRegister : Location → Bool
  | fpuReg _ => true
  | _ => false

def IsStackSlot : Location → Bool
  | stackSlot _ => true
  | _ => false

def IsDoubleStackSlot : Location → Bool
  | doubleStackSlot _ => true
  | _ => false

def IsQuadStackSlot : Location → Bool
  | quadStackSlot _ => true
  | _ => false

def Equals (a b : Location) : Bool := decide (a = b)

end Location

/-! ## Deoptimization metadata builder (`CompilerDeoptInfo::CreateDeoptInfo`) -/

/-- Handle to a `Code` object. -/
abbrev Code := Nat

/-- Handle to an IL `Value`. -/
abbrev Value := Nat

/-- One captured frame: the code owning the frame, the deopt id recorded for
it, the number of fixed parameters and the (value, location) entries. The outer
environment is the next element of the chain the environment sits in. -/
structure Environment where
  code : Code
  deopt_id : Int
  fixed_parameter_count : Int
  entries : List (Value × Location)
  deriving DecidableEq

namespace Environment

def Length (env : Environment) : Int := env.entries.length

/-- Entry `i` of the environment; an index outside `[0, Length)` reads a dummy
entry (the source would read out of bounds). -/
def EntryAt (env : Environment) (i : Int) : Value × Location :=
  if i < 0 then (0, Location.invalid) else env.entries.getD i.toNat (0, Location.invalid)

def ValueAt (env : Environment) (i : Int) : Value := (env.EntryAt i).1

def LocationAt (env : Environment) (i : Int) : Location := (env.EntryAt i).2

end Environment

/-- The calls made on the `DeoptInfoBuilder`, in the order they are made. The
last argument of a frame-slot call is the slot index it is given. -/
inductive BuilderCall where
  | AddMaterialization (mat : Value)
  | MarkFrameStart
  | AddPp (code : Code) (slot_ix : Int)
  | AddPcMarker (code : Option Code) (slot_ix : Int)
  | AddCallerFp (slot_ix : Int)
  | AddReturnAddress (code : Code) (deopt_id : Int) (slot_ix : Int)
  | EmitMaterializationArguments (slot_ix : Int)
  | AddCopy (value : Value) (loc : Location) (slot_ix : Int)
  | AddCallerPp (slot_ix : Int)
  | AddCallerPc (slot_ix : Int)
  deriving DecidableEq

/-- The collaborators of `CreateDeoptInfo` that live outside this file of the
source, taken as parameters: `Isolate::ToDeoptAfter`, the materializations
`CompilerDeoptInfo::EmitMaterializations` finds in an environment chain, and
the slot index `DeoptInfoBuilder::EmitMaterializationArguments` returns. -/
structure DeoptCollaborators where
  ToDeoptAfter : Int → Int
  materializations : List Environment → List Value
  EmitMaterializationArguments : Int → Int

/-- A deopt point: its own deopt id and the environment chain captured for it,
innermost environment first (`[]` is the null environment). The locations are
those the chain has once `AllocateIncomingParametersRecursive` has run. -/
structure CompilerDeoptInfo where
  deopt_id : Int
  deopt_env : List Environment

/-- What `CreateDeoptInfo` returns: the null entry, or the entry built from
the calls made on the builder. -/
inductive RawDeoptInfo where
  | null
  | info (calls : List BuilderCall)
  deriving DecidableEq

/-- Number of iterations of `for (i = hi; i >= lo; i--)`. -/
def tripCount (hi lo : Int) : Nat := (hi - lo + 1).toNat

/-- The body `builder->AddCopy(env->ValueAt(i), env->LocationAt(i), slot_ix++)`
run `n` times with `i` counting down. -/
def copyLoop (env : Environment) : Nat → Int → Int → List BuilderCall
  | 0, _, _ => []
  | n + 1, i, slot_ix =>
      BuilderCall.AddCopy (env.ValueAt i) (env.LocationAt i) slot_ix
        :: copyLoop env n (i - 1) (slot_ix + 1)

/-- `for (i = env->Length() - 1; i >= env->fixed_parameter_count(); i--)`. -/
def copyLocals (env : Environment) (slot_ix : Int) : List BuilderCall :=
  copyLoop env (tripCount (env.Length - 1) env.fixed_parameter_count) (env.Length - 1) slot_ix

/-- `for (i = env->fixed_parameter_count() - 1; i >= 0; i--)`. -/
def copyFixedParameters (env : Environment) (slot_ix : Int) : List BuilderCall :=
  copyLoop env (tripCount (env.fixed_parameter_count - 1) 0) (env.fixed_parameter_count - 1) slot_ix

/-- The `while (current != NULL)` loop: the calls it makes, the environment
left in `previous` and the slot index after it. -/
def outerFrames (collab : DeoptCollaborators) :
    Environment → List Environment → Int → List BuilderCall × Environment × Int
  | previous, [], slot_ix => ([], previous, slot_ix)
  | previous, current :: outer, slot_ix =>
      let header :=
        [BuilderCall.AddPp current.code slot_ix,
         BuilderCall.AddPcMarker (some previous.code) (slot_ix + 1),
         BuilderCall.AddCallerFp (slot_ix + 2),
         BuilderCall.AddReturnAddress current.code
           (collab.ToDeoptAfter current.deopt_id) (slot_ix + 3)]
      let outgoing := copyFixedParameters previous (slot_ix + 4)
      let slot_ix1 := slot_ix + 4 + outgoing.length
      let locals := copyLocals current slot_ix1
      let slot_ix2 := slot_ix1 + locals.length
      let rest := outerFrames collab current outer slot_ix2
      (header ++ outgoing ++ locals ++ rest.1, rest.2)

namespace CompilerDeoptInfo

/-- `CompilerDeoptInfo::CreateDeoptInfo`. -/
def CreateDeoptInfo (collab : DeoptCollaborators) (self : CompilerDeoptInfo) : RawDeoptInfo :=
  match self.deopt_env with
  | [] => RawDeoptInfo.null
  | current :: outer =>
      let mats := (collab.materializations self.deopt_env).map BuilderCall.AddMaterialization
      let header :=
        [BuilderCall.MarkFrameStart,
         BuilderCall.AddPp current.code 0,
         BuilderCall.AddPcMarker none 1,
         BuilderCall.AddCallerFp 2,
         BuilderCall.AddReturnAddress current.code self.deopt_id 3,
         BuilderCall.EmitMaterializationArguments 4]
      let slot_ix := collab.EmitMaterializationArguments 4
      let locals := copyLocals current slot_ix
      let frames := outerFrames collab current outer (slot_ix + locals.length)
      let previous := frames.2.1
      let slot_ix3 := frames.2.2
      let caller :=
        [BuilderCall.AddCallerPp slot_ix3,
         BuilderCall.AddPcMarker (some previous.code) (slot_ix3 + 1),
         BuilderCall.AddCallerFp (slot_ix3 + 2),
         BuilderCall.AddCallerPc (slot_ix3 + 3)]
      let incoming := copyFixedParameters previous (slot_ix3 + 4)
      RawDeoptInfo.info (mats ++ header ++ locals ++ frames.1 ++ caller ++ incoming)

end CompilerDeoptInfo

/-- The (value, location) pairs of the `AddCopy` calls, in call order. -/
def copiesOf : List BuilderCall → List (Value × Location)
  | [] => []
  | BuilderCall.AddCopy v l _ :: cs => (v, l) :: copiesOf cs
  | _ :: cs => copiesOf cs

/-- Replay of a table against the frame sizes: cut the copied pairs into runs
of the given lengths and read each run backwards (the table fills every frame
from its highest index down). -/
def replayCopies : List Nat → List (Value × Location) → List (List (Value × Location))
  | [], _ => []
  | n :: ns, cs => (cs.take n).reverse :: replayCopies ns (cs.drop n)


/-- Whether a builder call is an object-materialization instruction. -/
def BuilderCall.isMaterialization : BuilderCall → Bool
  | BuilderCall.AddMaterialization _ => true
  | _ => false

/-- Whether a builder call opens a frame header (`AddPp` or `AddCallerPp`). -/
def BuilderCall.isPoolPointer : BuilderCall → Bool
  | BuilderCall.AddPp _ _ => true
  | BuilderCall.AddCallerPp _ => true
  | _ => false

/-- The frame slots the builder calls fill, in call order: the slot index of
every frame-slot call, and for `EmitMaterializationArguments` called with `s`
the indices from `s` up to the index it returns. -/
def slotsOf (EmitMaterializationArguments : Int → Int) : List BuilderCall → List Int
  | [] => []
  | BuilderCall.AddMaterialization _ :: cs => slotsOf EmitMaterializationArguments cs
  | BuilderCall.MarkFrameStart :: cs => slotsOf EmitMaterializationArguments cs
  | BuilderCall.AddPp _ s :: cs => s :: slotsOf EmitMaterializationArguments cs
  | BuilderCall.AddPcMarker _ s :: cs => s :: slotsOf EmitMaterializationArguments cs
  | BuilderCall.AddCallerFp s :: cs => s :: slotsOf EmitMaterializationArguments cs
  | BuilderCall.AddReturnAddress _ _ s :: cs => s :: slotsOf EmitMaterializationArguments cs
  | BuilderCall.EmitMaterializationArguments s :: cs =>
      (List.range (EmitMaterializationArguments s - s).toNat).map (fun (j : Nat) => s + (j : Int))
        ++ slotsOf EmitMaterializationArguments cs
  | BuilderCall.AddCopy _ _ s :: cs => s :: slotsOf EmitMaterializationArguments cs
  | BuilderCall.AddCallerPp s :: cs => s :: slotsOf EmitMaterializationArguments cs
  | BuilderCall.AddCallerPc s :: cs => s :: slotsOf EmitMaterializationArguments cs

/-! ### Deoptimization stubs (`CompilerDeoptInfoWithStub::GenerateCode`) -/

/-- The deoptimization reasons as far as `GenerateCode` tells them apart. -/
inductive DeoptReasonId where
  | kDeoptAtCall
  | kDeoptOther (id : Nat)
  deriving DecidableEq

/-- A deopt point that deoptimizes through a stub of its own. -/
structure CompilerDeoptInfoWithStub extends CompilerDeoptInfo where
  reason : DeoptReasonId

/-- The instructions of a deoptimization stub. -/
inductive StubInstr where
  | Bind_entry_label
  | int3
  | Call_Deoptimize
  deriving DecidableEq

namespace CompilerDeoptInfoWithStub

/-- `CompilerDeoptInfoWithStub::GenerateCode`: the instructions of the stub and
the `pc_offset` recorded for it (the code size right after the call), given
the code size the stub starts at; `none` when one of the two assertions
fails. -/
def GenerateCode (FLAG_trap_on_deoptimization : Bool) (code_size : Nat)
    (self : CompilerDeoptInfoWithStub) : Option (List StubInstr × Nat) :=
  if self.reason = DeoptReasonId.kDeoptAtCall then none
  else
    let entry :=
      StubInstr.Bind_entry_label
        :: (if FLAG_trap_on_deoptimization then [StubInstr.int3] else [])
    if self.deopt_env = [] then none
    else
      let called := entry ++ [StubInstr.Call_Deoptimize]
      some (called ++ [StubInstr.int3], code_size + called.length)

end CompilerDeoptInfoWithStub

/-! ### A chain of three inlined frames, used to exercise the builder -/

def sampleCollaborators : DeoptCollaborators where
  ToDeoptAfter := fun d => d + 1
  materializations := fun _ => [41]
  EmitMaterializationArguments := fun s => s + 2

def sampleInnermost : Environment :=
  { code := 10, deopt_id := 5, fixed_parameter_count := 1,
    entries := [(1, Location.reg 0), (2, Location.stackSlot 1),
      (3, Location.constant (Object.smi 7))] }

def sampleMiddle : Environment :=
  { code := 11, deopt_id := 8, fixed_parameter_count := 2,
    entries := [(4, Location.reg 1), (5, Location.stackSlot (-2))] }

def sampleOutermost : Environment :=
  { code := 12, deopt_id := 9, fixed_parameter_count := 0,
    entries := [(6, Location.fpuReg 1)] }

def sampleDeoptInfo : CompilerDeoptInfo :=
  { deopt_id := 5, deopt_env := [sampleInnermost, sampleMiddle, sampleOutermost] }

/-- A deopt point at a call for which no environment was captured. -/
def sampleCallDeoptInfo : CompilerDeoptInfo :=
  { deopt_id := 6, deopt_env := [] }

/-! ## Parallel move resolver (`ParallelMoveResolver::EmitMove`, `EmitSwap`) -/

/-- Modelled from the spec: the `MoveOperands` class is declared outside this
file of the source. A move is a (source, destination) pair of locations plus
the flag that says the move has been performed; `Eliminate` raises the flag,
`Blocks(loc)` holds of a move not yet performed whose source is `loc`, and a
move is redundant when it is performed, has no destination or moves a location
to itself. -/
structure MoveOperands where
  src : Location
  dest : Location
  eliminated : Bool
  deriving DecidableEq

namespace MoveOperands

def IsEliminated (m : MoveOperands) : Bool := m.eliminated

def Eliminate (m : MoveOperands) : MoveOperands := { m with eliminated := true }

def Blocks (m : MoveOperands) (loc : Location) : Bool := !m.IsEliminated && m.src.Equals loc

def set_src (m : MoveOperands) (value : Location) : MoveOperands := { m with src := value }

def IsRedundant (m : MoveOperands) : Bool :=
  m.IsEliminated || m.dest.IsInvalid || m.src.Equals m.dest

end MoveOperands

/-- The instructions the resolver emits. An operand is the location it names:
a register, or the stack slot whose address `ToStackSlotAddress` forms. The two
`Exchange` forms of the assembler and `MoveMemoryToMemory` are single steps. -/
inductive MoveInstr where
  | movq (dst src : Location)
  | xchgq (a b : Register)
  | Exchange (a b : Location)
  | MoveMemoryToMemory (dst src : Location)
  | movaps (dst src : FpuRegister)
  | movsd (dst src : Location)
  | movups (dst src : Location)
  | xorq (dst src : Register)
  | LoadObject (dst : Register) (obj : Object)
  | StoreObject (dst : Location) (obj : Object)
  | SpillFpuScratch (r : FpuRegister)
  | RestoreFpuScratch (r : FpuRegister)
  deriving DecidableEq

/-- The storage the emitted moves act on: the word held by every register and
stack slot, and the words `SpillFpuScratch` has pushed below the frame. -/
structure MachineState where
  loc : Location → Word
  spill : List Word

namespace MachineState

/-- The value found at a location: the word stored there, and for a constant
location the constant itself. -/
def valueAt (st : MachineState) : Location → Word
  | Location.constant obj => obj.raw
  | l => st.loc l

def store (st : MachineState) (l : Location) (w : Word) : MachineState :=
  { st with loc := fun x => if x = l then w else st.loc x }

end MachineState

/-- Effect of one emitted instruction. -/
def MoveInstr.step (st : MachineState) : MoveInstr → MachineState
  | MoveInstr.movq dst src => st.store dst (st.loc src)
  | MoveInstr.xchgq a b =>
      (st.store (Location.reg a) (st.loc (Location.reg b))).store (Location.reg b)
        (st.loc (Location.reg a))
  | MoveInstr.Exchange a b => (st.store a (st.loc b)).store b (st.loc a)
  | MoveInstr.MoveMemoryToMemory dst src => st.store dst (st.loc src)
  | MoveInstr.movaps dst src => st.store (Location.fpuReg dst) (st.loc (Location.fpuReg src))
  | MoveInstr.movsd dst src => st.store dst (st.loc src)
  | MoveInstr.movups dst src => st.store dst (st.loc src)
  | MoveInstr.xorq dst src =>
      st.store (Location.reg dst)
        (Int.xor (st.loc (Location.reg dst)) (st.loc (Location.reg src)))
  | MoveInstr.LoadObject dst obj => st.store (Location.reg dst) obj.raw
  | MoveInstr.StoreObject dst obj => st.store dst obj.raw
  | MoveInstr.SpillFpuScratch r =>
      { st with spill := st.loc (Location.fpuReg r) :: st.spill }
  | MoveInstr.RestoreFpuScratch r =>
      { (st.store (Location.fpuReg r) (st.spill.headD 0)) with spill := st.spill.tail }

/-- Running an emitted sequence in order. -/
def MoveInstr.run : List MoveInstr → MachineState → MachineState
  | [], st => st
  | i :: is, st => MoveInstr.run is (MoveInstr.step st i)

/-- The scratch register `ScratchFpuRegisterScope(this, XMM0)` hands out, and
whether it had to be spilled: the allocation is made outside this file of the
source and is taken as a parameter. -/
structure ScratchFpuRegisterScope where
  reg : FpuRegister
  spilled : Bool

namespace ScratchFpuRegisterScope

/-- The constructor spills the register when it is in use. -/
def enter (scope : ScratchFpuRegisterScope) : List MoveInstr :=
  if scope.spilled then [MoveInstr.SpillFpuScratch scope.reg] else []

/-- The destructor restores a spilled register. -/
def leave (scope : ScratchFpuRegisterScope) : List MoveInstr :=
  if scope.spilled then [MoveInstr.RestoreFpuScratch scope.reg] else []

end ScratchFpuRegisterScope

namespace ParallelMoveResolver

/-- The instructions `EmitMove` emits for a move from `source` to
`destination`; `none` when an assertion fails. -/
def EmitMoveCode (source destination : Location) : Option (List MoveInstr) :=
  match source with
  | Location.reg _ =>
      if destination.IsRegister then some [MoveInstr.movq destination source]
      else if destination.IsStackSlot then some [MoveInstr.movq destination source]
      else none
  | Location.stackSlot _ =>
      if destination.IsRegister then some [MoveInstr.movq destination source]
      else if destination.IsStackSlot then some [MoveInstr.MoveMemoryToMemory destination source]
      else none
  | Location.fpuReg s =>
      match destination with
      | Location.fpuReg d => some [MoveInstr.movaps d s]
      | Location.doubleStackSlot _ => some [MoveInstr.movsd destination source]
      | Location.quadStackSlot _ => some [MoveInstr.movups destination source]
      | _ => none
  | Location.doubleStackSlot _ =>
      if destination.IsFpuRegister then some [MoveInstr.movsd destination source]
      else if destination.IsDoubleStackSlot then
        some [MoveInstr.movsd (Location.fpuReg XMM0) source,
              MoveInstr.movsd destination (Location.fpuReg XMM0)]
      else none
  | Location.quadStackSlot _ =>
      if destination.IsFpuRegister then some [MoveInstr.movups destination source]
      else if destination.IsQuadStackSlot then
        some [MoveInstr.movups (Location.fpuReg XMM0) source,
              MoveInstr.movups destination (Location.fpuReg XMM0)]
      else none
  | Location.constant obj =>
      match destination with
      | Location.reg d =>
          if obj = Object.smi 0 then some [MoveInstr.xorq d d]
          else some [MoveInstr.LoadObject d obj]
      | Location.stackSlot _ => some [MoveInstr.StoreObject destination obj]
      | _ => none
  | Location.invalid => none

/-- `ParallelMoveResolver::EmitMove(index)`: the emitted instructions and the
moves afterwards. -/
def EmitMove (moves_ : List MoveOperands) (index : Nat) :
    Option (List MoveInstr × List MoveOperands) :=
  match moves_[index]? with
  | none => none
  | some move =>
      match EmitMoveCode move.src move.dest with
      | none => none
      | some code => some (code, moves_.set index move.Eliminate)

/-- The instructions `EmitSwap` emits to exchange `source` and `destination`;
`none` when an assertion fails or `UNREACHABLE` is reached. -/
def EmitSwapCode (scope : ScratchFpuRegisterScope) (source destination : Location) :
    Option (List MoveInstr) :=
  match source, destination with
  | Location.reg s, Location.reg d => some [MoveInstr.xchgq d s]
  | Location.reg _, Location.stackSlot _ => some [MoveInstr.Exchange source destination]
  | Location.stackSlot _, Location.reg _ => some [MoveInstr.Exchange destination source]
  | Location.stackSlot _, Location.stackSlot _ => some [MoveInstr.Exchange destination source]
  | Location.fpuReg s, Location.fpuReg d =>
      some [MoveInstr.movaps XMM0 s, MoveInstr.movaps s d, MoveInstr.movaps d XMM0]
  | Location.fpuReg s, Location.doubleStackSlot _ =>
      some [MoveInstr.movsd (Location.fpuReg XMM0) destination,
            MoveInstr.movsd destination source, MoveInstr.movaps s XMM0]
  | Location.fpuReg s, Location.quadStackSlot _ =>
      some [MoveInstr.movups (Location.fpuReg XMM0) destination,
            MoveInstr.movups destination source, MoveInstr.movaps s XMM0]
  | Location.doubleStackSlot _, Location.fpuReg d =>
      some [MoveInstr.movsd (Location.fpuReg XMM0) source,
            MoveInstr.movsd source destination, MoveInstr.movaps d XMM0]
  | Location.quadStackSlot _, Location.fpuReg d =>
      some [MoveInstr.movups (Location.fpuReg XMM0) source,
            MoveInstr.movups source destination, MoveInstr.movaps d XMM0]
  | Location.doubleStackSlot _, Location.doubleStackSlot _ =>
      some (scope.enter
        ++ [MoveInstr.movsd (Location.fpuReg XMM0) source,
            MoveInstr.movsd (Location.fpuReg scope.reg) destination,
            MoveInstr.movsd destination (Location.fpuReg XMM0),
            MoveInstr.movsd source (Location.fpuReg scope.reg)]
        ++ scope.leave)
  | Location.quadStackSlot _, Location.quadStackSlot _ =>
      some (scope.enter
        ++ [MoveInstr.movups (Location.fpuReg XMM0) source,
            MoveInstr.movups (Location.fpuReg scope.reg) destination,
            MoveInstr.movups destination (Location.fpuReg XMM0),
            MoveInstr.movups source (Location.fpuReg scope.reg)]
        ++ scope.leave)
  | _, _ => none

/-- The body of the loop that closes `EmitSwap`, applied to `moves_[i]`. -/
def rewriteSource (source destination : Location) (other_move : MoveOperands) : MoveOperands :=
  if other_move.Blocks source then other_move.set_src destination
  else if other_move.Blocks destination then other_move.set_src source
  else other_move

/-- `ParallelMoveResolver::EmitSwap(index)`: the emitted instructions and the
moves afterwards. -/
def EmitSwap (scope : ScratchFpuRegisterScope) (moves_ : List MoveOperands) (index : Nat) :
    Option (List MoveInstr × List MoveOperands) :=
  match moves_[index]? with
  | none => none
  | some move =>
      let source := move.src
      let destination := move.dest
      match EmitSwapCode scope source destination with
      | none => none
      | some code =>
          some (code, (moves_.set index move.Eliminate).map (rewriteSource source destination))

end ParallelMoveResolver

/-! ### Sample batches and machine states, used to exercise the resolver -/

/-- Every register holds 100 plus its number, everything else holds 0. -/
def sampleMachine : MachineState :=
  { loc := fun l =>
      match l with
      | Location.reg r => 100 + (r : Int)
      | _ => 0,
    spill := [] }

/-- A batch with a constant move of Smi 0 into RAX and a move between two
double slots. -/
def sampleConstantMoves : List MoveOperands :=
  [ { src := Location.constant (Object.smi 0), dest := Location.reg RAX, eliminated := false },
    { src := Location.doubleStackSlot 1, dest := Location.doubleStackSlot 2,
      eliminated := false } ]


/-- A scratch register that is in use and has to be spilled. -/
def sampleSpilledScope : ScratchFpuRegisterScope := { reg := 1, spilled := true }

/-- A 64-bit register holds its contents modulo `2 ^ 64`. -/
def wrap64 (n : Nat) : Nat := n % 2 ^ 64

/-- The megamorphic cache the emitted code reads: the words of the buckets
array (element `2 * i` is the key of bucket `i`, a Smi-tagged class id or 0 for
an empty bucket, element `2 * i + 1` its target) and the word of the mask
field, a Smi. -/
structure MegamorphicCache where
  buckets : Nat → Nat
  mask : Nat

/-- The receiver found on the stack: a Smi, or an object whose header carries a
class id. -/
inductive Receiver where
  | smi
  | object (cid : Nat)
  deriving DecidableEq

/-- What the probe leaves when it reaches `call_target_function`: the values of
RCX with which a bucket key was loaded, in order, and the last of them. -/
structure ProbeResult where
  inspected : List Nat
  rcx : Nat
  deriving DecidableEq

namespace FlowGraphCompiler

/-- The receiver key computed into RAX before `load_cache`: `kSmiCid` is the
class id of Smi, a constant declared outside this file of the source. -/
def receiverKey (kSmiCid : Nat) : Receiver → Nat
  -- testq RAX, kSmiTagMask ; j NOT_ZERO not_smi ; LoadImmediate RAX, Smi::RawValue(kSmiCid)
  | Receiver.smi => wrap64 (2 * kSmiCid)
  -- not_smi: LoadClassId RAX, RAX ; SmiTag RAX
  | Receiver.object cid => wrap64 (cid * 2)

/-- The probe loop between the labels `loop`, `update` and
`call_target_function`, entered at `loop` with the given RCX; RAX holds the
receiver key and RBX the mask. One unit of fuel is one pass through `loop`;
`none` when the fuel runs out first. -/
def probeLoop (cache : MegamorphicCache) (rax : Nat) : Nat → Nat → Option ProbeResult
  | 0, _ => none
  | fuel + 1, rcx =>
      -- loop: andq RCX, RBX
      let rcx1 := rcx &&& cache.mask
      -- movq RDX, FieldAddress(RDI, RCX, TIMES_8, base)
      let rdx := cache.buckets rcx1
      -- testq RDX, RDX ; j ZERO call_target_function
      if rdx = 0 then some { inspected := [rcx1], rcx := rcx1 }
      -- cmpq RDX, RAX ; j NOT_EQUAL update
      else if rdx ≠ rax then
        -- update: AddImmediate RCX, Smi::RawValue(1)
        match probeLoop cache rax fuel (wrap64 (rcx1 + 2)) with
        | none => none
        | some r => some { r with inspected := rcx1 :: r.inspected }
      else some { inspected := [rcx1], rcx := rcx1 }

/-- The probe of `EmitMegamorphicInstanceCall` from the receiver on: the
inspected buckets and the word loaded as the target at
`call_target_function` (`movq RAX, FieldAddress(RDI, RCX, TIMES_8, base + kWordSize)`). -/
def EmitMegamorphicInstanceCall (kSmiCid : Nat) (cache : MegamorphicCache) (receiver : Receiver)
    (fuel : Nat) : Option (ProbeResult × Nat) :=
  -- movq RCX, RAX ; jmp loop
  match probeLoop cache (receiverKey kSmiCid receiver) fuel (receiverKey kSmiCid receiver) with
  | none => none
  | some r => some (r, cache.buckets (r.rcx + 1))

end FlowGraphCompiler

/-- A cache of four buckets: bucket 2 holds class id 6, bucket 3 class id 11,
bucket 0 is empty and bucket 1 holds class id 5. -/
def sampleCache : MegamorphicCache :=
  { buckets := fun i => [0, 900, 10, 905, 12, 906, 22, 911].getD i 0,
    mask := 6 }

/-- The class id the probe is keyed by: `kSmiCid` for a Smi receiver, the class
id of the header otherwise. -/
def Receiver.classId (kSmiCid : Nat) : Receiver → Nat
  | Receiver.smi => kSmiCid
  | Receiver.object cid => cid

/-! ## Call sites: `GenerateDartCall` and `EmitTestAndCall` -/

/-- Handle to a `Function` object. -/
abbrev Function := Nat

/-- The labels the class-id chain uses: the deopt label passed in, the label
`match_found`, and the label `next_test` of iteration `i`. -/
inductive Label where
  | deopt
  | match_found
  | next_test (i : Nat)
  deriving DecidableEq

/-- Stub entry points a call can go through. -/
inductive Stub where
  | CallStaticFunction
  | ZeroArgsUnoptimizedStaticCall
  | TwoArgsUnoptimizedStaticCall
  | CompileFunctionRuntimeCall
  | other (id : Nat)
  deriving DecidableEq

/-- Kinds of PC descriptor. -/
inductive PcDescriptorKind where
  | kDeopt
  | kIcCall
  | kOptStaticCall
  | kUnoptStaticCall
  | kRuntimeCall
  | kOther
  deriving DecidableEq

/-- The instructions of the class-id chain and of the call sites, as given to
the assembler. `Bind` places a label and takes no room in the code. `asm` is an
instruction that neither calls nor is looked at further, named by the line of
the source that emits it. -/
inductive Instr where
  | LoadArgumentsDescriptor (reg : Register) (argument_count : Int) (argument_names : Nat)
  | cmpl (reg : Register) (imm : Int)
  | j_NOT_EQUAL (l : Label)
  | CallPatchable (stub : Stub)
  | Drop (n : Int)
  | jmp (l : Label)
  | Bind (l : Label)
  | LoadObject (reg : Register) (object : Nat)
  | call (reg : Register)
  | call_label (stub : Stub)
  | asm (line : Nat)
  deriving DecidableEq

/-- Size of the code, counted in instructions. -/
def codeSize : List Instr → Nat
  | [] => 0
  | Instr.Bind _ :: is => codeSize is
  | _ :: is => codeSize is + 1

/-- A PC descriptor: code offset, kind, deopt id and token position. -/
structure PcDescriptor where
  pc_offset : Nat
  kind : PcDescriptorKind
  deopt_id : Int
  token_pos : Int
  deriving DecidableEq

/-- Handle to a `LocationSummary`. -/
abbrev LocationSummary := Nat

/-- Modelled from the spec: the part of the compiler state the call-site
emitters write. The recording methods (`AddCurrentDescriptor`,
`RecordSafepoint`, `AddDeoptIndexAtCall`, `AddStaticCallTarget`) are defined
outside this file of the source; each appends one record keyed by the current
code offset, which after a call instruction is its return address. -/
structure Compiler where
  is_optimizing : Bool
  ToDeoptAfter : Int → Int
  code : List Instr
  pc_descriptors : List PcDescriptor
  safepoints : List (Nat × LocationSummary)
  deopt_indices : List (Nat × Int × Int)
  static_calls_target_table : List (Nat × Function)

namespace Compiler

def emit (comp : Compiler) (i : Instr) : Compiler := { comp with code := comp.code ++ [i] }

def AddCurrentDescriptor (comp : Compiler) (kind : PcDescriptorKind) (deopt_id token_pos : Int) :
    Compiler :=
  { comp with
    pc_descriptors := comp.pc_descriptors ++ [⟨codeSize comp.code, kind, deopt_id, token_pos⟩] }

def RecordSafepoint (comp : Compiler) (locs : LocationSummary) : Compiler :=
  { comp with safepoints := comp.safepoints ++ [(codeSize comp.code, locs)] }

def AddDeoptIndexAtCall (comp : Compiler) (deopt_id token_pos : Int) : Compiler :=
  { comp with deopt_indices := comp.deopt_indices ++ [(codeSize comp.code, deopt_id, token_pos)] }

def AddStaticCallTarget (comp : Compiler) (func : Function) : Compiler :=
  { comp with
    static_calls_target_table := comp.static_calls_target_table ++ [(codeSize comp.code, func)] }

end Compiler

/-- One entry of the sorted IC data: class id, target and call count. -/
structure CidTarget where
  cid : Int
  target : Function
  count : Int
  deriving DecidableEq

namespace FlowGraphCompiler

/-- `FlowGraphCompiler::GenerateDartCall`. -/
def GenerateDartCall (comp : Compiler) (deopt_id token_pos : Int) (label : Stub)
    (kind : PcDescriptorKind) (locs : LocationSummary) : Compiler :=
  let comp := comp.emit (Instr.CallPatchable label)
  let comp := comp.AddCurrentDescriptor kind deopt_id token_pos
  let comp := comp.RecordSafepoint locs
  let deopt_id_after := comp.ToDeoptAfter deopt_id
  if comp.is_optimizing then comp.AddDeoptIndexAtCall deopt_id_after token_pos
  else comp.AddCurrentDescriptor PcDescriptorKind.kDeopt deopt_id_after token_pos

/-- The `for (intptr_t i = 0; i < len; i++)` loop of `EmitTestAndCall`, from
iteration `i` on, over the entries `sorted[i ..]`. -/
def testAndCallLoop (len : Nat) (class_id_reg : Register) (argument_count : Int)
    (deopt_id token_index : Int) (locs : LocationSummary) :
    Nat → List CidTarget → Compiler → Compiler
  | _, [], comp => comp
  | i, entry :: rest, comp =>
      let is_last_check := decide (i = len - 1)
      let comp := comp.emit (Instr.cmpl class_id_reg entry.cid)
      let comp :=
        if is_last_check then comp.emit (Instr.j_NOT_EQUAL Label.deopt)
        else comp.emit (Instr.j_NOT_EQUAL (Label.next_test i))
      let comp := GenerateDartCall comp deopt_id token_index Stub.CallStaticFunction
        PcDescriptorKind.kOptStaticCall locs
      let comp := comp.AddStaticCallTarget entry.target
      let comp := comp.emit (Instr.Drop argument_count)
      let comp := if !is_last_check then comp.emit (Instr.jmp Label.match_found) else comp
      let comp := comp.emit (Instr.Bind (Label.next_test i))
      testAndCallLoop len class_id_reg argument_count deopt_id token_index locs (i + 1) rest comp

/-- `FlowGraphCompiler::EmitTestAndCall`. The IC data is given by `sorted`, the
array `SortICDataByCount` fills, whose length is `NumberOfChecks()`; `none`
when an assertion fails. -/
def EmitTestAndCall (comp : Compiler) (sorted : List CidTarget) (class_id_reg : Register)
    (argument_count : Int) (argument_names : Nat) (deopt_id token_index : Int)
    (locs : LocationSummary) : Option Compiler :=
  if !comp.is_optimizing then none
  else if sorted.length = 0 then none
  else if class_id_reg = R10 then none
  else
    let len := sorted.length
    let comp := comp.emit (Instr.LoadArgumentsDescriptor R10 argument_count argument_names)
    let comp := testAndCallLoop len class_id_reg argument_count deopt_id token_index locs 0
      sorted comp
    some (comp.emit (Instr.Bind Label.match_found))

end FlowGraphCompiler

/-- Where control leaves a piece of emitted code: past its end, or by a jump to
a label that is not bound in it. -/
inductive ChainExit where
  | fallThrough
  | jumped (l : Label)
  deriving DecidableEq

/-- What running the chain has done: the functions invoked through the
static-call stub, in order, and the number of stack slots dropped. -/
structure ChainEffect where
  called : List Function
  dropped : Int
  deriving DecidableEq

/-- The target the `CallStaticFunction` stub finds for a return address. -/
def staticCallTarget (table : List (Nat × Function)) (return_address : Nat) : Option Function :=
  (table.find? (fun e => e.1 = return_address)).map (fun e => e.2)

/-- Running emitted code whose jumps all go forward. `seeking = some l` means a
jump to `l` has been taken and control resumes after `Bind l`; `pc` is the
offset of the next instruction, `zf` the zero flag, `regs` the registers. -/
def runChain (table : List (Nat × Function)) (regs : Register → Int) :
    List Instr → Option Label → Nat → Bool → ChainEffect → ChainExit × ChainEffect
  | [], none, _, _, eff => (ChainExit.fallThrough, eff)
  | [], some l, _, _, eff => (ChainExit.jumped l, eff)
  | Instr.Bind l' :: rest, some l, pc, zf, eff =>
      if l' = l then runChain table regs rest none pc zf eff
      else runChain table regs rest (some l) pc zf eff
  | _ :: rest, some l, pc, zf, eff => runChain table regs rest (some l) (pc + 1) zf eff
  | Instr.Bind _ :: rest, none, pc, zf, eff => runChain table regs rest none pc zf eff
  | Instr.LoadArgumentsDescriptor _ _ _ :: rest, none, pc, zf, eff =>
      runChain table regs rest none (pc + 1) zf eff
  | Instr.cmpl reg imm :: rest, none, pc, _, eff =>
      runChain table regs rest none (pc + 1) (decide (regs reg = imm)) eff
  | Instr.j_NOT_EQUAL l :: rest, none, pc, zf, eff =>
      if zf then runChain table regs rest none (pc + 1) zf eff
      else runChain table regs rest (some l) (pc + 1) zf eff
  | Instr.CallPatchable _ :: rest, none, pc, zf, eff =>
      match staticCallTarget table (pc + 1) with
      | some f => runChain table regs rest none (pc + 1) zf { eff with called := eff.called ++ [f] }
      | none => runChain table regs rest none (pc + 1) zf eff
  | Instr.Drop n :: rest, none, pc, zf, eff =>
      runChain table regs rest none (pc + 1) zf { eff with dropped := eff.dropped + n }
  | Instr.jmp l :: rest, none, pc, zf, eff => runChain table regs rest (some l) (pc + 1) zf eff
  | _ :: rest, none, pc, zf, eff => runChain table regs rest none (pc + 1) zf eff

/-- Number of class-id comparisons in a piece of code. -/
def comparisons : List Instr → Nat
  | [] => 0
  | Instr.cmpl _ _ :: is => comparisons is + 1
  | _ :: is => comparisons is

/-- The labels of the conditional jumps of a piece of code, in order. -/
def conditionalJumps : List Instr → List Label
  | [] => []
  | Instr.j_NOT_EQUAL l :: is => l :: conditionalJumps is
  | _ :: is => conditionalJumps is

/-- The labels of the unconditional jumps of a piece of code, in order. -/
def unconditionalJumps : List Instr → List Label
  | [] => []
  | Instr.jmp l :: is => l :: unconditionalJumps is
  | _ :: is => unconditionalJumps is

/-- The code the loop of `EmitTestAndCall` emits from iteration `i` on, written
out block by block. -/
def chainBlocks (len : Nat) (class_id_reg : Register) (argument_count : Int) :
    Nat → List CidTarget → List Instr
  | _, [] => []
  | i, entry :: rest =>
      [Instr.cmpl class_id_reg entry.cid,
       Instr.j_NOT_EQUAL (if i = len - 1 then Label.deopt else Label.next_test i),
       Instr.CallPatchable Stub.CallStaticFunction,
       Instr.Drop argument_count]
      ++ (if i = len - 1 then [] else [Instr.jmp Label.match_found])
      ++ [Instr.Bind (Label.next_test i)]
      ++ chainBlocks len class_id_reg argument_count (i + 1) rest

/-- The static-call targets the loop records from iteration `i` on, when the
block of iteration `i` starts at code offset `start`. -/
def chainTargets (len : Nat) : Nat → List CidTarget → Nat → List (Nat × Function)
  | _, [], _ => []
  | i, entry :: rest, start =>
      (start + 3, entry.target)
        :: chainTargets len (i + 1) rest (start + 4 + (if i = len - 1 then 0 else 1))

/-! ### The call shapes (`EmitUnoptimizedStaticCall`, `EmitOptimizedStaticCall`,
`EmitInstanceCall`, `EmitOptimizedInstanceCall`, `EmitMegamorphicInstanceCall`) -/

/-- What `MethodRecognizer::RecognizeKind` tells of the target of a static
call, as far as `EmitUnoptimizedStaticCall` looks at it. -/
inductive MethodRecognizerKind where
  | kMathMin
  | kMathMax
  | kOther (id : Nat)
  deriving DecidableEq

/-- Several instructions given to the assembler one after the other. -/
def Compiler.emitAll (comp : Compiler) (is : List Instr) : Compiler :=
  { comp with code := comp.code ++ is }

namespace FlowGraphCompiler

/-- `FlowGraphCompiler::EmitUnoptimizedStaticCall`. `ic_data` is the handle of
the IC data the function allocates, which tests `num_args_checked` arguments;
`none` is `UNIMPLEMENTED()`. -/
def EmitUnoptimizedStaticCall (comp : Compiler) (recognized_kind : MethodRecognizerKind)
    (ic_data : Nat) (argument_count deopt_id token_pos : Int) (locs : LocationSummary) :
    Option Compiler :=
  let num_args_checked : Nat :=
    if recognized_kind = MethodRecognizerKind.kMathMin
        ∨ recognized_kind = MethodRecognizerKind.kMathMax then 2
    else 0
  let target_label : Option Stub :=
    if num_args_checked = 0 then some Stub.ZeroArgsUnoptimizedStaticCall
    else if num_args_checked = 2 then some Stub.TwoArgsUnoptimizedStaticCall
    else none
  match target_label with
  | none => none
  | some target_label =>
      let comp := comp.emit (Instr.LoadObject RBX ic_data)
      let comp := GenerateDartCall comp deopt_id token_pos target_label
        PcDescriptorKind.kUnoptStaticCall locs
      some (comp.emit (Instr.Drop argument_count))

/-- `FlowGraphCompiler::EmitOptimizedStaticCall`. -/
def EmitOptimizedStaticCall (comp : Compiler) (function : Function) (arguments_descriptor : Nat)
    (argument_count deopt_id token_pos : Int) (locs : LocationSummary) : Compiler :=
  let comp := comp.emit (Instr.LoadObject R10 arguments_descriptor)
  let comp := GenerateDartCall comp deopt_id token_pos Stub.CallStaticFunction
    PcDescriptorKind.kOptStaticCall locs
  let comp := comp.AddStaticCallTarget function
  comp.emit (Instr.Drop argument_count)

/-- `FlowGraphCompiler::EmitInstanceCall`. -/
def EmitInstanceCall (comp : Compiler) (target_label : Stub) (ic_data : Nat)
    (argument_count deopt_id token_pos : Int) (locs : LocationSummary) : Compiler :=
  let comp := comp.emit (Instr.LoadObject RBX ic_data)
  let comp := GenerateDartCall comp deopt_id token_pos target_label PcDescriptorKind.kIcCall locs
  comp.emit (Instr.Drop argument_count)

/-- `FlowGraphCompiler::EmitOptimizedInstanceCall`; `function` is
`parsed_function().function()`. -/
def EmitOptimizedInstanceCall (comp : Compiler) (function : Function) (target_label : Stub)
    (ic_data : Nat) (argument_count deopt_id token_pos : Int) (locs : LocationSummary) :
    Compiler :=
  let comp := comp.emit (Instr.LoadObject RDI function)
  let comp := comp.emit (Instr.LoadObject RBX ic_data)
  let comp := GenerateDartCall comp deopt_id token_pos target_label PcDescriptorKind.kIcCall locs
  comp.emit (Instr.Drop argument_count)

/-- The instructions of lines 1398 to 1440, which find the class id of the
receiver and probe the cache; the labels bound among them take no room and are
left out. -/
def megamorphicProbe (cache : Nat) : List Instr :=
  [Instr.asm 1398, Instr.asm 1399, Instr.asm 1400, Instr.asm 1401, Instr.asm 1402,
   Instr.asm 1405, Instr.asm 1406,
   Instr.LoadObject RBX cache, Instr.asm 1411, Instr.asm 1412, Instr.asm 1415,
   Instr.asm 1418, Instr.asm 1421, Instr.asm 1423, Instr.asm 1426,
   Instr.asm 1429, Instr.asm 1430, Instr.asm 1431, Instr.asm 1432,
   Instr.asm 1439, Instr.asm 1440]

/-- The instructions of lines 1446 to 1448, emitted when code is collected:
the test for a null code object and the call of the compile stub. -/
def megamorphicCompile : List Instr :=
  [Instr.asm 1446, Instr.asm 1447, Instr.call_label Stub.CompileFunctionRuntimeCall]

/-- The instructions of lines 1456 to 1460, which load the entry point and the
two objects the callee expects. -/
def megamorphicEntry (ic_data arguments_descriptor : Nat) : List Instr :=
  [Instr.asm 1456, Instr.LoadObject RBX ic_data, Instr.LoadObject R10 arguments_descriptor,
   Instr.asm 1459]

/-- `FlowGraphCompiler::EmitMegamorphicInstanceCall` as it writes the compiler
state: the instructions it gives to the assembler and the records it makes.
The run of the probe these instructions make is `EmitMegamorphicInstanceCall`.
`cache` is the handle `table->Lookup` returns, `kNoDeoptId` is
`Isolate::kNoDeoptId`; `none` when the assertion on the arguments descriptor
fails. -/
def EmitMegamorphicInstanceCall.emit (FLAG_collect_code : Bool) (kNoDeoptId : Int)
    (comp : Compiler) (cache ic_data : Nat) (arguments_descriptor : Option Nat)
    (argument_count deopt_id token_pos : Int) (locs : LocationSummary) : Option Compiler :=
  match arguments_descriptor with
  | none => none
  | some arguments_descriptor =>
      let comp := comp.emitAll (megamorphicProbe cache)
      let comp :=
        if FLAG_collect_code then
          let comp := comp.emitAll megamorphicCompile
          let comp := comp.AddCurrentDescriptor PcDescriptorKind.kRuntimeCall kNoDeoptId token_pos
          let comp := comp.RecordSafepoint locs
          comp.emit (Instr.asm 1453)
        else comp
      let comp := comp.emitAll (megamorphicEntry ic_data arguments_descriptor)
      let comp := comp.emit (Instr.call RAX)
      let comp := comp.AddCurrentDescriptor PcDescriptorKind.kOther kNoDeoptId token_pos
      let comp := comp.RecordSafepoint locs
      let comp := comp.AddDeoptIndexAtCall (comp.ToDeoptAfter deopt_id) token_pos
      some (comp.emit (Instr.Drop argument_count))

end FlowGraphCompiler

/-- A compiler state of unoptimized code with nothing emitted yet. -/
def sampleUnoptimizedCompiler : Compiler :=
  { is_optimizing := false, ToDeoptAfter := fun d => d + 1, code := [], pc_descriptors := [],
    safepoints := [], deopt_indices := [], static_calls_target_table := [] }

/-- A compiler state with nothing emitted yet. -/
def sampleCompiler : Compiler :=
  { is_optimizing := true, ToDeoptAfter := fun d => d + 1, code := [], pc_descriptors := [],
    safepoints := [], deopt_indices := [], static_calls_target_table := [] }

/-- Three observed receiver classes, most frequent first. -/
def sampleSorted : List CidTarget :=
  [ { cid := 7, target := 70, count := 90 },
    { cid := 4, target := 40, count := 12 },
    { cid := 9, target := 90, count := 3 } ]

/-! ## Parameter binder (`FlowGraphCompiler::CopyParameters`) -/

/-- `Smi::RawValue`: a Smi is held shifted left by one, with tag bit 0. -/
def Smi.RawValue (value : Int) : Word := 2 * value

/-- `SmiUntag`: arithmetic shift right by one. -/
def SmiUntag (raw : Word) : Int := raw / 2

/-- `kWordSize` on x64. -/
def kWordSize : Int := 8

/-- Modelled from the spec: `String::CompareTo` is defined outside this file of
the source. It is the total order the names are sorted by: negative, zero or
positive as the receiver comes before, equals or comes after the argument. -/
def CompareTo {Name : Type} [LinearOrder Name] (a b : Name) : Int :=
  if a < b then -1 else if a = b then 0 else 1

/-- A formal parameter as the binder sees it: its name, a symbol. -/
structure LocalVariable (Name : Type) where
  name : Name
  deriving DecidableEq

/-- What `CopyParameters` reads of the function being compiled: the parameter
counts, whether it is a closure, the formal parameters in declaration order
(`scope->VariableAt(pos)`) and the default values of the optional ones. -/
structure ParsedFunction (Name : Type) where
  num_fixed_parameters : Nat
  NumOptionalPositionalParameters : Nat
  NumOptionalNamedParameters : Nat
  IsClosureFunction : Bool
  scope : List (LocalVariable Name)
  default_parameter_values : List Word

/-- The arguments descriptor in R10: the total and the positional argument
count (both stored as Smis) and the (name, position) entries of the named
arguments, which a null word terminates. -/
structure ArgumentsDescriptor (Name : Type) where
  count : Int
  positional_count : Int
  named : List (Name × Int)

namespace ArgumentsDescriptor

/-- The name word of entry `k`; `none` is the null word that ends the entries. -/
def nameAt {Name : Type} (desc : ArgumentsDescriptor Name) (k : Nat) : Option Name :=
  (desc.named[k]?).map (fun e => e.1)

/-- The position word of entry `k`, a Smi. -/
def positionAt {Name : Type} (desc : ArgumentsDescriptor Name) (k : Nat) : Word :=
  Smi.RawValue ((desc.named[k]?).map (fun e => e.2) |>.getD 0)

end ArgumentsDescriptor

/-- The two frame constants of `stack_frame_x64.h` the binder uses, declared
outside this file of the source. -/
structure FrameLayout where
  kParamEndSlotFromFp : Int
  kFirstLocalSlotFromFp : Int

/-- The frame as the emitted code addresses it: the word at each byte offset
from RBP. Slot `fp[k]` is the word at offset `k * kWordSize`. -/
abbrev FrameMemory := Int → Word

/-- A store of one word. -/
def FrameMemory.write (mem : FrameMemory) (offset : Int) (w : Word) : FrameMemory :=
  fun x => if x = offset then w else mem x

/-- A heap array of `new T[size]`: a cell holds `none` until it is first
written. -/
structure CArray (α : Type) where
  size : Nat
  cell : Nat → Option α

namespace CArray

def new {α : Type} (size : Nat) : CArray α := { size := size, cell := fun _ => none }

/-- A read; `none` outside the bounds or of a cell never written. -/
def get {α : Type} (a : CArray α) (i : Nat) : Option α := if i < a.size then a.cell i else none

/-- A write; `none` outside the bounds. -/
def set {α : Type} (a : CArray α) (i : Nat) (v : α) : Option (CArray α) :=
  if i < a.size then some { a with cell := fun j => if j = i then some v else a.cell j }
  else none

end CArray

/-- Where the emitted binder code goes once the arguments are checked. -/
inductive BinderExit where
  /-- The jump to `all_arguments_processed` was taken. -/
  | all_arguments_processed
  /-- `wrong_num_arguments`, closure: `jmp CallNoSuchMethodFunction`. -/
  | CallNoSuchMethodFunction
  /-- `wrong_num_arguments`, checked non-closure: `Stop("Wrong arguments")`. -/
  | Stop
  /-- `wrong_num_arguments` with no handler emitted: control runs on into
  `all_arguments_processed`. -/
  | unchecked
  deriving DecidableEq

/-- The outcome of the emitted binder code: the exit taken, whether the exit
was taken after the copy code (`false`: at one of the two count checks that
come before it), the entry index RDI points to when the named-argument check
is made, and the frame afterwards. -/
structure BinderResult where
  exit : BinderExit
  after_copy : Bool
  cursor : Nat
  mem : FrameMemory

namespace FlowGraphCompiler

/-- The `while (--i >= 0)` loop with the two stores after it, entered with
`i = k`. `none` when an assertion fails or an array is read or written
outside its bounds. -/
def insertNamedParameter {Name : Type} [LinearOrder Name] (parameter : LocalVariable Name)
    (pos : Nat) :
    Nat → CArray (LocalVariable Name) × CArray Nat
      → Option (CArray (LocalVariable Name) × CArray Nat)
  | 0, (opt_param, opt_param_position) =>
      -- the loop ends with i = -1: opt_param[i + 1] = parameter
      match opt_param.set 0 parameter, opt_param_position.set 0 pos with
      | some a, some b => some (a, b)
      | _, _ => none
  | k + 1, (opt_param, opt_param_position) =>
      -- --i >= 0 holds with i = k
      match opt_param.get k, opt_param_position.get k with
      | some param_i, some position_i =>
          let result := CompareTo parameter.name param_i.name
          if result = 0 then none
          else if result > 0 then
            match opt_param.set (k + 1) parameter, opt_param_position.set (k + 1) pos with
            | some a, some b => some (a, b)
            | _, _ => none
          else
            match opt_param.set (k + 1) param_i, opt_param_position.set (k + 1) position_i with
            | some a, some b => insertNamedParameter parameter pos k (a, b)
            | _, _ => none
      | _, _ => none

/-- The loop `for (int pos = num_fixed_params; pos < num_params; pos++)`, with
`remaining` iterations to go. -/
def sortNamedParameters {Name : Type} [LinearOrder Name] (function : ParsedFunction Name) :
    Nat → Nat → CArray (LocalVariable Name) × CArray Nat
      → Option (CArray (LocalVariable Name) × CArray Nat)
  | 0, _, arrays => some arrays
  | remaining + 1, pos, arrays =>
      match function.scope[pos]? with
      | none => none
      | some parameter =>
          match insertNamedParameter parameter pos (pos - function.num_fixed_parameters)
              arrays with
          | none => none
          | some arrays' => sortNamedParameters function remaining (pos + 1) arrays'

/-- The positional copy loop between `loop` and `loop_condition`, entered at
`loop_condition` with RCX = `rcx`; RBX and RDI hold byte offsets from RBP. -/
def copyPositional (rbx rdi : Int) : Nat → FrameMemory → FrameMemory
  | 0, mem => mem
  | rcx + 1, mem =>
      -- decq RCX ; j POSITIVE loop ; movq RAX, [RBX + RCX*8] ; movq [RDI + RCX*8], RAX
      copyPositional rbx rdi rcx
        (mem.write (rdi + 8 * (rcx : Int)) (mem (rbx + 8 * (rcx : Int))))

/-- The code emitted for one optional named parameter: `name` is
`opt_param[i]->name()` and `param_pos` is `opt_param_position[i]`. RBX holds the
byte offset of `fp[kParamEndSlotFromFp + num_args]`, the cursor is the entry
RDI points to. -/
def bindNamedParameter {Name : Type} [DecidableEq Name] (layout : FrameLayout)
    (function : ParsedFunction Name) (desc : ArgumentsDescriptor Name) (rbx : Int)
    (name : Name) (param_pos : Nat) (state : Nat × FrameMemory) : Nat × FrameMemory :=
  let computed_param_pos := layout.kFirstLocalSlotFromFp - (param_pos : Int)
  -- movq RAX, [RDI + name_offset] ; CompareObject RAX, name ; j NOT_EQUAL load_default_value
  if desc.nameAt state.1 = some name then
    -- movq RAX, [RDI + position_offset] ; AddImmediate RDI, named_entry_size
    -- negq RAX ; movq RAX, [RBX + RAX*4] ; movq [RBP + computed_param_pos * kWordSize], RAX
    (state.1 + 1,
      state.2.write (computed_param_pos * kWordSize)
        (state.2 (rbx + 4 * (-(desc.positionAt state.1)))))
  else
    -- load_default_value: LoadObject RAX, default_parameter_values[param_pos - num_fixed_params]
    (state.1,
      state.2.write (computed_param_pos * kWordSize)
        (function.default_parameter_values.getD (param_pos - function.num_fixed_parameters) 0))

/-- The loop `for (int i = 0; i < num_opt_named_params; i++)` from iteration
`i` on, with `remaining` iterations to go. -/
def bindNamedParameters {Name : Type} [DecidableEq Name] (layout : FrameLayout)
    (function : ParsedFunction Name) (desc : ArgumentsDescriptor Name) (rbx : Int)
    (opt_param : CArray (LocalVariable Name)) (opt_param_position : CArray Nat) :
    Nat → Nat → Nat × FrameMemory → Option (Nat × FrameMemory)
  | 0, _, state => some state
  | remaining + 1, i, state =>
      match opt_param.get i, opt_param_position.get i with
      | some param, some param_pos =>
          bindNamedParameters layout function desc rbx opt_param opt_param_position remaining
            (i + 1) (bindNamedParameter layout function desc rbx param.name param_pos state)
      | _, _ => none

/-- The loop `for (int i = 0; i < num_opt_pos_params; i++)` from iteration `i`
on; RCX holds the untagged positional count. -/
def bindOptionalPositional {Name : Type} (layout : FrameLayout) (function : ParsedFunction Name)
    (rcx : Int) : Nat → Nat → FrameMemory → FrameMemory
  | 0, _, mem => mem
  | remaining + 1, i, mem =>
      let param_pos : Int := (function.num_fixed_parameters : Int) + (i : Int)
      -- CompareImmediate RCX, param_pos ; j GREATER next_parameter
      if rcx > param_pos then bindOptionalPositional layout function rcx remaining (i + 1) mem
      else
        bindOptionalPositional layout function rcx remaining (i + 1)
          (mem.write ((layout.kFirstLocalSlotFromFp - param_pos) * kWordSize)
            (function.default_parameter_values.getD i 0))

/-- The loop that nulls the passed arguments, entered at
`null_args_loop_condition` with RCX = `rcx`. -/
def nullArguments (layout : FrameLayout) (null : Word) : Nat → FrameMemory → FrameMemory
  | 0, mem => mem
  | rcx + 1, mem =>
      -- decq RCX ; j POSITIVE null_args_loop ; movq [RBP + RCX*8 + (kParamEndSlotFromFp + 1)*8], R12
      nullArguments layout null rcx
        (mem.write (8 * (rcx : Int) + (layout.kParamEndSlotFromFp + 1) * kWordSize) null)

/-- The code bound at `wrong_num_arguments`. -/
def wrongNumArguments {Name : Type} (function : ParsedFunction Name)
    (check_correct_named_args : Bool) : BinderExit :=
  if function.IsClosureFunction then BinderExit.CallNoSuchMethodFunction
  else if check_correct_named_args then BinderExit.Stop
  else BinderExit.unchecked

/-- What follows the exit: on a path that reaches `all_arguments_processed` the
passed arguments are nulled, on the others the frame is left as it is. -/
def finish (layout : FrameLayout) (null : Word) {Name : Type} (desc : ArgumentsDescriptor Name)
    (exit : BinderExit) (after_copy : Bool) (cursor : Nat) (mem : FrameMemory) : BinderResult :=
  match exit with
  | BinderExit.CallNoSuchMethodFunction => ⟨exit, after_copy, cursor, mem⟩
  | BinderExit.Stop => ⟨exit, after_copy, cursor, mem⟩
  | _ =>
      -- movq RCX, [R10 + count_offset] ; SmiUntag RCX ; LoadObject R12, null
      ⟨exit, after_copy, cursor,
        nullArguments layout null (SmiUntag (Smi.RawValue desc.count)).toNat mem⟩

/-- `FlowGraphCompiler::CopyParameters`: the sort made at compile time and the
meaning of the emitted code, run on a descriptor and a frame. `DEBUG` tells a
debug build, `null` is the word of the null object. `none` when an assertion of
the compiler fails or one of its arrays is accessed outside its bounds. The two
assertions that open the function hold by construction here: the number of
parameters is the sum of the three counts, and the first parameter index is the
frame constant the code is written with. -/
def CopyParameters {Name : Type} [LinearOrder Name] (DEBUG : Bool) (layout : FrameLayout)
    (null : Word) (function : ParsedFunction Name) (desc : ArgumentsDescriptor Name)
    (mem : FrameMemory) : Option BinderResult :=
  let num_fixed_params := function.num_fixed_parameters
  let num_opt_pos_params := function.NumOptionalPositionalParameters
  let num_opt_named_params := function.NumOptionalNamedParameters
  let num_params := num_fixed_params + num_opt_pos_params + num_opt_named_params
  let min_num_pos_args := num_fixed_params
  let max_num_pos_args := num_fixed_params + num_opt_pos_params
  let check_correct_named_args := DEBUG || function.IsClosureFunction
  -- the sort is made while the code is generated, before any of it runs
  -- (`some none`: there are no named parameters and the other branch is compiled)
  let sorted : Option (Option (CArray (LocalVariable Name) × CArray Nat)) :=
    if num_opt_named_params > 0 then
      match sortNamedParameters function (num_params - num_fixed_params) num_fixed_params
          (CArray.new num_opt_named_params, CArray.new num_opt_named_params) with
      | none => none
      | some arrays => some (some arrays)
    else if num_opt_pos_params > 0 then some none
    else none
  match sorted with
  | none => none
  | some arrays =>
      -- movq RCX, [R10 + positional_count_offset]
      let rcx := Smi.RawValue desc.positional_count
      -- CompareImmediate RCX, Smi::RawValue(min_num_pos_args) ; j LESS wrong_num_arguments
      if rcx < Smi.RawValue min_num_pos_args then
        some (finish layout null desc (wrongNumArguments function check_correct_named_args)
          false 0 mem)
      -- CompareImmediate RCX, Smi::RawValue(max_num_pos_args) ; j GREATER wrong_num_arguments
      else if rcx > Smi.RawValue max_num_pos_args then
        some (finish layout null desc (wrongNumArguments function check_correct_named_args)
          false 0 mem)
      else
        -- movq RBX, [R10 + count_offset] ; subq RBX, RCX
        -- leaq RBX, [RBP + RBX*4 + (kParamEndSlotFromFp + 1) * kWordSize]
        let rbx := 4 * (Smi.RawValue desc.count - rcx) + (layout.kParamEndSlotFromFp + 1) * kWordSize
        -- SmiUntag RCX ; movq RAX, RCX ; negq RAX
        let rcx := SmiUntag rcx
        -- leaq RDI, [RBP + RAX*8 + (kFirstLocalSlotFromFp + 1) * kWordSize]
        let rdi := 8 * (-rcx) + (layout.kFirstLocalSlotFromFp + 1) * kWordSize
        let mem := copyPositional rbx rdi rcx.toNat mem
        match arrays with
        | some (opt_param, opt_param_position) =>
            -- movq RBX, [R10 + count_offset]
            -- leaq RBX, [RBP + RBX*4 + kParamEndSlotFromFp * kWordSize]
            let rbx := 4 * Smi.RawValue desc.count + layout.kParamEndSlotFromFp * kWordSize
            -- leaq RDI, [R10 + first_named_entry_offset]
            match bindNamedParameters layout function desc rbx opt_param opt_param_position
                num_opt_named_params 0 (0, mem) with
            | none => none
            | some (cursor, mem) =>
                -- cmpq [RDI], null ; j EQUAL all_arguments_processed
                if check_correct_named_args && decide (desc.nameAt cursor = none) then
                  some (finish layout null desc BinderExit.all_arguments_processed true cursor mem)
                else
                  some (finish layout null desc
                    (wrongNumArguments function check_correct_named_args) true cursor mem)
        | none =>
            -- movq RCX, [R10 + positional_count_offset] ; SmiUntag RCX
            let rcx := SmiUntag (Smi.RawValue desc.positional_count)
            let mem := bindOptionalPositional layout function rcx num_opt_pos_params 0 mem
            -- movq RBX, [R10 + count_offset] ; SmiUntag RBX ; cmpq RCX, RBX
            let rbx := SmiUntag (Smi.RawValue desc.count)
            if check_correct_named_args && decide (rcx = rbx) then
              some (finish layout null desc BinderExit.all_arguments_processed true 0 mem)
            else
              some (finish layout null desc
                (wrongNumArguments function check_correct_named_args) true 0 mem)

end FlowGraphCompiler

/-- The optional named formals of a function, each with its position in the
formal parameter list. -/
def ParsedFunction.namedFormals {Name : Type} (function : ParsedFunction Name) :
    List (LocalVariable Name × Nat) :=
  (function.scope.drop function.num_fixed_parameters).zip
    (List.range' function.num_fixed_parameters function.NumOptionalNamedParameters)

/-- The names of the optional named formals, in declaration order. -/
def ParsedFunction.namedFormalNames {Name : Type} (function : ParsedFunction Name) : List Name :=
  function.namedFormals.map (fun e => e.1.name)

/-- A function with optional named parameters as the language allows it: at
least one named parameter, no optional positional one, one scope entry per
formal, and pairwise distinct names of the named formals. -/
def ParsedFunction.HasNamedParameters {Name : Type} (function : ParsedFunction Name) : Prop :=
  0 < function.NumOptionalNamedParameters
  ∧ function.NumOptionalPositionalParameters = 0
  ∧ function.scope.length
      = function.num_fixed_parameters + function.NumOptionalNamedParameters
  ∧ function.namedFormalNames.Nodup

/-- How far the scan of the named entries advances: the formals are visited in
sorted order and the cursor steps over an entry exactly when its name is that
of the formal being visited. -/
def scanNames {Name : Type} [DecidableEq Name] : List Name → List Name → Nat
  | [], _ => 0
  | _ :: formals, [] => scanNames formals []
  | formal :: formals, entry :: entries =>
      if entry = formal then scanNames formals entries + 1
      else scanNames formals (entry :: entries)

/-- The two arrays of the sort hold the list `L` in their first cells, and have
`n` cells each. -/
def Represents {Name : Type} (n : Nat) (arrays : CArray (LocalVariable Name) × CArray Nat)
    (L : List (LocalVariable Name × Nat)) : Prop :=
  arrays.1.size = n ∧ arrays.2.size = n ∧ L.length ≤ n
  ∧ ∀ m, m < L.length →
      arrays.1.cell m = (L[m]?).map Prod.fst ∧ arrays.2.cell m = (L[m]?).map Prod.snd

/-- A function that takes optional parameters as the language allows it: named
ones as `HasNamedParameters` says, or else at least one optional positional
parameter and no named one. -/
def ParsedFunction.HasOptionalParameters {Name : Type} (function : ParsedFunction Name) : Prop :=
  function.HasNamedParameters
  ∨ (function.NumOptionalNamedParameters = 0 ∧ 0 < function.NumOptionalPositionalParameters)

/-! ### The function `(x, y, {z, w})`, used to exercise the binder

Names are numbered by their place in the alphabet, so that `w` comes before
`z`. -/

def sampleLayout : FrameLayout := { kParamEndSlotFromFp := 1, kFirstLocalSlotFromFp := -2 }

/-- The formals `(x, y, {z: 1, w: 2})` of a function that is not a closure. -/
def sampleFunction : ParsedFunction Nat :=
  { num_fixed_parameters := 2, NumOptionalPositionalParameters := 0,
    NumOptionalNamedParameters := 2, IsClosureFunction := false,
    scope := [⟨24⟩, ⟨25⟩, ⟨26⟩, ⟨23⟩],
    default_parameter_values := [Smi.RawValue 1, Smi.RawValue 2] }

/-- The call `(5, 6, w: 9)`: three arguments, two positional, `w` at position 2. -/
def sampleCall : ArgumentsDescriptor Nat := { count := 3, positional_count := 2, named := [(23, 2)] }

/-- The call `(5, w: 9)`: two arguments, one positional, `w` at position 1. -/
def sampleShortCall : ArgumentsDescriptor Nat :=
  { count := 2, positional_count := 1, named := [(23, 1)] }

/-- A frame holding, at every byte offset, that offset. -/
def sampleFrame : FrameMemory := fun offset => offset

/-- The formals `(x, y, {z: 1, w: 2})` of a closure. -/
def sampleClosure : ParsedFunction Nat :=
  { sampleFunction with IsClosureFunction := true }

/-- The call `(5, 6, v: 9)`: the name `v` is not that of a formal. -/
def sampleBadCall : ArgumentsDescriptor Nat :=
  { count := 3, positional_count := 2, named := [(22, 2)] }

/-- The formals `(x, [y = 7, z = 8])` of a function that is not a closure. -/
def samplePositional : ParsedFunction Nat :=
  { num_fixed_parameters := 1, NumOptionalPositionalParameters := 2,
    NumOptionalNamedParameters := 0, IsClosureFunction := false,
    scope := [⟨24⟩, ⟨25⟩, ⟨26⟩],
    default_parameter_values := [Smi.RawValue 7, Smi.RawValue 8] }

/-- The call `(5, 6)`: two arguments, both positional. -/
def samplePositionalCall : ArgumentsDescriptor Nat :=
  { count := 2, positional_count := 2, named := [] }

/-! ### The positional copy loop of `CopyParameters`, instruction by instruction -/

namespace FlowGraphCompiler

/-- One turn of the copy loop: the byte offsets from RBP of the word read
(`argument_addr`) and of the word written (`copy_addr`). -/
structure ArgumentCopy where
  argument_addr : Int
  copy_addr : Int
  deriving DecidableEq

/-- The loop of the positional copy, entered at `loop_condition` with RCX =
`rcx`; RBX and RDI hold byte offsets from RBP. Every turn is one execution of
`decq RCX ; j POSITIVE, loop`, followed by the two moves of the loop body when
the jump is taken. The copies made are recorded in order. `none` when the fuel
runs out before the loop is left. -/
def positionalCopyLoop (rbx rdi : Int) :
    Nat → Int → FrameMemory → List ArgumentCopy → Option (FrameMemory × List ArgumentCopy)
  | 0, _, _, _ => none
  | fuel + 1, rcx, mem, copies =>
      -- loop_condition: decq RCX ; j POSITIVE, loop
      let rcx := rcx - 1
      if 0 ≤ rcx then
        -- loop: movq RAX, [RBX + RCX*8] ; movq [RDI + RCX*8], RAX
        positionalCopyLoop rbx rdi fuel rcx
          (mem.write (rdi + 8 * rcx) (mem (rbx + 8 * rcx)))
          (copies ++ [⟨rbx + 8 * rcx, rdi + 8 * rcx⟩])
      else some (mem, copies)

/-- The code of `CopyParameters` from the load of the positional count to the
`j POSITIVE, loop` that closes the copy loop, past the two range checks. -/
def copyPositionalArguments {Name : Type} (layout : FrameLayout)
    (desc : ArgumentsDescriptor Name) (fuel : Nat) (mem : FrameMemory) :
    Option (FrameMemory × List ArgumentCopy) :=
  -- movq RCX, [R10 + positional_count_offset]
  let rcx := Smi.RawValue desc.positional_count
  -- movq RBX, [R10 + count_offset] ; subq RBX, RCX
  -- leaq RBX, [RBP + RBX*4 + (kParamEndSlotFromFp + 1) * kWordSize]
  let rbx := 4 * (Smi.RawValue desc.count - rcx) + (layout.kParamEndSlotFromFp + 1) * kWordSize
  -- SmiUntag RCX ; movq RAX, RCX ; negq RAX
  let rcx := SmiUntag rcx
  -- leaq RDI, [RBP + RAX*8 + (kFirstLocalSlotFromFp + 1) * kWordSize]
  let rdi := 8 * (-rcx) + (layout.kFirstLocalSlotFromFp + 1) * kWordSize
  -- jmp loop_condition
  positionalCopyLoop rbx rdi fuel rcx mem []

end FlowGraphCompiler

/-! ## Inline type tests (`FlowGraphCompiler::GenerateInlineInstanceof`) -/

/-- The class ids the inline tests compare against, constants declared outside
this file of the source, and the class-id lists of the number, string and list
checks (`GenerateStringTypeCheck`, `GenerateListTypeCheck`), which are emitted
outside it through `CheckClassIds`. -/
structure ClassIds where
  kSmiCid : Int
  kBoolCid : Int
  kTypeArgumentsCid : Int
  string_cids : List Int
  list_cids : List Int

/-- What the compiler asks of the class of the target type. -/
structure TypeClass where
  id : Int
  NumTypeArguments : Nat
  NumTypeParameters : Nat
  IsSignatureClass : Bool
  IsListClass : Bool
  deriving DecidableEq

/-- What the compiler asks of the target type while it generates the test: the
classification of the type, and the answers of the subtype queries made at
compile time (`Type::IntType().IsSubtypeOf(type)`, `Smi::Class().IsSubtypeOf(
type_class)`, `type.IsSubtypeOf(Type::Number())`, `Type::ObjectType().
IsSubtypeOf(TypeAt(0))`). `number_check_cids` is the class-id list
`GenerateNumberTypeCheck` compares against for this type. The type itself is an
object of the class model, outside this file of the source. -/
structure AbstractType where
  IsVoidType : Bool
  TypeCheckAsClassEquality : Bool
  IsInstantiated : Bool
  type_class : TypeClass
  IsTypeParameter : Bool
  index : Nat
  IsType : Bool
  IsBoolType : Bool
  IsFunctionType : Bool
  IsStringType : Bool
  IsSubtypeOfNumber : Bool
  number_check_cids : List Int
  IntIsSubtype : Bool
  SmiClassIsSubtype : Bool
  arguments_IsNull : Bool
  arguments_IsRaw : Bool
  arguments_Length : Nat
  argument0_IsType : Bool
  argument0_ObjectIsSubtype : Bool
  deriving DecidableEq

/-- The three subtype-test-cache stubs. -/
inductive TypeTestStubKind where
  | kTestTypeOneArg
  | kTestTypeTwoArgs
  | kTestTypeThreeArgs
  deriving DecidableEq

/-- The value in RAX as the emitted code sees it: whether it is a Smi, and for
an object its class id, whether its class has a signature function (a
closure), and the class id of the type class of its class's super type. -/
structure TestedInstance where
  is_smi : Bool
  class_id : Int
  class_has_signature_function : Bool
  super_type_class_id : Int
  deriving DecidableEq

/-- A type found in the instantiator's type-argument vector, as far as the
emitted code tells types apart. -/
inductive TypeArgument where
  | dynamicType
  | null
  | objectType
  | intType
  | numberType
  | other (id : Nat)
  deriving DecidableEq

/-- The instantiator type arguments on the stack: null, a `TypeArguments`
object, or an object of another class. -/
inductive InstantiatorTypeArguments where
  | null
  | typeArguments (type_at : Nat → TypeArgument)
  | otherObject

/-- A `SubtypeTestCache`, named by the order of its allocation. -/
abbrev SubtypeTestCache := Nat

/-- The machine state an inline test runs in: the tested value, the
instantiator type arguments, and what each subtype-test-cache stub answers in
RCX for a cache (`none` is null: not found). -/
structure TestRuntime where
  value : TestedInstance
  instantiator_type_arguments : InstantiatorTypeArguments
  stub : TypeTestStubKind → SubtypeTestCache → Option Bool

/-- The two labels an inline test can jump to. -/
inductive Verdict where
  | is_instance
  | is_not_instance
  deriving DecidableEq

/-- Where a piece of emitted test code leaves control: `verdict = none` when it
runs off its end, and the stub calls made on the way. -/
structure Flow where
  verdict : Option Verdict
  stub_calls : List (TypeTestStubKind × SubtypeTestCache)
  deriving DecidableEq

/-- Emitted test code, by its meaning. -/
abbrev Fragment := TestRuntime → Flow

namespace Fragment

/-- Code that does nothing. -/
def skip : Fragment := fun _ => ⟨none, []⟩

/-- An unconditional jump to a label. -/
def jump (v : Verdict) : Fragment := fun _ => ⟨some v, []⟩

/-- A conditional jump to a label. -/
def jumpIf (condition : TestRuntime → Bool) (v : Verdict) : Fragment :=
  fun rt => if condition rt then ⟨some v, []⟩ else ⟨none, []⟩

/-- Code followed by more code. -/
def seq (first second : Fragment) : Fragment :=
  fun rt =>
    match first rt with
    | ⟨some v, calls⟩ => ⟨some v, calls⟩
    | ⟨none, calls⟩ => ⟨(second rt).verdict, calls ++ (second rt).stub_calls⟩

end Fragment

/-- What a generator of test code hands back: the cache it returns
(`none` is `SubtypeTestCache::null()`), the number of caches it allocated, and
the code it emitted. -/
structure TestCode where
  cache : Option SubtypeTestCache
  allocated : Nat
  run : Fragment

namespace FlowGraphCompiler

/-- `GenerateBoolToJump`: falls through on null, else jumps on the Boolean. -/
def GenerateBoolToJump (bool_register : Option Bool) : Flow :=
  match bool_register with
  | none => ⟨none, []⟩
  | some true => ⟨some Verdict.is_instance, []⟩
  | some false => ⟨some Verdict.is_not_instance, []⟩

/-- `GenerateCallSubtypeTestStub`; `next` names the cache the allocation
returns. -/
def GenerateCallSubtypeTestStub (next : SubtypeTestCache) (test_kind : TypeTestStubKind) :
    TestCode :=
  { cache := some next, allocated := 1,
    run := fun rt =>
      ⟨(GenerateBoolToJump (rt.stub test_kind next)).verdict, [(test_kind, next)]⟩ }

/-- `CheckClassIds`, with the class id register holding the class id of the
value. -/
def CheckClassIds (class_ids : List Int) (is_equal is_not_equal : Option Verdict) : Fragment :=
  fun rt => if rt.value.class_id ∈ class_ids then ⟨is_equal, []⟩ else ⟨is_not_equal, []⟩

/-- `GenerateSubtype1TestCacheLookup`. -/
def GenerateSubtype1TestCacheLookup (next : SubtypeTestCache) (type_class : TypeClass) :
    TestCode :=
  let stub := GenerateCallSubtypeTestStub next TypeTestStubKind.kTestTypeOneArg
  { stub with
    run :=
      -- LoadClass R10 ; super_type ; type_class ; CompareObject R13, type_class ; j EQUAL
      Fragment.seq
        (Fragment.jumpIf (fun rt => decide (rt.value.super_type_class_id = type_class.id))
          Verdict.is_instance)
        stub.run }

/-- `GenerateInstantiatedTypeWithArgumentsTest`; `none` when an assertion
fails. -/
def GenerateInstantiatedTypeWithArgumentsTest (ids : ClassIds) (next : SubtypeTestCache)
    (type : AbstractType) : Option TestCode :=
  if !type.IsInstantiated then none
  else if !(decide (type.type_class.NumTypeArguments > 0) || type.type_class.IsSignatureClass)
  then none
  else
    let smi_is_ok := type.IntIsSubtype
    -- testq RAX, kSmiTagMask ; j ZERO is_instance / is_not_instance
    let smi_check := Fragment.jumpIf (fun rt => rt.value.is_smi)
      (if smi_is_ok then Verdict.is_instance else Verdict.is_not_instance)
    let is_raw_type := type.arguments_IsNull || type.arguments_IsRaw
    let with_smi (code : TestCode) : TestCode := { code with run := Fragment.seq smi_check code.run }
    if !type.type_class.IsSignatureClass && is_raw_type then
      -- LoadClassId ; cmpl type_class.id ; j EQUAL is_instance
      let class_check := Fragment.jumpIf
        (fun rt => decide (rt.value.class_id = type.type_class.id)) Verdict.is_instance
      let list_check :=
        if type.type_class.IsListClass then
          CheckClassIds ids.list_cids (some Verdict.is_instance) none
        else Fragment.skip
      let lookup := GenerateSubtype1TestCacheLookup next type.type_class
      some (with_smi
        { lookup with run := Fragment.seq class_check (Fragment.seq list_check lookup.run) })
    else if !type.type_class.IsSignatureClass && decide (type.arguments_Length = 1)
        && type.argument0_IsType && type.argument0_ObjectIsSubtype then
      some (with_smi (GenerateSubtype1TestCacheLookup next type.type_class))
    else
      some (with_smi (GenerateCallSubtypeTestStub next TypeTestStubKind.kTestTypeTwoArgs))

/-- `GenerateInstantiatedTypeNoArgumentsTest`: whether there is a fall through,
and the emitted code; `none` when an assertion fails. -/
def GenerateInstantiatedTypeNoArgumentsTest (ids : ClassIds) (type : AbstractType) :
    Option (Bool × Fragment) :=
  if !type.IsInstantiated then none
  else if type.type_class.NumTypeArguments ≠ 0 then none
  else
    -- testq RAX, kSmiTagMask ; j ZERO is_instance / is_not_instance
    let smi_check := Fragment.jumpIf (fun rt => rt.value.is_smi)
      (if type.SmiClassIsSubtype then Verdict.is_instance else Verdict.is_not_instance)
    -- LoadClassId ; cmpl type_class.id ; j EQUAL is_instance
    let class_check := Fragment.jumpIf
      (fun rt => decide (rt.value.class_id = type.type_class.id)) Verdict.is_instance
    let common := Fragment.seq smi_check class_check
    if type.IsBoolType then
      some (false, Fragment.seq common
        (CheckClassIds [ids.kBoolCid] (some Verdict.is_instance) (some Verdict.is_not_instance)))
    else
      let function_check :=
        if type.IsFunctionType then
          -- LoadClassById ; signature_function ; CompareObject null ; j NOT_EQUAL is_instance
          Fragment.jumpIf (fun rt => rt.value.class_has_signature_function) Verdict.is_instance
        else Fragment.skip
      let common := Fragment.seq common function_check
      if type.IsSubtypeOfNumber then
        some (false, Fragment.seq common
          (CheckClassIds type.number_check_cids (some Verdict.is_instance)
            (some Verdict.is_not_instance)))
      else if type.IsStringType then
        some (false, Fragment.seq common
          (CheckClassIds ids.string_cids (some Verdict.is_instance)
            (some Verdict.is_not_instance)))
      else some (true, common)

/-- The code emitted for a type parameter up to the stub call: the verdict it
jumps to, or where it goes on (`Sum.inr true`: to `not_smi`, the stub call;
`Sum.inr false`: to `fall_through`, past the stub call). -/
def typeParameterChecks (index : Nat) (rt : TestRuntime) : Verdict ⊕ Bool :=
  match rt.instantiator_type_arguments with
  -- CompareObject RDX, null ; j EQUAL is_instance
  | InstantiatorTypeArguments.null => Sum.inl Verdict.is_instance
  -- CompareClassId RDX, kTypeArgumentsCid ; j NOT_EQUAL fall_through
  | InstantiatorTypeArguments.otherObject => Sum.inr false
  | InstantiatorTypeArguments.typeArguments type_at =>
      -- movq RDI, [RDX + type_at_offset(index)]
      match type_at index with
      | TypeArgument.dynamicType => Sum.inl Verdict.is_instance
      | TypeArgument.null => Sum.inl Verdict.is_instance
      | TypeArgument.objectType => Sum.inl Verdict.is_instance
      | concrete =>
          -- testq RAX, kSmiTagMask ; j NOT_ZERO not_smi
          if rt.value.is_smi then
            if concrete = TypeArgument.intType then Sum.inl Verdict.is_instance
            else if concrete = TypeArgument.numberType then Sum.inl Verdict.is_instance
            -- jmp fall_through
            else Sum.inr false
          else Sum.inr true

/-- `GenerateUninstantiatedTypeTest`; `none` when an assertion fails. -/
def GenerateUninstantiatedTypeTest (next : SubtypeTestCache) (type : AbstractType) :
    Option TestCode :=
  if type.IsInstantiated then none
  else if type.IsTypeParameter then
    let stub := GenerateCallSubtypeTestStub next TypeTestStubKind.kTestTypeThreeArgs
    some { stub with
      run := fun rt =>
        match typeParameterChecks type.index rt with
        | Sum.inl v => ⟨some v, []⟩
        | Sum.inr true => stub.run rt
        | Sum.inr false => ⟨none, []⟩ }
  else if type.IsType then
    let stub := GenerateCallSubtypeTestStub next TypeTestStubKind.kTestTypeThreeArgs
    some { stub with
      run :=
        -- testq RAX, kSmiTagMask ; j ZERO is_not_instance
        Fragment.seq (Fragment.jumpIf (fun rt => rt.value.is_smi) Verdict.is_not_instance)
          stub.run }
  else some { cache := none, allocated := 0, run := Fragment.skip }

/-- `GenerateInlineInstanceof`; `next` names the cache the next allocation
returns, `none` when an assertion fails. -/
def GenerateInlineInstanceof (ids : ClassIds) (next : SubtypeTestCache) (type : AbstractType) :
    Option TestCode :=
  if type.IsVoidType then some { cache := none, allocated := 0, run := Fragment.skip }
  else if type.TypeCheckAsClassEquality then
    let type_cid := type.type_class.id
    some { cache := none, allocated := 0,
           run := fun rt =>
             -- testq RAX, kSmiTagMask
             if type_cid = ids.kSmiCid then
               -- j ZERO is_instance ; jmp is_not_instance
               if rt.value.is_smi then ⟨some Verdict.is_instance, []⟩
               else ⟨some Verdict.is_not_instance, []⟩
             else
               -- j ZERO is_not_instance ; CompareClassId ; j EQUAL is_instance ; jmp is_not_instance
               if rt.value.is_smi then ⟨some Verdict.is_not_instance, []⟩
               else if rt.value.class_id = type_cid then ⟨some Verdict.is_instance, []⟩
               else ⟨some Verdict.is_not_instance, []⟩ }
  else if type.IsInstantiated then
    if type.type_class.IsSignatureClass || decide (type.type_class.NumTypeArguments > 0) then
      GenerateInstantiatedTypeWithArgumentsTest ids next type
    else
      match GenerateInstantiatedTypeNoArgumentsTest ids type with
      | none => none
      | some (has_fall_through, code) =>
          if has_fall_through then
            let lookup := GenerateSubtype1TestCacheLookup next type.type_class
            some { lookup with run := Fragment.seq code lookup.run }
          else some { cache := none, allocated := 0, run := code }
  else GenerateUninstantiatedTypeTest next type

end FlowGraphCompiler

/-! ### A test against `Comparable<T>`, used to exercise the inline tests -/

def sampleClassIds : ClassIds :=
  { kSmiCid := 3, kBoolCid := 20, kTypeArgumentsCid := 30, string_cids := [40, 41, 42, 43],
    list_cids := [50, 51, 52] }

/-- The type `Comparable<T>` inside a generic class: a `Type` (not a type
parameter) that is not instantiated, its argument `T` being given by the
instantiator. -/
def sampleComparableOfT : AbstractType :=
  { IsVoidType := false, TypeCheckAsClassEquality := false, IsInstantiated := false,
    type_class := { id := 60, NumTypeArguments := 1, NumTypeParameters := 1,
                    IsSignatureClass := false, IsListClass := false },
    IsTypeParameter := false, index := 0, IsType := true, IsBoolType := false,
    IsFunctionType := false, IsStringType := false, IsSubtypeOfNumber := false,
    number_check_cids := [], IntIsSubtype := false, SmiClassIsSubtype := false,
    arguments_IsNull := false, arguments_IsRaw := false, arguments_Length := 1,
    argument0_IsType := false, argument0_ObjectIsSubtype := false }

/-- A Smi, for instance the integer 5. -/
def sampleSmi : TestedInstance :=
  { is_smi := true, class_id := 3, class_has_signature_function := false,
    super_type_class_id := 0 }

/-- The type of a class without type arguments and without subclasses, for
which the test is a class equality. -/
def sampleExactClass : AbstractType :=
  { sampleComparableOfT with
    TypeCheckAsClassEquality := true, IsInstantiated := true,
    type_class := { id := 61, NumTypeArguments := 0, NumTypeParameters := 0,
                    IsSignatureClass := false, IsListClass := false },
    arguments_IsNull := true, arguments_Length := 0 }

/-- An object of the class the sample class-equality type names. -/
def sampleExactInstance : TestedInstance :=
  { is_smi := false, class_id := 61, class_has_signature_function := false,
    super_type_class_id := 0 }

/-! ## Slow-path register save and restore (`SaveLiveRegisters`, `RestoreLiveRegisters`) -/

/-- The live registers of a `LocationSummary` as the two functions query them.
The class `RegisterSet` is declared outside this file of the source: its three
queries are taken as they answer, the count being a stored field of its own. -/
structure RegisterSet where
  ContainsRegister : Register → Bool
  ContainsFpuRegister : FpuRegister → Bool
  FpuRegisterCount : Int

/-- The constants of `constants_x64.h` the two functions use, declared outside
this file of the source: the number of general-purpose and of XMM registers and
the size in bytes of an XMM register. -/
structure RegisterConstants where
  kNumberOfCpuRegisters : Nat
  kNumberOfXmmRegisters : Nat
  kFpuRegisterSize : Int

/-- The instructions the two functions emit. `movups_store` writes an XMM
register to `[base + offset]`, `movups_load` reads one from there. -/
inductive StackInstr where
  | AddImmediate (reg : Register) (imm : Int)
  | movups_store (base : Register) (offset : Int) (src : FpuRegister)
  | movups_load (dst : FpuRegister) (base : Register) (offset : Int)
  | pushq (reg : Register)
  | popq (reg : Register)
  deriving DecidableEq

/-- The state the emitted code acts on: the general-purpose registers (RSP
among them), the XMM registers as their low and high quadword, and the
quadword of memory at each byte address. -/
structure CpuState where
  regs : Register → Int
  xmm : FpuRegister → Int × Int
  mem : Int → Int

namespace CpuState

def setReg (st : CpuState) (r : Register) (w : Int) : CpuState :=
  { st with regs := fun x => if x = r then w else st.regs x }

def setXmm (st : CpuState) (r : FpuRegister) (w : Int × Int) : CpuState :=
  { st with xmm := fun x => if x = r then w else st.xmm x }

def setMem (st : CpuState) (a : Int) (w : Int) : CpuState :=
  { st with mem := fun x => if x = a then w else st.mem x }

end CpuState

/-- Effect of one instruction. `pushq` stores the value the register held
before RSP is decremented; `popq` increments RSP before it writes the register,
so that `popq RSP` leaves the popped word in RSP. -/
def StackInstr.step (st : CpuState) : StackInstr → CpuState
  | StackInstr.AddImmediate reg imm => st.setReg reg (st.regs reg + imm)
  | StackInstr.movups_store base offset src =>
      (st.setMem (st.regs base + offset) (st.xmm src).1).setMem
        (st.regs base + offset + kWordSize) (st.xmm src).2
  | StackInstr.movups_load dst base offset =>
      st.setXmm dst (st.mem (st.regs base + offset), st.mem (st.regs base + offset + kWordSize))
  | StackInstr.pushq reg =>
      (st.setReg RSP (st.regs RSP - kWordSize)).setMem (st.regs RSP - kWordSize) (st.regs reg)
  | StackInstr.popq reg =>
      (st.setReg RSP (st.regs RSP + kWordSize)).setReg reg (st.mem (st.regs RSP))

/-- Running an emitted sequence in order. -/
def StackInstr.run : List StackInstr → CpuState → CpuState
  | [], st => st
  | i :: is, st => StackInstr.run is (StackInstr.step st i)

namespace FlowGraphCompiler

/-- The loop over the XMM registers in `SaveLiveRegisters`, from `reg_idx` on:
the stores emitted and the final `offset`. -/
def saveXmmLoop (consts : RegisterConstants) (live_registers : RegisterSet) :
    List FpuRegister → Int → List StackInstr × Int
  | [], offset => ([], offset)
  | xmm_reg :: rest, offset =>
      if live_registers.ContainsFpuRegister xmm_reg then
        -- movups [RSP + offset], xmm_reg ; offset += kFpuRegisterSize
        let r := saveXmmLoop consts live_registers rest (offset + consts.kFpuRegisterSize)
        (StackInstr.movups_store RSP offset xmm_reg :: r.1, r.2)
      else saveXmmLoop consts live_registers rest offset

/-- The loop over the XMM registers in `RestoreLiveRegisters`. -/
def restoreXmmLoop (consts : RegisterConstants) (live_registers : RegisterSet) :
    List FpuRegister → Int → List StackInstr × Int
  | [], offset => ([], offset)
  | xmm_reg :: rest, offset =>
      if live_registers.ContainsFpuRegister xmm_reg then
        -- movups xmm_reg, [RSP + offset] ; offset += kFpuRegisterSize
        let r := restoreXmmLoop consts live_registers rest (offset + consts.kFpuRegisterSize)
        (StackInstr.movups_load xmm_reg RSP offset :: r.1, r.2)
      else restoreXmmLoop consts live_registers rest offset

/-- `FlowGraphCompiler::SaveLiveRegisters`: the code emitted, `none` when the
assertion on `offset` fails. -/
def SaveLiveRegisters (consts : RegisterConstants) (live_registers : RegisterSet) :
    Option (List StackInstr) :=
  let xmm_regs_count := live_registers.FpuRegisterCount
  let xmm_code : Option (List StackInstr) :=
    if xmm_regs_count > 0 then
      let r := saveXmmLoop consts live_registers (List.range consts.kNumberOfXmmRegisters) 0
      -- ASSERT(offset == (xmm_regs_count * kFpuRegisterSize))
      if r.2 = xmm_regs_count * consts.kFpuRegisterSize then
        some (StackInstr.AddImmediate RSP (-xmm_regs_count * consts.kFpuRegisterSize) :: r.1)
      else none
    else some []
  match xmm_code with
  | none => none
  | some code =>
      some (code
        ++ ((List.range consts.kNumberOfCpuRegisters).filter
              live_registers.ContainsRegister).map StackInstr.pushq)

/-- `FlowGraphCompiler::RestoreLiveRegisters`: the code emitted, `none` when
the assertion on `offset` fails. -/
def RestoreLiveRegisters (consts : RegisterConstants) (live_registers : RegisterSet) :
    Option (List StackInstr) :=
  let pops :=
    ((List.range consts.kNumberOfCpuRegisters).reverse.filter
        live_registers.ContainsRegister).map StackInstr.popq
  let xmm_regs_count := live_registers.FpuRegisterCount
  if xmm_regs_count > 0 then
    let r := restoreXmmLoop consts live_registers (List.range consts.kNumberOfXmmRegisters) 0
    -- ASSERT(offset == (xmm_regs_count * kFpuRegisterSize))
    if r.2 = xmm_regs_count * consts.kFpuRegisterSize then
      some (pops ++ r.1 ++ [StackInstr.AddImmediate RSP r.2])
    else none
  else some pops

end FlowGraphCompiler

/-- The registers of x64: sixteen of each kind, an XMM register of 16 bytes. -/
def sampleConstants : RegisterConstants :=
  { kNumberOfCpuRegisters := 16, kNumberOfXmmRegisters := 16, kFpuRegisterSize := 16 }

/-- The live registers RAX, RSP and R10 and XMM1 and XMM3. -/
def sampleLiveRegisters : RegisterSet :=
  { ContainsRegister := fun r => decide (r = RAX ∨ r = RSP ∨ r = R10),
    ContainsFpuRegister := fun x => decide (x = 1 ∨ x = 3),
    FpuRegisterCount := 2 }

/-- Every register holds 100 plus its number (RSP holds 1000), XMM register
`x` holds `(200 + x, 300 + x)`, memory holds 0. -/
def sampleCpu : CpuState :=
  { regs := fun r => if r = RSP then 1000 else 100 + (r : Int),
    xmm := fun x => (200 + (x : Int), 300 + (x : Int)),
    mem := fun _ => 0 }

/-! ## The `instanceof` operator (`FlowGraphCompiler::GenerateInstanceOf`) -/

/-- An object RAX can hold when the code of `GenerateInstanceOf` is left: one
of the two canonical Booleans `Bool::True()` and `Bool::False()`, or another
object. -/
inductive ResultObject where
  | Bool_True
  | Bool_False
  | other (id : Nat)
  deriving DecidableEq

/-- `Bool::Get(value)`. -/
def ResultObject.Bool_Get (value : Bool) : ResultObject :=
  if value then ResultObject.Bool_True else ResultObject.Bool_False

/-- The point at which the code of `GenerateInstanceOf` loads its result: after
the call of the runtime entry, at the label `is_not_instance`, or at the label
`is_instance`. -/
inductive InstanceOfExit where
  | runtime_call
  | is_not_instance
  | is_instance
  deriving DecidableEq

/-- Where a run of the emitted code loaded its result and what it left in
RAX. -/
structure InstanceOfOutcome where
  exit : InstanceOfExit
  rax : ResultObject
  deriving DecidableEq

/-- The code `GenerateInstanceOf` emits, by its meaning: the cache of the
inline test and, for a tested value (`value_is_null` tells whether RAX holds
the null object), the state the inline test runs in and the object the
`kInstanceofRuntimeEntry` call would leave as its result, the outcome. -/
structure InstanceOfCode where
  test_cache : Option SubtypeTestCache
  run : Bool → TestRuntime → ResultObject → InstanceOfOutcome

namespace FlowGraphCompiler

/-- `FlowGraphCompiler::GenerateInstanceOf`; `none` when the inline test
generator fails an assertion. The pushes and pops of the instantiator and its
type arguments around the code are not part of the outcome. -/
def GenerateInstanceOf (ids : ClassIds) (next : SubtypeTestCache) (type : AbstractType)
    (negate_result : Bool) : Option InstanceOfCode :=
  match GenerateInlineInstanceof ids next type with
  | none => none
  | some inline =>
      some
        { test_cache := inline.cache,
          run := fun value_is_null rt runtime_result =>
            -- if (type.IsInstantiated()) CompareObject RAX, null ; j EQUAL is_not_instance
            if type.IsInstantiated && value_is_null then
              -- is_not_instance: LoadObject RAX, Bool::Get(negate_result)
              ⟨InstanceOfExit.is_not_instance, ResultObject.Bool_Get negate_result⟩
            else
              match (inline.run rt).verdict with
              | some Verdict.is_instance =>
                  -- is_instance: LoadObject RAX, Bool::Get(!negate_result)
                  ⟨InstanceOfExit.is_instance, ResultObject.Bool_Get (!negate_result)⟩
              | some Verdict.is_not_instance =>
                  ⟨InstanceOfExit.is_not_instance, ResultObject.Bool_Get negate_result⟩
              | none =>
                  -- the inline test ran off its end
                  match inline.cache with
                  | some _ =>
                      -- if (!test_cache.IsNull()): the runtime call, Drop(5)
                      if negate_result then
                        -- popq RDX ; LoadObject RAX, Bool::True() ; cmpq RDX, RAX
                        -- j NOT_EQUAL done ; LoadObject RAX, Bool::False()
                        if runtime_result ≠ ResultObject.Bool_True then
                          ⟨InstanceOfExit.runtime_call, ResultObject.Bool_True⟩
                        else ⟨InstanceOfExit.runtime_call, ResultObject.Bool_False⟩
                      else
                        -- popq RAX
                        ⟨InstanceOfExit.runtime_call, runtime_result⟩
                  | none =>
                      -- no runtime call is emitted: control runs into is_not_instance
                      ⟨InstanceOfExit.is_not_instance, ResultObject.Bool_Get negate_result⟩ }

end FlowGraphCompiler

/-! ## Synchronising the frame for a catch block (`EmitTrySync`, `EmitTrySyncMove`) -/

/-- The instructions `EmitTrySyncMove` and `EmitTrySync` emit; `movq_store` is
`movq [base + offset], src` and `movq_load` is `movq dst, [base + offset]`. -/
inductive SyncInstr where
  | pushq (reg : Register)
  | popq (reg : Register)
  | LoadObject (dst : Register) (obj : Object)
  | movq_store (base : Register) (offset : Int) (src : Register)
  | movq_load (dst : Register) (base : Register) (offset : Int)
  deriving DecidableEq

/-- Effect of one instruction. -/
def SyncInstr.step (st : CpuState) : SyncInstr → CpuState
  | SyncInstr.pushq reg =>
      (st.setReg RSP (st.regs RSP - kWordSize)).setMem (st.regs RSP - kWordSize) (st.regs reg)
  | SyncInstr.popq reg =>
      (st.setReg RSP (st.regs RSP + kWordSize)).setReg reg (st.mem (st.regs RSP))
  | SyncInstr.LoadObject dst obj => st.setReg dst obj.raw
  | SyncInstr.movq_store base offset src => st.setMem (st.regs base + offset) (st.regs src)
  | SyncInstr.movq_load dst base offset => st.setReg dst (st.mem (st.regs base + offset))

/-- Running an emitted sequence in order. -/
def SyncInstr.run : List SyncInstr → CpuState → CpuState
  | [], st => st
  | i :: is, st => SyncInstr.run is (SyncInstr.step st i)

/-- What `EmitTrySync` reads from the flow graph, the instruction and the catch
block: the flag `is_optimizing()`, the environment of the instruction, which
initial definitions of the catch block are constants, the two counts of the
flow graph and the indices of the exception and the stack trace variable. -/
structure TrySyncSite where
  is_optimizing : Bool
  env : Environment
  idefs_IsConstant : Nat → Bool
  num_non_copied_params : Nat
  variable_count : Nat
  exception_var_index : Int
  stacktrace_var_index : Int

/-- The code `EmitTrySync` emits: the instructions of every call of
`EmitTrySyncMove`, in call order, and the instructions that follow the two
loops. -/
structure TrySyncCode where
  moves : List (List SyncInstr)
  epilogue : List SyncInstr

namespace TrySyncCode

def code (c : TrySyncCode) : List SyncInstr := c.moves.flatten ++ c.epilogue

end TrySyncCode

namespace FlowGraphCompiler

/-- `FlowGraphCompiler::EmitTrySyncMove`: the instructions emitted and the flag
`*push_emitted` afterwards. `ToStackSlotAddress` gives, for the index of a
stack slot, the offset from RBP of the address `Location::ToStackSlotAddress`
forms (the method is declared outside this file of the source); it fails its
assertion, `none`, on a location that is no stack slot of any width. -/
def EmitTrySyncMove (ToStackSlotAddress : Int → Int) (dest_offset : Int) (loc : Location)
    (push_emitted : Bool) : Option (List SyncInstr × Bool) :=
  let fromSlot (index : Int) : Option (List SyncInstr × Bool) :=
    let src := ToStackSlotAddress index
    -- if (!src.Equals(dest))
    if src ≠ dest_offset then
      some ((if !push_emitted then [SyncInstr.pushq RAX] else [])
        ++ [SyncInstr.movq_load RAX RBP src, SyncInstr.movq_store RBP dest_offset RAX], true)
    else some ([], push_emitted)
  match loc with
  | Location.constant obj =>
      some ((if !push_emitted then [SyncInstr.pushq RAX] else [])
        ++ [SyncInstr.LoadObject RAX obj, SyncInstr.movq_store RBP dest_offset RAX], true)
  | Location.reg r =>
      if push_emitted && decide (r = RAX) then
        some ([SyncInstr.movq_load RAX RSP 0, SyncInstr.movq_store RBP dest_offset RAX],
          push_emitted)
      else some ([SyncInstr.movq_store RBP dest_offset r], push_emitted)
  | Location.stackSlot index => fromSlot index
  | Location.doubleStackSlot index => fromSlot index
  | Location.quadStackSlot index => fromSlot index
  | Location.fpuReg _ => none
  | Location.invalid => none

/-- The calls of `EmitTrySyncMove` the two loops of `EmitTrySync` make, in
order: the destination offset and the location passed. -/
def trySyncMoves (layout : FrameLayout) (site : TrySyncSite) : List (Int × Location) :=
  let num_non_copied_params : Int := site.num_non_copied_params
  let param_base := layout.kParamEndSlotFromFp + num_non_copied_params
  -- for (; i < num_non_copied_params; ++i)
  let params :=
    (List.range site.num_non_copied_params).filterMap (fun (i : Nat) =>
      if site.idefs_IsConstant i then none
      else some ((param_base - (i : Int)) * kWordSize, site.env.LocationAt i))
  let local_base := layout.kFirstLocalSlotFromFp + num_non_copied_params
  let ex_idx := local_base - site.exception_var_index
  let st_idx := local_base - site.stacktrace_var_index
  -- for (; i < flow_graph().variable_count(); ++i)
  let locals :=
    (List.range' site.num_non_copied_params
        (site.variable_count - site.num_non_copied_params)).filterMap (fun (i : Nat) =>
      if (i : Int) = ex_idx ∨ (i : Int) = st_idx then none
      else if site.idefs_IsConstant i then none
      else some ((local_base - (i : Int)) * kWordSize, site.env.LocationAt i))
  params ++ locals

/-- The calls of `EmitTrySyncMove` made one after the other, the flag being
handed on. -/
def emitTrySyncMoves (ToStackSlotAddress : Int → Int) :
    List (Int × Location) → Bool → Option (List (List SyncInstr) × Bool)
  | [], push_emitted => some ([], push_emitted)
  | (dest_offset, loc) :: rest, push_emitted =>
      match EmitTrySyncMove ToStackSlotAddress dest_offset loc push_emitted with
      | none => none
      | some (code, push_emitted1) =>
          match emitTrySyncMoves ToStackSlotAddress rest push_emitted1 with
          | none => none
          | some (codes, push_emitted2) => some (code :: codes, push_emitted2)

/-- `FlowGraphCompiler::EmitTrySync`; `none` when an assertion fails. The
update of the safepoint bitmap is not part of the emitted code. -/
def EmitTrySync (layout : FrameLayout) (ToStackSlotAddress : Int → Int) (site : TrySyncSite) :
    Option TrySyncCode :=
  -- ASSERT(is_optimizing())
  if site.is_optimizing then
    match emitTrySyncMoves ToStackSlotAddress (trySyncMoves layout site) false with
    | none => none
    | some (moves, push_emitted) =>
        -- if (push_emitted) popq RAX
        some { moves := moves,
               epilogue := if push_emitted then [SyncInstr.popq RAX] else [] }
  else none

end FlowGraphCompiler

/-- A frame of one parameter and three variables: the parameter lives in RAX,
the first local is the constant Smi 7, the second is the exception variable
and the third lives in RAX as well. -/
def sampleTrySyncSite : TrySyncSite :=
  { is_optimizing := true,
    env := { code := 10, deopt_id := 5, fixed_parameter_count := 1,
             entries := [(1, Location.reg RAX), (2, Location.constant (Object.smi 7)),
               (3, Location.stackSlot 1), (4, Location.reg RAX)] },
    idefs_IsConstant := fun _ => false,
    num_non_copied_params := 1,
    variable_count := 4,
    exception_var_index := -3,
    stacktrace_var_index := -9 }

/-- A state with RSP = 1000, RBP = 1100 and RAX = 77. -/
def sampleSyncCpu : CpuState :=
  { regs := fun r => if r = RSP then 1000 else if r = RBP then 1100 else if r = RAX then 77 else 0,
    xmm := fun _ => (0, 0),
    mem := fun a => a }
/-! ## Properties of the deoptimization metadata builder -/

theorem copiesOf_append (xs ys : List BuilderCall) :
    copiesOf (xs ++ ys) = copiesOf xs ++ copiesOf ys := by
  induction xs with
  | nil => rfl
  | cons c cs ih => cases c <;> simp [copiesOf, ih]

theorem copiesOf_materializations (ms : List Value) :
    copiesOf (ms.map BuilderCall.AddMaterialization) = [] := by
  induction ms with
  | nil => rfl
  | cons m ms ih => simpa [copiesOf] using ih

theorem EntryAt_natCast (env : Environment) (m : Nat) (h : m < env.entries.length) :
    env.EntryAt (m : Int) = env.entries[m] := by
  unfold Environment.EntryAt
  have h0 : ¬ ((m : Int) < 0) := by omega
  simp [h0, List.getElem?_eq_getElem h]

/-- Counting down from index `m - 1` for `n` steps copies the entries at
`m - n .. m - 1`, highest index first. -/
theorem copiesOf_copyLoop (env : Environment) :
    ∀ (n m : Nat) (s : Int), n ≤ m → m ≤ env.entries.length →
      copiesOf (copyLoop env n ((m : Int) - 1) s)
        = ((env.entries.take m).drop (m - n)).reverse := by
  intro n
  induction n with
  | zero =>
      intro m s _ hm
      simp [copyLoop, copiesOf]
  | succ n ih =>
      intro m s hn hm
      obtain ⟨k, rfl⟩ : ∃ k, m = k + 1 := ⟨m - 1, by omega⟩
      have hk : k < env.entries.length := by omega
      have hidx : ((k + 1 : Nat) : Int) - 1 = (k : Int) := by push_cast; ring
      have hstep : copyLoop env (n + 1) (((k + 1 : Nat) : Int) - 1) s
          = BuilderCall.AddCopy (env.entries[k]).1 (env.entries[k]).2 s
              :: copyLoop env n ((k : Int) - 1) (s + 1) := by
        rw [hidx]
        simp [copyLoop, Environment.ValueAt, Environment.LocationAt, EntryAt_natCast env k hk]
      rw [hstep]
      simp only [copiesOf]
      rw [ih k (s + 1) (by omega) (by omega)]
      have htake : env.entries.take (k + 1) = env.entries.take k ++ [env.entries[k]] := by
        rw [List.take_succ]
        simp [List.getElem?_eq_getElem hk]
      have hsub : k + 1 - (n + 1) = k - n := by omega
      rw [htake, hsub, List.drop_append_of_le_length (by simp; omega)]
      simp

theorem copiesOf_copyLocals (env : Environment) (s : Int)
    (h0 : 0 ≤ env.fixed_parameter_count) (h1 : env.fixed_parameter_count ≤ env.Length) :
    copiesOf (copyLocals env s)
      = (env.entries.drop env.fixed_parameter_count.toNat).reverse := by
  unfold copyLocals tripCount
  unfold Environment.Length at *
  have hn : (((env.entries.length : Int) - 1) - env.fixed_parameter_count + 1).toNat
      = env.entries.length - env.fixed_parameter_count.toNat := by omega
  rw [hn, copiesOf_copyLoop env _ env.entries.length s (by omega) le_rfl]
  have hd : env.entries.length - (env.entries.length - env.fixed_parameter_count.toNat)
      = env.fixed_parameter_count.toNat := by omega
  rw [hd, List.take_length]

theorem copiesOf_copyFixedParameters (env : Environment) (s : Int)
    (h0 : 0 ≤ env.fixed_parameter_count) (h1 : env.fixed_parameter_count ≤ env.Length) :
    copiesOf (copyFixedParameters env s)
      = (env.entries.take env.fixed_parameter_count.toNat).reverse := by
  unfold copyFixedParameters tripCount
  unfold Environment.Length at *
  have hn : (env.fixed_parameter_count - 1 - 0 + 1).toNat = env.fixed_parameter_count.toNat := by
    omega
  have hi : env.fixed_parameter_count - 1 = ((env.fixed_parameter_count.toNat : Nat) : Int) - 1 := by
    omega
  rw [hn, hi, copiesOf_copyLoop env _ env.fixed_parameter_count.toNat s le_rfl (by omega)]
  simp


theorem reverse_drop_append_reverse_take (xs : List (Value × Location)) (f : Nat) :
    (xs.drop f).reverse ++ (xs.take f).reverse = xs.reverse := by
  rw [← List.reverse_append, List.take_append_drop]

theorem outerFrames_cons (collab : DeoptCollaborators) (previous current : Environment)
    (outer : List Environment) (s : Int) :
    outerFrames collab previous (current :: outer) s
      = ([BuilderCall.AddPp current.code s,
          BuilderCall.AddPcMarker (some previous.code) (s + 1),
          BuilderCall.AddCallerFp (s + 2),
          BuilderCall.AddReturnAddress current.code (collab.ToDeoptAfter current.deopt_id) (s + 3)]
          ++ copyFixedParameters previous (s + 4)
          ++ copyLocals current (s + 4 + ((copyFixedParameters previous (s + 4)).length : Int))
          ++ (outerFrames collab current outer
                (s + 4 + ((copyFixedParameters previous (s + 4)).length : Int)
                  + ((copyLocals current
                      (s + 4 + ((copyFixedParameters previous (s + 4)).length : Int))).length
                      : Int))).1,
         (outerFrames collab current outer
                (s + 4 + ((copyFixedParameters previous (s + 4)).length : Int)
                  + ((copyLocals current
                      (s + 4 + ((copyFixedParameters previous (s + 4)).length : Int))).length
                      : Int))).2) := rfl

theorem CreateDeoptInfo_cons (collab : DeoptCollaborators) (deopt_id : Int)
    (current : Environment) (outer : List Environment) :
    CompilerDeoptInfo.CreateDeoptInfo collab ⟨deopt_id, current :: outer⟩
      = RawDeoptInfo.info
          ((collab.materializations (current :: outer)).map BuilderCall.AddMaterialization
            ++ [BuilderCall.MarkFrameStart,
                BuilderCall.AddPp current.code 0,
                BuilderCall.AddPcMarker none 1,
                BuilderCall.AddCallerFp 2,
                BuilderCall.AddReturnAddress current.code deopt_id 3,
                BuilderCall.EmitMaterializationArguments 4]
            ++ copyLocals current (collab.EmitMaterializationArguments 4)
            ++ (outerFrames collab current outer
                  (collab.EmitMaterializationArguments 4
                    + ((copyLocals current (collab.EmitMaterializationArguments 4)).length
                        : Int))).1
            ++ [BuilderCall.AddCallerPp
                  (outerFrames collab current outer
                    (collab.EmitMaterializationArguments 4
                      + ((copyLocals current (collab.EmitMaterializationArguments 4)).length
                          : Int))).2.2,
                BuilderCall.AddPcMarker
                  (some (outerFrames collab current outer
                    (collab.EmitMaterializationArguments 4
                      + ((copyLocals current (collab.EmitMaterializationArguments 4)).length
                          : Int))).2.1.code)
                  ((outerFrames collab current outer
                    (collab.EmitMaterializationArguments 4
                      + ((copyLocals current (collab.EmitMaterializationArguments 4)).length
                          : Int))).2.2 + 1),
                BuilderCall.AddCallerFp
                  ((outerFrames collab current outer
                    (collab.EmitMaterializationArguments 4
                      + ((copyLocals current (collab.EmitMaterializationArguments 4)).length
                          : Int))).2.2 + 2),
                BuilderCall.AddCallerPc
                  ((outerFrames collab current outer
                    (collab.EmitMaterializationArguments 4
                      + ((copyLocals current (collab.EmitMaterializationArguments 4)).length
                          : Int))).2.2 + 3)]
            ++ copyFixedParameters
                (outerFrames collab current outer
                  (collab.EmitMaterializationArguments 4
                    + ((copyLocals current (collab.EmitMaterializationArguments 4)).length
                        : Int))).2.1
                ((outerFrames collab current outer
                  (collab.EmitMaterializationArguments 4
                    + ((copyLocals current (collab.EmitMaterializationArguments 4)).length
                        : Int))).2.2 + 4)) := rfl

/-- The outer-frame loop followed by the incoming parameters of the last
environment copies, after the outgoing arguments of `previous`, every entry of
every outer environment, each environment from its highest index down. -/
theorem copiesOf_outerFrames (collab : DeoptCollaborators) :
    ∀ (outer : List Environment) (previous : Environment) (s s2 : Int),
      (∀ e ∈ previous :: outer, 0 ≤ e.fixed_parameter_count ∧ e.fixed_parameter_count ≤ e.Length) →
      copiesOf (outerFrames collab previous outer s).1
          ++ copiesOf (copyFixedParameters (outerFrames collab previous outer s).2.1 s2)
        = (previous.entries.take previous.fixed_parameter_count.toNat).reverse
          ++ outer.flatMap (fun e => e.entries.reverse) := by
  intro outer
  induction outer with
  | nil =>
      intro previous s s2 h
      have hp := h previous (by simp)
      simp [outerFrames, copiesOf, copiesOf_copyFixedParameters previous s2 hp.1 hp.2]
  | cons current outer ih =>
      intro previous s s2 h
      have hp := h previous (by simp)
      have hc := h current (by simp)
      have hrest : ∀ e ∈ current :: outer,
          0 ≤ e.fixed_parameter_count ∧ e.fixed_parameter_count ≤ e.Length := by
        intro e he
        exact h e (List.mem_cons_of_mem _ he)
      have key := ih current
        (s + 4 + ((copyFixedParameters previous (s + 4)).length : Int)
          + ((copyLocals current
              (s + 4 + ((copyFixedParameters previous (s + 4)).length : Int))).length : Int))
        s2 hrest
      rw [outerFrames_cons]
      simp only [copiesOf_append]
      have hh : copiesOf [BuilderCall.AddPp current.code s,
          BuilderCall.AddPcMarker (some previous.code) (s + 1),
          BuilderCall.AddCallerFp (s + 2),
          BuilderCall.AddReturnAddress current.code (collab.ToDeoptAfter current.deopt_id)
            (s + 3)] = [] := rfl
      rw [hh]
      simp only [List.append_assoc, List.nil_append, List.flatMap_cons]
      rw [key, copiesOf_copyFixedParameters previous _ hp.1 hp.2,
        copiesOf_copyLocals current _ hc.1 hc.2]
      rw [← List.append_assoc (List.drop _ _).reverse,
        reverse_drop_append_reverse_take]

theorem copiesOf_CreateDeoptInfo (collab : DeoptCollaborators) (deopt_id : Int)
    (current : Environment) (outer : List Environment)
    (h : ∀ e ∈ current :: outer, 0 ≤ e.fixed_parameter_count ∧ e.fixed_parameter_count ≤ e.Length) :
    ∃ calls,
      CompilerDeoptInfo.CreateDeoptInfo collab ⟨deopt_id, current :: outer⟩ = RawDeoptInfo.info calls
      ∧ copiesOf calls = (current :: outer).flatMap (fun e => e.entries.reverse) := by
  refine ⟨_, CreateDeoptInfo_cons collab deopt_id current outer, ?_⟩
  have hc := h current (by simp)
  simp only [copiesOf_append, copiesOf_materializations]
  have hh : copiesOf [BuilderCall.MarkFrameStart,
      BuilderCall.AddPp current.code 0,
      BuilderCall.AddPcMarker none 1,
      BuilderCall.AddCallerFp 2,
      BuilderCall.AddReturnAddress current.code deopt_id 3,
      BuilderCall.EmitMaterializationArguments 4] = [] := rfl
  have hcaller : ∀ (c : Code) (t : Int), copiesOf [BuilderCall.AddCallerPp t,
      BuilderCall.AddPcMarker (some c) (t + 1),
      BuilderCall.AddCallerFp (t + 2),
      BuilderCall.AddCallerPc (t + 3)] = [] := fun _ _ => rfl
  rw [hh, hcaller]
  simp only [List.nil_append, List.append_assoc, List.flatMap_cons]
  rw [copiesOf_outerFrames collab outer current _ _ h, copiesOf_copyLocals current _ hc.1 hc.2]
  rw [← List.append_assoc (List.drop _ _).reverse, reverse_drop_append_reverse_take]

theorem replayCopies_flatMap_reverse (envs : List Environment) :
    replayCopies (envs.map (fun e => e.entries.length))
        (envs.flatMap (fun e => e.entries.reverse))
      = envs.map (fun e => e.entries) := by
  induction envs with
  | nil => rfl
  | cons e es ih =>
      simp only [List.map_cons, List.flatMap_cons, replayCopies]
      have hl : e.entries.length = e.entries.reverse.length := by simp
      rw [List.take_left' hl.symm, List.drop_left' hl.symm, ih]
      simp

theorem flatMap_reverse_perm (envs : List Environment) :
    (envs.flatMap (fun e => e.entries.reverse)).Perm (envs.flatMap (fun e => e.entries)) := by
  induction envs with
  | nil => simp
  | cons e es ih =>
      simp only [List.flatMap_cons]
      exact List.Perm.append (List.reverse_perm _) ih

theorem copyLoop_eq_map_range (env : Environment) :
    ∀ (n : Nat) (i s : Int),
      copyLoop env n i s
        = (List.range n).map (fun (k : Nat) =>
            BuilderCall.AddCopy (env.ValueAt (i - (k : Int))) (env.LocationAt (i - (k : Int)))
              (s + (k : Int))) := by
  intro n
  induction n with
  | zero => intro i s; rfl
  | succ n ih =>
      intro i s
      rw [copyLoop, ih, List.range_succ_eq_map]
      simp only [List.map_cons, List.map_map, Nat.cast_zero, sub_zero, add_zero]
      congr 1
      apply List.map_congr_left
      intro k _
      simp only [Function.comp, Nat.cast_succ]
      have h1 : i - 1 - (k : Int) = i - ((k : Int) + 1) := by ring
      have h2 : s + 1 + (k : Int) = s + ((k : Int) + 1) := by ring
      rw [h1, h2]

theorem copyLoop_not_materialization (env : Environment) (n : Nat) (i s : Int) :
    ∀ c ∈ copyLoop env n i s, c.isMaterialization = false := by
  induction n generalizing i s with
  | zero => intro c hc; simp [copyLoop] at hc
  | succ n ih =>
      intro c hc
      simp only [copyLoop, List.mem_cons] at hc
      rcases hc with rfl | hc
      · rfl
      · exact ih _ _ c hc

theorem outerFrames_not_materialization (collab : DeoptCollaborators) :
    ∀ (outer : List Environment) (previous : Environment) (s : Int),
      ∀ c ∈ (outerFrames collab previous outer s).1, c.isMaterialization = false := by
  intro outer
  induction outer with
  | nil => intro previous s c hc; simp [outerFrames] at hc
  | cons current outer ih =>
      intro previous s c hc
      rw [outerFrames_cons] at hc
      simp only [List.mem_append, List.mem_cons, List.mem_singleton, List.not_mem_nil,
        or_false] at hc
      rcases hc with ((h | h) | h) | h
      · rcases h with rfl | rfl | rfl | rfl <;> rfl
      · exact copyLoop_not_materialization _ _ _ _ c h
      · exact copyLoop_not_materialization _ _ _ _ c h
      · exact ih _ _ c h

theorem outerFrames_head (collab : DeoptCollaborators) (outer : List Environment)
    (previous : Environment) (s : Int) :
    (outerFrames collab previous outer s).1 = []
      ∨ ∃ code s1 rest, (outerFrames collab previous outer s).1 = BuilderCall.AddPp code s1 :: rest := by
  cases outer with
  | nil => exact Or.inl rfl
  | cons current outer =>
      right
      rw [outerFrames_cons]
      exact ⟨current.code, s, _, by simp only [List.append_assoc, List.cons_append]; rfl⟩

/-- C1: for a non-empty environment chain in which every environment has
`0 <= fixed_parameter_count <= Length`, `CreateDeoptInfo` returns a table whose
`AddCopy` calls carry, counted with multiplicity, exactly the (value, location)
entries of the environments of the chain (one call per environment and index,
none for anything else), and replaying the copied pairs against the frame
lengths gives back the entry list of every environment, slot for slot. -/
theorem CreateDeoptInfo_copies_every_entry_once (collab : DeoptCollaborators)
    (info : CompilerDeoptInfo) (hne : info.deopt_env ≠ [])
    (hfix : ∀ e ∈ info.deopt_env,
      0 ≤ e.fixed_parameter_count ∧ e.fixed_parameter_count ≤ e.Length) :
    ∃ calls,
      CompilerDeoptInfo.CreateDeoptInfo collab info = RawDeoptInfo.info calls
      ∧ (copiesOf calls).Perm (info.deopt_env.flatMap (fun e => e.entries))
      ∧ replayCopies (info.deopt_env.map (fun e => e.entries.length)) (copiesOf calls)
          = info.deopt_env.map (fun e => e.entries) := by
  obtain ⟨deopt_id, chain⟩ := info
  cases chain with
  | nil => exact absurd rfl hne
  | cons current outer =>
      obtain ⟨calls, hcalls, hcopies⟩ := copiesOf_CreateDeoptInfo collab deopt_id current outer hfix
      refine ⟨calls, hcalls, ?_, ?_⟩
      · rw [hcopies]
        exact flatMap_reverse_perm _
      · rw [hcopies]
        exact replayCopies_flatMap_reverse _

/-- C1 on a chain of three inlined frames: the hypotheses hold there and the
three entry lists are recovered from the table. -/
theorem CreateDeoptInfo_copies_every_entry_once_witness :
    sampleDeoptInfo.deopt_env ≠ []
    ∧ (∀ e ∈ sampleDeoptInfo.deopt_env,
        0 ≤ e.fixed_parameter_count ∧ e.fixed_parameter_count ≤ e.Length)
    ∧ ∃ calls,
        CompilerDeoptInfo.CreateDeoptInfo sampleCollaborators sampleDeoptInfo
          = RawDeoptInfo.info calls
        ∧ (copiesOf calls).Perm (sampleDeoptInfo.deopt_env.flatMap (fun e => e.entries))
        ∧ replayCopies (sampleDeoptInfo.deopt_env.map (fun e => e.entries.length))
            (copiesOf calls)
          = sampleDeoptInfo.deopt_env.map (fun e => e.entries) :=
  ⟨by decide, by decide,
    CreateDeoptInfo_copies_every_entry_once sampleCollaborators sampleDeoptInfo
      (by decide) (by decide)⟩

/-- C10: for a non-null innermost environment `e0` the builder calls are, in
order: every object-materialization instruction; the frame-start mark; at
slots 0, 1, 2, 3 the pool pointer of `e0`'s code, a PC marker with an empty
code object, the caller frame pointer and the return address for `e0`'s code
and the deopt point's own deopt id; the materialization arguments, given slot
4; the `AddCopy` of `e0`'s entries at indices `Length(e0) - 1` down to
`fixed_parameter_count(e0)`, one index lower and one slot higher at each step.
What follows starts the next frame header and holds no materialization. -/
theorem CreateDeoptInfo_innermost_frame (collab : DeoptCollaborators) (deopt_id : Int)
    (e0 : Environment) (outer : List Environment) :
    ∃ c rest,
      CompilerDeoptInfo.CreateDeoptInfo collab ⟨deopt_id, e0 :: outer⟩
        = RawDeoptInfo.info
            ((collab.materializations (e0 :: outer)).map BuilderCall.AddMaterialization
              ++ [BuilderCall.MarkFrameStart,
                  BuilderCall.AddPp e0.code 0,
                  BuilderCall.AddPcMarker none 1,
                  BuilderCall.AddCallerFp 2,
                  BuilderCall.AddReturnAddress e0.code deopt_id 3,
                  BuilderCall.EmitMaterializationArguments 4]
              ++ (List.range (e0.Length - e0.fixed_parameter_count).toNat).map
                  (fun (k : Nat) =>
                    BuilderCall.AddCopy (e0.ValueAt (e0.Length - 1 - (k : Int)))
                      (e0.LocationAt (e0.Length - 1 - (k : Int)))
                      (collab.EmitMaterializationArguments 4 + (k : Int)))
              ++ c :: rest)
      ∧ c.isPoolPointer = true
      ∧ ∀ x ∈ c :: rest, x.isMaterialization = false := by
  have hloc : copyLocals e0 (collab.EmitMaterializationArguments 4)
      = (List.range (e0.Length - e0.fixed_parameter_count).toNat).map
          (fun (k : Nat) =>
            BuilderCall.AddCopy (e0.ValueAt (e0.Length - 1 - (k : Int)))
              (e0.LocationAt (e0.Length - 1 - (k : Int)))
              (collab.EmitMaterializationArguments 4 + (k : Int))) := by
    unfold copyLocals tripCount
    rw [copyLoop_eq_map_range]
    have : e0.Length - 1 - e0.fixed_parameter_count + 1 = e0.Length - e0.fixed_parameter_count := by
      ring
    rw [this]
  have hhead := outerFrames_head collab outer e0
    (collab.EmitMaterializationArguments 4
      + ((copyLocals e0 (collab.EmitMaterializationArguments 4)).length : Int))
  have hmat := outerFrames_not_materialization collab outer e0
    (collab.EmitMaterializationArguments 4
      + ((copyLocals e0 (collab.EmitMaterializationArguments 4)).length : Int))
  rw [CreateDeoptInfo_cons]
  generalize outerFrames collab e0 outer
    (collab.EmitMaterializationArguments 4
      + ((copyLocals e0 (collab.EmitMaterializationArguments 4)).length : Int)) = F at hhead hmat
  obtain ⟨frames, previous, s3⟩ := F
  rw [hloc]
  have hincoming : ∀ x ∈ copyFixedParameters previous (s3 + 4), x.isMaterialization = false :=
    copyLoop_not_materialization _ _ _ _
  simp only at hhead hmat ⊢
  rcases hhead with hnil | ⟨code, s, fs, hcons⟩
  · subst hnil
    refine ⟨BuilderCall.AddCallerPp s3,
      [BuilderCall.AddPcMarker (some previous.code) (s3 + 1), BuilderCall.AddCallerFp (s3 + 2),
        BuilderCall.AddCallerPc (s3 + 3)] ++ copyFixedParameters previous (s3 + 4), ?_, rfl, ?_⟩
    · simp only [List.append_assoc, List.nil_append, List.cons_append, List.append_nil]
    · intro x hx
      simp only [List.mem_cons, List.mem_append, List.not_mem_nil, or_false] at hx
      rcases hx with rfl | (rfl | rfl | rfl) | hx
      · rfl
      · rfl
      · rfl
      · rfl
      · exact hincoming x hx
  · subst hcons
    refine ⟨BuilderCall.AddPp code s,
      fs ++ [BuilderCall.AddCallerPp s3, BuilderCall.AddPcMarker (some previous.code) (s3 + 1),
        BuilderCall.AddCallerFp (s3 + 2), BuilderCall.AddCallerPc (s3 + 3)]
        ++ copyFixedParameters previous (s3 + 4), ?_, rfl, ?_⟩
    · simp only [List.append_assoc, List.nil_append, List.cons_append, List.append_nil]
    · intro x hx
      simp only [List.mem_cons, List.mem_append, List.not_mem_nil, or_false] at hx
      rcases hx with rfl | (hx | rfl | rfl | rfl | rfl) | hx
      · rfl
      · exact hmat x (List.mem_cons_of_mem _ hx)
      · rfl
      · rfl
      · rfl
      · rfl
      · exact hincoming x hx

theorem copyFixedParameters_eq_map_range (env : Environment) (s : Int) :
    copyFixedParameters env s
      = (List.range env.fixed_parameter_count.toNat).map
          (fun (k : Nat) =>
            BuilderCall.AddCopy (env.ValueAt (env.fixed_parameter_count - 1 - (k : Int)))
              (env.LocationAt (env.fixed_parameter_count - 1 - (k : Int))) (s + (k : Int))) := by
  unfold copyFixedParameters tripCount
  rw [copyLoop_eq_map_range]
  have : env.fixed_parameter_count - 1 - 0 + 1 = env.fixed_parameter_count := by ring
  rw [this]

theorem copyLocals_eq_map_range (env : Environment) (s : Int) :
    copyLocals env s
      = (List.range (env.Length - env.fixed_parameter_count).toNat).map
          (fun (k : Nat) =>
            BuilderCall.AddCopy (env.ValueAt (env.Length - 1 - (k : Int)))
              (env.LocationAt (env.Length - 1 - (k : Int))) (s + (k : Int))) := by
  unfold copyLocals tripCount
  rw [copyLoop_eq_map_range]
  have : env.Length - 1 - env.fixed_parameter_count + 1
      = env.Length - env.fixed_parameter_count := by ring
  rw [this]

theorem length_copyFixedParameters (env : Environment) (s : Int) :
    (copyFixedParameters env s).length = env.fixed_parameter_count.toNat := by
  rw [copyFixedParameters_eq_map_range, List.length_map, List.length_range]

/-- The block the outer-frame loop emits for the iteration whose `previous` and
`current` are the given environments sits inside the calls of the loop. -/
theorem outerFrames_frame (collab : DeoptCollaborators) (previous current : Environment)
    (outer : List Environment) :
    ∀ (inner : List Environment) (start : Environment) (s : Int),
      ∃ before after s1,
        (outerFrames collab start (inner ++ previous :: current :: outer) s).1
          = before
            ++ ([BuilderCall.AddPp current.code s1,
                 BuilderCall.AddPcMarker (some previous.code) (s1 + 1),
                 BuilderCall.AddCallerFp (s1 + 2),
                 BuilderCall.AddReturnAddress current.code
                   (collab.ToDeoptAfter current.deopt_id) (s1 + 3)]
                ++ copyFixedParameters previous (s1 + 4)
                ++ copyLocals current (s1 + 4 + (previous.fixed_parameter_count.toNat : Int)))
            ++ after := by
  intro inner
  induction inner with
  | nil =>
      intro start s
      rw [List.nil_append, outerFrames_cons, outerFrames_cons]
      simp only [length_copyFixedParameters]
      generalize s + 4 + (start.fixed_parameter_count.toNat : Int)
        + ((copyLocals previous
            (s + 4 + (start.fixed_parameter_count.toNat : Int))).length : Int) = s1
      generalize (outerFrames collab current outer _).1 = after
      refine ⟨[BuilderCall.AddPp previous.code s,
          BuilderCall.AddPcMarker (some start.code) (s + 1),
          BuilderCall.AddCallerFp (s + 2),
          BuilderCall.AddReturnAddress previous.code
            (collab.ToDeoptAfter previous.deopt_id) (s + 3)]
          ++ copyFixedParameters start (s + 4)
          ++ copyLocals previous (s + 4 + (start.fixed_parameter_count.toNat : Int)),
        after, s1, ?_⟩
      simp only [List.append_assoc]
  | cons e inner ih =>
      intro start s
      rw [List.cons_append, outerFrames_cons]
      obtain ⟨before, after, s1, h⟩ := ih e
        (s + 4 + ((copyFixedParameters start (s + 4)).length : Int)
          + ((copyLocals e
              (s + 4 + ((copyFixedParameters start (s + 4)).length : Int))).length : Int))
      rw [h]
      refine ⟨[BuilderCall.AddPp e.code s,
          BuilderCall.AddPcMarker (some start.code) (s + 1),
          BuilderCall.AddCallerFp (s + 2),
          BuilderCall.AddReturnAddress e.code (collab.ToDeoptAfter e.deopt_id) (s + 3)]
          ++ copyFixedParameters start (s + 4)
          ++ copyLocals e (s + 4 + ((copyFixedParameters start (s + 4)).length : Int))
          ++ before, after, s1, ?_⟩
      simp only [List.append_assoc]

/-- C11: for every outer environment `current` of the chain (one that has an
inner neighbour `previous`), the builder receives, in this order and at
consecutive slots starting at some slot `s`: the pool pointer of `current`'s
code; the PC marker of `previous`'s code; the caller frame pointer; the return
address for `current`'s code and `ToDeoptAfter(current.deopt_id)`; then the
`AddCopy` of `previous`'s entries at indices `fixed_parameter_count(previous) - 1`
down to 0 (the outgoing arguments); then the `AddCopy` of `current`'s entries at
indices `Length(current) - 1` down to `fixed_parameter_count(current)`. -/
theorem CreateDeoptInfo_outer_frame (collab : DeoptCollaborators) (deopt_id : Int)
    (inner : List Environment) (previous current : Environment) (outer : List Environment) :
    ∃ before after s,
      CompilerDeoptInfo.CreateDeoptInfo collab
          ⟨deopt_id, inner ++ previous :: current :: outer⟩
        = RawDeoptInfo.info
            (before
              ++ [BuilderCall.AddPp current.code s,
                  BuilderCall.AddPcMarker (some previous.code) (s + 1),
                  BuilderCall.AddCallerFp (s + 2),
                  BuilderCall.AddReturnAddress current.code
                    (collab.ToDeoptAfter current.deopt_id) (s + 3)]
              ++ (List.range previous.fixed_parameter_count.toNat).map
                  (fun (k : Nat) =>
                    BuilderCall.AddCopy
                      (previous.ValueAt (previous.fixed_parameter_count - 1 - (k : Int)))
                      (previous.LocationAt (previous.fixed_parameter_count - 1 - (k : Int)))
                      (s + 4 + (k : Int)))
              ++ (List.range (current.Length - current.fixed_parameter_count).toNat).map
                  (fun (k : Nat) =>
                    BuilderCall.AddCopy (current.ValueAt (current.Length - 1 - (k : Int)))
                      (current.LocationAt (current.Length - 1 - (k : Int)))
                      (s + 4 + (previous.fixed_parameter_count.toNat : Int) + (k : Int)))
              ++ after) := by
  have key : ∀ (start : Environment) (rest : List Environment) (s0 : Int),
      start :: rest = inner ++ previous :: current :: outer →
      ∃ before after s1,
        (outerFrames collab start rest s0).1
          = before
            ++ ([BuilderCall.AddPp current.code s1,
                 BuilderCall.AddPcMarker (some previous.code) (s1 + 1),
                 BuilderCall.AddCallerFp (s1 + 2),
                 BuilderCall.AddReturnAddress current.code
                   (collab.ToDeoptAfter current.deopt_id) (s1 + 3)]
                ++ copyFixedParameters previous (s1 + 4)
                ++ copyLocals current (s1 + 4 + (previous.fixed_parameter_count.toNat : Int)))
            ++ after := by
    intro start rest s0 h
    cases inner with
    | nil =>
        simp only [List.nil_append, List.cons.injEq] at h
        obtain ⟨rfl, rfl⟩ := h
        rw [outerFrames_cons]
        simp only [length_copyFixedParameters]
        exact ⟨[], _, s0, rfl⟩
    | cons e inner =>
        simp only [List.cons_append, List.cons.injEq] at h
        obtain ⟨rfl, rfl⟩ := h
        exact outerFrames_frame collab previous current outer inner start s0
  obtain ⟨start, rest, hchain⟩ : ∃ start rest,
      inner ++ previous :: current :: outer = start :: rest := by
    cases inner with
    | nil => exact ⟨_, _, rfl⟩
    | cons e inner => exact ⟨_, _, rfl⟩
  rw [hchain, CreateDeoptInfo_cons]
  obtain ⟨before, after, s1, h⟩ := key start rest
    (collab.EmitMaterializationArguments 4
      + ((copyLocals start (collab.EmitMaterializationArguments 4)).length : Int)) hchain.symm
  rw [copyFixedParameters_eq_map_range previous (s1 + 4),
    copyLocals_eq_map_range current
      (s1 + 4 + (previous.fixed_parameter_count.toNat : Int))] at h
  generalize outerFrames collab start rest
    (collab.EmitMaterializationArguments 4
      + ((copyLocals start (collab.EmitMaterializationArguments 4)).length : Int)) = F at h
  obtain ⟨frames, last, s3⟩ := F
  simp only at h
  subst h
  refine ⟨(collab.materializations (start :: rest)).map BuilderCall.AddMaterialization
      ++ [BuilderCall.MarkFrameStart,
          BuilderCall.AddPp start.code 0,
          BuilderCall.AddPcMarker none 1,
          BuilderCall.AddCallerFp 2,
          BuilderCall.AddReturnAddress start.code deopt_id 3,
          BuilderCall.EmitMaterializationArguments 4]
      ++ copyLocals start (collab.EmitMaterializationArguments 4)
      ++ before,
    after ++ [BuilderCall.AddCallerPp s3, BuilderCall.AddPcMarker (some last.code) (s3 + 1),
        BuilderCall.AddCallerFp (s3 + 2), BuilderCall.AddCallerPc (s3 + 3)]
      ++ copyFixedParameters last (s3 + 4),
    s1, ?_⟩
  simp only [List.append_assoc, List.cons_append, List.nil_append]

/-- The environment the outer-frame loop leaves in `previous` is the last
environment of the chain. -/
theorem outerFrames_previous (collab : DeoptCollaborators) (ek : Environment) :
    ∀ (rest : List Environment) (start : Environment) (init : List Environment) (s : Int),
      start :: rest = init ++ [ek] → (outerFrames collab start rest s).2.1 = ek := by
  intro rest
  induction rest with
  | nil =>
      intro start init s h
      cases init with
      | nil =>
          simp only [List.nil_append, List.cons.injEq, and_true] at h
          subst h
          rfl
      | cons e init =>
          simp only [List.cons_append, List.cons.injEq] at h
          have := h.2
          simp at this
  | cons c rest ih =>
      intro start init s h
      cases init with
      | nil => simp at h
      | cons e init =>
          simp only [List.cons_append, List.cons.injEq] at h
          rw [outerFrames_cons]
          exact ih c init _ h.2

/-- C12: the table ends with the caller frame of the outermost environment
`ek`: at consecutive slots the caller pool pointer, the PC marker of `ek`'s
code, the caller frame pointer and the caller PC, followed by the `AddCopy` of
`ek`'s entries at indices `fixed_parameter_count(ek) - 1` down to 0, and
nothing after them. With a single environment these calls directly follow the
copies of the innermost frame's locals. -/
theorem CreateDeoptInfo_caller_frame (collab : DeoptCollaborators) (deopt_id : Int)
    (init : List Environment) (ek : Environment) :
    (∃ before s,
      CompilerDeoptInfo.CreateDeoptInfo collab ⟨deopt_id, init ++ [ek]⟩
        = RawDeoptInfo.info
            (before
              ++ [BuilderCall.AddCallerPp s,
                  BuilderCall.AddPcMarker (some ek.code) (s + 1),
                  BuilderCall.AddCallerFp (s + 2),
                  BuilderCall.AddCallerPc (s + 3)]
              ++ (List.range ek.fixed_parameter_count.toNat).map
                  (fun (k : Nat) =>
                    BuilderCall.AddCopy (ek.ValueAt (ek.fixed_parameter_count - 1 - (k : Int)))
                      (ek.LocationAt (ek.fixed_parameter_count - 1 - (k : Int)))
                      (s + 4 + (k : Int)))))
    ∧ CompilerDeoptInfo.CreateDeoptInfo collab ⟨deopt_id, [ek]⟩
        = RawDeoptInfo.info
            ((collab.materializations [ek]).map BuilderCall.AddMaterialization
              ++ [BuilderCall.MarkFrameStart,
                  BuilderCall.AddPp ek.code 0,
                  BuilderCall.AddPcMarker none 1,
                  BuilderCall.AddCallerFp 2,
                  BuilderCall.AddReturnAddress ek.code deopt_id 3,
                  BuilderCall.EmitMaterializationArguments 4]
              ++ (List.range (ek.Length - ek.fixed_parameter_count).toNat).map
                  (fun (k : Nat) =>
                    BuilderCall.AddCopy (ek.ValueAt (ek.Length - 1 - (k : Int)))
                      (ek.LocationAt (ek.Length - 1 - (k : Int)))
                      (collab.EmitMaterializationArguments 4 + (k : Int)))
              ++ [BuilderCall.AddCallerPp
                    (collab.EmitMaterializationArguments 4
                      + ((ek.Length - ek.fixed_parameter_count).toNat : Int)),
                  BuilderCall.AddPcMarker (some ek.code)
                    (collab.EmitMaterializationArguments 4
                      + ((ek.Length - ek.fixed_parameter_count).toNat : Int) + 1),
                  BuilderCall.AddCallerFp
                    (collab.EmitMaterializationArguments 4
                      + ((ek.Length - ek.fixed_parameter_count).toNat : Int) + 2),
                  BuilderCall.AddCallerPc
                    (collab.EmitMaterializationArguments 4
                      + ((ek.Length - ek.fixed_parameter_count).toNat : Int) + 3)]
              ++ (List.range ek.fixed_parameter_count.toNat).map
                  (fun (k : Nat) =>
                    BuilderCall.AddCopy (ek.ValueAt (ek.fixed_parameter_count - 1 - (k : Int)))
                      (ek.LocationAt (ek.fixed_parameter_count - 1 - (k : Int)))
                      (collab.EmitMaterializationArguments 4
                        + ((ek.Length - ek.fixed_parameter_count).toNat : Int) + 4 + (k : Int)))) := by
  constructor
  · obtain ⟨start, rest, hchain⟩ : ∃ start rest, init ++ [ek] = start :: rest := by
      cases init with
      | nil => exact ⟨_, _, rfl⟩
      | cons e init => exact ⟨_, _, rfl⟩
    rw [hchain, CreateDeoptInfo_cons]
    have hlast := outerFrames_previous collab ek rest start init
      (collab.EmitMaterializationArguments 4
        + ((copyLocals start (collab.EmitMaterializationArguments 4)).length : Int)) hchain.symm
    generalize outerFrames collab start rest
      (collab.EmitMaterializationArguments 4
        + ((copyLocals start (collab.EmitMaterializationArguments 4)).length : Int)) = F at hlast
    obtain ⟨frames, last, s3⟩ := F
    simp only at hlast
    subst hlast
    simp only
    rw [copyFixedParameters_eq_map_range last (s3 + 4)]
    exact ⟨_, s3, rfl⟩
  · rw [CreateDeoptInfo_cons]
    have hlen : ((copyLocals ek (collab.EmitMaterializationArguments 4)).length : Int)
        = ((ek.Length - ek.fixed_parameter_count).toNat : Int) := by
      rw [copyLocals_eq_map_range, List.length_map, List.length_range]
    simp only [outerFrames, hlen, List.append_nil]
    rw [copyFixedParameters_eq_map_range, copyLocals_eq_map_range]

/-- C13, the claim as stated fails: for the sample deopt point without a captured
environment `CreateDeoptInfo` completes and returns the null entry. -/
theorem CreateDeoptInfo_returns_null_entry :
    CompilerDeoptInfo.CreateDeoptInfo sampleCollaborators sampleCallDeoptInfo
      = RawDeoptInfo.null := by
  rfl

/-- C13 as amended: invoked with a null environment `CreateDeoptInfo` completes
normally and returns the null entry, no call being made on the builder; the
missing environment is fatal in `CompilerDeoptInfoWithStub::GenerateCode`,
whose assertion `deopt_env() != NULL` fails for it whatever the reason and
the trap flag are, while a stub with a captured environment and a reason other
than `kDeoptAtCall` is generated. -/
theorem CreateDeoptInfo_null_environment (collab : DeoptCollaborators) (deopt_id : Int)
    (reason : DeoptReasonId) (FLAG_trap_on_deoptimization : Bool) (code_size : Nat) :
    CompilerDeoptInfo.CreateDeoptInfo collab ⟨deopt_id, []⟩ = RawDeoptInfo.null
      ∧ CompilerDeoptInfoWithStub.GenerateCode FLAG_trap_on_deoptimization code_size
          ⟨⟨deopt_id, []⟩, reason⟩ = none
      ∧ ∀ (e : Environment) (outer : List Environment) (id : Nat),
          (CompilerDeoptInfoWithStub.GenerateCode FLAG_trap_on_deoptimization code_size
            ⟨⟨deopt_id, e :: outer⟩, DeoptReasonId.kDeoptOther id⟩).isSome = true := by
  refine ⟨rfl, ?_, ?_⟩
  · unfold CompilerDeoptInfoWithStub.GenerateCode
    split
    · rfl
    · simp
  · intro e outer id
    simp [CompilerDeoptInfoWithStub.GenerateCode]

/-! ## Properties of the parallel move resolver -/

/-- C3: for the batch {A -> B, B -> A} on general registers, `EmitSwap` applied
to the move A -> B emits exactly one instruction, the exchange of A and B (no
copy), marks that move eliminated and rewrites the source of the other move
from B to A, which makes it the redundant self-move A -> A; running the emitted
code leaves in B the old value of A and in A the old value of B. -/
theorem EmitSwap_two_cycle (scope : ScratchFpuRegisterScope) (A B : Register)
    (st : MachineState) :
    ParallelMoveResolver.EmitSwap scope
        [⟨Location.reg A, Location.reg B, false⟩, ⟨Location.reg B, Location.reg A, false⟩] 0
      = some ([MoveInstr.xchgq B A],
          [⟨Location.reg A, Location.reg B, true⟩, ⟨Location.reg A, Location.reg A, false⟩])
    ∧ MoveOperands.IsRedundant ⟨Location.reg A, Location.reg A, false⟩ = true
    ∧ (MoveInstr.run [MoveInstr.xchgq B A] st).valueAt (Location.reg B)
        = st.valueAt (Location.reg A)
    ∧ (MoveInstr.run [MoveInstr.xchgq B A] st).valueAt (Location.reg A)
        = st.valueAt (Location.reg B) := by
  refine ⟨?_, ?_, ?_, ?_⟩
  · by_cases h : B = A
    · subst h
      simp [ParallelMoveResolver.EmitSwap, ParallelMoveResolver.EmitSwapCode,
        ParallelMoveResolver.rewriteSource, MoveOperands.Blocks, MoveOperands.Eliminate,
        MoveOperands.IsEliminated, MoveOperands.set_src, Location.Equals]
    · simp [ParallelMoveResolver.EmitSwap, ParallelMoveResolver.EmitSwapCode,
        ParallelMoveResolver.rewriteSource, MoveOperands.Blocks, MoveOperands.Eliminate,
        MoveOperands.IsEliminated, MoveOperands.set_src, Location.Equals, h]
  · simp [MoveOperands.IsRedundant, Location.Equals]
  · by_cases h : B = A
    · subst h
      simp [MoveInstr.run, MoveInstr.step, MachineState.store, MachineState.valueAt]
    · simp [MoveInstr.run, MoveInstr.step, MachineState.store, MachineState.valueAt, h]
  · by_cases h : A = B
    · subst h
      simp [MoveInstr.run, MoveInstr.step, MachineState.store, MachineState.valueAt]
    · simp [MoveInstr.run, MoveInstr.step, MachineState.store, MachineState.valueAt, h]

/-! ## Properties of the megamorphic probe -/

theorem two_mul_land_two_mul (a b : Nat) : (2 * a) &&& (2 * b) = 2 * (a &&& b) := by
  have h := Nat.land_bit false a false b
  simpa [Nat.bit_val] using h

/-- Masking a Smi-tagged index with the Smi-tagged mask `2 ^ k - 1` reduces the
index modulo `2 ^ k`. -/
theorem tagged_land_mask (x k : Nat) : (2 * x) &&& (2 * (2 ^ k - 1)) = 2 * (x % 2 ^ k) := by
  rw [two_mul_land_two_mul, Nat.and_pow_two_sub_one_eq_mod]

theorem wrap64_tagged_succ (x k : Nat) (hk : k < 64) :
    wrap64 (2 * (x % 2 ^ k) + 2) &&& (2 * (2 ^ k - 1)) = 2 * ((x + 1) % 2 ^ k) := by
  have hpow : 2 ^ k * 2 ≤ 2 ^ 64 := by
    have : 2 ^ (k + 1) ≤ 2 ^ 64 := Nat.pow_le_pow_right (by norm_num) (by omega)
    simpa [pow_succ] using this
  have hlt : x % 2 ^ k < 2 ^ k := Nat.mod_lt _ (by positivity)
  have heq : 2 * (x % 2 ^ k) + 2 = 2 * (x % 2 ^ k + 1) := by ring
  unfold wrap64
  rw [heq]
  have hstep : (x + 1) % 2 ^ k = (x % 2 ^ k + 1) % 2 ^ k := by
    rw [Nat.add_mod x 1, Nat.add_mod (x % 2 ^ k) 1, Nat.mod_mod]
  by_cases hfull : 2 * (x % 2 ^ k + 1) < 2 ^ 64
  · rw [Nat.mod_eq_of_lt hfull, tagged_land_mask, hstep]
  · have hmax : 2 * (x % 2 ^ k + 1) = 2 ^ 64 := by omega
    have hk1 : x % 2 ^ k + 1 = 2 ^ k := by omega
    rw [hmax, Nat.mod_self, Nat.zero_and, hstep, hk1, Nat.mod_self]

theorem receiverKey_land_mask (kSmiCid : Nat) (receiver : Receiver) (k : Nat) (hk : k < 64) :
    FlowGraphCompiler.receiverKey kSmiCid receiver &&& (2 * (2 ^ k - 1))
      = 2 * (receiver.classId kSmiCid % 2 ^ k) := by
  have hdvd : 2 ^ k ∣ 2 ^ 63 := Nat.pow_dvd_pow 2 (by omega)
  have h64 : (2 : Nat) ^ 64 = 2 * 2 ^ 63 := by norm_num
  cases receiver with
  | smi =>
      simp only [FlowGraphCompiler.receiverKey, Receiver.classId, wrap64]
      rw [h64, Nat.mul_mod_mul_left, tagged_land_mask, Nat.mod_mod_of_dvd _ hdvd]
  | object cid =>
      simp only [FlowGraphCompiler.receiverKey, Receiver.classId, wrap64]
      rw [Nat.mul_comm cid 2, h64, Nat.mul_mod_mul_left, tagged_land_mask,
        Nat.mod_mod_of_dvd _ hdvd]

/-- From a cursor that masks to bucket `(c + i) mod 2 ^ k`, if the first bucket
in probe order that is empty or holds the key is `d` steps away, the loop
inspects exactly the `d + 1` buckets up to it and stops there. -/
theorem probeLoop_steps (cache : MegamorphicCache) (rax c k : Nat) (hk : k < 64)
    (hmask : cache.mask = 2 * (2 ^ k - 1)) :
    ∀ (d i rcx fuel : Nat),
      rcx &&& cache.mask = 2 * ((c + i) % 2 ^ k) →
      (∀ j, j < d → ¬ (cache.buckets (2 * ((c + (i + j)) % 2 ^ k)) = 0
                      ∨ cache.buckets (2 * ((c + (i + j)) % 2 ^ k)) = rax)) →
      (cache.buckets (2 * ((c + (i + d)) % 2 ^ k)) = 0
          ∨ cache.buckets (2 * ((c + (i + d)) % 2 ^ k)) = rax) →
      d < fuel →
      FlowGraphCompiler.probeLoop cache rax fuel rcx
        = some { inspected := (List.range (d + 1)).map (fun j => 2 * ((c + (i + j)) % 2 ^ k)),
                 rcx := 2 * ((c + (i + d)) % 2 ^ k) } := by
  intro d
  induction d with
  | zero =>
      intro i rcx fuel hrcx _ hstop hfuel
      obtain ⟨f, rfl⟩ : ∃ f, fuel = f + 1 := ⟨fuel - 1, by omega⟩
      simp only [FlowGraphCompiler.probeLoop, hrcx, Nat.add_zero] at hstop ⊢
      rcases hstop with h0 | hkey
      · simp [h0, List.range_succ]
      · by_cases h0 : cache.buckets (2 * ((c + i) % 2 ^ k)) = 0
        · simp [h0, List.range_succ]
        · simp [h0, hkey, List.range_succ]
  | succ d ih =>
      intro i rcx fuel hrcx hnot hstop hfuel
      obtain ⟨f, rfl⟩ : ∃ f, fuel = f + 1 := ⟨fuel - 1, by omega⟩
      have hhere := hnot 0 (by omega)
      simp only [Nat.add_zero, not_or] at hhere
      have hnext : wrap64 (2 * ((c + i) % 2 ^ k) + 2) &&& cache.mask
          = 2 * ((c + (i + 1)) % 2 ^ k) := by
        rw [hmask, wrap64_tagged_succ _ _ hk, Nat.add_assoc]
      have hrec := ih (i + 1) (wrap64 (2 * ((c + i) % 2 ^ k) + 2)) f hnext
        (by
          intro j hj
          have := hnot (j + 1) (by omega)
          rwa [show i + 1 + j = i + (j + 1) by omega])
        (by rwa [show i + 1 + d = i + (d + 1) by omega])
        (by omega)
      simp only [FlowGraphCompiler.probeLoop, hrcx, hhere.1, hhere.2, if_false, ne_eq,
        not_false_eq_true, if_true, hrec]
      rw [List.range_succ_eq_map (d + 1)]
      simp only [List.map_cons, List.map_map, Nat.add_zero, Option.some.injEq,
        ProbeResult.mk.injEq, List.cons.injEq, true_and]
      refine ⟨?_, by rw [show i + 1 + d = i + (d + 1) by omega]⟩
      apply List.map_congr_left
      intro j _
      simp only [Function.comp, Nat.succ_eq_add_one]
      rw [show i + 1 + j = i + (j + 1) by omega]

theorem probe_reaches_bucket (c e k : Nat) (he : e < 2 ^ k) :
    (c + (e + 2 ^ k - c % 2 ^ k) % 2 ^ k) % 2 ^ k = e := by
  have hr : c % 2 ^ k < 2 ^ k := Nat.mod_lt _ (by positivity)
  have hsum : c % 2 ^ k + (e + 2 ^ k - c % 2 ^ k) = e + 2 ^ k := by omega
  calc (c + (e + 2 ^ k - c % 2 ^ k) % 2 ^ k) % 2 ^ k
      = (c % 2 ^ k + (e + 2 ^ k - c % 2 ^ k) % 2 ^ k) % 2 ^ k := by
        rw [Nat.add_mod, Nat.mod_mod]
    _ = (c % 2 ^ k + (e + 2 ^ k - c % 2 ^ k)) % 2 ^ k := by
        conv_rhs => rw [Nat.add_mod, Nat.mod_mod]
    _ = e := by rw [hsum, Nat.add_mod_right, Nat.mod_eq_of_lt he]

/-- C7: with `2 ^ k` buckets, the mask `2 ^ k - 1` held Smi-tagged, and at least
one empty bucket, the probe started for a receiver of class id `c` reaches
`call_target_function` after `n` passes through the loop for some
`1 <= n <= 2 ^ k` (so `2 ^ k` units of fuel always suffice), and the buckets it
inspects are, in order, those of index `(c + i) mod 2 ^ k` for `i = 0 .. n - 1`
(RCX holds the bucket index Smi-tagged, that is doubled). -/
theorem EmitMegamorphicInstanceCall_probe_terminates (kSmiCid : Nat) (cache : MegamorphicCache)
    (receiver : Receiver) (k : Nat) (hk : k < 64) (hmask : cache.mask = 2 * (2 ^ k - 1))
    (hempty : ∃ e, e < 2 ^ k ∧ cache.buckets (2 * e) = 0) :
    ∃ n, 1 ≤ n ∧ n ≤ 2 ^ k ∧
      ∀ fuel, n ≤ fuel →
        ∃ r target,
          FlowGraphCompiler.EmitMegamorphicInstanceCall kSmiCid cache receiver fuel
            = some (r, target)
          ∧ r.inspected
              = (List.range n).map (fun i => 2 * ((receiver.classId kSmiCid + i) % 2 ^ k)) := by
  obtain ⟨e, he, hzero⟩ := hempty
  let c := receiver.classId kSmiCid
  let rax := FlowGraphCompiler.receiverKey kSmiCid receiver
  let stop : Nat → Prop := fun i =>
    cache.buckets (2 * ((c + (0 + i)) % 2 ^ k)) = 0
      ∨ cache.buckets (2 * ((c + (0 + i)) % 2 ^ k)) = rax
  have hex : ∃ i, stop i := by
    refine ⟨(e + 2 ^ k - c % 2 ^ k) % 2 ^ k, Or.inl ?_⟩
    rw [Nat.zero_add, probe_reaches_bucket c e k he]
    exact hzero
  have hdec : DecidablePred stop := fun i => by
    show Decidable (_ ∨ _)
    infer_instance
  let d := Nat.find hex
  have hd : d ≤ (e + 2 ^ k - c % 2 ^ k) % 2 ^ k := by
    apply Nat.find_min'
    show stop _
    refine Or.inl ?_
    rw [Nat.zero_add, probe_reaches_bucket c e k he]
    exact hzero
  have hdlt : d < 2 ^ k := lt_of_le_of_lt hd (Nat.mod_lt _ (by positivity))
  refine ⟨d + 1, by omega, by omega, ?_⟩
  intro fuel hfuel
  have hstart : rax &&& cache.mask = 2 * ((c + 0) % 2 ^ k) := by
    rw [hmask, Nat.add_zero]
    exact receiverKey_land_mask kSmiCid receiver k hk
  have hrun := probeLoop_steps cache rax c k hk hmask d 0 rax fuel hstart
    (fun j hj => Nat.find_min hex hj) (Nat.find_spec hex) (by omega)
  refine ⟨{ inspected := (List.range (d + 1)).map (fun j => 2 * ((c + (0 + j)) % 2 ^ k)),
             rcx := 2 * ((c + (0 + d)) % 2 ^ k) },
    cache.buckets (2 * ((c + (0 + d)) % 2 ^ k) + 1), ?_, ?_⟩
  · show FlowGraphCompiler.EmitMegamorphicInstanceCall kSmiCid cache receiver fuel = _
    unfold FlowGraphCompiler.EmitMegamorphicInstanceCall
    rw [hrun]
  · simp only [Nat.zero_add]

/-- C7 on the sample cache of four buckets: a receiver of class id 7 starts at
bucket 3 and stops at the empty bucket 0. -/
theorem EmitMegamorphicInstanceCall_probe_terminates_witness :
    (2 : Nat) < 64 ∧ sampleCache.mask = 2 * (2 ^ 2 - 1)
    ∧ (∃ e, e < 2 ^ 2 ∧ sampleCache.buckets (2 * e) = 0)
    ∧ ∃ n, 1 ≤ n ∧ n ≤ 2 ^ 2 ∧
        ∀ fuel, n ≤ fuel →
          ∃ r target,
            FlowGraphCompiler.EmitMegamorphicInstanceCall 3 sampleCache (Receiver.object 7) fuel
              = some (r, target)
            ∧ r.inspected
                = (List.range n).map
                    (fun i => 2 * (((Receiver.object 7).classId 3 + i) % 2 ^ 2)) :=
  ⟨by decide, by decide, ⟨0, by decide, by decide⟩,
    EmitMegamorphicInstanceCall_probe_terminates 3 sampleCache (Receiver.object 7) 2
      (by decide) (by decide) ⟨0, by decide, by decide⟩⟩

/-! ## Properties of the class-id dispatch chain -/

theorem codeSize_append (xs ys : List Instr) : codeSize (xs ++ ys) = codeSize xs + codeSize ys := by
  induction xs with
  | nil => simp [codeSize]
  | cons x xs ih => cases x <;> simp [codeSize, ih] <;> omega

/-- The loop appends to the code exactly the blocks of `chainBlocks`, records
exactly the targets of `chainTargets`, and leaves the flag `is_optimizing`. -/
theorem testAndCallLoop_spec (len : Nat) (class_id_reg : Register) (argument_count : Int)
    (deopt_id token_index : Int) (locs : LocationSummary) :
    ∀ (rest : List CidTarget) (i : Nat) (comp : Compiler),
      (FlowGraphCompiler.testAndCallLoop len class_id_reg argument_count deopt_id token_index
          locs i rest comp).code
        = comp.code ++ chainBlocks len class_id_reg argument_count i rest
      ∧ (FlowGraphCompiler.testAndCallLoop len class_id_reg argument_count deopt_id token_index
          locs i rest comp).static_calls_target_table
        = comp.static_calls_target_table ++ chainTargets len i rest (codeSize comp.code) := by
  intro rest
  induction rest with
  | nil => intro i comp; simp [FlowGraphCompiler.testAndCallLoop, chainBlocks, chainTargets]
  | cons entry rest ih =>
      intro i comp
      by_cases hlast : i = len - 1
      · have h := ih (i + 1)
          (((((FlowGraphCompiler.GenerateDartCall
            ((comp.emit (Instr.cmpl class_id_reg entry.cid)).emit
              (Instr.j_NOT_EQUAL Label.deopt))
            deopt_id token_index Stub.CallStaticFunction PcDescriptorKind.kOptStaticCall
            locs).AddStaticCallTarget entry.target).emit (Instr.Drop argument_count))).emit
              (Instr.Bind (Label.next_test i)))
        simp only [FlowGraphCompiler.testAndCallLoop, hlast, decide_True, if_true,
          Bool.not_true, Bool.false_eq_true, if_false] at h ⊢
        rw [h.1, h.2]
        constructor
        · simp [chainBlocks, hlast, Compiler.emit, FlowGraphCompiler.GenerateDartCall,
            Compiler.AddCurrentDescriptor, Compiler.RecordSafepoint,
            Compiler.AddDeoptIndexAtCall, Compiler.AddStaticCallTarget]
          split <;> simp
        · simp [chainTargets, hlast, Compiler.emit, FlowGraphCompiler.GenerateDartCall,
            Compiler.AddCurrentDescriptor, Compiler.RecordSafepoint,
            Compiler.AddDeoptIndexAtCall, Compiler.AddStaticCallTarget]
          split <;> simp [codeSize_append, codeSize]
      · have h := ih (i + 1)
          ((((((FlowGraphCompiler.GenerateDartCall
            ((comp.emit (Instr.cmpl class_id_reg entry.cid)).emit
              (Instr.j_NOT_EQUAL (Label.next_test i)))
            deopt_id token_index Stub.CallStaticFunction PcDescriptorKind.kOptStaticCall
            locs).AddStaticCallTarget entry.target).emit (Instr.Drop argument_count)).emit
              (Instr.jmp Label.match_found))).emit (Instr.Bind (Label.next_test i)))
        simp only [FlowGraphCompiler.testAndCallLoop, hlast, decide_False, if_false,
          Bool.not_false, if_true, Bool.false_eq_true] at h ⊢
        rw [h.1, h.2]
        constructor
        · simp [chainBlocks, hlast, Compiler.emit, FlowGraphCompiler.GenerateDartCall,
            Compiler.AddCurrentDescriptor, Compiler.RecordSafepoint,
            Compiler.AddDeoptIndexAtCall, Compiler.AddStaticCallTarget]
          split <;> simp
        · simp [chainTargets, hlast, Compiler.emit, FlowGraphCompiler.GenerateDartCall,
            Compiler.AddCurrentDescriptor, Compiler.RecordSafepoint,
            Compiler.AddDeoptIndexAtCall, Compiler.AddStaticCallTarget]
          split <;> simp [codeSize_append, codeSize]

/-- A jump to the deopt label leaves the chain, whatever follows. -/
theorem runChain_seek_deopt (table : List (Nat × Function)) (regs : Register → Int) (len : Nat)
    (class_id_reg : Register) (argument_count : Int) :
    ∀ (rest : List CidTarget) (i pc : Nat) (zf : Bool) (eff : ChainEffect),
      runChain table regs
          (chainBlocks len class_id_reg argument_count i rest ++ [Instr.Bind Label.match_found])
          (some Label.deopt) pc zf eff
        = (ChainExit.jumped Label.deopt, eff) := by
  intro rest
  induction rest with
  | nil => intro i pc zf eff; simp [chainBlocks, runChain]
  | cons entry rest ih =>
      intro i pc zf eff
      by_cases hlast : i = len - 1
      · simp [chainBlocks, runChain, hlast, ih]
      · simp [chainBlocks, runChain, hlast, ih]

/-- A jump to `match_found` resumes at the end of the chain. -/
theorem runChain_seek_match_found (table : List (Nat × Function)) (regs : Register → Int)
    (len : Nat) (class_id_reg : Register) (argument_count : Int) :
    ∀ (rest : List CidTarget) (i pc : Nat) (zf : Bool) (eff : ChainEffect),
      runChain table regs
          (chainBlocks len class_id_reg argument_count i rest ++ [Instr.Bind Label.match_found])
          (some Label.match_found) pc zf eff
        = (ChainExit.fallThrough, eff) := by
  intro rest
  induction rest with
  | nil => intro i pc zf eff; simp [chainBlocks, runChain]
  | cons entry rest ih =>
      intro i pc zf eff
      by_cases hlast : i = len - 1
      · simp [chainBlocks, runChain, hlast, ih]
      · simp [chainBlocks, runChain, hlast, ih]

/-- Running the blocks of the entries `sorted[i ..]` from the start of block
`i`: the first entry whose class id is in the register is called and control
falls out at `match_found`; with no such entry control jumps to the deopt
label and nothing is called. -/
theorem runChain_chainBlocks (table : List (Nat × Function)) (regs : Register → Int) (len : Nat)
    (class_id_reg : Register) (argument_count : Int) :
    ∀ (rest : List CidTarget) (i pc : Nat) (zf : Bool) (eff : ChainEffect),
      rest ≠ [] → i + rest.length = len →
      (∀ j e, rest[j]? = some e → staticCallTarget table (pc + 5 * j + 3) = some e.target) →
      runChain table regs
          (chainBlocks len class_id_reg argument_count i rest ++ [Instr.Bind Label.match_found])
          none pc zf eff
        = match rest.find? (fun e => decide (e.cid = regs class_id_reg)) with
          | some e =>
              (ChainExit.fallThrough,
                { called := eff.called ++ [e.target], dropped := eff.dropped + argument_count })
          | none => (ChainExit.jumped Label.deopt, eff) := by
  intro rest
  induction rest with
  | nil => intro i pc zf eff h; exact absurd rfl h
  | cons entry rest ih =>
      intro i pc zf eff _ hlen htable
      have hcall : staticCallTarget table (pc + 1 + 1 + 1) = some entry.target := by
        have := htable 0 entry (by simp)
        simpa using this
      by_cases hmatch : regs class_id_reg = entry.cid
      · have hfind : (entry :: rest).find? (fun e => decide (e.cid = regs class_id_reg))
            = some entry := by
          simp [List.find?, hmatch]
        rw [hfind]
        by_cases hlast : i = len - 1
        · have hrest : rest = [] := by
            cases rest with
            | nil => rfl
            | cons _ _ => simp at hlen; omega
          subst hrest
          simp [chainBlocks, runChain, hlast, hmatch, hcall]
        · simp [chainBlocks, runChain, hlast, hmatch, hcall, runChain_seek_match_found]
      · have hne : ¬ entry.cid = regs class_id_reg := fun h => hmatch h.symm
        have hfind : (entry :: rest).find? (fun e => decide (e.cid = regs class_id_reg))
            = rest.find? (fun e => decide (e.cid = regs class_id_reg)) := by
          simp [List.find?, hne]
        rw [hfind]
        by_cases hlast : i = len - 1
        · have hrest : rest = [] := by
            cases rest with
            | nil => rfl
            | cons _ _ => simp at hlen; omega
          subst hrest
          simp [chainBlocks, runChain, hlast, hmatch]
        · have hrest : rest ≠ [] := by
            intro h
            subst h
            simp at hlen
            omega
          have hnext := ih (i + 1) (pc + 1 + 1 + 1 + 1 + 1) false eff hrest
            (by simp at hlen; omega)
            (by
              intro j e hj
              have := htable (j + 1) e (by simpa using hj)
              rw [← this]
              congr 1
              omega)
          simp only [chainBlocks, hlast, if_false, List.cons_append, List.nil_append,
            List.append_assoc, runChain, hmatch, decide_False, Bool.false_eq_true]
          simp only [Label.next_test.injEq, if_true]
          rw [← hnext]
          rfl

theorem staticCallTarget_append (old new : List (Nat × Function)) (p : Nat)
    (h : ∀ e ∈ old, e.1 ≠ p) : staticCallTarget (old ++ new) p = staticCallTarget new p := by
  unfold staticCallTarget
  rw [List.find?_append, List.find?_eq_none.mpr]
  · rfl
  · intro e he
    simpa using h e he

theorem staticCallTarget_chainTargets (len : Nat) :
    ∀ (rest : List CidTarget) (i s j : Nat) (e : CidTarget),
      i + rest.length = len → rest[j]? = some e →
      staticCallTarget (chainTargets len i rest s) (s + 5 * j + 3) = some e.target := by
  intro rest
  induction rest with
  | nil => intro i s j e _ hj; simp at hj
  | cons entry rest ih =>
      intro i s j e hlen hj
      cases j with
      | zero =>
          simp only [List.getElem?_cons_zero, Option.some.injEq] at hj
          subst hj
          simp [chainTargets, staticCallTarget, List.find?]
      | succ j =>
          simp only [List.getElem?_cons_succ] at hj
          have hjlt : j < rest.length := by
            rcases List.getElem?_eq_some_iff.mp hj with ⟨h, -⟩
            exact h
          have hlast : ¬ i = len - 1 := by
            simp at hlen
            omega
          have hrec := ih (i + 1) (s + 5) j e (by simp at hlen; omega) hj
          have hs : s + 5 * (j + 1) + 3 = s + 5 + 5 * j + 3 := by ring
          have hhead : ¬ (s + 3 = s + 5 + 5 * j + 3) := by omega
          rw [hs]
          simp only [chainTargets, hlast, if_false]
          unfold staticCallTarget at hrec ⊢
          rw [List.find?_cons_of_neg _ (by simpa using hhead)]
          exact hrec

theorem map_snd_chainTargets (len : Nat) :
    ∀ (rest : List CidTarget) (i s : Nat),
      (chainTargets len i rest s).map Prod.snd = rest.map (fun e => e.target) := by
  intro rest
  induction rest with
  | nil => intro i s; rfl
  | cons entry rest ih => intro i s; simp [chainTargets, ih]

theorem emit_code (comp : Compiler) (i : Instr) : (comp.emit i).code = comp.code ++ [i] := rfl

theorem emit_static_calls_target_table (comp : Compiler) (i : Instr) :
    (comp.emit i).static_calls_target_table = comp.static_calls_target_table := rfl

/-- C8: for a non-empty sorted list of (class id, target) entries,
`EmitTestAndCall` succeeds, appends the chain to the code and records the
static-call targets one per entry in chain order. Running the chain with a
class id in the class-id register calls through the static-call stub exactly
the target of the first entry with that class id, drops the arguments and
falls out at `match_found`; when no entry has that class id, and only then, it
jumps to the deopt label, having called nothing and dropped nothing. -/
theorem EmitTestAndCall_dispatch (comp : Compiler) (sorted : List CidTarget)
    (class_id_reg : Register) (argument_count : Int) (argument_names : Nat)
    (deopt_id token_index : Int) (locs : LocationSummary) (regs : Register → Int) (zf : Bool)
    (hopt : comp.is_optimizing = true) (hne : sorted ≠ []) (hreg : class_id_reg ≠ R10)
    (hinv : ∀ e ∈ comp.static_calls_target_table, e.1 ≤ codeSize comp.code) :
    ∃ comp' chain,
      FlowGraphCompiler.EmitTestAndCall comp sorted class_id_reg argument_count argument_names
          deopt_id token_index locs = some comp'
      ∧ comp'.code = comp.code ++ chain
      ∧ comp'.static_calls_target_table.map Prod.snd
          = comp.static_calls_target_table.map Prod.snd ++ sorted.map (fun e => e.target)
      ∧ runChain comp'.static_calls_target_table regs chain none (codeSize comp.code) zf
            { called := [], dropped := 0 }
          = (match sorted.find? (fun e => decide (e.cid = regs class_id_reg)) with
             | some e =>
                 (ChainExit.fallThrough, { called := [e.target], dropped := argument_count })
             | none => (ChainExit.jumped Label.deopt, { called := [], dropped := 0 }))
      ∧ ((runChain comp'.static_calls_target_table regs chain none (codeSize comp.code) zf
            { called := [], dropped := 0 }).1 = ChainExit.jumped Label.deopt
          ↔ ∀ e ∈ sorted, e.cid ≠ regs class_id_reg) := by
  have hlen0 : sorted.length ≠ 0 := fun h => hne (List.length_eq_zero.mp h)
  obtain ⟨hcode, htab⟩ := testAndCallLoop_spec sorted.length class_id_reg argument_count deopt_id
    token_index locs sorted 0
    (comp.emit (Instr.LoadArgumentsDescriptor R10 argument_count argument_names))
  have hrun := runChain_chainBlocks
    (comp.static_calls_target_table
      ++ chainTargets sorted.length 0 sorted (codeSize comp.code + 1))
    regs sorted.length class_id_reg argument_count sorted 0 (codeSize comp.code + 1) zf
    { called := [], dropped := 0 } hne (by simp)
    (by
      intro j e hj
      rw [staticCallTarget_append]
      · exact staticCallTarget_chainTargets _ sorted 0 _ j e (by simp) hj
      · intro x hx
        have := hinv x hx
        omega)
  simp only [List.nil_append, zero_add] at hrun
  refine ⟨(FlowGraphCompiler.testAndCallLoop sorted.length class_id_reg argument_count deopt_id
      token_index locs 0 sorted
      (comp.emit (Instr.LoadArgumentsDescriptor R10 argument_count argument_names))).emit
        (Instr.Bind Label.match_found),
    Instr.LoadArgumentsDescriptor R10 argument_count argument_names
      :: (chainBlocks sorted.length class_id_reg argument_count 0 sorted
          ++ [Instr.Bind Label.match_found]), ?_, ?_, ?_, ?_, ?_⟩
  · simp only [FlowGraphCompiler.EmitTestAndCall, hopt, Bool.not_true, Bool.false_eq_true,
      if_false, hlen0, hreg]
  · rw [emit_code, hcode, emit_code]
    simp
  · rw [emit_static_calls_target_table, htab, emit_static_calls_target_table]
    simp [map_snd_chainTargets]
  · rw [emit_static_calls_target_table, htab, emit_static_calls_target_table, emit_code,
      codeSize_append]
    simp only [runChain, codeSize]
    exact hrun
  · rw [emit_static_calls_target_table, htab, emit_static_calls_target_table, emit_code,
      codeSize_append]
    simp only [runChain, codeSize]
    rw [hrun]
    cases hfind : sorted.find? (fun e => decide (e.cid = regs class_id_reg)) with
    | none =>
        simp only [true_iff]
        intro e he
        have := List.find?_eq_none.mp hfind e he
        simpa using this
    | some e =>
        simp only [reduceCtorEq, false_iff, not_forall, Classical.not_imp, not_not]
        have hmem := List.mem_of_find?_eq_some hfind
        have hp := List.find?_some hfind
        exact ⟨e, hmem, by simpa using hp⟩

/-- C8 on the sample chain of three entries, the register holding the class id
of the second entry. -/
theorem EmitTestAndCall_dispatch_witness :
    sampleCompiler.is_optimizing = true ∧ sampleSorted ≠ [] ∧ RAX ≠ R10
    ∧ (∀ e ∈ sampleCompiler.static_calls_target_table, e.1 ≤ codeSize sampleCompiler.code)
    ∧ ∃ comp' chain,
        FlowGraphCompiler.EmitTestAndCall sampleCompiler sampleSorted RAX 2 0 12 34 0 = some comp'
        ∧ comp'.code = sampleCompiler.code ++ chain
        ∧ comp'.static_calls_target_table.map Prod.snd
            = sampleCompiler.static_calls_target_table.map Prod.snd
                ++ sampleSorted.map (fun e => e.target)
        ∧ runChain comp'.static_calls_target_table (fun _ => 4) chain none
              (codeSize sampleCompiler.code) false { called := [], dropped := 0 }
            = (match sampleSorted.find? (fun e => decide (e.cid = (fun _ => (4 : Int)) RAX)) with
               | some e => (ChainExit.fallThrough, { called := [e.target], dropped := 2 })
               | none => (ChainExit.jumped Label.deopt, { called := [], dropped := 0 }))
        ∧ ((runChain comp'.static_calls_target_table (fun _ => 4) chain none
              (codeSize sampleCompiler.code) false { called := [], dropped := 0 }).1
              = ChainExit.jumped Label.deopt
            ↔ ∀ e ∈ sampleSorted, e.cid ≠ (fun _ => (4 : Int)) RAX) :=
  ⟨by decide, by decide, by decide, by decide,
    EmitTestAndCall_dispatch sampleCompiler sampleSorted RAX 2 0 12 34 0 (fun _ => 4) false
      (by decide) (by decide) (by decide) (by decide)⟩

theorem comparisons_chainBlocks (len : Nat) (class_id_reg : Register) (argument_count : Int) :
    ∀ (rest : List CidTarget) (i : Nat) (tail : List Instr),
      comparisons (chainBlocks len class_id_reg argument_count i rest ++ tail)
        = rest.length + comparisons tail := by
  intro rest
  induction rest with
  | nil => intro i tail; simp [chainBlocks]
  | cons entry rest ih =>
      intro i tail
      by_cases hlast : i = len - 1
      · simp [chainBlocks, comparisons, hlast, ih]; omega
      · simp [chainBlocks, comparisons, hlast, ih]; omega

theorem conditionalJumps_chainBlocks (len : Nat) (class_id_reg : Register)
    (argument_count : Int) :
    ∀ (rest : List CidTarget) (i : Nat) (tail : List Instr),
      rest ≠ [] → i + rest.length = len →
      conditionalJumps (chainBlocks len class_id_reg argument_count i rest ++ tail)
        = (List.range' i (rest.length - 1)).map Label.next_test ++ [Label.deopt]
            ++ conditionalJumps tail := by
  intro rest
  induction rest with
  | nil => intro i tail h; exact absurd rfl h
  | cons entry rest ih =>
      intro i tail _ hlen
      by_cases hlast : i = len - 1
      · have hrest : rest = [] := by
          cases rest with
          | nil => rfl
          | cons _ _ => simp at hlen; omega
        subst hrest
        simp [chainBlocks, conditionalJumps, hlast]
      · have hrest : rest ≠ [] := by
          intro h
          subst h
          simp at hlen
          omega
        have hl : (entry :: rest).length - 1 = (rest.length - 1) + 1 := by
          have : 0 < rest.length := List.length_pos.mpr hrest
          simp
          omega
        rw [hl, List.range'_succ]
        simp [chainBlocks, conditionalJumps, hlast,
          ih (i + 1) tail hrest (by simp at hlen; omega)]

theorem unconditionalJumps_chainBlocks (len : Nat) (class_id_reg : Register)
    (argument_count : Int) :
    ∀ (rest : List CidTarget) (i : Nat) (tail : List Instr),
      rest ≠ [] → i + rest.length = len →
      unconditionalJumps (chainBlocks len class_id_reg argument_count i rest ++ tail)
        = List.replicate (rest.length - 1) Label.match_found ++ unconditionalJumps tail := by
  intro rest
  induction rest with
  | nil => intro i tail h; exact absurd rfl h
  | cons entry rest ih =>
      intro i tail _ hlen
      by_cases hlast : i = len - 1
      · have hrest : rest = [] := by
          cases rest with
          | nil => rfl
          | cons _ _ => simp at hlen; omega
        subst hrest
        simp [chainBlocks, unconditionalJumps, hlast]
      · have hrest : rest ≠ [] := by
          intro h
          subst h
          simp at hlen
          omega
        have hl : (entry :: rest).length - 1 = (rest.length - 1) + 1 := by
          have : 0 < rest.length := List.length_pos.mpr hrest
          simp
          omega
        rw [hl, List.replicate_succ]
        simp [chainBlocks, unconditionalJumps, hlast,
          ih (i + 1) tail hrest (by simp at hlen; omega)]

/-- C9, the claim as stated fails: for the sample IC data of three checks the
chain holds three class-id comparisons, not two, and a class id that fails the
first two comparisons and is not that of the last entry is sent to the deopt
label without any call, so the last entry is not entered unconditionally. -/
theorem EmitTestAndCall_last_entry_is_compared :
    ∃ comp',
      FlowGraphCompiler.EmitTestAndCall sampleCompiler sampleSorted RAX 2 0 12 34 0 = some comp'
      ∧ comparisons comp'.code = 3
      ∧ ¬ (comparisons comp'.code = sampleSorted.length - 1)
      ∧ runChain comp'.static_calls_target_table (fun _ => 5) comp'.code none 0 false
            { called := [], dropped := 0 }
          = (ChainExit.jumped Label.deopt, { called := [], dropped := 0 }) :=
  ⟨_, rfl, by decide, by decide, by decide⟩

/-- Block `j` of the chain starts `6 * j` instructions into the blocks: every
block before the last holds six instructions. -/
theorem chainBlocks_drop (len : Nat) (class_id_reg : Register) (argument_count : Int)
    (tail : List Instr) :
    ∀ (rest : List CidTarget) (i j : Nat) (e : CidTarget),
      i + rest.length = len → rest[j]? = some e →
      (chainBlocks len class_id_reg argument_count i rest ++ tail).drop (6 * j)
        = chainBlocks len class_id_reg argument_count (i + j) (e :: rest.drop (j + 1))
            ++ tail := by
  intro rest
  induction rest with
  | nil => intro i j e _ hj; simp at hj
  | cons entry rest ih =>
      intro i j e hlen hj
      cases j with
      | zero =>
          simp only [List.getElem?_cons_zero, Option.some.injEq] at hj
          subst hj
          simp
      | succ j =>
          simp only [List.getElem?_cons_succ] at hj
          have hjlt : j < rest.length := by
            rcases List.getElem?_eq_some_iff.mp hj with ⟨h, -⟩
            exact h
          have hlast : ¬ i = len - 1 := by
            simp at hlen
            omega
          have hrec := ih (i + 1) j e (by simp at hlen; omega) hj
          have hs : 6 * (j + 1) = 6 * j + 1 + 1 + 1 + 1 + 1 + 1 := by ring
          have hi : i + (j + 1) = i + 1 + j := by ring
          rw [hs, hi, List.drop_succ_cons, ← hrec]
          simp [chainBlocks, hlast]

/-- C9 as amended: in the chain emitted for `len >= 1` checks every entry, the
last included, has its own class-id comparison, so the chain holds `len`
comparisons, and what the last entry omits is the jump to `match_found`, of
which there are `len - 1`. The block of entry `i` starts `1 + 6 * i`
instructions into the chain: comparison, conditional jump, call, drop, then for
an entry before the last the jump to `match_found`, the label `next_test` and
right after it the block of the next entry, and for the last entry the label
`next_test` and the label `match_found` that ends the chain. Run from the
start of its block with any flags, a failed comparison of an entry before the
last goes on at the start of the next block, a failed comparison of the last
entry leaves by the jump to the deopt label, both having called and dropped
nothing, and a comparison that succeeds calls once, drops the arguments and
leaves the chain at its end, where `match_found` is bound: the last entry by
running off its block, the others by their jump. -/
theorem EmitTestAndCall_chain_shape (comp : Compiler) (sorted : List CidTarget)
    (class_id_reg : Register) (argument_count : Int) (argument_names : Nat)
    (deopt_id token_index : Int) (locs : LocationSummary)
    (hopt : comp.is_optimizing = true) (hne : sorted ≠ []) (hreg : class_id_reg ≠ R10) :
    ∃ comp' chain,
      FlowGraphCompiler.EmitTestAndCall comp sorted class_id_reg argument_count argument_names
          deopt_id token_index locs = some comp'
      ∧ comp'.code = comp.code ++ chain
      ∧ comparisons chain = sorted.length
      ∧ conditionalJumps chain
          = (List.range (sorted.length - 1)).map Label.next_test ++ [Label.deopt]
      ∧ unconditionalJumps chain = List.replicate (sorted.length - 1) Label.match_found
      ∧ (∀ i e, sorted[i]? = some e →
          chain.drop (1 + 6 * i)
            = if i = sorted.length - 1 then
                [Instr.cmpl class_id_reg e.cid, Instr.j_NOT_EQUAL Label.deopt,
                  Instr.CallPatchable Stub.CallStaticFunction, Instr.Drop argument_count,
                  Instr.Bind (Label.next_test i), Instr.Bind Label.match_found]
              else
                Instr.cmpl class_id_reg e.cid :: Instr.j_NOT_EQUAL (Label.next_test i)
                  :: Instr.CallPatchable Stub.CallStaticFunction :: Instr.Drop argument_count
                  :: Instr.jmp Label.match_found :: Instr.Bind (Label.next_test i)
                  :: chain.drop (1 + 6 * (i + 1)))
      ∧ (∀ (table : List (Nat × Function)) (regs : Register → Int) (i : Nat) (e : CidTarget)
            (pc : Nat) (zf : Bool) (eff : ChainEffect),
          sorted[i]? = some e →
          (regs class_id_reg ≠ e.cid → i ≠ sorted.length - 1 →
            runChain table regs (chain.drop (1 + 6 * i)) none pc zf eff
              = runChain table regs (chain.drop (1 + 6 * (i + 1))) none (pc + 5) false eff)
          ∧ (regs class_id_reg ≠ e.cid → i = sorted.length - 1 →
              runChain table regs (chain.drop (1 + 6 * i)) none pc zf eff
                = (ChainExit.jumped Label.deopt, eff))
          ∧ (regs class_id_reg = e.cid →
              runChain table regs (chain.drop (1 + 6 * i)) none pc zf eff
                = (ChainExit.fallThrough,
                    { called := eff.called ++ (staticCallTarget table (pc + 3)).toList,
                      dropped := eff.dropped + argument_count }))) := by
  have hlen0 : sorted.length ≠ 0 := fun h => hne (List.length_eq_zero.mp h)
  obtain ⟨hcode, -⟩ := testAndCallLoop_spec sorted.length class_id_reg argument_count deopt_id
    token_index locs sorted 0
    (comp.emit (Instr.LoadArgumentsDescriptor R10 argument_count argument_names))
  -- the chain from block `i` on
  have hdrop : ∀ i e, sorted[i]? = some e →
      (Instr.LoadArgumentsDescriptor R10 argument_count argument_names
          :: (chainBlocks sorted.length class_id_reg argument_count 0 sorted
              ++ [Instr.Bind Label.match_found])).drop (1 + 6 * i)
        = chainBlocks sorted.length class_id_reg argument_count i (e :: sorted.drop (i + 1))
            ++ [Instr.Bind Label.match_found] := by
    intro i e hi
    have h := chainBlocks_drop sorted.length class_id_reg argument_count
      [Instr.Bind Label.match_found] sorted 0 i e (by simp) hi
    rw [Nat.zero_add] at h
    rw [Nat.add_comm 1 (6 * i), List.drop_succ_cons, h]
  have hilt : ∀ i e, sorted[i]? = some e → i < sorted.length := by
    intro i e hi
    rcases List.getElem?_eq_some_iff.mp hi with ⟨h, -⟩
    exact h
  have hlastnil : ∀ i, i = sorted.length - 1 → sorted.drop (i + 1) = [] := by
    intro i hi
    apply List.drop_eq_nil_of_le
    omega
  have hnext : ∀ i e, sorted[i]? = some e → i ≠ sorted.length - 1 →
      ∃ e1, sorted[i + 1]? = some e1 := by
    intro i e hi hlast
    have h1 := hilt i e hi
    have h2 : i + 1 < sorted.length := by omega
    exact ⟨sorted[i + 1], List.getElem?_eq_getElem h2⟩
  -- the layout of block `i`
  have hblock : ∀ i e, sorted[i]? = some e →
      (Instr.LoadArgumentsDescriptor R10 argument_count argument_names
          :: (chainBlocks sorted.length class_id_reg argument_count 0 sorted
              ++ [Instr.Bind Label.match_found])).drop (1 + 6 * i)
        = if i = sorted.length - 1 then
            [Instr.cmpl class_id_reg e.cid, Instr.j_NOT_EQUAL Label.deopt,
              Instr.CallPatchable Stub.CallStaticFunction, Instr.Drop argument_count,
              Instr.Bind (Label.next_test i), Instr.Bind Label.match_found]
          else
            Instr.cmpl class_id_reg e.cid :: Instr.j_NOT_EQUAL (Label.next_test i)
              :: Instr.CallPatchable Stub.CallStaticFunction :: Instr.Drop argument_count
              :: Instr.jmp Label.match_found :: Instr.Bind (Label.next_test i)
              :: (Instr.LoadArgumentsDescriptor R10 argument_count argument_names
                  :: (chainBlocks sorted.length class_id_reg argument_count 0 sorted
                      ++ [Instr.Bind Label.match_found])).drop (1 + 6 * (i + 1)) := by
    intro i e hi
    rw [hdrop i e hi]
    by_cases hlast : i = sorted.length - 1
    · rw [if_pos hlast, hlastnil i hlast]
      simp [chainBlocks, hlast]
    · obtain ⟨e1, he1⟩ := hnext i e hi hlast
      rw [if_neg hlast, hdrop (i + 1) e1 he1]
      have hd : sorted.drop (i + 1) = e1 :: sorted.drop (i + 1 + 1) := by
        have h2 : i + 1 < sorted.length := hilt (i + 1) e1 he1
        rw [List.drop_eq_getElem_cons h2]
        congr 1
        rcases List.getElem?_eq_some_iff.mp he1 with ⟨_, h⟩
        exact h
      rw [hd]
      simp [chainBlocks, hlast]
  refine ⟨(FlowGraphCompiler.testAndCallLoop sorted.length class_id_reg argument_count deopt_id
      token_index locs 0 sorted
      (comp.emit (Instr.LoadArgumentsDescriptor R10 argument_count argument_names))).emit
        (Instr.Bind Label.match_found),
    Instr.LoadArgumentsDescriptor R10 argument_count argument_names
      :: (chainBlocks sorted.length class_id_reg argument_count 0 sorted
          ++ [Instr.Bind Label.match_found]), ?_, ?_, ?_, ?_, ?_, hblock, ?_⟩
  · simp only [FlowGraphCompiler.EmitTestAndCall, hopt, Bool.not_true, Bool.false_eq_true,
      if_false, hlen0, hreg]
  · rw [emit_code, hcode, emit_code]
    simp
  · simp only [comparisons]
    rw [comparisons_chainBlocks]
    simp [comparisons]
  · simp only [conditionalJumps]
    rw [conditionalJumps_chainBlocks _ _ _ sorted 0 _ hne (by simp), List.range_eq_range']
    simp [conditionalJumps]
  · simp only [unconditionalJumps]
    rw [unconditionalJumps_chainBlocks _ _ _ sorted 0 _ hne (by simp)]
    simp [unconditionalJumps]
  · intro table regs i e pc zf eff hi
    refine ⟨?_, ?_, ?_⟩
    · intro hmiss hlast
      rw [hblock i e hi, if_neg hlast]
      simp [runChain, hmiss]
    · intro hmiss hlast
      rw [hblock i e hi, if_pos hlast]
      simp [runChain, hmiss]
    · intro hhit
      by_cases hlast : i = sorted.length - 1
      · rw [hblock i e hi, if_pos hlast]
        cases ht : staticCallTarget table (pc + 3) <;>
          simp [runChain, hhit, ht]
      · obtain ⟨e1, he1⟩ := hnext i e hi hlast
        rw [hblock i e hi, if_neg hlast, hdrop (i + 1) e1 he1]
        have hseek := runChain_seek_match_found table regs sorted.length class_id_reg
          argument_count (e1 :: sorted.drop (i + 1 + 1)) (i + 1)
        generalize chainBlocks sorted.length class_id_reg argument_count (i + 1)
          (e1 :: sorted.drop (i + 1 + 1)) ++ [Instr.Bind Label.match_found] = next_block
          at hseek ⊢
        cases ht : staticCallTarget table (pc + 3) <;>
          simp [runChain, hhit, ht, hseek]

/-- C9 as amended, on the sample IC data of three checks. -/
theorem EmitTestAndCall_chain_shape_witness :
    sampleCompiler.is_optimizing = true ∧ sampleSorted ≠ [] ∧ RAX ≠ R10
    ∧ ∃ comp' chain,
        FlowGraphCompiler.EmitTestAndCall sampleCompiler sampleSorted RAX 2 0 12 34 0 = some comp'
        ∧ comp'.code = sampleCompiler.code ++ chain
        ∧ comparisons chain = sampleSorted.length
        ∧ conditionalJumps chain
            = (List.range (sampleSorted.length - 1)).map Label.next_test ++ [Label.deopt]
        ∧ unconditionalJumps chain
            = List.replicate (sampleSorted.length - 1) Label.match_found
        ∧ (∀ i e, sampleSorted[i]? = some e →
            chain.drop (1 + 6 * i)
              = if i = sampleSorted.length - 1 then
                  [Instr.cmpl RAX e.cid, Instr.j_NOT_EQUAL Label.deopt,
                    Instr.CallPatchable Stub.CallStaticFunction, Instr.Drop 2,
                    Instr.Bind (Label.next_test i), Instr.Bind Label.match_found]
                else
                  Instr.cmpl RAX e.cid :: Instr.j_NOT_EQUAL (Label.next_test i)
                    :: Instr.CallPatchable Stub.CallStaticFunction :: Instr.Drop 2
                    :: Instr.jmp Label.match_found :: Instr.Bind (Label.next_test i)
                    :: chain.drop (1 + 6 * (i + 1)))
        ∧ (∀ (table : List (Nat × Function)) (regs : Register → Int) (i : Nat) (e : CidTarget)
              (pc : Nat) (zf : Bool) (eff : ChainEffect),
            sampleSorted[i]? = some e →
            (regs RAX ≠ e.cid → i ≠ sampleSorted.length - 1 →
              runChain table regs (chain.drop (1 + 6 * i)) none pc zf eff
                = runChain table regs (chain.drop (1 + 6 * (i + 1))) none (pc + 5) false eff)
            ∧ (regs RAX ≠ e.cid → i = sampleSorted.length - 1 →
                runChain table regs (chain.drop (1 + 6 * i)) none pc zf eff
                  = (ChainExit.jumped Label.deopt, eff))
            ∧ (regs RAX = e.cid →
                runChain table regs (chain.drop (1 + 6 * i)) none pc zf eff
                  = (ChainExit.fallThrough,
                      { called := eff.called ++ (staticCallTarget table (pc + 3)).toList,
                        dropped := eff.dropped + 2 }))) :=
  ⟨by decide, by decide, by decide,
    EmitTestAndCall_chain_shape sampleCompiler sampleSorted RAX 2 0 12 34 0
      (by decide) (by decide) (by decide)⟩

/-! ## Properties of the call shapes -/

/-- What `GenerateDartCall` writes: the call instruction and, keyed by the code
offset right after it, the descriptor of the call, the safepoint and the
continuation record. -/
theorem GenerateDartCall_records (comp : Compiler) (deopt_id token_pos : Int) (label : Stub)
    (kind : PcDescriptorKind) (locs : LocationSummary) :
    (FlowGraphCompiler.GenerateDartCall comp deopt_id token_pos label kind locs).code
        = comp.code ++ [Instr.CallPatchable label]
    ∧ (FlowGraphCompiler.GenerateDartCall comp deopt_id token_pos label kind locs).pc_descriptors
        = comp.pc_descriptors
          ++ [⟨codeSize (comp.code ++ [Instr.CallPatchable label]), kind, deopt_id, token_pos⟩]
          ++ (if comp.is_optimizing then []
              else [⟨codeSize (comp.code ++ [Instr.CallPatchable label]),
                      PcDescriptorKind.kDeopt, comp.ToDeoptAfter deopt_id, token_pos⟩])
    ∧ (FlowGraphCompiler.GenerateDartCall comp deopt_id token_pos label kind locs).safepoints
        = comp.safepoints ++ [(codeSize (comp.code ++ [Instr.CallPatchable label]), locs)]
    ∧ (FlowGraphCompiler.GenerateDartCall comp deopt_id token_pos label kind locs).deopt_indices
        = comp.deopt_indices
          ++ (if comp.is_optimizing then
                [(codeSize (comp.code ++ [Instr.CallPatchable label]),
                  comp.ToDeoptAfter deopt_id, token_pos)]
              else []) := by
  unfold FlowGraphCompiler.GenerateDartCall
  cases h : comp.is_optimizing <;>
    simp [Compiler.emit, Compiler.AddCurrentDescriptor, Compiler.RecordSafepoint,
      Compiler.AddDeoptIndexAtCall, h]

/-- The records of a call shape that loads its operands, calls through
`GenerateDartCall` and drops the arguments. -/
theorem GenerateDartCall_shape (comp c1 comp' : Compiler) (pre : List Instr)
    (argument_count deopt_id token_pos : Int) (label : Stub) (kind : PcDescriptorKind)
    (locs : LocationSummary)
    (hcode : c1.code = comp.code ++ pre) (hopt : c1.is_optimizing = comp.is_optimizing)
    (hto : c1.ToDeoptAfter = comp.ToDeoptAfter) (hd : c1.pc_descriptors = comp.pc_descriptors)
    (hs : c1.safepoints = comp.safepoints) (hi : c1.deopt_indices = comp.deopt_indices)
    (hcode' : comp'.code
      = (FlowGraphCompiler.GenerateDartCall c1 deopt_id token_pos label kind locs).code
        ++ [Instr.Drop argument_count])
    (hd' : comp'.pc_descriptors
      = (FlowGraphCompiler.GenerateDartCall c1 deopt_id token_pos label kind locs).pc_descriptors)
    (hs' : comp'.safepoints
      = (FlowGraphCompiler.GenerateDartCall c1 deopt_id token_pos label kind locs).safepoints)
    (hi' : comp'.deopt_indices
      = (FlowGraphCompiler.GenerateDartCall c1 deopt_id token_pos label kind locs).deopt_indices) :
    comp'.code = comp.code ++ (pre ++ [Instr.CallPatchable label, Instr.Drop argument_count])
    ∧ comp'.pc_descriptors
        = comp.pc_descriptors
          ++ [⟨codeSize (comp.code ++ (pre ++ [Instr.CallPatchable label])), kind, deopt_id,
                token_pos⟩]
          ++ (if comp.is_optimizing then []
              else [⟨codeSize (comp.code ++ (pre ++ [Instr.CallPatchable label])),
                      PcDescriptorKind.kDeopt, comp.ToDeoptAfter deopt_id, token_pos⟩])
    ∧ comp'.safepoints
        = comp.safepoints ++ [(codeSize (comp.code ++ (pre ++ [Instr.CallPatchable label])), locs)]
    ∧ comp'.deopt_indices
        = comp.deopt_indices
          ++ (if comp.is_optimizing then
                [(codeSize (comp.code ++ (pre ++ [Instr.CallPatchable label])),
                  comp.ToDeoptAfter deopt_id, token_pos)]
              else []) := by
  obtain ⟨h1, h2, h3, h4⟩ := GenerateDartCall_records c1 deopt_id token_pos label kind locs
  rw [hcode', hd', hs', hi', h1, h2, h3, h4, hcode, hopt, hto, hd, hs, hi]
  simp only [List.append_assoc, List.cons_append, List.nil_append]
  exact ⟨trivial, trivial, trivial, trivial⟩

/-- Among the descriptors a call shape adds, those for the point at the call
are keyed otherwise than the continuation. -/
theorem drop_descriptors_keys (old added all : List PcDescriptor) (after : Int)
    (h : all = old ++ added)
    (hadded : ∀ d ∈ added, d.kind ≠ PcDescriptorKind.kDeopt → d.deopt_id ≠ after) :
    ∀ d ∈ all.drop old.length, d.kind ≠ PcDescriptorKind.kDeopt → d.deopt_id ≠ after := by
  subst h
  rw [List.drop_left]
  exact hadded

/-- C19: each call shape gives the assembler its call instruction and records,
keyed by the code offset `ret` right after that instruction: one PC descriptor
with the kind of the call (`kUnoptStaticCall`, `kOptStaticCall`, `kIcCall`,
`kOther` for the megamorphic call) and the token position; one safepoint for
the location summary; and exactly one continuation record keyed by
`ToDeoptAfter(deopt_id)`, a deopt-index entry when optimizing (for the
megamorphic call, which is emitted in optimized code, always) and a `kDeopt`
descriptor otherwise. The descriptor of the call is keyed by `deopt_id`, for
the megamorphic call by `kNoDeoptId`: as `ToDeoptAfter(deopt_id)` is neither,
no descriptor a call shape records for the point at the call (none but the
`kDeopt` one) is keyed by `ToDeoptAfter(deopt_id)`. -/
theorem call_shapes_record_call_and_continuation (comp : Compiler) (FLAG_collect_code : Bool)
    (kNoDeoptId : Int) (recognized_kind : MethodRecognizerKind) (function : Function)
    (target_label : Stub) (cache ic_data arguments_descriptor : Nat)
    (argument_count deopt_id token_pos : Int) (locs : LocationSummary)
    (hafter : comp.ToDeoptAfter deopt_id ≠ deopt_id)
    (hnone : comp.ToDeoptAfter deopt_id ≠ kNoDeoptId) :
    (∃ comp' label ret,
      FlowGraphCompiler.EmitUnoptimizedStaticCall comp recognized_kind ic_data argument_count
          deopt_id token_pos locs = some comp'
      ∧ comp'.code
          = comp.code
            ++ [Instr.LoadObject RBX ic_data, Instr.CallPatchable label,
                Instr.Drop argument_count]
      ∧ ret = codeSize (comp.code ++ [Instr.LoadObject RBX ic_data, Instr.CallPatchable label])
      ∧ comp'.pc_descriptors
          = comp.pc_descriptors
            ++ [⟨ret, PcDescriptorKind.kUnoptStaticCall, deopt_id, token_pos⟩]
            ++ (if comp.is_optimizing then []
                else [⟨ret, PcDescriptorKind.kDeopt, comp.ToDeoptAfter deopt_id, token_pos⟩])
      ∧ comp'.safepoints = comp.safepoints ++ [(ret, locs)]
      ∧ comp'.deopt_indices
          = comp.deopt_indices
            ++ (if comp.is_optimizing then [(ret, comp.ToDeoptAfter deopt_id, token_pos)]
                else []))
    ∧ (∃ comp' ret,
      comp' = FlowGraphCompiler.EmitOptimizedStaticCall comp function arguments_descriptor
          argument_count deopt_id token_pos locs
      ∧ comp'.code
          = comp.code
            ++ [Instr.LoadObject R10 arguments_descriptor,
                Instr.CallPatchable Stub.CallStaticFunction, Instr.Drop argument_count]
      ∧ ret = codeSize (comp.code
                ++ [Instr.LoadObject R10 arguments_descriptor,
                    Instr.CallPatchable Stub.CallStaticFunction])
      ∧ comp'.pc_descriptors
          = comp.pc_descriptors
            ++ [⟨ret, PcDescriptorKind.kOptStaticCall, deopt_id, token_pos⟩]
            ++ (if comp.is_optimizing then []
                else [⟨ret, PcDescriptorKind.kDeopt, comp.ToDeoptAfter deopt_id, token_pos⟩])
      ∧ comp'.safepoints = comp.safepoints ++ [(ret, locs)]
      ∧ comp'.deopt_indices
          = comp.deopt_indices
            ++ (if comp.is_optimizing then [(ret, comp.ToDeoptAfter deopt_id, token_pos)]
                else []))
    ∧ (∃ comp' ret,
      comp' = FlowGraphCompiler.EmitInstanceCall comp target_label ic_data argument_count
          deopt_id token_pos locs
      ∧ comp'.code
          = comp.code
            ++ [Instr.LoadObject RBX ic_data, Instr.CallPatchable target_label,
                Instr.Drop argument_count]
      ∧ ret = codeSize (comp.code
                ++ [Instr.LoadObject RBX ic_data, Instr.CallPatchable target_label])
      ∧ comp'.pc_descriptors
          = comp.pc_descriptors
            ++ [⟨ret, PcDescriptorKind.kIcCall, deopt_id, token_pos⟩]
            ++ (if comp.is_optimizing then []
                else [⟨ret, PcDescriptorKind.kDeopt, comp.ToDeoptAfter deopt_id, token_pos⟩])
      ∧ comp'.safepoints = comp.safepoints ++ [(ret, locs)]
      ∧ comp'.deopt_indices
          = comp.deopt_indices
            ++ (if comp.is_optimizing then [(ret, comp.ToDeoptAfter deopt_id, token_pos)]
                else []))
    ∧ (∃ comp' ret,
      comp' = FlowGraphCompiler.EmitOptimizedInstanceCall comp function target_label ic_data
          argument_count deopt_id token_pos locs
      ∧ comp'.code
          = comp.code
            ++ [Instr.LoadObject RDI function, Instr.LoadObject RBX ic_data,
                Instr.CallPatchable target_label, Instr.Drop argument_count]
      ∧ ret = codeSize (comp.code
                ++ [Instr.LoadObject RDI function, Instr.LoadObject RBX ic_data,
                    Instr.CallPatchable target_label])
      ∧ comp'.pc_descriptors
          = comp.pc_descriptors
            ++ [⟨ret, PcDescriptorKind.kIcCall, deopt_id, token_pos⟩]
            ++ (if comp.is_optimizing then []
                else [⟨ret, PcDescriptorKind.kDeopt, comp.ToDeoptAfter deopt_id, token_pos⟩])
      ∧ comp'.safepoints = comp.safepoints ++ [(ret, locs)]
      ∧ comp'.deopt_indices
          = comp.deopt_indices
            ++ (if comp.is_optimizing then [(ret, comp.ToDeoptAfter deopt_id, token_pos)]
                else []))
    ∧ (∃ comp' lookup ret earlier_descriptors earlier_safepoints,
      FlowGraphCompiler.EmitMegamorphicInstanceCall.emit FLAG_collect_code kNoDeoptId comp cache
          ic_data (some arguments_descriptor) argument_count deopt_id token_pos locs = some comp'
      ∧ comp'.code = comp.code ++ lookup ++ [Instr.call RAX, Instr.Drop argument_count]
      ∧ ret = codeSize (comp.code ++ lookup ++ [Instr.call RAX])
      ∧ comp'.pc_descriptors
          = comp.pc_descriptors ++ earlier_descriptors
            ++ [⟨ret, PcDescriptorKind.kOther, kNoDeoptId, token_pos⟩]
      ∧ comp'.safepoints = comp.safepoints ++ earlier_safepoints ++ [(ret, locs)]
      ∧ comp'.deopt_indices
          = comp.deopt_indices ++ [(ret, comp.ToDeoptAfter deopt_id, token_pos)]
      ∧ (∀ d ∈ earlier_descriptors,
          d.pc_offset < ret ∧ d.kind = PcDescriptorKind.kRuntimeCall ∧ d.deopt_id = kNoDeoptId)
      ∧ (∀ s ∈ earlier_safepoints, s.1 < ret)
      ∧ (FLAG_collect_code = false → earlier_descriptors = [] ∧ earlier_safepoints = []))
    ∧ ∀ comp' : Compiler,
        (FlowGraphCompiler.EmitUnoptimizedStaticCall comp recognized_kind ic_data argument_count
            deopt_id token_pos locs = some comp'
          ∨ comp' = FlowGraphCompiler.EmitOptimizedStaticCall comp function arguments_descriptor
              argument_count deopt_id token_pos locs
          ∨ comp' = FlowGraphCompiler.EmitInstanceCall comp target_label ic_data argument_count
              deopt_id token_pos locs
          ∨ comp' = FlowGraphCompiler.EmitOptimizedInstanceCall comp function target_label
              ic_data argument_count deopt_id token_pos locs
          ∨ FlowGraphCompiler.EmitMegamorphicInstanceCall.emit FLAG_collect_code kNoDeoptId comp
              cache ic_data (some arguments_descriptor) argument_count deopt_id token_pos locs
              = some comp') →
        ∀ d ∈ comp'.pc_descriptors.drop comp.pc_descriptors.length,
          d.kind ≠ PcDescriptorKind.kDeopt → d.deopt_id ≠ comp.ToDeoptAfter deopt_id := by
  have hunopt : ∃ label,
      FlowGraphCompiler.EmitUnoptimizedStaticCall comp recognized_kind ic_data argument_count
          deopt_id token_pos locs
        = some ((FlowGraphCompiler.GenerateDartCall (comp.emit (Instr.LoadObject RBX ic_data))
            deopt_id token_pos label PcDescriptorKind.kUnoptStaticCall locs).emit
              (Instr.Drop argument_count)) := by
    unfold FlowGraphCompiler.EmitUnoptimizedStaticCall
    by_cases hk : recognized_kind = MethodRecognizerKind.kMathMin
        ∨ recognized_kind = MethodRecognizerKind.kMathMax
    · exact ⟨Stub.TwoArgsUnoptimizedStaticCall, by simp [hk]⟩
    · exact ⟨Stub.ZeroArgsUnoptimizedStaticCall, by simp [hk]⟩
  obtain ⟨label, hlabel⟩ := hunopt
  -- the keys of the descriptors a shape built on `GenerateDartCall` adds
  have hkeys : ∀ (ret : Nat) (kind : PcDescriptorKind),
      ∀ d ∈ [(⟨ret, kind, deopt_id, token_pos⟩ : PcDescriptor)]
          ++ (if comp.is_optimizing then []
              else [⟨ret, PcDescriptorKind.kDeopt, comp.ToDeoptAfter deopt_id, token_pos⟩]),
        d.kind ≠ PcDescriptorKind.kDeopt → d.deopt_id ≠ comp.ToDeoptAfter deopt_id := by
    intro ret kind d hd hkind
    cases hopt : comp.is_optimizing
    · rw [hopt] at hd
      simp only [Bool.false_eq_true, if_false, List.singleton_append, List.mem_cons,
        List.not_mem_nil, or_false] at hd
      rcases hd with rfl | rfl
      · exact fun h => hafter h.symm
      · exact absurd rfl hkind
    · rw [hopt] at hd
      simp only [if_true, List.append_nil, List.mem_singleton] at hd
      subst hd
      exact fun h => hafter h.symm
  obtain ⟨u1, u2, u3, u4⟩ := GenerateDartCall_shape comp
    (comp.emit (Instr.LoadObject RBX ic_data))
    ((FlowGraphCompiler.GenerateDartCall (comp.emit (Instr.LoadObject RBX ic_data))
        deopt_id token_pos label PcDescriptorKind.kUnoptStaticCall locs).emit
          (Instr.Drop argument_count))
    [Instr.LoadObject RBX ic_data] argument_count deopt_id token_pos label
    PcDescriptorKind.kUnoptStaticCall locs rfl rfl rfl rfl rfl rfl rfl rfl rfl rfl
  obtain ⟨s1, s2, s3, s4⟩ := GenerateDartCall_shape comp
    (comp.emit (Instr.LoadObject R10 arguments_descriptor))
    (FlowGraphCompiler.EmitOptimizedStaticCall comp function arguments_descriptor
      argument_count deopt_id token_pos locs)
    [Instr.LoadObject R10 arguments_descriptor] argument_count deopt_id token_pos
    Stub.CallStaticFunction PcDescriptorKind.kOptStaticCall locs
    rfl rfl rfl rfl rfl rfl rfl rfl rfl rfl
  obtain ⟨i1, i2, i3, i4⟩ := GenerateDartCall_shape comp
    (comp.emit (Instr.LoadObject RBX ic_data))
    (FlowGraphCompiler.EmitInstanceCall comp target_label ic_data argument_count deopt_id
      token_pos locs)
    [Instr.LoadObject RBX ic_data] argument_count deopt_id token_pos target_label
    PcDescriptorKind.kIcCall locs rfl rfl rfl rfl rfl rfl rfl rfl rfl rfl
  obtain ⟨o1, o2, o3, o4⟩ := GenerateDartCall_shape comp
    ((comp.emit (Instr.LoadObject RDI function)).emit (Instr.LoadObject RBX ic_data))
    (FlowGraphCompiler.EmitOptimizedInstanceCall comp function target_label ic_data
      argument_count deopt_id token_pos locs)
    [Instr.LoadObject RDI function, Instr.LoadObject RBX ic_data] argument_count deopt_id
    token_pos target_label PcDescriptorKind.kIcCall locs
    (by simp [Compiler.emit]) rfl rfl rfl rfl rfl rfl rfl rfl rfl
  -- the megamorphic call
  have hmega : ∃ comp' lookup ret earlier_descriptors earlier_safepoints,
      FlowGraphCompiler.EmitMegamorphicInstanceCall.emit FLAG_collect_code kNoDeoptId comp cache
          ic_data (some arguments_descriptor) argument_count deopt_id token_pos locs = some comp'
      ∧ comp'.code = comp.code ++ lookup ++ [Instr.call RAX, Instr.Drop argument_count]
      ∧ ret = codeSize (comp.code ++ lookup ++ [Instr.call RAX])
      ∧ comp'.pc_descriptors
          = comp.pc_descriptors ++ earlier_descriptors
            ++ [⟨ret, PcDescriptorKind.kOther, kNoDeoptId, token_pos⟩]
      ∧ comp'.safepoints = comp.safepoints ++ earlier_safepoints ++ [(ret, locs)]
      ∧ comp'.deopt_indices
          = comp.deopt_indices ++ [(ret, comp.ToDeoptAfter deopt_id, token_pos)]
      ∧ (∀ d ∈ earlier_descriptors,
          d.pc_offset < ret ∧ d.kind = PcDescriptorKind.kRuntimeCall ∧ d.deopt_id = kNoDeoptId)
      ∧ (∀ s ∈ earlier_safepoints, s.1 < ret)
      ∧ (FLAG_collect_code = false → earlier_descriptors = [] ∧ earlier_safepoints = []) := by
    cases FLAG_collect_code
    · refine ⟨_,
        FlowGraphCompiler.megamorphicProbe cache
          ++ FlowGraphCompiler.megamorphicEntry ic_data arguments_descriptor,
        _, [], [], rfl, ?_, rfl, ?_, ?_, ?_, ?_, ?_, ?_⟩
      · simp [Compiler.emit, Compiler.emitAll, Compiler.AddCurrentDescriptor,
          Compiler.RecordSafepoint, Compiler.AddDeoptIndexAtCall]
      · simp [Compiler.emit, Compiler.emitAll, Compiler.AddCurrentDescriptor,
          Compiler.RecordSafepoint, Compiler.AddDeoptIndexAtCall]
      · simp [Compiler.emit, Compiler.emitAll, Compiler.AddCurrentDescriptor,
          Compiler.RecordSafepoint, Compiler.AddDeoptIndexAtCall]
      · simp [Compiler.emit, Compiler.emitAll, Compiler.AddCurrentDescriptor,
          Compiler.RecordSafepoint, Compiler.AddDeoptIndexAtCall]
      · intro d hd
        cases hd
      · intro s hs
        cases hs
      · intro _
        exact ⟨rfl, rfl⟩
    · refine ⟨_,
        FlowGraphCompiler.megamorphicProbe cache ++ FlowGraphCompiler.megamorphicCompile
          ++ [Instr.asm 1453]
          ++ FlowGraphCompiler.megamorphicEntry ic_data arguments_descriptor,
        _,
        [⟨codeSize (comp.code ++ FlowGraphCompiler.megamorphicProbe cache
            ++ FlowGraphCompiler.megamorphicCompile),
          PcDescriptorKind.kRuntimeCall, kNoDeoptId, token_pos⟩],
        [(codeSize (comp.code ++ FlowGraphCompiler.megamorphicProbe cache
            ++ FlowGraphCompiler.megamorphicCompile), locs)],
        rfl, ?_, rfl, ?_, ?_, ?_, ?_, ?_, ?_⟩
      · simp [Compiler.emit, Compiler.emitAll, Compiler.AddCurrentDescriptor,
          Compiler.RecordSafepoint, Compiler.AddDeoptIndexAtCall]
      · simp [Compiler.emit, Compiler.emitAll, Compiler.AddCurrentDescriptor,
          Compiler.RecordSafepoint, Compiler.AddDeoptIndexAtCall]
      · simp [Compiler.emit, Compiler.emitAll, Compiler.AddCurrentDescriptor,
          Compiler.RecordSafepoint, Compiler.AddDeoptIndexAtCall]
      · simp [Compiler.emit, Compiler.emitAll, Compiler.AddCurrentDescriptor,
          Compiler.RecordSafepoint, Compiler.AddDeoptIndexAtCall]
      · intro d hd
        simp only [List.mem_singleton] at hd
        subst hd
        refine ⟨?_, rfl, rfl⟩
        simp only [codeSize_append]
        simp [codeSize, FlowGraphCompiler.megamorphicEntry]
      · intro s hs
        simp only [List.mem_singleton] at hs
        subst hs
        simp only [codeSize_append]
        simp [codeSize, FlowGraphCompiler.megamorphicEntry]
      · intro h
        cases h
  refine ⟨⟨_, label, _, hlabel, u1, rfl, u2, u3, u4⟩, ⟨_, _, rfl, s1, rfl, s2, s3, s4⟩,
    ⟨_, _, rfl, i1, rfl, i2, i3, i4⟩, ⟨_, _, rfl, o1, rfl, o2, o3, o4⟩, hmega, ?_⟩
  intro comp' h d hd hkind
  rcases h with h | rfl | rfl | rfl | h
  · rw [hlabel] at h
    cases h
    exact drop_descriptors_keys comp.pc_descriptors _ _ _ (by rw [u2, List.append_assoc])
      (hkeys _ _) d hd hkind
  · exact drop_descriptors_keys comp.pc_descriptors _ _ _ (by rw [s2, List.append_assoc])
      (hkeys _ _) d hd hkind
  · exact drop_descriptors_keys comp.pc_descriptors _ _ _ (by rw [i2, List.append_assoc])
      (hkeys _ _) d hd hkind
  · exact drop_descriptors_keys comp.pc_descriptors _ _ _ (by rw [o2, List.append_assoc])
      (hkeys _ _) d hd hkind
  · obtain ⟨comp'', lookup, ret, earlier, -, hc, -, -, hdesc, -, -, hearlier, -, -⟩ := hmega
    rw [hc] at h
    cases h
    refine drop_descriptors_keys comp.pc_descriptors
      (earlier ++ [⟨ret, PcDescriptorKind.kOther, kNoDeoptId, token_pos⟩]) _ _
      (by rw [hdesc, List.append_assoc]) ?_ d hd hkind
    intro x hx _
    rcases List.mem_append.mp hx with hx | hx
    · rw [(hearlier x hx).2.2]
      exact fun h => hnone h.symm
    · simp only [List.mem_singleton] at hx
      subst hx
      exact fun h => hnone h.symm

/-- C19 on an instance call in unoptimized code, with deopt id 4 and token
position 17: after the load and the call, at code offset 2, the descriptor of
the call keyed by 4 and the `kDeopt` descriptor keyed by `ToDeoptAfter(4)`,
one safepoint, and no deopt-index entry. -/
theorem call_shapes_record_call_and_continuation_witness :
    sampleUnoptimizedCompiler.ToDeoptAfter 4 ≠ 4
    ∧ sampleUnoptimizedCompiler.ToDeoptAfter 4 ≠ -1
    ∧ (FlowGraphCompiler.EmitInstanceCall sampleUnoptimizedCompiler (Stub.other 0) 2 1 4 17
          9).pc_descriptors
        = [⟨2, PcDescriptorKind.kIcCall, 4, 17⟩, ⟨2, PcDescriptorKind.kDeopt, 5, 17⟩]
    ∧ (FlowGraphCompiler.EmitInstanceCall sampleUnoptimizedCompiler (Stub.other 0) 2 1 4 17
          9).safepoints = [(2, 9)]
    ∧ (FlowGraphCompiler.EmitInstanceCall sampleUnoptimizedCompiler (Stub.other 0) 2 1 4 17
          9).deopt_indices = [] := by
  obtain ⟨-, -, ⟨comp', ret, hcomp, -, hret, hd, hs, hi⟩, -, -, -⟩ :=
    call_shapes_record_call_and_continuation sampleUnoptimizedCompiler false (-1)
      (MethodRecognizerKind.kOther 0) 70 (Stub.other 0) 1 2 3 1 4 17 9 (by decide) (by decide)
  subst hcomp
  subst hret
  exact ⟨by decide, by decide, hd, hs, hi⟩

/-! ## Properties of the parameter binder -/

section ParameterBinder

variable {Name : Type} [LinearOrder Name]

theorem CompareTo_eq_zero (a b : Name) : CompareTo a b = 0 ↔ a = b := by
  unfold CompareTo
  by_cases h1 : a < b
  · simp [h1, ne_of_lt h1]
  · by_cases h2 : a = b
    · simp [h2]
    · simp [h1, h2]

theorem CompareTo_pos (a b : Name) : CompareTo a b > 0 ↔ b < a := by
  unfold CompareTo
  by_cases h1 : a < b
  · simp [h1, not_lt_of_lt h1]
  · by_cases h2 : a = b
    · simp [h2]
    · have : b < a := lt_of_le_of_ne (not_lt.mp h1) (Ne.symm h2)
      simp [h1, h2, this]

theorem scanNames_le (formals entries : List Name) :
    scanNames formals entries ≤ entries.length := by
  induction formals generalizing entries with
  | nil => simp [scanNames]
  | cons f fs ih =>
      cases entries with
      | nil => simpa [scanNames] using ih []
      | cons e es =>
          by_cases h : e = f
          · simp only [scanNames, h, if_true, List.length_cons]
            have := ih es
            omega
          · simp only [scanNames, h, if_false]
            exact ih (e :: es)

/-- With the formals and the entries both in strictly ascending name order, the
scan consumes every entry exactly when every entry names a formal. -/
theorem scanNames_eq_length_iff (formals entries : List Name)
    (hf : formals.Pairwise (· < ·)) (he : entries.Pairwise (· < ·)) :
    scanNames formals entries = entries.length ↔ ∀ e ∈ entries, e ∈ formals := by
  induction formals generalizing entries with
  | nil =>
      cases entries with
      | nil => simp [scanNames]
      | cons e es =>
          constructor
          · intro h
            simp [scanNames] at h
          · intro h
            exact absurd (h e (List.mem_cons_self _ _)) (List.not_mem_nil _)
  | cons f fs ih =>
      have hfs : fs.Pairwise (· < ·) := (List.pairwise_cons.mp hf).2
      have hflt : ∀ x ∈ fs, f < x := (List.pairwise_cons.mp hf).1
      cases entries with
      | nil =>
          have := ih [] hfs List.Pairwise.nil
          simpa [scanNames] using this
      | cons e es =>
          have hes : es.Pairwise (· < ·) := (List.pairwise_cons.mp he).2
          have helt : ∀ x ∈ es, e < x := (List.pairwise_cons.mp he).1
          by_cases h : e = f
          · subst h
            simp only [scanNames, if_true, List.length_cons, add_left_inj]
            rw [ih es hfs hes]
            constructor
            · intro hsub x hx
              rcases List.mem_cons.mp hx with rfl | hx
              · exact List.mem_cons_self _ _
              · exact List.mem_cons_of_mem _ (hsub x hx)
            · intro hsub x hx
              have hxin := hsub x (List.mem_cons_of_mem _ hx)
              rcases List.mem_cons.mp hxin with rfl | hxin
              · exact absurd (helt _ hx) (lt_irrefl _)
              · exact hxin
          · simp only [scanNames, h, if_false]
            rw [ih (e :: es) hfs he]
            constructor
            · intro hsub x hx
              exact List.mem_cons_of_mem _ (hsub x hx)
            · intro hsub x hx
              have hxin := hsub x hx
              rcases List.mem_cons.mp hxin with rfl | hxin
              · -- `x` is the formal `f`; the head entry `e` would come before it
                exfalso
                have hein := hsub e (List.mem_cons_self _ _)
                have hex : e < x := by
                  rcases List.mem_cons.mp hx with rfl | hx'
                  · exact absurd rfl h
                  · exact helt _ hx'
                rcases List.mem_cons.mp hein with rfl | hein
                · exact h rfl
                · exact absurd (hflt _ hein) (not_lt_of_lt hex)
              · exact hxin

theorem getElem?_take_append_cons_drop {α : Type} (L : List α) (t : Nat) (a : α) (m : Nat)
    (ht : t ≤ L.length) :
    (L.take t ++ a :: L.drop t)[m]?
      = if m < t then L[m]? else if m = t then some a else L[m - 1]? := by
  have hlen : (L.take t).length = t := by simp [ht]
  by_cases h1 : m < t
  · rw [if_pos h1, List.getElem?_append_left (by omega), List.getElem?_take_of_lt h1]
  · rw [if_neg h1, List.getElem?_append_right (by omega), hlen]
    by_cases h2 : m = t
    · subst h2
      simp
    · rw [if_neg h2]
      obtain ⟨d, hd⟩ : ∃ d, m - t = d + 1 := ⟨m - t - 1, by omega⟩
      rw [hd, List.getElem?_cons_succ, List.getElem?_drop]
      congr 1
      omega

theorem insertNamedParameter_spec (n : Nat) (x : LocalVariable Name) (pos : Nat)
    (L : List (LocalVariable Name × Nat)) (hjn : L.length < n)
    (hsorted : L.Pairwise (fun a b => a.1.name < b.1.name))
    (hfresh : ∀ y ∈ L, y.1.name ≠ x.name) :
    ∀ (k : Nat) (A : CArray (LocalVariable Name)) (B : CArray Nat),
      k ≤ L.length → A.size = n → B.size = n →
      (∀ m, m < k → A.cell m = (L[m]?).map Prod.fst ∧ B.cell m = (L[m]?).map Prod.snd) →
      (∀ m, k ≤ m → m < L.length →
        A.cell (m + 1) = (L[m]?).map Prod.fst ∧ B.cell (m + 1) = (L[m]?).map Prod.snd) →
      (∀ m y, k ≤ m → L[m]? = some y → x.name < y.1.name) →
      ∃ A' B' t,
        FlowGraphCompiler.insertNamedParameter x pos k (A, B) = some (A', B')
        ∧ t ≤ k
        ∧ Represents n (A', B') (L.take t ++ (x, pos) :: L.drop t)
        ∧ (∀ y ∈ L.take t, y.1.name < x.name)
        ∧ (∀ y ∈ L.drop t, x.name < y.1.name) := by
  intro k
  induction k with
  | zero =>
      intro A B _ hA hB _ hhi hgt
      have h0 : 0 < n := by omega
      refine ⟨{ A with cell := fun j => if j = 0 then some x else A.cell j },
        { B with cell := fun j => if j = 0 then some pos else B.cell j }, 0, ?_, le_rfl, ?_, ?_, ?_⟩
      · simp [FlowGraphCompiler.insertNamedParameter, CArray.set, hA, hB, h0]
      · refine ⟨hA, hB, by simp; omega, ?_⟩
        intro m hm
        simp only [List.take_zero, List.nil_append, List.drop_zero, List.length_cons] at hm ⊢
        cases m with
        | zero => simp
        | succ m =>
            have := hhi m (Nat.zero_le _) (by omega)
            simp [this.1, this.2]
      · intro y hy
        simp at hy
      · intro y hy
        simp only [List.drop_zero] at hy
        obtain ⟨m, hm, rfl⟩ := List.getElem_of_mem hy
        exact hgt m _ (Nat.zero_le _) (List.getElem?_eq_getElem hm)
  | succ k ih =>
      intro A B hk hA hB hlo hhi hgt
      have hkL : k < L.length := by omega
      have hkn : k < n := by omega
      have hk1n : k + 1 < n := by omega
      have hAk := (hlo k (by omega)).1
      have hBk := (hlo k (by omega)).2
      rw [List.getElem?_eq_getElem hkL] at hAk hBk
      simp only [Option.map_some'] at hAk hBk
      have hne : CompareTo x.name (L[k]).1.name ≠ 0 := by
        rw [Ne, CompareTo_eq_zero]
        exact fun h => hfresh _ (List.getElem_mem hkL) h.symm
      by_cases hpos : CompareTo x.name (L[k]).1.name > 0
      · -- the loop breaks: the parameter goes to cell `k + 1`
        have hlt : (L[k]).1.name < x.name := (CompareTo_pos _ _).mp hpos
        refine ⟨{ A with cell := fun j => if j = k + 1 then some x else A.cell j },
          { B with cell := fun j => if j = k + 1 then some pos else B.cell j }, k + 1, ?_, le_rfl,
          ?_, ?_, ?_⟩
        · simp [FlowGraphCompiler.insertNamedParameter, CArray.get, CArray.set, hA, hB, hkn,
            hk1n, hAk, hBk, hne, hpos]
        · refine ⟨hA, hB, by simp; omega, ?_⟩
          intro m hm
          have hm' : m < L.length + 1 := by
            simp at hm
            omega
          rw [getElem?_take_append_cons_drop L (k + 1) (x, pos) m (by omega)]
          by_cases h1 : m < k + 1
          · have hmk : m ≠ k + 1 := by omega
            simp only [hmk, if_false, h1, if_true]
            exact hlo m h1
          · by_cases h2 : m = k + 1
            · subst h2
              simp
            · have hmk : ¬ m < k + 1 := h1
              simp only [h2, if_false, hmk]
              obtain ⟨d, rfl⟩ : ∃ d, m = d + 1 := ⟨m - 1, by omega⟩
              simpa using hhi d (by omega) (by omega)
        · intro y hy
          obtain ⟨m, hm, rfl⟩ := List.getElem_of_mem hy
          have hmk : m < k + 1 := by
            simp at hm
            omega
          have hmL : m < L.length := by omega
          rw [List.getElem_take]
          by_cases hmeq : m = k
          · subst hmeq
            exact hlt
          · have := List.pairwise_iff_getElem.mp hsorted m k hmL hkL (by omega)
            exact lt_trans this hlt
        · intro y hy
          obtain ⟨m, hm, rfl⟩ := List.getElem_of_mem hy
          rw [List.getElem_drop]
          exact hgt _ _ (by omega) (List.getElem?_eq_getElem _)
      · -- the entry of cell `k` moves up and the loop goes on
        have hlt : x.name < (L[k]).1.name := by
          have h1 : ¬ (L[k]).1.name < x.name := fun h => hpos ((CompareTo_pos _ _).mpr h)
          have h2 : x.name ≠ (L[k]).1.name := fun h => hne ((CompareTo_eq_zero _ _).mpr h)
          exact lt_of_le_of_ne (not_lt.mp h1) h2
        obtain ⟨A', B', t, hrun, ht, hrep, hlow, hhigh⟩ := ih
          { A with cell := fun j => if j = k + 1 then some (L[k]).1 else A.cell j }
          { B with cell := fun j => if j = k + 1 then some (L[k]).2 else B.cell j }
          (by omega) hA hB
          (by
            intro m hm
            have hmk : m ≠ k + 1 := by omega
            simp only [hmk, if_false]
            exact hlo m (by omega))
          (by
            intro m hkm hm
            by_cases hmeq : m = k
            · subst hmeq
              simp [List.getElem?_eq_getElem hkL]
            · have hmk : m + 1 ≠ k + 1 := by omega
              simp only [hmk, if_false]
              exact hhi m (by omega) hm)
          (by
            intro m y hkm hy
            by_cases hmeq : m = k
            · subst hmeq
              rw [List.getElem?_eq_getElem hkL] at hy
              cases hy
              exact hlt
            · exact hgt m y (by omega) hy)
        refine ⟨A', B', t, ?_, by omega, hrep, hlow, hhigh⟩
        rw [← hrun]
        simp [FlowGraphCompiler.insertNamedParameter, CArray.get, CArray.set, hA, hB, hkn,
          hk1n, hAk, hBk, hne, hpos]

omit [LinearOrder Name] in
theorem namedFormals_length (function : ParsedFunction Name)
    (hwf : function.HasNamedParameters) :
    function.namedFormals.length = function.NumOptionalNamedParameters := by
  obtain ⟨_, _, hscope, _⟩ := hwf
  simp [ParsedFunction.namedFormals, hscope]

omit [LinearOrder Name] in
theorem namedFormals_getElem? (function : ParsedFunction Name)
    (hwf : function.HasNamedParameters) (c : Nat)
    (hc : c < function.NumOptionalNamedParameters) :
    ∃ parameter,
      function.scope[function.num_fixed_parameters + c]? = some parameter
      ∧ function.namedFormals[c]? = some (parameter, function.num_fixed_parameters + c) := by
  obtain ⟨_, _, hscope, _⟩ := hwf
  have hlt : function.num_fixed_parameters + c < function.scope.length := by omega
  refine ⟨function.scope[function.num_fixed_parameters + c], List.getElem?_eq_getElem hlt, ?_⟩
  unfold ParsedFunction.namedFormals
  rw [List.getElem?_zip_eq_some]
  constructor
  · rw [List.getElem?_drop, List.getElem?_eq_getElem hlt]
  · rw [List.getElem?_range' _ _ hc]
    simp

theorem insert_sorted (L : List (LocalVariable Name × Nat)) (x : LocalVariable Name × Nat)
    (t : Nat) (hsorted : L.Pairwise (fun a b => a.1.name < b.1.name))
    (hlow : ∀ y ∈ L.take t, y.1.name < x.1.name) (hhigh : ∀ y ∈ L.drop t, x.1.name < y.1.name) :
    (L.take t ++ x :: L.drop t).Pairwise (fun a b => a.1.name < b.1.name) := by
  rw [List.pairwise_append]
  refine ⟨hsorted.sublist (List.take_sublist _ _), ?_, ?_⟩
  · rw [List.pairwise_cons]
    exact ⟨hhigh, hsorted.sublist (List.drop_sublist _ _)⟩
  · intro a ha b hb
    rcases List.mem_cons.mp hb with rfl | hb
    · exact hlow a ha
    · exact lt_trans (hlow a ha) (hhigh b hb)

/-- The insertion loop succeeds on a function with named parameters and leaves
in the arrays the named formals, with their positions, in strictly ascending
name order. -/
theorem sortNamedParameters_spec (function : ParsedFunction Name)
    (hwf : function.HasNamedParameters) :
    ∀ (remaining c : Nat) (arrays : CArray (LocalVariable Name) × CArray Nat)
      (L : List (LocalVariable Name × Nat)),
      c + remaining = function.NumOptionalNamedParameters →
      Represents function.NumOptionalNamedParameters arrays L → L.length = c →
      L.Pairwise (fun a b => a.1.name < b.1.name) →
      L.Perm (function.namedFormals.take c) →
      ∃ arrays' L',
        FlowGraphCompiler.sortNamedParameters function remaining
            (function.num_fixed_parameters + c) arrays = some arrays'
        ∧ Represents function.NumOptionalNamedParameters arrays' L'
        ∧ L'.Pairwise (fun a b => a.1.name < b.1.name)
        ∧ L'.Perm function.namedFormals := by
  intro remaining
  induction remaining with
  | zero =>
      intro c arrays L hc hrep _ hsorted hperm
      refine ⟨arrays, L, rfl, hrep, hsorted, ?_⟩
      have : function.namedFormals.take c = function.namedFormals := by
        apply List.take_of_length_le
        rw [namedFormals_length function hwf]
        omega
      rwa [this] at hperm
  | succ remaining ih =>
      intro c arrays L hc hrep hlen hsorted hperm
      have hcn : c < function.NumOptionalNamedParameters := by omega
      obtain ⟨parameter, hscope, hformal⟩ := namedFormals_getElem? function hwf c hcn
      obtain ⟨A, B⟩ := arrays
      obtain ⟨hA, hB, _, hcells⟩ := hrep
      have htake : function.namedFormals.take (c + 1)
          = function.namedFormals.take c
              ++ [(parameter, function.num_fixed_parameters + c)] := by
        rw [List.take_succ, hformal]
        rfl
      have hnodup : (function.namedFormals.take (c + 1)).map (fun e => e.1.name) |>.Nodup := by
        have := hwf.2.2.2
        unfold ParsedFunction.namedFormalNames at this
        exact this.sublist ((List.take_sublist _ _).map _)
      have hfresh : ∀ y ∈ L, y.1.name ≠ parameter.name := by
        intro y hy heq
        rw [htake, List.map_append, List.nodup_append] at hnodup
        have hy' : y ∈ function.namedFormals.take c := hperm.mem_iff.mp hy
        exact hnodup.2.2 (List.mem_map_of_mem (fun e => e.1.name) hy') (by simp [heq])
      obtain ⟨A', B', t, hrun, _, hrep', hlow, hhigh⟩ :=
        insertNamedParameter_spec function.NumOptionalNamedParameters parameter
          (function.num_fixed_parameters + c) L (by omega) hsorted hfresh L.length A B le_rfl hA hB
          (fun m hm => hcells m hm)
          (fun m h1 h2 => absurd h2 (by omega))
          (fun m y h1 h2 => by
            rw [List.getElem?_eq_none (by omega)] at h2
            cases h2)
      have hsorted' := insert_sorted L (parameter, function.num_fixed_parameters + c) t hsorted
        hlow hhigh
      have hperm' : (L.take t ++ (parameter, function.num_fixed_parameters + c) :: L.drop t).Perm
          (function.namedFormals.take (c + 1)) := by
        rw [htake]
        refine List.perm_middle.trans ?_
        rw [List.take_append_drop]
        exact (List.perm_append_singleton _ _).symm.trans (List.Perm.append_right _ hperm)
      obtain ⟨arrays', L', hrest, hrepL, hsortedL, hpermL⟩ := ih (c + 1) (A', B') _
        (by omega) hrep'
        (by
          have := hperm'.length_eq
          rw [this, htake]
          simp
          rw [namedFormals_length function hwf]
          omega)
        hsorted' hperm'
      refine ⟨arrays', L', ?_, hrepL, hsortedL, hpermL⟩
      have hsub : function.num_fixed_parameters + c - function.num_fixed_parameters = L.length := by
        omega
      simp only [FlowGraphCompiler.sortNamedParameters, hscope, hsub, hrun]
      exact hrest

/-- The emitted loop over the sorted formals moves the cursor as `scanNames`
does. -/
theorem bindNamedParameters_cursor (layout : FrameLayout) (function : ParsedFunction Name)
    (desc : ArgumentsDescriptor Name) (rbx : Int) (n : Nat)
    (arrays : CArray (LocalVariable Name) × CArray Nat) (L : List (LocalVariable Name × Nat))
    (hrep : Represents n arrays L) (hlen : L.length = n) :
    ∀ (remaining i cursor : Nat) (mem : FrameMemory), i + remaining = n →
      ∃ mem',
        FlowGraphCompiler.bindNamedParameters layout function desc rbx arrays.1 arrays.2
            remaining i (cursor, mem)
          = some (cursor + scanNames ((L.drop i).map (fun e => e.1.name))
                    ((desc.named.drop cursor).map Prod.fst), mem') := by
  obtain ⟨A, B⟩ := arrays
  obtain ⟨hA, hB, _, hcells⟩ := hrep
  simp only at hA hB hcells ⊢
  intro remaining
  induction remaining with
  | zero =>
      intro i cursor mem hi
      refine ⟨mem, ?_⟩
      have : L.drop i = [] := List.drop_of_length_le (by omega)
      simp [FlowGraphCompiler.bindNamedParameters, this, scanNames]
  | succ remaining ih =>
      intro i cursor mem hi
      have hiL : i < L.length := by omega
      have hin : i < n := by omega
      have hAi := (hcells i hiL).1
      have hBi := (hcells i hiL).2
      rw [List.getElem?_eq_getElem hiL] at hAi hBi
      simp only [Option.map_some'] at hAi hBi
      have hdrop : L.drop i = L[i] :: L.drop (i + 1) := List.drop_eq_getElem_cons hiL
      by_cases hmatch : desc.nameAt cursor = some (L[i]).1.name
      · -- the entry under the cursor names this formal
        have hcur : cursor < desc.named.length := by
          unfold ArgumentsDescriptor.nameAt at hmatch
          by_contra hge
          rw [List.getElem?_eq_none (by omega)] at hmatch
          cases hmatch
        have hname : (desc.named[cursor]).1 = (L[i]).1.name := by
          unfold ArgumentsDescriptor.nameAt at hmatch
          rw [List.getElem?_eq_getElem hcur] at hmatch
          simpa using hmatch
        have hentries : desc.named.drop cursor = desc.named[cursor] :: desc.named.drop (cursor + 1) :=
          List.drop_eq_getElem_cons hcur
        obtain ⟨mem', hrec⟩ := ih (i + 1) (cursor + 1)
          ((FlowGraphCompiler.bindNamedParameter layout function desc rbx (L[i]).1.name (L[i]).2
            (cursor, mem)).2) (by omega)
        refine ⟨mem', ?_⟩
        have hstep : FlowGraphCompiler.bindNamedParameter layout function desc rbx (L[i]).1.name
            (L[i]).2 (cursor, mem)
            = (cursor + 1, (FlowGraphCompiler.bindNamedParameter layout function desc rbx
                (L[i]).1.name (L[i]).2 (cursor, mem)).2) := by
          simp [FlowGraphCompiler.bindNamedParameter, hmatch]
        simp only [FlowGraphCompiler.bindNamedParameters, CArray.get, hA, hB, hin, if_true, hAi,
          hBi]
        rw [hstep, hrec, hdrop, hentries]
        simp only [List.map_cons, scanNames, hname, if_true]
        congr 2
        omega
      · -- the formal takes its default value and the cursor stays
        obtain ⟨mem', hrec⟩ := ih (i + 1) cursor
          ((FlowGraphCompiler.bindNamedParameter layout function desc rbx (L[i]).1.name (L[i]).2
            (cursor, mem)).2) (by omega)
        refine ⟨mem', ?_⟩
        have hstep : FlowGraphCompiler.bindNamedParameter layout function desc rbx (L[i]).1.name
            (L[i]).2 (cursor, mem)
            = (cursor, (FlowGraphCompiler.bindNamedParameter layout function desc rbx
                (L[i]).1.name (L[i]).2 (cursor, mem)).2) := by
          simp [FlowGraphCompiler.bindNamedParameter, hmatch]
        simp only [FlowGraphCompiler.bindNamedParameters, CArray.get, hA, hB, hin, if_true, hAi,
          hBi]
        rw [hstep, hrec, hdrop]
        congr 2
        by_cases hcur : cursor < desc.named.length
        · have hentries : desc.named.drop cursor
              = desc.named[cursor] :: desc.named.drop (cursor + 1) :=
            List.drop_eq_getElem_cons hcur
          have hne : ¬ (desc.named[cursor]).1 = (L[i]).1.name := by
            intro h
            apply hmatch
            unfold ArgumentsDescriptor.nameAt
            rw [List.getElem?_eq_getElem hcur]
            simp [h]
          rw [hentries]
          simp only [List.map_cons, scanNames, hne, if_false]
        · have hentries : desc.named.drop cursor = [] := List.drop_of_length_le (by omega)
          rw [hentries]
          simp only [List.map_cons, List.map_nil, scanNames]

omit [LinearOrder Name] in
theorem finish_exit (layout : FrameLayout) (null : Word) (desc : ArgumentsDescriptor Name)
    (exit : BinderExit) (after_copy : Bool) (cursor : Nat) (mem : FrameMemory) :
    (FlowGraphCompiler.finish layout null desc exit after_copy cursor mem).exit = exit
    ∧ (FlowGraphCompiler.finish layout null desc exit after_copy cursor mem).after_copy
        = after_copy
    ∧ (FlowGraphCompiler.finish layout null desc exit after_copy cursor mem).cursor = cursor := by
  cases exit <;> exact ⟨rfl, rfl, rfl⟩

omit [LinearOrder Name] in
theorem wrongNumArguments_ne (function : ParsedFunction Name) (check : Bool) :
    FlowGraphCompiler.wrongNumArguments function check ≠ BinderExit.all_arguments_processed := by
  unfold FlowGraphCompiler.wrongNumArguments
  split
  · simp
  · split <;> simp

/-- C4: for a function with `f` fixed and at least one optional named parameter
(pairwise distinct names, no optional positional parameter) and a descriptor
whose named entries are listed in strictly ascending name order, with argument
checking emitted (debug build, or a closure): `CopyParameters` succeeds and the
emitted code reaches `all_arguments_processed` if and only if the positional
count is `f` and every entry names a named formal; otherwise it reaches the
handler of `wrong_num_arguments` (the no-such-method call for a closure, the
stop otherwise). The cursor of the scan ends at or before the null terminator.
-/
theorem CopyParameters_named_bound_iff (DEBUG : Bool) (layout : FrameLayout) (null : Word)
    (function : ParsedFunction Name) (desc : ArgumentsDescriptor Name) (mem : FrameMemory)
    (hwf : function.HasNamedParameters)
    (hnames : (desc.named.map Prod.fst).Pairwise (· < ·))
    (hcheck : (DEBUG || function.IsClosureFunction) = true) :
    ∃ r,
      FlowGraphCompiler.CopyParameters DEBUG layout null function desc mem = some r
      ∧ (r.exit = BinderExit.all_arguments_processed
          ↔ desc.positional_count = (function.num_fixed_parameters : Int)
            ∧ ∀ e ∈ desc.named, e.1 ∈ function.namedFormalNames)
      ∧ (r.exit ≠ BinderExit.all_arguments_processed →
          r.exit = (if function.IsClosureFunction then BinderExit.CallNoSuchMethodFunction
                    else BinderExit.Stop))
      ∧ r.cursor ≤ desc.named.length := by
  obtain ⟨hn, hp, hscope, hnodup⟩ := hwf
  have hwf : function.HasNamedParameters := ⟨hn, hp, hscope, hnodup⟩
  obtain ⟨arrays, L, hsort, hrep, hsorted, hperm⟩ :=
    sortNamedParameters_spec function hwf function.NumOptionalNamedParameters 0
      (CArray.new function.NumOptionalNamedParameters, CArray.new function.NumOptionalNamedParameters)
      [] (by omega)
      ⟨rfl, rfl, Nat.zero_le _, fun m hm => absurd hm (by simp)⟩ rfl List.Pairwise.nil
      (by simp)
  have hLlen : L.length = function.NumOptionalNamedParameters := by
    rw [hperm.length_eq, namedFormals_length function hwf]
  have hLnames : ∀ x, x ∈ L.map (fun e => e.1.name) ↔ x ∈ function.namedFormalNames := by
    intro x
    unfold ParsedFunction.namedFormalNames
    exact (hperm.map _).mem_iff
  have hLsorted : (L.map (fun e => e.1.name)).Pairwise (· < ·) := by
    rw [List.pairwise_map]
    exact hsorted
  have hwrong : FlowGraphCompiler.wrongNumArguments function (DEBUG || function.IsClosureFunction)
      = (if function.IsClosureFunction then BinderExit.CallNoSuchMethodFunction
         else BinderExit.Stop) := by
    simp [FlowGraphCompiler.wrongNumArguments, hcheck]
  have hsub : function.num_fixed_parameters + function.NumOptionalPositionalParameters
      + function.NumOptionalNamedParameters - function.num_fixed_parameters
      = function.NumOptionalNamedParameters := by omega
  simp only [Nat.add_zero] at hsort
  unfold FlowGraphCompiler.CopyParameters
  simp only [hn, if_true, hsub, hp, Nat.add_zero, Nat.add_sub_cancel_left, hsort, Smi.RawValue]
  by_cases hlt : 2 * desc.positional_count < 2 * (function.num_fixed_parameters : Int)
  · refine ⟨_, by rw [if_pos hlt], ?_, ?_, ?_⟩
    · rw [(finish_exit _ _ _ _ _ _ _).1]
      constructor
      · intro h
        exact absurd h (wrongNumArguments_ne _ _)
      · rintro ⟨h, -⟩
        omega
    · intro _
      rw [(finish_exit _ _ _ _ _ _ _).1, hwrong]
    · rw [(finish_exit _ _ _ _ _ _ _).2.2]
      exact Nat.zero_le _
  · by_cases hgt : 2 * desc.positional_count > 2 * (function.num_fixed_parameters : Int)
    · refine ⟨_, by rw [if_neg hlt, if_pos hgt], ?_, ?_, ?_⟩
      · rw [(finish_exit _ _ _ _ _ _ _).1]
        constructor
        · intro h
          exact absurd h (wrongNumArguments_ne _ _)
        · rintro ⟨h, -⟩
          omega
      · intro _
        rw [(finish_exit _ _ _ _ _ _ _).1, hwrong]
      · rw [(finish_exit _ _ _ _ _ _ _).2.2]
        exact Nat.zero_le _
    · have hcount : desc.positional_count = (function.num_fixed_parameters : Int) := by omega
      rw [if_neg hlt, if_neg hgt]
      obtain ⟨mem', hbind⟩ := bindNamedParameters_cursor layout function desc
        (4 * (2 * desc.count) + layout.kParamEndSlotFromFp * kWordSize)
        function.NumOptionalNamedParameters arrays L hrep hLlen
        function.NumOptionalNamedParameters 0 0
        (FlowGraphCompiler.copyPositional
          (4 * (2 * desc.count - 2 * desc.positional_count)
            + (layout.kParamEndSlotFromFp + 1) * kWordSize)
          (8 * -SmiUntag (2 * desc.positional_count)
            + (layout.kFirstLocalSlotFromFp + 1) * kWordSize)
          (SmiUntag (2 * desc.positional_count)).toNat mem)
        (by omega)
      simp only [List.drop_zero, Nat.zero_add] at hbind
      obtain ⟨A, B⟩ := arrays
      simp only at hbind ⊢
      rw [hbind]
      simp only [hcheck, Bool.true_and]
      have hle := scanNames_le (L.map (fun e => e.1.name)) (desc.named.map Prod.fst)
      rw [List.length_map] at hle
      have hiff := scanNames_eq_length_iff (L.map (fun e => e.1.name)) (desc.named.map Prod.fst)
        hLsorted hnames
      rw [List.length_map] at hiff
      have hnone : desc.nameAt (scanNames (L.map (fun e => e.1.name)) (desc.named.map Prod.fst))
            = none
          ↔ scanNames (L.map (fun e => e.1.name)) (desc.named.map Prod.fst)
              = desc.named.length := by
        unfold ArgumentsDescriptor.nameAt
        rw [Option.map_eq_none', List.getElem?_eq_none_iff]
        omega
      by_cases hend : desc.nameAt
          (scanNames (L.map (fun e => e.1.name)) (desc.named.map Prod.fst)) = none
      · refine ⟨_, by rw [if_pos (by simpa using hend)], ?_, ?_, ?_⟩
        · rw [(finish_exit _ _ _ _ _ _ _).1]
          simp only [true_iff]
          refine ⟨hcount, ?_⟩
          intro e he
          have := (hiff.mp (hnone.mp hend)) e.1 (List.mem_map_of_mem Prod.fst he)
          exact (hLnames _).mp this
        · intro h
          rw [(finish_exit _ _ _ _ _ _ _).1] at h
          exact absurd rfl h
        · rw [(finish_exit _ _ _ _ _ _ _).2.2]
          exact hle
      · refine ⟨_, by rw [if_neg (by simpa using hend)], ?_, ?_, ?_⟩
        · rw [(finish_exit _ _ _ _ _ _ _).1]
          constructor
          · intro h
            exact absurd h (wrongNumArguments_ne _ _)
          · rintro ⟨-, hall⟩
            exfalso
            apply hend
            rw [hnone, hiff]
            intro x hx
            obtain ⟨e, he, rfl⟩ := List.mem_map.mp hx
            exact (hLnames _).mpr (hall e he)
        · intro _
          rw [(finish_exit _ _ _ _ _ _ _).1]
          simp [FlowGraphCompiler.wrongNumArguments]
        · rw [(finish_exit _ _ _ _ _ _ _).2.2]
          exact hle

/-- `CopyParameters` succeeds on every function that takes optional parameters
as the language allows it. -/
theorem CopyParameters_total (DEBUG : Bool) (layout : FrameLayout) (null : Word)
    (function : ParsedFunction Name) (desc : ArgumentsDescriptor Name) (mem : FrameMemory)
    (hwf : function.HasOptionalParameters) :
    ∃ r, FlowGraphCompiler.CopyParameters DEBUG layout null function desc mem = some r := by
  rcases hwf with hnamed | ⟨hn, hp⟩
  · obtain ⟨hn, hp, hscope, hnodup⟩ := hnamed
    have hwf : function.HasNamedParameters := ⟨hn, hp, hscope, hnodup⟩
    obtain ⟨arrays, L, hsort, hrep, -, hperm⟩ :=
      sortNamedParameters_spec function hwf function.NumOptionalNamedParameters 0
        (CArray.new function.NumOptionalNamedParameters,
          CArray.new function.NumOptionalNamedParameters)
        [] (by omega)
        ⟨rfl, rfl, Nat.zero_le _, fun m hm => absurd hm (by simp)⟩ rfl List.Pairwise.nil
        (by simp)
    have hLlen : L.length = function.NumOptionalNamedParameters := by
      rw [hperm.length_eq, namedFormals_length function hwf]
    simp only [Nat.add_zero] at hsort
    unfold FlowGraphCompiler.CopyParameters
    simp only [hn, if_true, hp, Nat.add_zero, Nat.add_sub_cancel_left, hsort, Smi.RawValue]
    split
    · exact ⟨_, rfl⟩
    · split
      · exact ⟨_, rfl⟩
      · obtain ⟨mem', hbind⟩ := bindNamedParameters_cursor layout function desc
          (4 * (2 * desc.count) + layout.kParamEndSlotFromFp * kWordSize)
          function.NumOptionalNamedParameters arrays L hrep hLlen
          function.NumOptionalNamedParameters 0 0
          (FlowGraphCompiler.copyPositional
            (4 * (2 * desc.count - 2 * desc.positional_count)
              + (layout.kParamEndSlotFromFp + 1) * kWordSize)
            (8 * -SmiUntag (2 * desc.positional_count)
              + (layout.kFirstLocalSlotFromFp + 1) * kWordSize)
            (SmiUntag (2 * desc.positional_count)).toNat mem)
          (by omega)
        obtain ⟨A, B⟩ := arrays
        simp only at hbind ⊢
        rw [hbind]
        dsimp only
        split
        · exact ⟨_, rfl⟩
        · exact ⟨_, rfl⟩
  · unfold FlowGraphCompiler.CopyParameters
    simp only [hn, lt_irrefl, if_false, hp, if_true]
    split
    · exact ⟨_, rfl⟩
    · split
      · exact ⟨_, rfl⟩
      · split
        · exact ⟨_, rfl⟩
        · exact ⟨_, rfl⟩

/-- Whatever `CopyParameters` returns, the exit was taken at the count checks
exactly when the positional count is out of range, and then nothing was copied.
-/
theorem CopyParameters_count_check_of_some (DEBUG : Bool) (layout : FrameLayout) (null : Word)
    (function : ParsedFunction Name) (desc : ArgumentsDescriptor Name) (mem : FrameMemory)
    (r : BinderResult)
    (h : FlowGraphCompiler.CopyParameters DEBUG layout null function desc mem = some r) :
    (r.after_copy = false
        ↔ desc.positional_count < (function.num_fixed_parameters : Int)
          ∨ ((function.num_fixed_parameters + function.NumOptionalPositionalParameters : Nat)
              : Int) < desc.positional_count)
    ∧ (r.after_copy = false →
        r = FlowGraphCompiler.finish layout null desc
              (FlowGraphCompiler.wrongNumArguments function (DEBUG || function.IsClosureFunction))
              false 0 mem) := by
  unfold FlowGraphCompiler.CopyParameters at h
  simp only [Smi.RawValue] at h
  split at h
  next => cases h
  next sorted arrays _ =>
    by_cases hlt : 2 * desc.positional_count < 2 * (function.num_fixed_parameters : Int)
    · rw [if_pos hlt] at h
      cases h
      refine ⟨?_, fun _ => rfl⟩
      rw [(finish_exit _ _ _ _ _ _ _).2.1]
      simp only [true_iff]
      left
      omega
    · rw [if_neg hlt] at h
      by_cases hgt : 2 * desc.positional_count
          > 2 * ((function.num_fixed_parameters + function.NumOptionalPositionalParameters : Nat)
              : Int)
      · rw [if_pos hgt] at h
        cases h
        refine ⟨?_, fun _ => rfl⟩
        rw [(finish_exit _ _ _ _ _ _ _).2.1]
        simp only [true_iff]
        right
        omega
      · rw [if_neg hgt] at h
        have hrange : ¬ (desc.positional_count < (function.num_fixed_parameters : Int)
            ∨ ((function.num_fixed_parameters + function.NumOptionalPositionalParameters : Nat)
                : Int) < desc.positional_count) := by
          omega
        have hafter : r.after_copy = true := by
          cases arrays with
          | some ab =>
              obtain ⟨A, B⟩ := ab
              simp only at h
              split at h
              next => cases h
              next cursor mem' _ =>
                split at h
                · cases h
                  exact (finish_exit _ _ _ _ _ _ _).2.1
                · cases h
                  exact (finish_exit _ _ _ _ _ _ _).2.1
          | none =>
              simp only at h
              split at h
              · cases h
                exact (finish_exit _ _ _ _ _ _ _).2.1
              · cases h
                exact (finish_exit _ _ _ _ _ _ _).2.1
        refine ⟨?_, ?_⟩
        · rw [hafter]
          simp only [Bool.true_eq_false, false_iff]
          exact hrange
        · intro hfalse
          rw [hafter] at hfalse
          cases hfalse

/-- C5: for every function that takes optional parameters, with `f` fixed and
`p` optional positional ones, and every arguments descriptor, `CopyParameters`
succeeds and the emitted code leaves at the count checks, to
`wrong_num_arguments` and with nothing copied, if and only if the positional
count is below `f` or above `f + p`; each comparison made on the Smi-tagged
counts agrees with the comparison of the counts themselves. -/
theorem CopyParameters_count_check (DEBUG : Bool) (layout : FrameLayout) (null : Word)
    (function : ParsedFunction Name) (desc : ArgumentsDescriptor Name) (mem : FrameMemory)
    (hwf : function.HasOptionalParameters) :
    ∃ r,
      FlowGraphCompiler.CopyParameters DEBUG layout null function desc mem = some r
      ∧ (r.after_copy = false
          ↔ desc.positional_count < (function.num_fixed_parameters : Int)
            ∨ ((function.num_fixed_parameters + function.NumOptionalPositionalParameters : Nat)
                : Int) < desc.positional_count)
      ∧ (r.after_copy = false →
          r = FlowGraphCompiler.finish layout null desc
                (FlowGraphCompiler.wrongNumArguments function
                  (DEBUG || function.IsClosureFunction)) false 0 mem)
      ∧ (Smi.RawValue desc.positional_count < Smi.RawValue (function.num_fixed_parameters : Int)
          ↔ desc.positional_count < (function.num_fixed_parameters : Int))
      ∧ (Smi.RawValue desc.positional_count
            > Smi.RawValue ((function.num_fixed_parameters
                + function.NumOptionalPositionalParameters : Nat) : Int)
          ↔ desc.positional_count
            > ((function.num_fixed_parameters + function.NumOptionalPositionalParameters : Nat)
                : Int)) := by
  obtain ⟨r, hr⟩ := CopyParameters_total DEBUG layout null function desc mem hwf
  obtain ⟨h1, h2⟩ := CopyParameters_count_check_of_some DEBUG layout null function desc mem r hr
  refine ⟨r, hr, h1, h2, ?_, ?_⟩
  · show (2 * desc.positional_count < 2 * (function.num_fixed_parameters : Int)) ↔ _
    constructor <;> intro h <;> omega
  · show (2 * desc.positional_count
        > 2 * ((function.num_fixed_parameters + function.NumOptionalPositionalParameters : Nat)
            : Int)) ↔ _
    constructor <;> intro h <;> omega

end ParameterBinder

theorem sampleFunction_HasNamedParameters : sampleFunction.HasNamedParameters :=
  ⟨by decide, by decide, by decide, by decide⟩

/-- C4 on the formals `(x, y, {z, w})` in a debug build, called with
`(5, 6, w: 9)`. -/
theorem CopyParameters_named_bound_iff_witness :
    sampleFunction.HasNamedParameters
    ∧ (sampleCall.named.map Prod.fst).Pairwise (· < ·)
    ∧ (true || sampleFunction.IsClosureFunction) = true
    ∧ ∃ r,
        FlowGraphCompiler.CopyParameters true sampleLayout 0 sampleFunction sampleCall sampleFrame
          = some r
        ∧ (r.exit = BinderExit.all_arguments_processed
            ↔ sampleCall.positional_count = (sampleFunction.num_fixed_parameters : Int)
              ∧ ∀ e ∈ sampleCall.named, e.1 ∈ sampleFunction.namedFormalNames)
        ∧ (r.exit ≠ BinderExit.all_arguments_processed →
            r.exit = (if sampleFunction.IsClosureFunction then BinderExit.CallNoSuchMethodFunction
                      else BinderExit.Stop))
        ∧ r.cursor ≤ sampleCall.named.length :=
  ⟨sampleFunction_HasNamedParameters, by decide, by decide,
    CopyParameters_named_bound_iff true sampleLayout 0 sampleFunction sampleCall sampleFrame
      sampleFunction_HasNamedParameters (by decide) (by decide)⟩

/-- C5 on the formals `(x, y, {z, w})` called with one positional argument and
the named argument `w`: the count check sends the call to the handler of
`wrong_num_arguments`, in a debug build the stop. -/
theorem CopyParameters_count_check_witness :
    sampleFunction.HasOptionalParameters
    ∧ ∃ r,
        FlowGraphCompiler.CopyParameters true sampleLayout 0 sampleFunction sampleShortCall
          sampleFrame = some r
        ∧ r.after_copy = false
        ∧ r.exit = BinderExit.Stop := by
  refine ⟨Or.inl sampleFunction_HasNamedParameters, ?_⟩
  obtain ⟨r, hr, hiff, hexit, -, -⟩ :=
    CopyParameters_count_check true sampleLayout 0 sampleFunction sampleShortCall sampleFrame
      (Or.inl sampleFunction_HasNamedParameters)
  have hfalse : r.after_copy = false := hiff.mpr (Or.inl (by decide))
  refine ⟨r, hr, hfalse, ?_⟩
  rw [hexit hfalse]
  rfl

section ParameterBinderFrame

variable {Name : Type} [LinearOrder Name]

theorem CompareTo_neg (a b : Name) : CompareTo a b < 0 ↔ a < b := by
  unfold CompareTo
  by_cases h : a < b
  · simp [h]
  · by_cases h2 : a = b
    · simp [h, h2]
    · simp [h, h2]

/-- Two lists in strictly ascending name order that hold the same pairs are
equal. -/
theorem eq_of_perm_of_ascending (L1 L2 : List (LocalVariable Name × Nat))
    (hperm : L1.Perm L2)
    (h1 : L1.Pairwise (fun a b => a.1.name < b.1.name))
    (h2 : L2.Pairwise (fun a b => a.1.name < b.1.name)) : L1 = L2 := by
  haveI : IsAntisymm (LocalVariable Name × Nat) (fun a b => a.1.name < b.1.name) :=
    ⟨fun a b hab hba => absurd hab (lt_asymm hba)⟩
  exact List.eq_of_perm_of_sorted hperm h1 h2

omit [LinearOrder Name] in
theorem namedFormals_mem (function : ParsedFunction Name) (e : LocalVariable Name × Nat)
    (he : e ∈ function.namedFormals) :
    function.scope[e.2]? = some e.1
    ∧ function.num_fixed_parameters ≤ e.2
    ∧ e.2 < function.num_fixed_parameters + function.NumOptionalNamedParameters := by
  unfold ParsedFunction.namedFormals at he
  obtain ⟨k, hk, hget⟩ := List.mem_iff_getElem.mp he
  have hk1 := hk
  rw [List.length_zip, List.length_drop, List.length_range'] at hk1
  have hget2 : ((function.scope.drop function.num_fixed_parameters).zip
      (List.range' function.num_fixed_parameters function.NumOptionalNamedParameters))[k]?
      = some e := by
    rw [List.getElem?_eq_getElem hk, hget]
  rw [List.getElem?_zip_eq_some] at hget2
  obtain ⟨ha, hb⟩ := hget2
  rw [List.getElem?_drop] at ha
  rw [List.getElem?_range' _ _ (by omega)] at hb
  simp only [Option.some.injEq] at hb
  have hpos : e.2 = function.num_fixed_parameters + k := by
    rw [← hb]
    ring
  refine ⟨?_, ?_, ?_⟩
  · rw [hpos]
    exact ha
  · omega
  · omega

/-- C14: for a function with `n ≥ 1` optional named parameters of pairwise
distinct names, following `f` fixed parameters, the insertion sort made at
compile time runs to its end with every array access inside `[0, n)` (an
access outside the bounds, or a read of a cell never written, makes the model
fail) and leaves in the `n` cells of `opt_param` and `opt_param_position` a
list `L` that is a permutation of the named formals paired with their
positions, in strictly ascending name order by `String::CompareTo`; the
position paired with a formal is the one it has in the formal parameter list;
and `L` is the only ascending arrangement of those (name, position) pairs, so
it depends on nothing but the set of pairs. -/
theorem sortNamedParameters_sorted_permutation (function : ParsedFunction Name)
    (hwf : function.HasNamedParameters) :
    ∃ arrays L,
      FlowGraphCompiler.sortNamedParameters function function.NumOptionalNamedParameters
          function.num_fixed_parameters
          (CArray.new function.NumOptionalNamedParameters,
            CArray.new function.NumOptionalNamedParameters) = some arrays
      ∧ Represents function.NumOptionalNamedParameters arrays L
      ∧ L.length = function.NumOptionalNamedParameters
      ∧ L.Pairwise (fun a b => CompareTo a.1.name b.1.name < 0)
      ∧ L.Perm function.namedFormals
      ∧ (∀ e ∈ L, function.scope[e.2]? = some e.1
          ∧ function.num_fixed_parameters ≤ e.2
          ∧ e.2 < function.num_fixed_parameters + function.NumOptionalNamedParameters)
      ∧ ∀ L2 : List (LocalVariable Name × Nat), L2.Perm function.namedFormals →
          L2.Pairwise (fun a b => CompareTo a.1.name b.1.name < 0) → L2 = L := by
  obtain ⟨arrays, L, hsort, hrep, hsorted, hperm⟩ :=
    sortNamedParameters_spec function hwf function.NumOptionalNamedParameters 0
      (CArray.new function.NumOptionalNamedParameters, CArray.new function.NumOptionalNamedParameters)
      [] (by omega)
      ⟨rfl, rfl, Nat.zero_le _, fun m hm => absurd hm (by simp)⟩ rfl List.Pairwise.nil
      (by simp)
  simp only [Nat.add_zero] at hsort
  refine ⟨arrays, L, hsort, hrep, ?_, ?_, hperm, ?_, ?_⟩
  · rw [hperm.length_eq, namedFormals_length function hwf]
  · exact hsorted.imp (fun h => (CompareTo_neg _ _).mpr h)
  · intro e he
    exact namedFormals_mem function e (hperm.mem_iff.mp he)
  · intro L2 hperm2 hsorted2
    exact eq_of_perm_of_ascending L2 L (hperm2.trans hperm.symm)
      (hsorted2.imp (fun h => (CompareTo_neg _ _).mp h)) hsorted

theorem copyPositional_of_ne (rbx rdi : Int) :
    ∀ (n : Nat) (mem : FrameMemory) (x : Int),
      (∀ j : Nat, j < n → x ≠ rdi + 8 * (j : Int)) →
      FlowGraphCompiler.copyPositional rbx rdi n mem x = mem x := by
  intro n
  induction n with
  | zero => intro mem x _; rfl
  | succ n ih =>
      intro mem x h
      rw [FlowGraphCompiler.copyPositional, ih _ x (fun j hj => h j (by omega))]
      unfold FrameMemory.write
      rw [if_neg (h n (by omega))]

theorem copyPositional_copied (rbx rdi : Int) :
    ∀ (n : Nat) (mem : FrameMemory),
      (∀ j k : Nat, j < n → k < n → rbx + 8 * (j : Int) ≠ rdi + 8 * (k : Int)) →
      ∀ j : Nat, j < n →
        FlowGraphCompiler.copyPositional rbx rdi n mem (rdi + 8 * (j : Int))
          = mem (rbx + 8 * (j : Int)) := by
  intro n
  induction n with
  | zero => intro mem _ j hj; omega
  | succ n ih =>
      intro mem hdisj j hj
      rw [FlowGraphCompiler.copyPositional]
      by_cases hjn : j = n
      · subst hjn
        rw [copyPositional_of_ne rbx rdi j _ _ (fun k hk => by omega)]
        unfold FrameMemory.write
        rw [if_pos rfl]
      · rw [ih _ (fun a b ha hb => hdisj a b (by omega) (by omega)) j (by omega)]
        unfold FrameMemory.write
        rw [if_neg (hdisj j n (by omega) (by omega))]

/-- The clearing loop stores the null word into the `n` slots that start at
`fp[kParamEndSlotFromFp + 1]` and leaves every other word of the frame. -/
theorem nullArguments_apply (layout : FrameLayout) (null : Word) :
    ∀ (n : Nat) (mem : FrameMemory) (x : Int),
      FlowGraphCompiler.nullArguments layout null n mem x
        = if ∃ i : Nat, i < n ∧ x = 8 * (i : Int) + (layout.kParamEndSlotFromFp + 1) * kWordSize
          then null else mem x := by
  intro n
  induction n with
  | zero =>
      intro mem x
      simp [FlowGraphCompiler.nullArguments]
  | succ n ih =>
      intro mem x
      rw [FlowGraphCompiler.nullArguments, ih]
      by_cases h1 : ∃ i : Nat, i < n
          ∧ x = 8 * (i : Int) + (layout.kParamEndSlotFromFp + 1) * kWordSize
      · rw [if_pos h1]
        obtain ⟨i, hi, hx⟩ := h1
        rw [if_pos ⟨i, by omega, hx⟩]
      · rw [if_neg h1]
        unfold FrameMemory.write
        by_cases h2 : x = 8 * (n : Int) + (layout.kParamEndSlotFromFp + 1) * kWordSize
        · rw [if_pos h2, if_pos ⟨n, by omega, h2⟩]
        · rw [if_neg h2]
          have h3 : ¬ ∃ i : Nat, i < n + 1
              ∧ x = 8 * (i : Int) + (layout.kParamEndSlotFromFp + 1) * kWordSize := by
            rintro ⟨i, hi, hx⟩
            by_cases hin : i = n
            · subst hin
              exact h2 hx
            · exact h1 ⟨i, by omega, hx⟩
          rw [if_neg h3]

omit [LinearOrder Name] in
theorem bindOptionalPositional_of_ne (layout : FrameLayout) (function : ParsedFunction Name)
    (rcx : Int) :
    ∀ (remaining i : Nat) (mem : FrameMemory) (x : Int),
      (∀ j : Nat, i ≤ j → j < i + remaining →
        rcx ≤ (function.num_fixed_parameters : Int) + (j : Int) →
        x ≠ (layout.kFirstLocalSlotFromFp
              - ((function.num_fixed_parameters : Int) + (j : Int))) * kWordSize) →
      FlowGraphCompiler.bindOptionalPositional layout function rcx remaining i mem x = mem x := by
  intro remaining
  induction remaining with
  | zero => intro i mem x _; rfl
  | succ remaining ih =>
      intro i mem x h
      rw [FlowGraphCompiler.bindOptionalPositional]
      by_cases hgt : rcx > (function.num_fixed_parameters : Int) + (i : Int)
      · simp only [hgt, if_true]
        exact ih (i + 1) mem x (fun j h1 h2 h3 => h j (by omega) (by omega) h3)
      · simp only [hgt, if_false]
        rw [ih (i + 1) _ x (fun j h1 h2 h3 => h j (by omega) (by omega) h3)]
        unfold FrameMemory.write
        rw [if_neg (h i le_rfl (by omega) (by omega))]

omit [LinearOrder Name] in
theorem bindOptionalPositional_default (layout : FrameLayout) (function : ParsedFunction Name)
    (rcx : Int) :
    ∀ (remaining i : Nat) (mem : FrameMemory) (j : Nat),
      i ≤ j → j < i + remaining →
      rcx ≤ (function.num_fixed_parameters : Int) + (j : Int) →
      FlowGraphCompiler.bindOptionalPositional layout function rcx remaining i mem
          ((layout.kFirstLocalSlotFromFp
              - ((function.num_fixed_parameters : Int) + (j : Int))) * kWordSize)
        = function.default_parameter_values.getD j 0 := by
  intro remaining
  induction remaining with
  | zero => intro i mem j h1 h2; omega
  | succ remaining ih =>
      intro i mem j h1 h2 h3
      rw [FlowGraphCompiler.bindOptionalPositional]
      by_cases hji : j = i
      · subst hji
        have hgt : ¬ rcx > (function.num_fixed_parameters : Int) + (j : Int) := by omega
        simp only [hgt, if_false]
        rw [bindOptionalPositional_of_ne layout function rcx remaining (j + 1) _ _
          (fun k hk1 hk2 _ => by unfold kWordSize; omega)]
        unfold FrameMemory.write
        rw [if_pos rfl]
      · by_cases hgt : rcx > (function.num_fixed_parameters : Int) + (i : Int)
        · simp only [hgt, if_true]
          exact ih (i + 1) mem j (by omega) (by omega) h3
        · simp only [hgt, if_false]
          exact ih (i + 1) _ j (by omega) (by omega) h3

/-- The emitted loop over the sorted formals runs the code of one formal after
the other, in the order of the sorted list. -/
theorem bindNamedParameters_eq_foldl (layout : FrameLayout) (function : ParsedFunction Name)
    (desc : ArgumentsDescriptor Name) (rbx : Int) (n : Nat)
    (arrays : CArray (LocalVariable Name) × CArray Nat) (L : List (LocalVariable Name × Nat))
    (hrep : Represents n arrays L) (hlen : L.length = n) :
    ∀ (remaining i : Nat) (state : Nat × FrameMemory), i + remaining = n →
      FlowGraphCompiler.bindNamedParameters layout function desc rbx arrays.1 arrays.2
          remaining i state
        = some ((L.drop i).foldl
            (fun st x =>
              FlowGraphCompiler.bindNamedParameter layout function desc rbx x.1.name x.2 st)
            state) := by
  obtain ⟨A, B⟩ := arrays
  obtain ⟨hA, hB, _, hcells⟩ := hrep
  simp only at hA hB hcells ⊢
  intro remaining
  induction remaining with
  | zero =>
      intro i state hi
      have : L.drop i = [] := List.drop_of_length_le (by omega)
      simp [FlowGraphCompiler.bindNamedParameters, this]
  | succ remaining ih =>
      intro i state hi
      have hiL : i < L.length := by omega
      have hin : i < n := by omega
      have hAi := (hcells i hiL).1
      have hBi := (hcells i hiL).2
      rw [List.getElem?_eq_getElem hiL] at hAi hBi
      simp only [Option.map_some'] at hAi hBi
      have hdrop : L.drop i = L[i] :: L.drop (i + 1) := List.drop_eq_getElem_cons hiL
      simp only [FlowGraphCompiler.bindNamedParameters, CArray.get, hA, hB, hin, if_true, hAi,
        hBi]
      rw [ih (i + 1) _ (by omega), hdrop, List.foldl_cons]

/-- The code of the named formals stores into their home slots only. -/
theorem foldl_bindNamedParameter_of_ne (layout : FrameLayout) (function : ParsedFunction Name)
    (desc : ArgumentsDescriptor Name) (rbx : Int) :
    ∀ (Ls : List (LocalVariable Name × Nat)) (state : Nat × FrameMemory) (x : Int),
      (∀ e ∈ Ls, x ≠ (layout.kFirstLocalSlotFromFp - (e.2 : Int)) * kWordSize) →
      (Ls.foldl
          (fun st e =>
            FlowGraphCompiler.bindNamedParameter layout function desc rbx e.1.name e.2 st)
          state).2 x = state.2 x := by
  intro Ls
  induction Ls with
  | nil => intro state x _; rfl
  | cons y Ls ih =>
      intro state x h
      rw [List.foldl_cons, ih _ x (fun e he => h e (List.mem_cons_of_mem _ he))]
      have hy := h y (List.mem_cons_self _ _)
      unfold FlowGraphCompiler.bindNamedParameter
      split
      · simp only [FrameMemory.write]
        rw [if_neg hy]
      · simp only [FrameMemory.write]
        rw [if_neg hy]

omit [LinearOrder Name] in
theorem nameAt_eq_head (desc : ArgumentsDescriptor Name) (cursor : Nat) :
    desc.nameAt cursor = ((desc.named.drop cursor).head?).map Prod.fst := by
  unfold ArgumentsDescriptor.nameAt
  rw [List.head?_drop]

omit [LinearOrder Name] in
theorem positionAt_eq_head (desc : ArgumentsDescriptor Name) (cursor : Nat) :
    desc.positionAt cursor
      = Smi.RawValue ((((desc.named.drop cursor).head?).map Prod.snd).getD 0) := by
  unfold ArgumentsDescriptor.positionAt
  rw [List.head?_drop]

/-- In a list of entries with pairwise distinct names the search for the name
of a member finds that member. -/
theorem find?_of_mem_ascending (entries : List (Name × Int))
    (hnames : (entries.map Prod.fst).Pairwise (· < ·)) (e : Name × Int) (he : e ∈ entries) :
    entries.find? (fun a => decide (a.1 = e.1)) = some e := by
  induction entries with
  | nil => cases he
  | cons a entries ih =>
      rw [List.map_cons, List.pairwise_cons] at hnames
      rcases List.mem_cons.mp he with rfl | he
      · simp
      · have hlt : a.1 < e.1 := hnames.1 e.1 (List.mem_map_of_mem Prod.fst he)
        rw [List.find?_cons_of_neg _ (by simpa using ne_of_lt hlt)]
        exact ih hnames.2 he

/-- What the code of the named formals leaves in their home slots: the word of
the argument passed under the name of the formal, or its default value. The
entries before the cursor are those already consumed; `mem0` is a frame the
argument slots of which the current frame still agrees with. -/
theorem foldl_bindNamedParameter_value (layout : FrameLayout) (function : ParsedFunction Name)
    (desc : ArgumentsDescriptor Name) (rbx : Int) (mem0 : FrameMemory)
    (hnames : (desc.named.map Prod.fst).Pairwise (· < ·)) :
    ∀ (Ls : List (LocalVariable Name × Nat)) (cursor : Nat) (m : FrameMemory),
      Ls.Pairwise (fun a b => a.1.name < b.1.name) →
      (Ls.map Prod.snd).Nodup →
      (∀ e ∈ desc.named.drop cursor, e.1 ∈ Ls.map (fun x => x.1.name)) →
      (∀ e ∈ desc.named.take cursor, ∀ x ∈ Ls, e.1 < x.1.name) →
      (∀ e ∈ desc.named, ∀ x ∈ Ls,
        (layout.kFirstLocalSlotFromFp - (x.2 : Int)) * kWordSize
          ≠ rbx + 4 * (-(Smi.RawValue e.2))) →
      (∀ e ∈ desc.named,
        m (rbx + 4 * (-(Smi.RawValue e.2))) = mem0 (rbx + 4 * (-(Smi.RawValue e.2)))) →
      ∀ x ∈ Ls,
        (Ls.foldl
            (fun st e =>
              FlowGraphCompiler.bindNamedParameter layout function desc rbx e.1.name e.2 st)
            (cursor, m)).2 ((layout.kFirstLocalSlotFromFp - (x.2 : Int)) * kWordSize)
          = match desc.named.find? (fun e => decide (e.1 = x.1.name)) with
            | some e => mem0 (rbx + 4 * (-(Smi.RawValue e.2)))
            | none =>
                function.default_parameter_values.getD (x.2 - function.num_fixed_parameters) 0 := by
  intro Ls
  induction Ls with
  | nil => intro cursor m _ _ _ _ _ _ x hx; cases hx
  | cons y Ls ih =>
      intro cursor m hsorted hpos hinv1 hinv2 hdisj hagree x hx
      rw [List.pairwise_cons] at hsorted
      rw [List.map_cons, List.nodup_cons] at hpos
      have hhome : ∀ e ∈ Ls, (layout.kFirstLocalSlotFromFp - (y.2 : Int)) * kWordSize
          ≠ (layout.kFirstLocalSlotFromFp - (e.2 : Int)) * kWordSize := by
        intro e he heq
        apply hpos.1
        have : y.2 = e.2 := by
          unfold kWordSize at heq
          omega
        rw [this]
        exact List.mem_map_of_mem Prod.snd he
      have hsplit : desc.named = desc.named.take cursor ++ desc.named.drop cursor :=
        (List.take_append_drop cursor desc.named).symm
      rw [List.foldl_cons]
      by_cases hmatch : desc.nameAt cursor = some y.1.name
      · -- the entry under the cursor names the formal `y`
        rw [nameAt_eq_head] at hmatch
        cases hd : desc.named.drop cursor with
        | nil => rw [hd] at hmatch; cases hmatch
        | cons e0 rest =>
            rw [hd] at hmatch
            simp only [List.head?_cons, Option.map_some', Option.some.injEq] at hmatch
            have he0 : e0 ∈ desc.named := by
              rw [hsplit, hd]
              simp
            have hrest : desc.named.drop (cursor + 1) = rest := by
              have := congrArg (List.drop 1) hd
              simpa [List.drop_drop, Nat.add_comm] using this
            have hafter : ∀ e ∈ rest, e0.1 < e.1 := by
              have hp : ((e0 :: rest).map Prod.fst).Pairwise (· < ·) := by
                rw [← hd]
                exact hnames.sublist ((List.drop_sublist _ _).map _)
              rw [List.map_cons, List.pairwise_cons] at hp
              intro e he
              exact hp.1 e.1 (List.mem_map_of_mem Prod.fst he)
            have hpositionAt : desc.positionAt cursor = Smi.RawValue e0.2 := by
              rw [positionAt_eq_head, hd]
              rfl
            have hstep : FlowGraphCompiler.bindNamedParameter layout function desc rbx y.1.name
                y.2 (cursor, m)
                = (cursor + 1,
                    m.write ((layout.kFirstLocalSlotFromFp - (y.2 : Int)) * kWordSize)
                      (m (rbx + 4 * (-(Smi.RawValue e0.2))))) := by
              unfold FlowGraphCompiler.bindNamedParameter
              have : desc.nameAt cursor = some y.1.name := by
                rw [nameAt_eq_head, hd]
                simp [hmatch]
              simp only [this, if_true, hpositionAt]
            rw [hstep]
            rcases List.mem_cons.mp hx with rfl | hxLs
            · rw [foldl_bindNamedParameter_of_ne layout function desc rbx Ls _ _ hhome]
              have hfind := find?_of_mem_ascending desc.named hnames e0 he0
              rw [hmatch] at hfind
              rw [hfind]
              simp only [FrameMemory.write, if_true]
              exact hagree e0 he0
            · apply ih (cursor + 1) _ hsorted.2 hpos.2 _ _ _ _ x hxLs
              · intro e he
                rw [hrest] at he
                have hmem := hinv1 e (by rw [hd]; exact List.mem_cons_of_mem _ he)
                rw [List.map_cons, List.mem_cons] at hmem
                rcases hmem with heq | hmem
                · have := hafter e he
                  rw [hmatch, heq] at this
                  exact absurd this (lt_irrefl _)
                · exact hmem
              · intro e he z hz
                rw [List.take_succ, List.mem_append] at he
                rcases he with he | he
                · exact hinv2 e he z (List.mem_cons_of_mem _ hz)
                · have hget : desc.named[cursor]? = some e0 := by
                    have := List.head?_drop desc.named cursor
                    rw [hd] at this
                    simpa using this.symm
                  rw [hget] at he
                  simp only [Option.toList_some, List.mem_singleton] at he
                  rw [he, hmatch]
                  exact hsorted.1 z hz
              · intro e he z hz
                exact hdisj e he z (List.mem_cons_of_mem _ hz)
              · intro e he
                simp only [FrameMemory.write]
                rw [if_neg (fun h => hdisj e he y (List.mem_cons_self _ _) h.symm)]
                exact hagree e he
      · -- no entry is named as the formal `y`, which takes its default value
        have hstep : FlowGraphCompiler.bindNamedParameter layout function desc rbx y.1.name
            y.2 (cursor, m)
            = (cursor,
                m.write ((layout.kFirstLocalSlotFromFp - (y.2 : Int)) * kWordSize)
                  (function.default_parameter_values.getD
                    (y.2 - function.num_fixed_parameters) 0)) := by
          unfold FlowGraphCompiler.bindNamedParameter
          simp only [hmatch, if_false]
        have hlater : ∀ e ∈ desc.named.drop cursor, y.1.name < e.1 := by
          intro e he
          have hle : ∀ e1 ∈ desc.named.drop cursor, e1.1 ≠ y.1.name → y.1.name < e1.1 := by
            intro e1 he1 hne
            have hmem := hinv1 e1 he1
            rw [List.map_cons, List.mem_cons] at hmem
            rcases hmem with heq | hmem
            · exact absurd heq hne
            · obtain ⟨z, hz, hzname⟩ := List.mem_map.mp hmem
              rw [← hzname]
              exact hsorted.1 z hz
          by_cases hne : e.1 = y.1.name
          · exfalso
            cases hd : desc.named.drop cursor with
            | nil => rw [hd] at he; cases he
            | cons e0 rest =>
                have hne0 : e0.1 ≠ y.1.name := by
                  intro h
                  apply hmatch
                  rw [nameAt_eq_head, hd]
                  simp [h]
                have h0 := hle e0 (by rw [hd]; exact List.mem_cons_self _ _) hne0
                rw [hd] at he
                rcases List.mem_cons.mp he with rfl | he
                · exact hne0 hne
                · have hp : ((e0 :: rest).map Prod.fst).Pairwise (· < ·) := by
                    rw [← hd]
                    exact hnames.sublist ((List.drop_sublist _ _).map _)
                  rw [List.map_cons, List.pairwise_cons] at hp
                  have := hp.1 e.1 (List.mem_map_of_mem Prod.fst he)
                  rw [hne] at this
                  exact absurd (lt_trans h0 this) (lt_irrefl _)
          · exact hle e he hne
        rw [hstep]
        rcases List.mem_cons.mp hx with rfl | hxLs
        · rw [foldl_bindNamedParameter_of_ne layout function desc rbx Ls _ _ hhome]
          have hnone : desc.named.find? (fun e => decide (e.1 = x.1.name)) = none := by
            rw [List.find?_eq_none]
            intro e he
            rw [hsplit, List.mem_append] at he
            rcases he with he | he
            · have := hinv2 e he x (List.mem_cons_self _ _)
              simpa using ne_of_lt this
            · have := hlater e he
              simpa using (ne_of_lt this).symm
          rw [hnone]
          simp only [FrameMemory.write, if_true]
        · apply ih cursor _ hsorted.2 hpos.2 _ _ _ _ x hxLs
          · intro e he
            have hmem := hinv1 e he
            rw [List.map_cons, List.mem_cons] at hmem
            rcases hmem with heq | hmem
            · have := hlater e he
              rw [heq] at this
              exact absurd this (lt_irrefl _)
            · exact hmem
          · intro e he z hz
            exact hinv2 e he z (List.mem_cons_of_mem _ hz)
          · intro e he z hz
            exact hdisj e he z (List.mem_cons_of_mem _ hz)
          · intro e he
            simp only [FrameMemory.write]
            rw [if_neg (fun h => hdisj e he y (List.mem_cons_self _ _) h.symm)]
            exact hagree e he

omit [LinearOrder Name] in
/-- Past the exit the home slots of the callee, which lie at or below
`fp[kFirstLocalSlotFromFp]`, are as the binding code left them. -/
theorem finish_mem_of_le (layout : FrameLayout) (null : Word) (desc : ArgumentsDescriptor Name)
    (exit : BinderExit) (after_copy : Bool) (cursor : Nat) (mem : FrameMemory) (x : Int)
    (hlayout : layout.kFirstLocalSlotFromFp ≤ layout.kParamEndSlotFromFp)
    (hx : x ≤ layout.kFirstLocalSlotFromFp * kWordSize) :
    (FlowGraphCompiler.finish layout null desc exit after_copy cursor mem).mem x = mem x := by
  have hne : ¬ ∃ i : Nat, i < (SmiUntag (Smi.RawValue desc.count)).toNat
      ∧ x = 8 * (i : Int) + (layout.kParamEndSlotFromFp + 1) * kWordSize := by
    rintro ⟨i, _, hi⟩
    unfold kWordSize at hx hi
    omega
  cases exit
  · show FlowGraphCompiler.nullArguments layout null _ mem x = mem x
    rw [nullArguments_apply, if_neg hne]
  · rfl
  · rfl
  · show FlowGraphCompiler.nullArguments layout null _ mem x = mem x
    rw [nullArguments_apply, if_neg hne]

/-- The run of `CopyParameters` on a function with named parameters, for a
positional count that passes the two count checks. -/
theorem CopyParameters_named_run (DEBUG : Bool) (layout : FrameLayout) (null : Word)
    (function : ParsedFunction Name) (desc : ArgumentsDescriptor Name) (mem : FrameMemory)
    (hwf : function.HasNamedParameters)
    (hcount : desc.positional_count = (function.num_fixed_parameters : Int)) :
    ∃ arrays L,
      FlowGraphCompiler.sortNamedParameters function function.NumOptionalNamedParameters
          function.num_fixed_parameters
          (CArray.new function.NumOptionalNamedParameters,
            CArray.new function.NumOptionalNamedParameters) = some arrays
      ∧ Represents function.NumOptionalNamedParameters arrays L
      ∧ L.Pairwise (fun a b => a.1.name < b.1.name)
      ∧ L.Perm function.namedFormals
      ∧ ∃ bound : Nat × FrameMemory,
          bound = L.foldl
            (fun st x =>
              FlowGraphCompiler.bindNamedParameter layout function desc
                (4 * Smi.RawValue desc.count + layout.kParamEndSlotFromFp * kWordSize)
                x.1.name x.2 st)
            (0, FlowGraphCompiler.copyPositional
              (4 * (Smi.RawValue desc.count - Smi.RawValue desc.positional_count)
                + (layout.kParamEndSlotFromFp + 1) * kWordSize)
              (8 * (-(function.num_fixed_parameters : Int))
                + (layout.kFirstLocalSlotFromFp + 1) * kWordSize)
              function.num_fixed_parameters mem)
          ∧ FlowGraphCompiler.CopyParameters DEBUG layout null function desc mem
            = some
                (if ((DEBUG || function.IsClosureFunction)
                      && decide (desc.nameAt bound.1 = none)) = true then
                  FlowGraphCompiler.finish layout null desc BinderExit.all_arguments_processed
                    true bound.1 bound.2
                else
                  FlowGraphCompiler.finish layout null desc
                    (FlowGraphCompiler.wrongNumArguments function
                      (DEBUG || function.IsClosureFunction)) true bound.1 bound.2) := by
  obtain ⟨hn, hp, hscope, hnodup⟩ := hwf
  have hwf : function.HasNamedParameters := ⟨hn, hp, hscope, hnodup⟩
  obtain ⟨arrays, L, hsort, hrep, hsorted, hperm⟩ :=
    sortNamedParameters_spec function hwf function.NumOptionalNamedParameters 0
      (CArray.new function.NumOptionalNamedParameters, CArray.new function.NumOptionalNamedParameters)
      [] (by omega)
      ⟨rfl, rfl, Nat.zero_le _, fun m hm => absurd hm (by simp)⟩ rfl List.Pairwise.nil
      (by simp)
  have hLlen : L.length = function.NumOptionalNamedParameters := by
    rw [hperm.length_eq, namedFormals_length function hwf]
  simp only [Nat.add_zero] at hsort
  refine ⟨arrays, L, hsort, hrep, hsorted, hperm, _, rfl, ?_⟩
  have huntag : SmiUntag (2 * (function.num_fixed_parameters : Int))
      = (function.num_fixed_parameters : Int) := by
    unfold SmiUntag
    omega
  unfold FlowGraphCompiler.CopyParameters
  simp only [hn, if_true, hp, Nat.add_zero, Nat.add_sub_cancel_left, hsort, Smi.RawValue, hcount,
    lt_irrefl, if_false, gt_iff_lt, huntag, Int.toNat_ofNat]
  have hfold := bindNamedParameters_eq_foldl layout function desc
    (4 * (2 * desc.count) + layout.kParamEndSlotFromFp * kWordSize)
    function.NumOptionalNamedParameters arrays L hrep hLlen
    function.NumOptionalNamedParameters 0
    (0, FlowGraphCompiler.copyPositional
      (4 * (2 * desc.count - 2 * (function.num_fixed_parameters : Int))
        + (layout.kParamEndSlotFromFp + 1) * kWordSize)
      (8 * (-(function.num_fixed_parameters : Int))
        + (layout.kFirstLocalSlotFromFp + 1) * kWordSize)
      function.num_fixed_parameters mem)
    (by omega)
  obtain ⟨A, B⟩ := arrays
  simp only [List.drop_zero] at hfold ⊢
  rw [hfold]
  generalize List.foldl _ _ L = st
  obtain ⟨c, m⟩ := st
  dsimp only
  by_cases h : ((DEBUG || function.IsClosureFunction) && decide (desc.nameAt c = none)) = true
  · rw [if_pos h, if_pos h]
  · rw [if_neg h, if_neg h]

/-- The code of the named formals is one store per formal, each into the home
slot of the formal, in the order of the sorted list. -/
theorem foldl_bindNamedParameter_stores (layout : FrameLayout) (function : ParsedFunction Name)
    (desc : ArgumentsDescriptor Name) (rbx : Int) :
    ∀ (Ls : List (LocalVariable Name × Nat)) (state : Nat × FrameMemory),
      ∃ stores : List (Int × Word),
        stores.map Prod.fst
            = Ls.map (fun e => (layout.kFirstLocalSlotFromFp - (e.2 : Int)) * kWordSize)
        ∧ (Ls.foldl
            (fun st e =>
              FlowGraphCompiler.bindNamedParameter layout function desc rbx e.1.name e.2 st)
            state).2 = stores.foldl (fun m w => m.write w.1 w.2) state.2 := by
  intro Ls
  induction Ls with
  | nil => intro state; exact ⟨[], rfl, rfl⟩
  | cons y Ls ih =>
      intro state
      obtain ⟨stores, hfst, hmem⟩ := ih
        (FlowGraphCompiler.bindNamedParameter layout function desc rbx y.1.name y.2 state)
      have hstep : ∃ w : Word,
          (FlowGraphCompiler.bindNamedParameter layout function desc rbx y.1.name y.2 state).2
            = state.2.write ((layout.kFirstLocalSlotFromFp - (y.2 : Int)) * kWordSize) w := by
        unfold FlowGraphCompiler.bindNamedParameter
        split
        · exact ⟨_, rfl⟩
        · exact ⟨_, rfl⟩
      obtain ⟨w, hw⟩ := hstep
      refine ⟨((layout.kFirstLocalSlotFromFp - (y.2 : Int)) * kWordSize, w) :: stores, ?_, ?_⟩
      · rw [List.map_cons, List.map_cons, hfst]
      · rw [List.foldl_cons, hmem, hw, List.foldl_cons]

omit [LinearOrder Name] in
theorem namedFormals_map_snd (function : ParsedFunction Name)
    (hwf : function.HasNamedParameters) :
    function.namedFormals.map Prod.snd
      = List.range' function.num_fixed_parameters function.NumOptionalNamedParameters := by
  obtain ⟨_, _, hscope, _⟩ := hwf
  unfold ParsedFunction.namedFormals
  apply List.map_snd_zip
  rw [List.length_range', List.length_drop]
  omega

/-- C15: for a function with `f` fixed and `n ≥ 1` optional named parameters
and a descriptor with `f` positional arguments whose named entries are in
strictly ascending name order (hence distinct) and all name formals, in a frame
whose locals lie below its parameters and with the recorded positions inside
the passed arguments: `CopyParameters` succeeds and the home slot
`fp[kFirstLocalSlotFromFp - q]` of every optional named formal, `q` its
position in the formal parameter list, holds the word passed under its name,
the one the frame had on entry at
`fp[kParamEndSlotFromFp + num_args - arg_pos]` for the recorded position
`arg_pos`, if the name occurs in the descriptor, and the default value
`q - f` otherwise. The named-parameter code is one store per named formal,
into its home slot: each formal is assigned exactly once. -/
theorem CopyParameters_named_values (DEBUG : Bool) (layout : FrameLayout) (null : Word)
    (function : ParsedFunction Name) (desc : ArgumentsDescriptor Name) (mem : FrameMemory)
    (hwf : function.HasNamedParameters)
    (hcount : desc.positional_count = (function.num_fixed_parameters : Int))
    (hnames : (desc.named.map Prod.fst).Pairwise (· < ·))
    (hall : ∀ e ∈ desc.named, e.1 ∈ function.namedFormalNames)
    (hlayout : layout.kFirstLocalSlotFromFp ≤ layout.kParamEndSlotFromFp)
    (hpos : ∀ e ∈ desc.named, e.2 < desc.count) :
    (∃ r,
      FlowGraphCompiler.CopyParameters DEBUG layout null function desc mem = some r
      ∧ ∀ (c : Nat) (parameter : LocalVariable Name),
          c < function.NumOptionalNamedParameters →
          function.scope[function.num_fixed_parameters + c]? = some parameter →
          r.mem ((layout.kFirstLocalSlotFromFp
                  - ((function.num_fixed_parameters + c : Nat) : Int)) * kWordSize)
            = match desc.named.find? (fun e => decide (e.1 = parameter.name)) with
              | some e => mem ((layout.kParamEndSlotFromFp + desc.count - e.2) * kWordSize)
              | none => function.default_parameter_values.getD c 0)
    ∧ ∃ arrays,
        FlowGraphCompiler.sortNamedParameters function function.NumOptionalNamedParameters
            function.num_fixed_parameters
            (CArray.new function.NumOptionalNamedParameters,
              CArray.new function.NumOptionalNamedParameters) = some arrays
        ∧ ∀ (rbx : Int) (m0 : FrameMemory),
            ∃ (cursor : Nat) (stores : List (Int × Word)),
              FlowGraphCompiler.bindNamedParameters layout function desc rbx arrays.1 arrays.2
                  function.NumOptionalNamedParameters 0 (0, m0)
                = some (cursor, stores.foldl (fun m w => m.write w.1 w.2) m0)
              ∧ (stores.map Prod.fst).Perm
                  (function.namedFormals.map
                    (fun e => (layout.kFirstLocalSlotFromFp - (e.2 : Int)) * kWordSize))
              ∧ (stores.map Prod.fst).Nodup := by
  obtain ⟨arrays, L, hsort, hrep, hsorted, hperm, bound, hbound, hrun⟩ :=
    CopyParameters_named_run DEBUG layout null function desc mem hwf hcount
  have hLlen : L.length = function.NumOptionalNamedParameters := by
    rw [hperm.length_eq, namedFormals_length function hwf]
  have hLpos : (L.map Prod.snd).Nodup := by
    have h1 : (L.map Prod.snd).Perm (function.namedFormals.map Prod.snd) := hperm.map _
    rw [namedFormals_map_snd function hwf] at h1
    exact h1.nodup_iff.mpr (List.nodup_range' _ _)
  constructor
  · refine ⟨_, hrun, ?_⟩
    intro c parameter hc hscope
    obtain ⟨parameter', hscope', hformal⟩ := namedFormals_getElem? function hwf c hc
    rw [hscope] at hscope'
    cases hscope'
    have hmemL : (parameter, function.num_fixed_parameters + c) ∈ L :=
      hperm.mem_iff.mpr (List.getElem?_mem hformal)
    have hle : (layout.kFirstLocalSlotFromFp
        - ((function.num_fixed_parameters + c : Nat) : Int)) * kWordSize
        ≤ layout.kFirstLocalSlotFromFp * kWordSize := by
      unfold kWordSize
      omega
    have hfinal : ∀ exit,
        (FlowGraphCompiler.finish layout null desc exit true bound.1 bound.2).mem
            ((layout.kFirstLocalSlotFromFp
              - ((function.num_fixed_parameters + c : Nat) : Int)) * kWordSize)
          = bound.2 ((layout.kFirstLocalSlotFromFp
              - ((function.num_fixed_parameters + c : Nat) : Int)) * kWordSize) :=
      fun exit => finish_mem_of_le layout null desc exit true bound.1 bound.2 _ hlayout hle
    have hvalue := foldl_bindNamedParameter_value layout function desc
      (4 * Smi.RawValue desc.count + layout.kParamEndSlotFromFp * kWordSize) mem hnames
      L 0
      (FlowGraphCompiler.copyPositional
        (4 * (Smi.RawValue desc.count - Smi.RawValue desc.positional_count)
          + (layout.kParamEndSlotFromFp + 1) * kWordSize)
        (8 * (-(function.num_fixed_parameters : Int))
          + (layout.kFirstLocalSlotFromFp + 1) * kWordSize)
        function.num_fixed_parameters mem)
      hsorted hLpos
      (by
        intro e he
        rw [List.drop_zero] at he
        have := hall e he
        unfold ParsedFunction.namedFormalNames at this
        exact ((hperm.map (fun x => x.1.name)).mem_iff).mpr this)
      (by
        intro e he
        simp at he)
      (by
        intro e he x _
        have := hpos e he
        unfold kWordSize Smi.RawValue
        omega)
      (by
        intro e he
        apply copyPositional_of_ne
        intro j hj
        have := hpos e he
        unfold kWordSize Smi.RawValue
        omega)
      (parameter, function.num_fixed_parameters + c) hmemL
    rw [← hbound] at hvalue
    have hresult : ∀ r : BinderResult,
        r.mem ((layout.kFirstLocalSlotFromFp
              - ((function.num_fixed_parameters + c : Nat) : Int)) * kWordSize)
          = bound.2 ((layout.kFirstLocalSlotFromFp
              - ((function.num_fixed_parameters + c : Nat) : Int)) * kWordSize) →
        r.mem ((layout.kFirstLocalSlotFromFp
              - ((function.num_fixed_parameters + c : Nat) : Int)) * kWordSize)
          = match desc.named.find? (fun e => decide (e.1 = parameter.name)) with
            | some e => mem ((layout.kParamEndSlotFromFp + desc.count - e.2) * kWordSize)
            | none => function.default_parameter_values.getD c 0 := by
      intro r hr
      rw [hr, hvalue]
      cases desc.named.find? (fun e => decide (e.1 = parameter.name)) with
      | none =>
          simp only [Nat.add_sub_cancel_left]
      | some e =>
          simp only
          congr 1
          unfold kWordSize Smi.RawValue
          ring
    by_cases hcond : ((DEBUG || function.IsClosureFunction)
        && decide (desc.nameAt bound.1 = none)) = true
    · rw [if_pos hcond]
      exact hresult _ (hfinal _)
    · rw [if_neg hcond]
      exact hresult _ (hfinal _)
  · refine ⟨arrays, hsort, ?_⟩
    intro rbx m0
    have hfold := bindNamedParameters_eq_foldl layout function desc rbx
      function.NumOptionalNamedParameters arrays L hrep hLlen
      function.NumOptionalNamedParameters 0 (0, m0) (by omega)
    rw [List.drop_zero] at hfold
    obtain ⟨stores, hfst, hmem⟩ :=
      foldl_bindNamedParameter_stores layout function desc rbx L (0, m0)
    refine ⟨(L.foldl
        (fun st x =>
          FlowGraphCompiler.bindNamedParameter layout function desc rbx x.1.name x.2 st)
        (0, m0)).1, stores, ?_, ?_, ?_⟩
    · rw [hfold, ← hmem]
    · rw [hfst]
      exact hperm.map _
    · rw [hfst]
      have hinj : L.map (fun e => (layout.kFirstLocalSlotFromFp - (e.2 : Int)) * kWordSize)
          = (L.map Prod.snd).map
              (fun (q : Nat) => (layout.kFirstLocalSlotFromFp - (q : Int)) * kWordSize) := by
        rw [List.map_map]
        rfl
      rw [hinj]
      apply hLpos.map
      intro a b hab
      unfold kWordSize at hab
      simp only at hab
      omega

/-- The run of `CopyParameters` on a function with optional positional
parameters, for a positional count that passes the two count checks. -/
theorem CopyParameters_positional_run (DEBUG : Bool) (layout : FrameLayout) (null : Word)
    (function : ParsedFunction Name) (desc : ArgumentsDescriptor Name) (mem : FrameMemory)
    (hn : function.NumOptionalNamedParameters = 0)
    (hp : 0 < function.NumOptionalPositionalParameters)
    (hge : (function.num_fixed_parameters : Int) ≤ desc.positional_count)
    (hle : desc.positional_count
      ≤ ((function.num_fixed_parameters + function.NumOptionalPositionalParameters : Nat) : Int)) :
    ∃ bound : FrameMemory,
      bound = FlowGraphCompiler.bindOptionalPositional layout function desc.positional_count
          function.NumOptionalPositionalParameters 0
          (FlowGraphCompiler.copyPositional
            (4 * (Smi.RawValue desc.count - Smi.RawValue desc.positional_count)
              + (layout.kParamEndSlotFromFp + 1) * kWordSize)
            (8 * (-desc.positional_count) + (layout.kFirstLocalSlotFromFp + 1) * kWordSize)
            desc.positional_count.toNat mem)
      ∧ FlowGraphCompiler.CopyParameters DEBUG layout null function desc mem
        = some
            (if ((DEBUG || function.IsClosureFunction)
                  && decide (desc.positional_count = desc.count)) = true then
              FlowGraphCompiler.finish layout null desc BinderExit.all_arguments_processed
                true 0 bound
            else
              FlowGraphCompiler.finish layout null desc
                (FlowGraphCompiler.wrongNumArguments function
                  (DEBUG || function.IsClosureFunction)) true 0 bound) := by
  refine ⟨_, rfl, ?_⟩
  have huntag : ∀ z : Int, SmiUntag (2 * z) = z := by
    intro z
    unfold SmiUntag
    omega
  have hlt : ¬ (2 * desc.positional_count < 2 * (function.num_fixed_parameters : Int)) := by
    omega
  have hgt : ¬ (2 * desc.positional_count
      > 2 * ((function.num_fixed_parameters + function.NumOptionalPositionalParameters : Nat)
          : Int)) := by
    omega
  unfold FlowGraphCompiler.CopyParameters
  simp only [hn, lt_irrefl, if_false, hp, if_true, Smi.RawValue, hlt, hgt, huntag]
  split <;> rfl

/-- C16: for a function with `f` fixed and `p ≥ 1` optional positional
parameters (no named ones) and a descriptor with `a` positional arguments,
`f ≤ a ≤ f + p`, not more than the arguments passed, in a frame whose locals
lie below its parameters: `CopyParameters` succeeds and the home slot
`fp[kFirstLocalSlotFromFp - k]` of the formal at position `k`,
`f ≤ k < f + p`, holds the `k`-th actual argument, the word the frame had on
entry at `fp[kParamEndSlotFromFp + num_args - k]`, if `a > k`, and the default
value `k - f` otherwise. The loop that stores the defaults leaves the home slot
of every supplied argument as it finds it. -/
theorem CopyParameters_positional_values (DEBUG : Bool) (layout : FrameLayout) (null : Word)
    (function : ParsedFunction Name) (desc : ArgumentsDescriptor Name) (mem : FrameMemory)
    (hn : function.NumOptionalNamedParameters = 0)
    (hp : 0 < function.NumOptionalPositionalParameters)
    (hge : (function.num_fixed_parameters : Int) ≤ desc.positional_count)
    (hle : desc.positional_count
      ≤ ((function.num_fixed_parameters + function.NumOptionalPositionalParameters : Nat) : Int))
    (hlayout : layout.kFirstLocalSlotFromFp ≤ layout.kParamEndSlotFromFp)
    (hargs : desc.positional_count ≤ desc.count) :
    (∃ r,
      FlowGraphCompiler.CopyParameters DEBUG layout null function desc mem = some r
      ∧ ∀ k : Nat, function.num_fixed_parameters ≤ k →
          k < function.num_fixed_parameters + function.NumOptionalPositionalParameters →
          r.mem ((layout.kFirstLocalSlotFromFp - (k : Int)) * kWordSize)
            = if desc.positional_count > (k : Int) then
                mem ((layout.kParamEndSlotFromFp + desc.count - (k : Int)) * kWordSize)
              else
                function.default_parameter_values.getD (k - function.num_fixed_parameters) 0)
    ∧ ∀ (m0 : FrameMemory) (k : Nat), (k : Int) < desc.positional_count →
        FlowGraphCompiler.bindOptionalPositional layout function desc.positional_count
            function.NumOptionalPositionalParameters 0 m0
            ((layout.kFirstLocalSlotFromFp - (k : Int)) * kWordSize)
          = m0 ((layout.kFirstLocalSlotFromFp - (k : Int)) * kWordSize) := by
  have hkeep : ∀ (m0 : FrameMemory) (k : Nat), (k : Int) < desc.positional_count →
      FlowGraphCompiler.bindOptionalPositional layout function desc.positional_count
          function.NumOptionalPositionalParameters 0 m0
          ((layout.kFirstLocalSlotFromFp - (k : Int)) * kWordSize)
        = m0 ((layout.kFirstLocalSlotFromFp - (k : Int)) * kWordSize) := by
    intro m0 k hk
    apply bindOptionalPositional_of_ne
    intro j _ _ hj
    unfold kWordSize
    omega
  refine ⟨?_, hkeep⟩
  obtain ⟨bound, hbound, hrun⟩ :=
    CopyParameters_positional_run DEBUG layout null function desc mem hn hp hge hle
  refine ⟨_, hrun, ?_⟩
  intro k hk1 hk2
  have hhome : (layout.kFirstLocalSlotFromFp - (k : Int)) * kWordSize
      ≤ layout.kFirstLocalSlotFromFp * kWordSize := by
    unfold kWordSize
    omega
  have hfinal : ∀ exit,
      (FlowGraphCompiler.finish layout null desc exit true 0 bound).mem
          ((layout.kFirstLocalSlotFromFp - (k : Int)) * kWordSize)
        = bound ((layout.kFirstLocalSlotFromFp - (k : Int)) * kWordSize) :=
    fun exit => finish_mem_of_le layout null desc exit true 0 bound _ hlayout hhome
  have hvalue : bound ((layout.kFirstLocalSlotFromFp - (k : Int)) * kWordSize)
      = if desc.positional_count > (k : Int) then
          mem ((layout.kParamEndSlotFromFp + desc.count - (k : Int)) * kWordSize)
        else
          function.default_parameter_values.getD (k - function.num_fixed_parameters) 0 := by
    rw [hbound]
    by_cases hak : desc.positional_count > (k : Int)
    · rw [if_pos hak, hkeep _ k hak]
      obtain ⟨a, ha⟩ : ∃ a : Nat, desc.positional_count = (a : Int) :=
        ⟨desc.positional_count.toNat, by omega⟩
      have hoff : (layout.kFirstLocalSlotFromFp - (k : Int)) * kWordSize
          = (8 * (-desc.positional_count) + (layout.kFirstLocalSlotFromFp + 1) * kWordSize)
            + 8 * ((a - 1 - k : Nat) : Int) := by
        unfold kWordSize
        omega
      rw [hoff, copyPositional_copied _ _ _ _ _ (a - 1 - k) (by omega)]
      · congr 1
        unfold kWordSize Smi.RawValue
        omega
      · intro j i hj hi
        unfold kWordSize Smi.RawValue
        omega
    · rw [if_neg hak]
      obtain ⟨j, rfl⟩ : ∃ j, k = function.num_fixed_parameters + j :=
        ⟨k - function.num_fixed_parameters, by omega⟩
      have := bindOptionalPositional_default layout function desc.positional_count
        function.NumOptionalPositionalParameters 0
        (FlowGraphCompiler.copyPositional
          (4 * (Smi.RawValue desc.count - Smi.RawValue desc.positional_count)
            + (layout.kParamEndSlotFromFp + 1) * kWordSize)
          (8 * (-desc.positional_count) + (layout.kFirstLocalSlotFromFp + 1) * kWordSize)
          desc.positional_count.toNat mem)
        j (Nat.zero_le _) (by omega) (by push_cast at hak; omega)
      rw [Nat.add_sub_cancel_left]
      push_cast
      exact this
  by_cases hcond : ((DEBUG || function.IsClosureFunction)
      && decide (desc.positional_count = desc.count)) = true
  · rw [if_pos hcond, hfinal, hvalue]
  · rw [if_neg hcond, hfinal, hvalue]

/-- Whatever path the emitted code takes, the frame it has when it leaves the
binding code differs from the frame on entry only at or below
`fp[kFirstLocalSlotFromFp]`, and the result is what `finish` makes of it. -/
theorem CopyParameters_frame (DEBUG : Bool) (layout : FrameLayout) (null : Word)
    (function : ParsedFunction Name) (desc : ArgumentsDescriptor Name) (mem : FrameMemory)
    (hwf : function.HasOptionalParameters) :
    ∃ (r : BinderResult) (bound : FrameMemory),
      FlowGraphCompiler.CopyParameters DEBUG layout null function desc mem = some r
      ∧ r = FlowGraphCompiler.finish layout null desc r.exit r.after_copy r.cursor bound
      ∧ ∀ x : Int, layout.kFirstLocalSlotFromFp * kWordSize < x → bound x = mem x := by
  have hfinish : ∀ (exit : BinderExit) (after_copy : Bool) (cursor : Nat) (m : FrameMemory),
      FlowGraphCompiler.finish layout null desc exit after_copy cursor m
        = FlowGraphCompiler.finish layout null desc
            (FlowGraphCompiler.finish layout null desc exit after_copy cursor m).exit
            (FlowGraphCompiler.finish layout null desc exit after_copy cursor m).after_copy
            (FlowGraphCompiler.finish layout null desc exit after_copy cursor m).cursor m := by
    intro exit after_copy cursor m
    rw [(finish_exit _ _ _ _ _ _ _).1, (finish_exit _ _ _ _ _ _ _).2.1,
      (finish_exit _ _ _ _ _ _ _).2.2]
  by_cases hrange : desc.positional_count < (function.num_fixed_parameters : Int)
      ∨ ((function.num_fixed_parameters + function.NumOptionalPositionalParameters : Nat)
          : Int) < desc.positional_count
  · obtain ⟨r, hr⟩ := CopyParameters_total DEBUG layout null function desc mem hwf
    obtain ⟨h1, h2⟩ := CopyParameters_count_check_of_some DEBUG layout null function desc mem r hr
    have hr2 := h2 (h1.mpr hrange)
    refine ⟨r, mem, hr, ?_, fun _ _ => rfl⟩
    rw [hr2]
    exact hfinish _ _ _ _
  · have hge : (function.num_fixed_parameters : Int) ≤ desc.positional_count := by omega
    have hle : desc.positional_count
        ≤ ((function.num_fixed_parameters + function.NumOptionalPositionalParameters : Nat)
            : Int) := by omega
    rcases hwf with hnamed | ⟨hn, hp⟩
    · have hcount : desc.positional_count = (function.num_fixed_parameters : Int) := by
        have := hnamed.2.1
        rw [this] at hle
        push_cast at hle
        omega
      obtain ⟨arrays, L, -, -, -, -, bound, hbound, hrun⟩ :=
        CopyParameters_named_run DEBUG layout null function desc mem hnamed hcount
      have hsame : ∀ x : Int, layout.kFirstLocalSlotFromFp * kWordSize < x →
          bound.2 x = mem x := by
        intro x hx
        rw [hbound, foldl_bindNamedParameter_of_ne]
        · apply copyPositional_of_ne
          intro j hj
          unfold kWordSize at hx ⊢
          omega
        · intro e _
          unfold kWordSize at hx ⊢
          omega
      by_cases hcond : ((DEBUG || function.IsClosureFunction)
          && decide (desc.nameAt bound.1 = none)) = true
      · rw [if_pos hcond] at hrun
        exact ⟨_, bound.2, hrun, hfinish _ _ _ _, hsame⟩
      · rw [if_neg hcond] at hrun
        exact ⟨_, bound.2, hrun, hfinish _ _ _ _, hsame⟩
    · obtain ⟨bound, hbound, hrun⟩ :=
        CopyParameters_positional_run DEBUG layout null function desc mem hn hp hge hle
      have hsame : ∀ x : Int, layout.kFirstLocalSlotFromFp * kWordSize < x →
          bound x = mem x := by
        intro x hx
        rw [hbound, bindOptionalPositional_of_ne]
        · apply copyPositional_of_ne
          intro j hj
          unfold kWordSize at hx ⊢
          omega
        · intro j _ _ _
          unfold kWordSize at hx ⊢
          omega
      by_cases hcond : ((DEBUG || function.IsClosureFunction)
          && decide (desc.positional_count = desc.count)) = true
      · rw [if_pos hcond] at hrun
        exact ⟨_, bound, hrun, hfinish _ _ _ _, hsame⟩
      · rw [if_neg hcond] at hrun
        exact ⟨_, bound, hrun, hfinish _ _ _ _, hsame⟩

/-- C17 as amended: on the paths that reach `all_arguments_processed` the
clearing loop stores null into every one of the `num_args` originally passed
argument slots `fp[kParamEndSlotFromFp + 1] .. fp[kParamEndSlotFromFp + num_args]`
and into no other slot (with `num_args = 0` it stores nothing): the frame is
the one the binding code left, `bound`, with those slots nulled. The path to
the handler of `wrong_num_arguments` (the no-such-method call, or the stop)
leaves before the clearing loop: its frame is `bound` itself, in which every
originally passed argument slot still holds the word it had on entry. -/
theorem CopyParameters_clears_arguments (DEBUG : Bool) (layout : FrameLayout) (null : Word)
    (function : ParsedFunction Name) (desc : ArgumentsDescriptor Name) (mem : FrameMemory)
    (hwf : function.HasOptionalParameters)
    (hlayout : layout.kFirstLocalSlotFromFp ≤ layout.kParamEndSlotFromFp) :
    ∃ (r : BinderResult) (bound : FrameMemory),
      FlowGraphCompiler.CopyParameters DEBUG layout null function desc mem = some r
      ∧ (∀ x : Int, layout.kFirstLocalSlotFromFp * kWordSize < x → bound x = mem x)
      ∧ ((r.exit = BinderExit.all_arguments_processed ∨ r.exit = BinderExit.unchecked) →
          r.mem = FlowGraphCompiler.nullArguments layout null desc.count.toNat bound
          ∧ (∀ i : Nat, (i : Int) < desc.count →
              r.mem ((layout.kParamEndSlotFromFp + 1 + (i : Int)) * kWordSize) = null)
          ∧ ∀ x : Int,
              (∀ i : Nat, (i : Int) < desc.count →
                x ≠ (layout.kParamEndSlotFromFp + 1 + (i : Int)) * kWordSize) →
              r.mem x = bound x)
      ∧ ((r.exit = BinderExit.CallNoSuchMethodFunction ∨ r.exit = BinderExit.Stop) →
          r.mem = bound
          ∧ ∀ i : Nat, (i : Int) < desc.count →
              r.mem ((layout.kParamEndSlotFromFp + 1 + (i : Int)) * kWordSize)
                = mem ((layout.kParamEndSlotFromFp + 1 + (i : Int)) * kWordSize)) := by
  obtain ⟨r, bound, hr, hfinish, hsame⟩ :=
    CopyParameters_frame DEBUG layout null function desc mem hwf
  have huntag : (SmiUntag (Smi.RawValue desc.count)).toNat = desc.count.toNat := by
    unfold SmiUntag Smi.RawValue
    congr 1
    omega
  have hnulled : ∀ i : Nat, (i : Int) < desc.count →
      FlowGraphCompiler.nullArguments layout null desc.count.toNat bound
          ((layout.kParamEndSlotFromFp + 1 + (i : Int)) * kWordSize) = null := by
    intro i hi
    rw [nullArguments_apply, if_pos ⟨i, by omega, by unfold kWordSize; ring⟩]
  have hkept : ∀ x : Int,
      (∀ i : Nat, (i : Int) < desc.count →
        x ≠ (layout.kParamEndSlotFromFp + 1 + (i : Int)) * kWordSize) →
      FlowGraphCompiler.nullArguments layout null desc.count.toNat bound x = bound x := by
    intro x hx
    rw [nullArguments_apply, if_neg]
    rintro ⟨i, hi, hxi⟩
    exact hx i (by omega) (by rw [hxi]; unfold kWordSize; ring)
  refine ⟨r, bound, hr, hsame, ?_, ?_⟩
  · intro hexit
    have hmem : r.mem = FlowGraphCompiler.nullArguments layout null desc.count.toNat bound := by
      rw [hfinish]
      rcases hexit with h | h
      · rw [h]
        show FlowGraphCompiler.nullArguments layout null _ bound = _
        rw [huntag]
      · rw [h]
        show FlowGraphCompiler.nullArguments layout null _ bound = _
        rw [huntag]
    refine ⟨hmem, ?_, ?_⟩
    · intro i hi
      rw [hmem]
      exact hnulled i hi
    · intro x hx
      rw [hmem]
      exact hkept x hx
  · intro hexit
    have hmem : r.mem = bound := by
      rw [hfinish]
      rcases hexit with h | h
      · rw [h]
        rfl
      · rw [h]
        rfl
    refine ⟨hmem, ?_⟩
    intro i _
    rw [hmem]
    apply hsame
    unfold kWordSize
    omega

/-- C18 as amended: for a function with named parameters called with the right
positional count and a named argument that no formal has, `CopyParameters`
leaves after the copy code to the code bound at `wrong_num_arguments`, the
same that a positional arity mismatch is sent to at the count checks. That
code is the no-such-method call exactly when the function is a closure, in
either build; for a function that is not a closure it is the stop
`Wrong arguments` in a debug build, and in a release build nothing is emitted
there and control runs on into `all_arguments_processed`. -/
theorem CopyParameters_named_mismatch (DEBUG : Bool) (layout : FrameLayout) (null : Word)
    (function : ParsedFunction Name) (desc : ArgumentsDescriptor Name) (mem : FrameMemory)
    (hwf : function.HasNamedParameters)
    (hcount : desc.positional_count = (function.num_fixed_parameters : Int))
    (hnames : (desc.named.map Prod.fst).Pairwise (· < ·))
    (hleft : ∃ e ∈ desc.named, e.1 ∉ function.namedFormalNames) :
    ∃ r,
      FlowGraphCompiler.CopyParameters DEBUG layout null function desc mem = some r
      ∧ r.after_copy = true
      ∧ r.exit = (if function.IsClosureFunction then BinderExit.CallNoSuchMethodFunction
                  else if DEBUG then BinderExit.Stop else BinderExit.unchecked)
      ∧ ∀ (desc2 : ArgumentsDescriptor Name) (mem2 : FrameMemory),
          (desc2.positional_count < (function.num_fixed_parameters : Int)
            ∨ ((function.num_fixed_parameters + function.NumOptionalPositionalParameters : Nat)
                : Int) < desc2.positional_count) →
          ∃ r2,
            FlowGraphCompiler.CopyParameters DEBUG layout null function desc2 mem2 = some r2
            ∧ r2.after_copy = false
            ∧ r2.exit = r.exit := by
  have hwrong : FlowGraphCompiler.wrongNumArguments function (DEBUG || function.IsClosureFunction)
      = (if function.IsClosureFunction then BinderExit.CallNoSuchMethodFunction
         else if DEBUG then BinderExit.Stop else BinderExit.unchecked) := by
    unfold FlowGraphCompiler.wrongNumArguments
    cases function.IsClosureFunction <;> cases DEBUG <;> rfl
  obtain ⟨arrays, L, -, hrep, hsorted, hperm, bound, hbound, hrun⟩ :=
    CopyParameters_named_run DEBUG layout null function desc mem hwf hcount
  have hLlen : L.length = function.NumOptionalNamedParameters := by
    rw [hperm.length_eq, namedFormals_length function hwf]
  have hLsorted : (L.map (fun e => e.1.name)).Pairwise (· < ·) := by
    rw [List.pairwise_map]
    exact hsorted
  -- the cursor ends where the scan of the names ends
  have hcursor : bound.1 = scanNames (L.map (fun e => e.1.name)) (desc.named.map Prod.fst) := by
    obtain ⟨mem', hscan⟩ := bindNamedParameters_cursor layout function desc
      (4 * Smi.RawValue desc.count + layout.kParamEndSlotFromFp * kWordSize)
      function.NumOptionalNamedParameters arrays L hrep hLlen
      function.NumOptionalNamedParameters 0 0
      (FlowGraphCompiler.copyPositional
        (4 * (Smi.RawValue desc.count - Smi.RawValue desc.positional_count)
          + (layout.kParamEndSlotFromFp + 1) * kWordSize)
        (8 * (-(function.num_fixed_parameters : Int))
          + (layout.kFirstLocalSlotFromFp + 1) * kWordSize)
        function.num_fixed_parameters mem)
      (by omega)
    have hfold := bindNamedParameters_eq_foldl layout function desc
      (4 * Smi.RawValue desc.count + layout.kParamEndSlotFromFp * kWordSize)
      function.NumOptionalNamedParameters arrays L hrep hLlen
      function.NumOptionalNamedParameters 0
      (0, FlowGraphCompiler.copyPositional
        (4 * (Smi.RawValue desc.count - Smi.RawValue desc.positional_count)
          + (layout.kParamEndSlotFromFp + 1) * kWordSize)
        (8 * (-(function.num_fixed_parameters : Int))
          + (layout.kFirstLocalSlotFromFp + 1) * kWordSize)
        function.num_fixed_parameters mem)
      (by omega)
    rw [hscan, List.drop_zero, ← hbound] at hfold
    simp only [List.drop_zero, Nat.zero_add, Option.some.injEq] at hfold
    rw [← hfold]
  have hnot : desc.nameAt bound.1 ≠ none := by
    intro hnone
    have hlen : bound.1 = desc.named.length := by
      unfold ArgumentsDescriptor.nameAt at hnone
      rw [Option.map_eq_none', List.getElem?_eq_none_iff] at hnone
      have hle := scanNames_le (L.map (fun e => e.1.name)) (desc.named.map Prod.fst)
      rw [List.length_map, ← hcursor] at hle
      omega
    have hiff := scanNames_eq_length_iff (L.map (fun e => e.1.name)) (desc.named.map Prod.fst)
      hLsorted hnames
    rw [List.length_map, ← hcursor] at hiff
    obtain ⟨e, he, hnotin⟩ := hleft
    apply hnotin
    have := (hiff.mp hlen) e.1 (List.mem_map_of_mem Prod.fst he)
    unfold ParsedFunction.namedFormalNames
    exact ((hperm.map (fun x => x.1.name)).mem_iff).mp this
  have hcond : ¬ ((DEBUG || function.IsClosureFunction)
      && decide (desc.nameAt bound.1 = none)) = true := by
    simp [hnot]
  rw [if_neg hcond] at hrun
  refine ⟨_, hrun, (finish_exit _ _ _ _ _ _ _).2.1, ?_, ?_⟩
  · rw [(finish_exit _ _ _ _ _ _ _).1, hwrong]
  · intro desc2 mem2 hrange
    obtain ⟨r2, hr2⟩ := CopyParameters_total DEBUG layout null function desc2 mem2 (Or.inl hwf)
    obtain ⟨h1, h2⟩ :=
      CopyParameters_count_check_of_some DEBUG layout null function desc2 mem2 r2 hr2
    have hfalse := h1.mpr hrange
    refine ⟨r2, hr2, hfalse, ?_⟩
    rw [h2 hfalse, (finish_exit _ _ _ _ _ _ _).1, (finish_exit _ _ _ _ _ _ _).1]

end ParameterBinderFrame

/-- C14 on the formals `(x, y, {z, w})`, the named ones at positions 2 and 3. -/
theorem sortNamedParameters_sorted_permutation_witness :
    sampleFunction.HasNamedParameters
    ∧ ∃ arrays L,
        FlowGraphCompiler.sortNamedParameters sampleFunction
            sampleFunction.NumOptionalNamedParameters sampleFunction.num_fixed_parameters
            (CArray.new sampleFunction.NumOptionalNamedParameters,
              CArray.new sampleFunction.NumOptionalNamedParameters) = some arrays
        ∧ Represents sampleFunction.NumOptionalNamedParameters arrays L
        ∧ L.length = sampleFunction.NumOptionalNamedParameters
        ∧ L.Pairwise (fun a b => CompareTo a.1.name b.1.name < 0)
        ∧ L.Perm sampleFunction.namedFormals
        ∧ (∀ e ∈ L, sampleFunction.scope[e.2]? = some e.1
            ∧ sampleFunction.num_fixed_parameters ≤ e.2
            ∧ e.2 < sampleFunction.num_fixed_parameters
                + sampleFunction.NumOptionalNamedParameters)
        ∧ ∀ L2 : List (LocalVariable Nat × Nat), L2.Perm sampleFunction.namedFormals →
            L2.Pairwise (fun a b => CompareTo a.1.name b.1.name < 0) → L2 = L :=
  ⟨sampleFunction_HasNamedParameters,
    sortNamedParameters_sorted_permutation sampleFunction sampleFunction_HasNamedParameters⟩

/-- C15 on the formals `(x, y, {z: 1, w: 2})` called with `(5, 6, w: 9)`: the
home slot `fp[-5]` of `w` holds the word passed at `fp[2]`, the home slot
`fp[-4]` of `z` its default value. -/
theorem CopyParameters_named_values_witness :
    sampleFunction.HasNamedParameters
    ∧ sampleCall.positional_count = (sampleFunction.num_fixed_parameters : Int)
    ∧ (sampleCall.named.map Prod.fst).Pairwise (· < ·)
    ∧ (∀ e ∈ sampleCall.named, e.1 ∈ sampleFunction.namedFormalNames)
    ∧ sampleLayout.kFirstLocalSlotFromFp ≤ sampleLayout.kParamEndSlotFromFp
    ∧ (∀ e ∈ sampleCall.named, e.2 < sampleCall.count)
    ∧ ∃ r,
        FlowGraphCompiler.CopyParameters true sampleLayout 0 sampleFunction sampleCall sampleFrame
          = some r
        ∧ r.mem (-5 * 8) = sampleFrame (2 * 8)
        ∧ r.mem (-4 * 8) = Smi.RawValue 1 := by
  obtain ⟨⟨r, hr, hvalue⟩, -⟩ :=
    CopyParameters_named_values true sampleLayout 0 sampleFunction sampleCall sampleFrame
      sampleFunction_HasNamedParameters (by decide) (by decide) (by decide) (by decide)
      (by decide)
  exact ⟨sampleFunction_HasNamedParameters, by decide, by decide, by decide, by decide,
    by decide, r, hr, hvalue 1 ⟨23⟩ (by decide) (by decide),
    hvalue 0 ⟨26⟩ (by decide) (by decide)⟩

/-- C16 on the formals `(x, [y = 7, z = 8])` called with `(5, 6)`: the home
slot `fp[-3]` of `y` holds the word passed at `fp[2]`, the home slot `fp[-4]`
of `z` its default value. -/
theorem CopyParameters_positional_values_witness :
    samplePositional.NumOptionalNamedParameters = 0
    ∧ 0 < samplePositional.NumOptionalPositionalParameters
    ∧ (samplePositional.num_fixed_parameters : Int) ≤ samplePositionalCall.positional_count
    ∧ samplePositionalCall.positional_count
        ≤ ((samplePositional.num_fixed_parameters
            + samplePositional.NumOptionalPositionalParameters : Nat) : Int)
    ∧ sampleLayout.kFirstLocalSlotFromFp ≤ sampleLayout.kParamEndSlotFromFp
    ∧ samplePositionalCall.positional_count ≤ samplePositionalCall.count
    ∧ ∃ r,
        FlowGraphCompiler.CopyParameters true sampleLayout 0 samplePositional
          samplePositionalCall sampleFrame = some r
        ∧ r.mem (-3 * 8) = sampleFrame (2 * 8)
        ∧ r.mem (-4 * 8) = Smi.RawValue 8 := by
  obtain ⟨⟨r, hr, hvalue⟩, -⟩ :=
    CopyParameters_positional_values true sampleLayout 0 samplePositional samplePositionalCall
      sampleFrame (by decide) (by decide) (by decide) (by decide) (by decide) (by decide)
  exact ⟨by decide, by decide, by decide, by decide, by decide, by decide, r, hr,
    hvalue 1 (by decide) (by decide), hvalue 2 (by decide) (by decide)⟩

theorem sampleClosure_HasNamedParameters : sampleClosure.HasNamedParameters :=
  ⟨by decide, by decide, by decide, by decide⟩

/-- C17, the claim as stated fails: the closure `(x, y, {z, w})` called with
`(5, 6, v: 9)` leaves to the no-such-method call after the binding code, and
the three originally passed argument slots `fp[2]`, `fp[3]`, `fp[4]` hold the
words 16, 24, 32 they had on entry, not the null word 0. -/
theorem CopyParameters_handler_sees_actuals :
    ∃ r,
      FlowGraphCompiler.CopyParameters false sampleLayout 0 sampleClosure sampleBadCall
        sampleFrame = some r
      ∧ r.exit = BinderExit.CallNoSuchMethodFunction
      ∧ r.after_copy = true
      ∧ r.mem (2 * 8) = 16 ∧ r.mem (3 * 8) = 24 ∧ r.mem (4 * 8) = 32 := by
  have h : (FlowGraphCompiler.CopyParameters false sampleLayout 0 sampleClosure sampleBadCall
      sampleFrame).map (fun r => (r.exit, r.after_copy, r.mem (2 * 8), r.mem (3 * 8),
        r.mem (4 * 8)))
      = some (BinderExit.CallNoSuchMethodFunction, true, 16, 24, 32) := by
    decide
  obtain ⟨r, hr, hf⟩ := Option.map_eq_some'.mp h
  simp only [Prod.mk.injEq] at hf
  exact ⟨r, hr, hf⟩

/-- C17 as amended, on the closure `(x, y, {z, w})` called with `(5, 6, v: 9)`. -/
theorem CopyParameters_clears_arguments_witness :
    sampleClosure.HasOptionalParameters
    ∧ sampleLayout.kFirstLocalSlotFromFp ≤ sampleLayout.kParamEndSlotFromFp
    ∧ ∃ (r : BinderResult) (bound : FrameMemory),
        FlowGraphCompiler.CopyParameters false sampleLayout 0 sampleClosure sampleBadCall
          sampleFrame = some r
        ∧ (∀ x : Int, sampleLayout.kFirstLocalSlotFromFp * kWordSize < x →
            bound x = sampleFrame x)
        ∧ ((r.exit = BinderExit.all_arguments_processed ∨ r.exit = BinderExit.unchecked) →
            r.mem = FlowGraphCompiler.nullArguments sampleLayout 0 sampleBadCall.count.toNat bound
            ∧ (∀ i : Nat, (i : Int) < sampleBadCall.count →
                r.mem ((sampleLayout.kParamEndSlotFromFp + 1 + (i : Int)) * kWordSize) = 0)
            ∧ ∀ x : Int,
                (∀ i : Nat, (i : Int) < sampleBadCall.count →
                  x ≠ (sampleLayout.kParamEndSlotFromFp + 1 + (i : Int)) * kWordSize) →
                r.mem x = bound x)
        ∧ ((r.exit = BinderExit.CallNoSuchMethodFunction ∨ r.exit = BinderExit.Stop) →
            r.mem = bound
            ∧ ∀ i : Nat, (i : Int) < sampleBadCall.count →
                r.mem ((sampleLayout.kParamEndSlotFromFp + 1 + (i : Int)) * kWordSize)
                  = sampleFrame ((sampleLayout.kParamEndSlotFromFp + 1 + (i : Int)) * kWordSize)) :=
  ⟨Or.inl sampleClosure_HasNamedParameters, by decide,
    CopyParameters_clears_arguments false sampleLayout 0 sampleClosure sampleBadCall sampleFrame
      (Or.inl sampleClosure_HasNamedParameters) (by decide)⟩

/-- C18, the claim as stated fails: in a debug build the function `(x, y, {z, w})`,
which is not a closure, called with `(5, 6, v: 9)` reaches the stop, not the
no-such-method call. -/
theorem CopyParameters_debug_mismatch_stops :
    ∃ r,
      FlowGraphCompiler.CopyParameters true sampleLayout 0 sampleFunction sampleBadCall
        sampleFrame = some r
      ∧ r.after_copy = true
      ∧ r.exit = BinderExit.Stop
      ∧ r.exit ≠ BinderExit.CallNoSuchMethodFunction := by
  have h : (FlowGraphCompiler.CopyParameters true sampleLayout 0 sampleFunction sampleBadCall
      sampleFrame).map (fun r => (r.after_copy, r.exit)) = some (true, BinderExit.Stop) := by
    decide
  obtain ⟨r, hr, hf⟩ := Option.map_eq_some'.mp h
  simp only [Prod.mk.injEq] at hf
  exact ⟨r, hr, hf.1, hf.2, by rw [hf.2]; decide⟩

/-- C18 as amended, on the closure `(x, y, {z, w})` called with `(5, 6, v: 9)` in
a release build: the no-such-method call is reached after the copy code, as it
is at the count checks for a call with one positional argument. -/
theorem CopyParameters_named_mismatch_witness :
    sampleClosure.HasNamedParameters
    ∧ sampleBadCall.positional_count = (sampleClosure.num_fixed_parameters : Int)
    ∧ (sampleBadCall.named.map Prod.fst).Pairwise (· < ·)
    ∧ (∃ e ∈ sampleBadCall.named, e.1 ∉ sampleClosure.namedFormalNames)
    ∧ ∃ r,
        FlowGraphCompiler.CopyParameters false sampleLayout 0 sampleClosure sampleBadCall
          sampleFrame = some r
        ∧ r.after_copy = true
        ∧ r.exit = BinderExit.CallNoSuchMethodFunction
        ∧ ∃ r2,
            FlowGraphCompiler.CopyParameters false sampleLayout 0 sampleClosure sampleShortCall
              sampleFrame = some r2
            ∧ r2.after_copy = false
            ∧ r2.exit = r.exit := by
  obtain ⟨r, hr, hafter, hexit, hsame⟩ :=
    CopyParameters_named_mismatch false sampleLayout 0 sampleClosure sampleBadCall sampleFrame
      sampleClosure_HasNamedParameters (by decide) (by decide)
      ⟨(22, 2), by decide, by decide⟩
  exact ⟨sampleClosure_HasNamedParameters, by decide, by decide,
    ⟨(22, 2), by decide, by decide⟩, r, hr, hafter, hexit,
    hsame sampleShortCall sampleFrame (Or.inl (by decide))⟩

/-! ## Properties of the inline type tests -/

/-- C6, the code at the failing input: for the uninstantiated type
`Comparable<T>` (a `Type`, not a type parameter) `GenerateInlineInstanceof`
emits code that sends every Smi to `is_not_instance` without calling a
subtype-test-cache stub and without reading the instantiator type arguments,
so also when the instantiator makes `T` the type `num` (or leaves it dynamic),
for which the full subtype relation holds of a Smi. -/
theorem GenerateInlineInstanceof_smi_uninstantiated :
    ∃ code,
      FlowGraphCompiler.GenerateInlineInstanceof sampleClassIds 0 sampleComparableOfT = some code
      ∧ ∀ (instantiator_type_arguments : InstantiatorTypeArguments)
          (stub : TypeTestStubKind → SubtypeTestCache → Option Bool),
          code.run ⟨sampleSmi, instantiator_type_arguments, stub⟩
            = ⟨some Verdict.is_not_instance, []⟩ :=
  ⟨_, rfl, fun _ _ => rfl⟩

/-- C20: when `TypeCheckAsClassEquality(type)` holds of a type that is not
void, `GenerateInlineInstanceof` returns no `SubtypeTestCache` (and allocates
none), and the code it emits calls no stub and, for every value, whose class
id is `kSmiCid` if it is Smi-tagged and otherwise a class id other than
`kSmiCid`, jumps to `is_instance` if and only if that class id is the class id
of the type, and to `is_not_instance` otherwise: it never falls through. -/
theorem GenerateInlineInstanceof_class_equality (ids : ClassIds) (next : SubtypeTestCache)
    (type : AbstractType)
    (hvoid : type.IsVoidType = false) (hequality : type.TypeCheckAsClassEquality = true) :
    ∃ code,
      FlowGraphCompiler.GenerateInlineInstanceof ids next type = some code
      ∧ code.cache = none
      ∧ code.allocated = 0
      ∧ ∀ rt : TestRuntime, (rt.value.is_smi = false → rt.value.class_id ≠ ids.kSmiCid) →
          (code.run rt).stub_calls = []
          ∧ ((code.run rt).verdict = some Verdict.is_instance
              ↔ (if rt.value.is_smi then ids.kSmiCid else rt.value.class_id)
                  = type.type_class.id)
          ∧ ((code.run rt).verdict = some Verdict.is_not_instance
              ↔ (if rt.value.is_smi then ids.kSmiCid else rt.value.class_id)
                  ≠ type.type_class.id) := by
  have hcode : FlowGraphCompiler.GenerateInlineInstanceof ids next type
      = some
          { cache := none, allocated := 0,
            run := fun rt =>
              if type.type_class.id = ids.kSmiCid then
                if rt.value.is_smi then ⟨some Verdict.is_instance, []⟩
                else ⟨some Verdict.is_not_instance, []⟩
              else
                if rt.value.is_smi then ⟨some Verdict.is_not_instance, []⟩
                else if rt.value.class_id = type.type_class.id then
                  ⟨some Verdict.is_instance, []⟩
                else ⟨some Verdict.is_not_instance, []⟩ } := by
    simp only [FlowGraphCompiler.GenerateInlineInstanceof, hvoid, hequality,
      Bool.false_eq_true, if_false, if_true]
  refine ⟨_, hcode, rfl, rfl, ?_⟩
  intro rt hwf
  simp only
  by_cases hcid : type.type_class.id = ids.kSmiCid
  · cases hsmi : rt.value.is_smi
    · have := hwf hsmi
      simp [hcid, hsmi, this]
    · simp [hcid, hsmi]
  · cases hsmi : rt.value.is_smi
    · by_cases hclass : rt.value.class_id = type.type_class.id
      · simp [hcid, hsmi, hclass]
      · simp [hcid, hsmi, hclass]
    · have hne : ¬ ids.kSmiCid = type.type_class.id := fun h => hcid h.symm
      simp [hcid, hsmi, hne]

/-- C20 on a class without type arguments and subclasses: an object of the
class is an instance, a Smi is not. -/
theorem GenerateInlineInstanceof_class_equality_witness :
    sampleExactClass.IsVoidType = false
    ∧ sampleExactClass.TypeCheckAsClassEquality = true
    ∧ ∃ code,
        FlowGraphCompiler.GenerateInlineInstanceof sampleClassIds 0 sampleExactClass = some code
        ∧ code.cache = none
        ∧ (code.run ⟨sampleExactInstance, InstantiatorTypeArguments.null,
              fun _ _ => none⟩).verdict = some Verdict.is_instance
        ∧ (code.run ⟨sampleSmi, InstantiatorTypeArguments.null,
              fun _ _ => none⟩).verdict = some Verdict.is_not_instance := by
  obtain ⟨code, hcode, hcache, -, hrun⟩ :=
    GenerateInlineInstanceof_class_equality sampleClassIds 0 sampleExactClass rfl rfl
  refine ⟨rfl, rfl, code, hcode, hcache, ?_, ?_⟩
  · exact (hrun ⟨sampleExactInstance, InstantiatorTypeArguments.null, fun _ _ => none⟩
      (fun _ => by decide)).2.1.mpr (by decide)
  · exact (hrun ⟨sampleSmi, InstantiatorTypeArguments.null, fun _ _ => none⟩
      (fun h => by cases h)).2.2.mpr (by decide)

theorem seq_stub_calls_mem (f g : Fragment) (rt : TestRuntime)
    (c : TypeTestStubKind × SubtypeTestCache) (hc : c ∈ (Fragment.seq f g rt).stub_calls) :
    c ∈ (f rt).stub_calls ∨ c ∈ (g rt).stub_calls := by
  unfold Fragment.seq at hc
  cases hf : f rt with
  | mk verdict calls =>
      rw [hf] at hc
      cases verdict with
      | none =>
          simp only [List.mem_append] at hc
          exact hc
      | some v => exact Or.inl hc

theorem seq_stub_calls_nil (f g : Fragment) (rt : TestRuntime)
    (hf : (f rt).stub_calls = []) (hg : (g rt).stub_calls = []) :
    (Fragment.seq f g rt).stub_calls = [] := by
  apply List.eq_nil_iff_forall_not_mem.mpr
  intro c hc
  rcases seq_stub_calls_mem f g rt c hc with h | h
  · rw [hf] at h; cases h
  · rw [hg] at h; cases h

theorem seq_verdict_ne_none (f g : Fragment) (rt : TestRuntime)
    (hg : (g rt).verdict ≠ none) : (Fragment.seq f g rt).verdict ≠ none := by
  unfold Fragment.seq
  cases hf : f rt with
  | mk verdict calls =>
      cases verdict with
      | none => exact hg
      | some v => simp

theorem jumpIf_stub_calls (condition : TestRuntime → Bool) (v : Verdict) (rt : TestRuntime) :
    (Fragment.jumpIf condition v rt).stub_calls = [] := by
  unfold Fragment.jumpIf
  split <;> rfl

theorem CheckClassIds_stub_calls (class_ids : List Int) (a b : Option Verdict)
    (rt : TestRuntime) :
    (FlowGraphCompiler.CheckClassIds class_ids a b rt).stub_calls = [] := by
  unfold FlowGraphCompiler.CheckClassIds
  split <;> rfl

theorem CheckClassIds_verdict (class_ids : List Int) (a b : Verdict) (rt : TestRuntime) :
    (FlowGraphCompiler.CheckClassIds class_ids (some a) (some b) rt).verdict ≠ none := by
  unfold FlowGraphCompiler.CheckClassIds
  split <;> simp

/-- The lookup code allocates one cache, returns it, and calls the stub with
it only. -/
theorem GenerateSubtype1TestCacheLookup_cache (next : SubtypeTestCache) (type_class : TypeClass) :
    (FlowGraphCompiler.GenerateSubtype1TestCacheLookup next type_class).cache = some next
    ∧ (FlowGraphCompiler.GenerateSubtype1TestCacheLookup next type_class).allocated = 1
    ∧ ∀ rt, ∀ c ∈ ((FlowGraphCompiler.GenerateSubtype1TestCacheLookup next type_class).run
          rt).stub_calls, c.2 = next := by
  refine ⟨rfl, rfl, ?_⟩
  intro rt c hc
  rcases seq_stub_calls_mem _ _ rt c hc with h | h
  · rw [jumpIf_stub_calls] at h
    cases h
  · simp only [FlowGraphCompiler.GenerateCallSubtypeTestStub, List.mem_singleton] at h
    rw [h]

/-- The test for an instantiated type with arguments allocates one cache,
returns it, and calls the stub with it only. -/
theorem GenerateInstantiatedTypeWithArgumentsTest_cache (ids : ClassIds)
    (next : SubtypeTestCache) (type : AbstractType) (hinst : type.IsInstantiated = true)
    (hargs : (type.type_class.IsSignatureClass
      || decide (type.type_class.NumTypeArguments > 0)) = true) :
    ∃ code,
      FlowGraphCompiler.GenerateInstantiatedTypeWithArgumentsTest ids next type = some code
      ∧ code.cache = some next
      ∧ code.allocated = 1
      ∧ ∀ rt, ∀ c ∈ (code.run rt).stub_calls, c.2 = next := by
  have hassert : (decide (type.type_class.NumTypeArguments > 0)
      || type.type_class.IsSignatureClass) = true := by
    rw [Bool.or_comm]
    exact hargs
  obtain ⟨l1, l2, l3⟩ := GenerateSubtype1TestCacheLookup_cache next type.type_class
  unfold FlowGraphCompiler.GenerateInstantiatedTypeWithArgumentsTest
  simp only [hinst, hassert, Bool.not_true, Bool.false_eq_true, if_false]
  split
  · refine ⟨_, rfl, l1, l2, ?_⟩
    intro rt c hc
    rcases seq_stub_calls_mem _ _ rt c hc with h | h
    · rw [jumpIf_stub_calls] at h; cases h
    · rcases seq_stub_calls_mem _ _ rt c h with h | h
      · rw [jumpIf_stub_calls] at h; cases h
      · rcases seq_stub_calls_mem _ _ rt c h with h | h
        · split at h
          · rw [CheckClassIds_stub_calls] at h; cases h
          · cases h
        · exact l3 rt c h
  · split
    · refine ⟨_, rfl, l1, l2, ?_⟩
      intro rt c hc
      rcases seq_stub_calls_mem _ _ rt c hc with h | h
      · rw [jumpIf_stub_calls] at h; cases h
      · exact l3 rt c h
    · refine ⟨_, rfl, rfl, rfl, ?_⟩
      intro rt c hc
      rcases seq_stub_calls_mem _ _ rt c hc with h | h
      · rw [jumpIf_stub_calls] at h; cases h
      · simp only [FlowGraphCompiler.GenerateCallSubtypeTestStub, List.mem_singleton] at h
        rw [h]


/-- The test for an instantiated type without arguments calls no stub, and has
no fall through exactly for the Boolean type, the subtypes of the number type
and the string type, for which it always jumps. -/
theorem GenerateInstantiatedTypeNoArgumentsTest_spec (ids : ClassIds) (type : AbstractType)
    (hinst : type.IsInstantiated = true) (hargs : type.type_class.NumTypeArguments = 0) :
    ∃ has_fall_through code,
      FlowGraphCompiler.GenerateInstantiatedTypeNoArgumentsTest ids type
        = some (has_fall_through, code)
      ∧ (has_fall_through = false
          ↔ type.IsBoolType = true ∨ type.IsSubtypeOfNumber = true ∨ type.IsStringType = true)
      ∧ (∀ rt, (code rt).stub_calls = [])
      ∧ (has_fall_through = false → ∀ rt, (code rt).verdict ≠ none) := by
  have hcommon : ∀ rt,
      (Fragment.seq
        (Fragment.jumpIf (fun rt => rt.value.is_smi)
          (if type.SmiClassIsSubtype then Verdict.is_instance else Verdict.is_not_instance))
        (Fragment.jumpIf (fun rt => decide (rt.value.class_id = type.type_class.id))
          Verdict.is_instance) rt).stub_calls = [] :=
    fun rt => seq_stub_calls_nil _ _ rt (jumpIf_stub_calls _ _ _) (jumpIf_stub_calls _ _ _)
  have hfunction : ∀ rt,
      ((if type.IsFunctionType then
          Fragment.jumpIf (fun rt => rt.value.class_has_signature_function) Verdict.is_instance
        else Fragment.skip) rt).stub_calls = [] := by
    intro rt
    split
    · exact jumpIf_stub_calls _ _ _
    · rfl
  unfold FlowGraphCompiler.GenerateInstantiatedTypeNoArgumentsTest
  simp only [hinst, hargs, Bool.not_true, Bool.false_eq_true, if_false, ne_eq, not_true_eq_false]
  by_cases hbool : type.IsBoolType = true
  · simp only [hbool, if_true]
    refine ⟨false, _, rfl, by simp, ?_, ?_⟩
    · intro rt
      exact seq_stub_calls_nil _ _ rt (hcommon rt) (CheckClassIds_stub_calls _ _ _ _)
    · intro _ rt
      exact seq_verdict_ne_none _ _ rt (CheckClassIds_verdict _ _ _ _)
  · simp only [hbool, if_false]
    by_cases hnum : type.IsSubtypeOfNumber = true
    · simp only [hnum, if_true]
      refine ⟨false, _, rfl, by simp, ?_, ?_⟩
      · intro rt
        exact seq_stub_calls_nil _ _ rt
          (seq_stub_calls_nil _ _ rt (hcommon rt) (hfunction rt))
          (CheckClassIds_stub_calls _ _ _ _)
      · intro _ rt
        exact seq_verdict_ne_none _ _ rt (CheckClassIds_verdict _ _ _ _)
    · simp only [hnum, if_false]
      by_cases hstr : type.IsStringType = true
      · simp only [hstr, if_true]
        refine ⟨false, _, rfl, by simp, ?_, ?_⟩
        · intro rt
          exact seq_stub_calls_nil _ _ rt
            (seq_stub_calls_nil _ _ rt (hcommon rt) (hfunction rt))
            (CheckClassIds_stub_calls _ _ _ _)
        · intro _ rt
          exact seq_verdict_ne_none _ _ rt (CheckClassIds_verdict _ _ _ _)
      · simp only [hstr, if_false]
        refine ⟨true, _, rfl, by simp [hbool, hnum, hstr], ?_, ?_⟩
        · intro rt
          exact seq_stub_calls_nil _ _ rt (hcommon rt) (hfunction rt)
        · intro h
          cases h

/-- The three ways `GenerateInlineInstanceof` ends: no code and no cache; a
test decided inline, with no cache; or a test that relies on the one cache it
allocates. -/
theorem GenerateInlineInstanceof_cases (ids : ClassIds) (next : SubtypeTestCache)
    (type : AbstractType) :
    ∃ code,
      FlowGraphCompiler.GenerateInlineInstanceof ids next type = some code
      ∧ (((type.IsVoidType = true
              ∨ (type.TypeCheckAsClassEquality = false ∧ type.IsInstantiated = false
                  ∧ type.IsTypeParameter = false ∧ type.IsType = false))
            ∧ code.cache = none ∧ code.allocated = 0
            ∧ ∀ rt, code.run rt = ⟨none, []⟩)
          ∨ ((type.IsVoidType = false
                ∧ (type.TypeCheckAsClassEquality = true
                    ∨ (type.IsInstantiated = true ∧ type.type_class.IsSignatureClass = false
                        ∧ type.type_class.NumTypeArguments = 0
                        ∧ (type.IsBoolType = true ∨ type.IsSubtypeOfNumber = true
                            ∨ type.IsStringType = true))))
            ∧ code.cache = none ∧ code.allocated = 0
            ∧ ∀ rt, (code.run rt).stub_calls = [] ∧ (code.run rt).verdict ≠ none)
          ∨ ((type.IsVoidType = false ∧ type.TypeCheckAsClassEquality = false
                ∧ (type.IsInstantiated = true →
                    ¬ (type.type_class.IsSignatureClass = false
                        ∧ type.type_class.NumTypeArguments = 0
                        ∧ (type.IsBoolType = true ∨ type.IsSubtypeOfNumber = true
                            ∨ type.IsStringType = true)))
                ∧ (type.IsInstantiated = false →
                    type.IsTypeParameter = true ∨ type.IsType = true))
            ∧ code.cache = some next ∧ code.allocated = 1
            ∧ ∀ rt, ∀ c ∈ (code.run rt).stub_calls, c.2 = next)) := by
  cases hvoid : type.IsVoidType
  swap
  · have hG : FlowGraphCompiler.GenerateInlineInstanceof ids next type
        = some { cache := none, allocated := 0, run := Fragment.skip } := by
      simp only [FlowGraphCompiler.GenerateInlineInstanceof, hvoid, if_true]
    exact ⟨_, hG, Or.inl ⟨Or.inl rfl, rfl, rfl, fun _ => rfl⟩⟩
  cases hequal : type.TypeCheckAsClassEquality
  swap
  · have hG : FlowGraphCompiler.GenerateInlineInstanceof ids next type
        = some
            { cache := none, allocated := 0,
              run := fun rt =>
                if type.type_class.id = ids.kSmiCid then
                  if rt.value.is_smi then ⟨some Verdict.is_instance, []⟩
                  else ⟨some Verdict.is_not_instance, []⟩
                else
                  if rt.value.is_smi then ⟨some Verdict.is_not_instance, []⟩
                  else if rt.value.class_id = type.type_class.id then
                    ⟨some Verdict.is_instance, []⟩
                  else ⟨some Verdict.is_not_instance, []⟩ } := by
      simp only [FlowGraphCompiler.GenerateInlineInstanceof, hvoid, hequal,
        Bool.false_eq_true, if_false, if_true]
    refine ⟨_, hG, Or.inr (Or.inl ⟨⟨rfl, Or.inl rfl⟩, rfl, rfl, ?_⟩)⟩
    intro rt
    simp only
    split
    · split <;> simp
    · split
      · simp
      · split <;> simp
  cases hinst : type.IsInstantiated
  · -- an uninstantiated type
    have hG0 : FlowGraphCompiler.GenerateInlineInstanceof ids next type
        = FlowGraphCompiler.GenerateUninstantiatedTypeTest next type := by
      simp only [FlowGraphCompiler.GenerateInlineInstanceof, hvoid, hequal, hinst,
        Bool.false_eq_true, if_false]
    rw [hG0]
    cases htp : type.IsTypeParameter
    · cases htype : type.IsType
      · have hG : FlowGraphCompiler.GenerateUninstantiatedTypeTest next type
            = some { cache := none, allocated := 0, run := Fragment.skip } := by
          simp only [FlowGraphCompiler.GenerateUninstantiatedTypeTest, hinst, htp, htype,
            Bool.false_eq_true, if_false]
        exact ⟨_, hG, Or.inl ⟨Or.inr ⟨rfl, rfl, rfl, rfl⟩, rfl, rfl, fun _ => rfl⟩⟩
      · have hG : FlowGraphCompiler.GenerateUninstantiatedTypeTest next type
            = some
                { FlowGraphCompiler.GenerateCallSubtypeTestStub next
                    TypeTestStubKind.kTestTypeThreeArgs with
                  run :=
                    Fragment.seq
                      (Fragment.jumpIf (fun rt => rt.value.is_smi) Verdict.is_not_instance)
                      (FlowGraphCompiler.GenerateCallSubtypeTestStub next
                        TypeTestStubKind.kTestTypeThreeArgs).run } := by
          simp only [FlowGraphCompiler.GenerateUninstantiatedTypeTest, hinst, htp, htype,
            Bool.false_eq_true, if_false, if_true]
        refine ⟨_, hG, Or.inr (Or.inr
          ⟨⟨rfl, rfl, (fun h => by cases h), fun _ => Or.inr rfl⟩, rfl, rfl, ?_⟩)⟩
        intro rt c hc
        rcases seq_stub_calls_mem _ _ rt c hc with h | h
        · rw [jumpIf_stub_calls] at h; cases h
        · simp only [FlowGraphCompiler.GenerateCallSubtypeTestStub, List.mem_singleton] at h
          rw [h]
    · have hG : FlowGraphCompiler.GenerateUninstantiatedTypeTest next type
          = some
              { FlowGraphCompiler.GenerateCallSubtypeTestStub next
                  TypeTestStubKind.kTestTypeThreeArgs with
                run := fun rt =>
                  match FlowGraphCompiler.typeParameterChecks type.index rt with
                  | Sum.inl v => ⟨some v, []⟩
                  | Sum.inr true =>
                      (FlowGraphCompiler.GenerateCallSubtypeTestStub next
                        TypeTestStubKind.kTestTypeThreeArgs).run rt
                  | Sum.inr false => ⟨none, []⟩ } := by
        simp only [FlowGraphCompiler.GenerateUninstantiatedTypeTest, hinst, htp,
          Bool.false_eq_true, if_false, if_true]
      refine ⟨_, hG, Or.inr (Or.inr
        ⟨⟨rfl, rfl, (fun h => by cases h), fun _ => Or.inl rfl⟩, rfl, rfl, ?_⟩)⟩
      intro rt c hc
      simp only at hc
      split at hc
      · cases hc
      · simp only [FlowGraphCompiler.GenerateCallSubtypeTestStub, List.mem_singleton] at hc
        rw [hc]
      · cases hc
  · -- an instantiated type
    by_cases hargs : (type.type_class.IsSignatureClass
        || decide (type.type_class.NumTypeArguments > 0)) = true
    · obtain ⟨code, hcode, h1, h2, h3⟩ :=
        GenerateInstantiatedTypeWithArgumentsTest_cache ids next type hinst hargs
      have hrun : FlowGraphCompiler.GenerateInlineInstanceof ids next type = some code := by
        simp only [FlowGraphCompiler.GenerateInlineInstanceof, hvoid, hequal,
          hinst, hargs, Bool.false_eq_true, if_false, if_true, hcode]
      refine ⟨code, hrun, Or.inr (Or.inr ⟨⟨rfl, rfl, ?_, fun h => by cases h⟩, h1, h2, h3⟩)⟩
      rintro - ⟨hsig, hn, -⟩
      rw [hsig, hn] at hargs
      simp at hargs
    · have hsig : type.type_class.IsSignatureClass = false := by
        cases h : type.type_class.IsSignatureClass
        · rfl
        · rw [h] at hargs
          simp at hargs
      have hn : type.type_class.NumTypeArguments = 0 := by
        by_contra h
        apply hargs
        simp
        right
        omega
      obtain ⟨ft, frag, hfrag, hiff, hcalls, hverdict⟩ :=
        GenerateInstantiatedTypeNoArgumentsTest_spec ids type hinst hn
      cases ft
      · have hG : FlowGraphCompiler.GenerateInlineInstanceof ids next type
            = some { cache := none, allocated := 0, run := frag } := by
          simp only [FlowGraphCompiler.GenerateInlineInstanceof, hvoid, hequal,
            hinst, hargs, Bool.false_eq_true, if_false, if_true, hfrag]
        refine ⟨_, hG,
          Or.inr (Or.inl ⟨⟨rfl, Or.inr ⟨rfl, hsig, hn, hiff.mp rfl⟩⟩, rfl, rfl, ?_⟩)⟩
        intro rt
        exact ⟨hcalls rt, hverdict rfl rt⟩
      · obtain ⟨l1, l2, l3⟩ := GenerateSubtype1TestCacheLookup_cache next type.type_class
        have hG : FlowGraphCompiler.GenerateInlineInstanceof ids next type
            = some
                { FlowGraphCompiler.GenerateSubtype1TestCacheLookup next type.type_class with
                  run := Fragment.seq frag
                    (FlowGraphCompiler.GenerateSubtype1TestCacheLookup next
                      type.type_class).run } := by
          simp only [FlowGraphCompiler.GenerateInlineInstanceof, hvoid, hequal,
            hinst, hargs, Bool.false_eq_true, if_false, if_true, hfrag]
        refine ⟨_, hG, Or.inr (Or.inr ⟨⟨rfl, rfl, ?_, fun h => by cases h⟩, l1, l2, ?_⟩)⟩
        · rintro - ⟨-, -, h⟩
          have := hiff.mpr h
          cases this
        · intro rt c hc
          rcases seq_stub_calls_mem _ _ rt c hc with h | h
          · rw [hcalls] at h; cases h
          · exact l3 rt c h

/-! ### The stub call of the inline test -/

theorem exists_class_id_not_mem (x : Int) (L : List Int) : ∃ c : Int, c ≠ x ∧ c ∉ L := by
  obtain ⟨c, hc⟩ := Infinite.exists_not_mem_finset (insert x L.toFinset)
  refine ⟨c, ?_, ?_⟩
  · intro h
    apply hc
    simp [h]
  · intro h
    apply hc
    simp [h]

/-- The lookup code calls its stub, once, for a value whose class does not
have the type class as the class of its super type. -/
theorem GenerateSubtype1TestCacheLookup_calls_stub (next : SubtypeTestCache)
    (type_class : TypeClass) (rt : TestRuntime)
    (hsuper : rt.value.super_type_class_id ≠ type_class.id) :
    ((FlowGraphCompiler.GenerateSubtype1TestCacheLookup next type_class).run rt).stub_calls
      = [(TypeTestStubKind.kTestTypeOneArg, next)] := by
  simp [FlowGraphCompiler.GenerateSubtype1TestCacheLookup,
    FlowGraphCompiler.GenerateCallSubtypeTestStub, Fragment.seq, Fragment.jumpIf, hsuper]

/-- The test for an instantiated type with arguments calls a stub, once, with
the cache it returns, for an object that passes none of its inline checks. -/
theorem GenerateInstantiatedTypeWithArgumentsTest_calls_stub (ids : ClassIds)
    (next : SubtypeTestCache) (type : AbstractType) (rt : TestRuntime)
    (hinst : type.IsInstantiated = true)
    (hargs : (type.type_class.IsSignatureClass
      || decide (type.type_class.NumTypeArguments > 0)) = true)
    (hsmi : rt.value.is_smi = false)
    (hclass : rt.value.class_id ≠ type.type_class.id)
    (hlist : rt.value.class_id ∉ ids.list_cids)
    (hsuper : rt.value.super_type_class_id ≠ type.type_class.id) :
    ∃ code kind,
      FlowGraphCompiler.GenerateInstantiatedTypeWithArgumentsTest ids next type = some code
      ∧ (code.run rt).stub_calls = [(kind, next)] := by
  have hassert : (decide (type.type_class.NumTypeArguments > 0)
      || type.type_class.IsSignatureClass) = true := by
    rw [Bool.or_comm]
    exact hargs
  unfold FlowGraphCompiler.GenerateInstantiatedTypeWithArgumentsTest
  simp only [hinst, hassert, Bool.not_true, Bool.false_eq_true, if_false]
  split
  · refine ⟨_, TypeTestStubKind.kTestTypeOneArg, rfl, ?_⟩
    by_cases hl : type.type_class.IsListClass = true
    · simp [FlowGraphCompiler.GenerateSubtype1TestCacheLookup,
        FlowGraphCompiler.GenerateCallSubtypeTestStub, FlowGraphCompiler.CheckClassIds,
        Fragment.seq, Fragment.jumpIf, Fragment.skip, hsmi, hclass, hlist, hsuper, hl]
    · simp [FlowGraphCompiler.GenerateSubtype1TestCacheLookup,
        FlowGraphCompiler.GenerateCallSubtypeTestStub, FlowGraphCompiler.CheckClassIds,
        Fragment.seq, Fragment.jumpIf, Fragment.skip, hsmi, hclass, hlist, hsuper, hl]
  · split
    · refine ⟨_, TypeTestStubKind.kTestTypeOneArg, rfl, ?_⟩
      simp [FlowGraphCompiler.GenerateSubtype1TestCacheLookup,
        FlowGraphCompiler.GenerateCallSubtypeTestStub, Fragment.seq, Fragment.jumpIf, hsmi,
        hsuper]
    · refine ⟨_, TypeTestStubKind.kTestTypeTwoArgs, rfl, ?_⟩
      simp [FlowGraphCompiler.GenerateCallSubtypeTestStub, Fragment.seq, Fragment.jumpIf, hsmi]

/-- The test for an instantiated type without arguments, when it has a fall
through, runs off its end without a stub call for an object that passes none
of its inline checks. -/
theorem GenerateInstantiatedTypeNoArgumentsTest_falls_through (ids : ClassIds)
    (type : AbstractType) (rt : TestRuntime)
    (hinst : type.IsInstantiated = true) (hargs : type.type_class.NumTypeArguments = 0)
    (hsmi : rt.value.is_smi = false)
    (hclass : rt.value.class_id ≠ type.type_class.id)
    (hsignature : rt.value.class_has_signature_function = false) :
    ∃ has_fall_through code,
      FlowGraphCompiler.GenerateInstantiatedTypeNoArgumentsTest ids type
        = some (has_fall_through, code)
      ∧ (has_fall_through = true → code rt = ⟨none, []⟩) := by
  unfold FlowGraphCompiler.GenerateInstantiatedTypeNoArgumentsTest
  simp only [hinst, hargs, Bool.not_true, Bool.false_eq_true, if_false, ne_eq, not_true_eq_false]
  by_cases hbool : type.IsBoolType = true
  · simp only [hbool, if_true]
    exact ⟨false, _, rfl, fun h => by cases h⟩
  · simp only [hbool, if_false]
    by_cases hnum : type.IsSubtypeOfNumber = true
    · simp only [hnum, if_true]
      exact ⟨false, _, rfl, fun h => by cases h⟩
    · simp only [hnum, if_false]
      by_cases hstr : type.IsStringType = true
      · simp only [hstr, if_true]
        exact ⟨false, _, rfl, fun h => by cases h⟩
      · simp only [hstr, if_false]
        refine ⟨true, _, rfl, fun _ => ?_⟩
        by_cases hf : type.IsFunctionType = true
        · simp [Fragment.seq, Fragment.jumpIf, Fragment.skip, hsmi, hclass, hsignature, hf]
        · simp [Fragment.seq, Fragment.jumpIf, Fragment.skip, hsmi, hclass, hsignature, hf]

/-- Whenever a cache is returned, the emitted code calls a subtype-test-cache
stub, once, with that cache, for every object that passes none of the inline
checks of the type. -/
theorem GenerateInlineInstanceof_unresolved_run (ids : ClassIds) (next : SubtypeTestCache)
    (type : AbstractType) (rt : TestRuntime)
    (hsmi : rt.value.is_smi = false)
    (hclass : rt.value.class_id ≠ type.type_class.id)
    (hlist : rt.value.class_id ∉ ids.list_cids)
    (hsignature : rt.value.class_has_signature_function = false)
    (hsuper : rt.value.super_type_class_id ≠ type.type_class.id)
    (hparameter : FlowGraphCompiler.typeParameterChecks type.index rt = Sum.inr true) :
    ∃ code,
      FlowGraphCompiler.GenerateInlineInstanceof ids next type = some code
      ∧ (code.cache ≠ none → ∃ kind, (code.run rt).stub_calls = [(kind, next)]) := by
  cases hvoid : type.IsVoidType
  swap
  · have hG : FlowGraphCompiler.GenerateInlineInstanceof ids next type
        = some { cache := none, allocated := 0, run := Fragment.skip } := by
      simp only [FlowGraphCompiler.GenerateInlineInstanceof, hvoid, if_true]
    exact ⟨_, hG, fun h => absurd rfl h⟩
  cases hequal : type.TypeCheckAsClassEquality
  swap
  · have hG : (FlowGraphCompiler.GenerateInlineInstanceof ids next type).map
        (fun code => code.cache) = some none := by
      simp only [FlowGraphCompiler.GenerateInlineInstanceof, hvoid, hequal,
        Bool.false_eq_true, if_false, if_true, Option.map_some']
    obtain ⟨code, hcode, hnone⟩ := Option.map_eq_some'.mp hG
    exact ⟨code, hcode, fun h => absurd hnone h⟩
  cases hinst : type.IsInstantiated
  · -- an uninstantiated type
    have hG0 : FlowGraphCompiler.GenerateInlineInstanceof ids next type
        = FlowGraphCompiler.GenerateUninstantiatedTypeTest next type := by
      simp only [FlowGraphCompiler.GenerateInlineInstanceof, hvoid, hequal, hinst,
        Bool.false_eq_true, if_false]
    rw [hG0]
    cases htp : type.IsTypeParameter
    · cases htype : type.IsType
      · have hG : FlowGraphCompiler.GenerateUninstantiatedTypeTest next type
            = some { cache := none, allocated := 0, run := Fragment.skip } := by
          simp only [FlowGraphCompiler.GenerateUninstantiatedTypeTest, hinst, htp, htype,
            Bool.false_eq_true, if_false]
        exact ⟨_, hG, fun h => absurd rfl h⟩
      · have hG : FlowGraphCompiler.GenerateUninstantiatedTypeTest next type
            = some
                { FlowGraphCompiler.GenerateCallSubtypeTestStub next
                    TypeTestStubKind.kTestTypeThreeArgs with
                  run :=
                    Fragment.seq
                      (Fragment.jumpIf (fun rt => rt.value.is_smi) Verdict.is_not_instance)
                      (FlowGraphCompiler.GenerateCallSubtypeTestStub next
                        TypeTestStubKind.kTestTypeThreeArgs).run } := by
          simp only [FlowGraphCompiler.GenerateUninstantiatedTypeTest, hinst, htp, htype,
            Bool.false_eq_true, if_false, if_true]
        refine ⟨_, hG, fun _ => ⟨TypeTestStubKind.kTestTypeThreeArgs, ?_⟩⟩
        simp [FlowGraphCompiler.GenerateCallSubtypeTestStub, Fragment.seq, Fragment.jumpIf, hsmi]
    · have hG : FlowGraphCompiler.GenerateUninstantiatedTypeTest next type
          = some
              { FlowGraphCompiler.GenerateCallSubtypeTestStub next
                  TypeTestStubKind.kTestTypeThreeArgs with
                run := fun r =>
                  match FlowGraphCompiler.typeParameterChecks type.index r with
                  | Sum.inl v => ⟨some v, []⟩
                  | Sum.inr true =>
                      (FlowGraphCompiler.GenerateCallSubtypeTestStub next
                        TypeTestStubKind.kTestTypeThreeArgs).run r
                  | Sum.inr false => ⟨none, []⟩ } := by
        simp only [FlowGraphCompiler.GenerateUninstantiatedTypeTest, hinst, htp,
          Bool.false_eq_true, if_false, if_true]
      refine ⟨_, hG, fun _ => ⟨TypeTestStubKind.kTestTypeThreeArgs, ?_⟩⟩
      simp only [hparameter]
      rfl
  · -- an instantiated type
    by_cases hargs : (type.type_class.IsSignatureClass
        || decide (type.type_class.NumTypeArguments > 0)) = true
    · obtain ⟨code, kind, hcode, hcalls⟩ :=
        GenerateInstantiatedTypeWithArgumentsTest_calls_stub ids next type rt hinst hargs
          hsmi hclass hlist hsuper
      have hrun : FlowGraphCompiler.GenerateInlineInstanceof ids next type = some code := by
        simp only [FlowGraphCompiler.GenerateInlineInstanceof, hvoid, hequal,
          hinst, hargs, Bool.false_eq_true, if_false, if_true, hcode]
      exact ⟨code, hrun, fun _ => ⟨kind, hcalls⟩⟩
    · have hn : type.type_class.NumTypeArguments = 0 := by
        by_contra h
        apply hargs
        simp
        right
        omega
      obtain ⟨ft, frag, hfrag, hfall⟩ :=
        GenerateInstantiatedTypeNoArgumentsTest_falls_through ids type rt hinst hn hsmi hclass
          hsignature
      cases ft
      · have hG : FlowGraphCompiler.GenerateInlineInstanceof ids next type
            = some { cache := none, allocated := 0, run := frag } := by
          simp only [FlowGraphCompiler.GenerateInlineInstanceof, hvoid, hequal,
            hinst, hargs, Bool.false_eq_true, if_false, if_true, hfrag]
        exact ⟨_, hG, fun h => absurd rfl h⟩
      · have hG : FlowGraphCompiler.GenerateInlineInstanceof ids next type
            = some
                { FlowGraphCompiler.GenerateSubtype1TestCacheLookup next type.type_class with
                  run := Fragment.seq frag
                    (FlowGraphCompiler.GenerateSubtype1TestCacheLookup next
                      type.type_class).run } := by
          simp only [FlowGraphCompiler.GenerateInlineInstanceof, hvoid, hequal,
            hinst, hargs, Bool.false_eq_true, if_false, if_true, hfrag]
        refine ⟨_, hG, fun _ => ⟨TypeTestStubKind.kTestTypeOneArg, ?_⟩⟩
        have hl := GenerateSubtype1TestCacheLookup_calls_stub next type.type_class rt hsuper
        simp only [Fragment.seq, hfall rfl, hl, List.nil_append]

/-- C21: for every target type the inline instance-of generator returns code, allocates at most one
    SubtypeTestCache, and returns no cache exactly for void, class-equality types, instantiated
    non-generic bool, Number-subtype and String types, and uninstantiated types that are neither a
    type parameter nor a Type. With no cache nothing is allocated and no stub is called; the
    no-code cases decide nothing, the inline-resolved cases always reach a verdict. In every other
    case the cache returned is the one allocated for this site, every stub call of the emitted
    code uses it, and the emitted code does call the stub with it: once for every object that
    passes none of the inline checks of the type, and such an object exists. -/
theorem GenerateInlineInstanceof_cache (ids : ClassIds) (next : SubtypeTestCache)
    (type : AbstractType) :
    ∃ code,
      FlowGraphCompiler.GenerateInlineInstanceof ids next type = some code
      ∧ code.allocated ≤ 1
      ∧ (code.cache = none ↔
          (type.IsVoidType = true ∨ type.TypeCheckAsClassEquality = true
            ∨ (type.IsInstantiated = true ∧ type.type_class.IsSignatureClass = false
                ∧ type.type_class.NumTypeArguments = 0
                ∧ (type.IsBoolType = true ∨ type.IsSubtypeOfNumber = true
                    ∨ type.IsStringType = true))
            ∨ (type.IsInstantiated = false ∧ type.IsTypeParameter = false
                ∧ type.IsType = false)))
      ∧ (code.cache = none → code.allocated = 0 ∧ ∀ rt, (code.run rt).stub_calls = [])
      ∧ ((type.IsVoidType = true
            ∨ (type.TypeCheckAsClassEquality = false ∧ type.IsInstantiated = false
                ∧ type.IsTypeParameter = false ∧ type.IsType = false)) →
          ∀ rt, code.run rt = ⟨none, []⟩)
      ∧ ((type.IsVoidType = false
            ∧ (type.TypeCheckAsClassEquality = true
                ∨ (type.IsInstantiated = true ∧ type.type_class.IsSignatureClass = false
                    ∧ type.type_class.NumTypeArguments = 0
                    ∧ (type.IsBoolType = true ∨ type.IsSubtypeOfNumber = true
                        ∨ type.IsStringType = true)))) →
          ∀ rt, (code.run rt).verdict ≠ none)
      ∧ (code.cache ≠ none →
          code.cache = some next ∧ code.allocated = 1
          ∧ (∀ rt, ∀ c ∈ (code.run rt).stub_calls, c.2 = next)
          ∧ (∀ rt : TestRuntime, rt.value.is_smi = false →
              rt.value.class_id ≠ type.type_class.id →
              rt.value.class_id ∉ ids.list_cids →
              rt.value.class_has_signature_function = false →
              rt.value.super_type_class_id ≠ type.type_class.id →
              FlowGraphCompiler.typeParameterChecks type.index rt = Sum.inr true →
              ∃ kind, (code.run rt).stub_calls = [(kind, next)])
          ∧ ∃ rt kind, (code.run rt).stub_calls = [(kind, next)]) := by
  have hstub : ∀ code, FlowGraphCompiler.GenerateInlineInstanceof ids next type = some code →
      code.cache ≠ none →
      ∀ rt : TestRuntime, rt.value.is_smi = false →
        rt.value.class_id ≠ type.type_class.id →
        rt.value.class_id ∉ ids.list_cids →
        rt.value.class_has_signature_function = false →
        rt.value.super_type_class_id ≠ type.type_class.id →
        FlowGraphCompiler.typeParameterChecks type.index rt = Sum.inr true →
        ∃ kind, (code.run rt).stub_calls = [(kind, next)] := by
    intro code hcode hcache rt h1 h2 h3 h4 h5 h6
    obtain ⟨code1, hcode1, hrun1⟩ :=
      GenerateInlineInstanceof_unresolved_run ids next type rt h1 h2 h3 h4 h5 h6
    have heq : code = code1 := Option.some.inj (hcode.symm.trans hcode1)
    subst heq
    exact hrun1 hcache
  have hexists : ∀ code, FlowGraphCompiler.GenerateInlineInstanceof ids next type = some code →
      code.cache ≠ none → ∃ rt kind, (code.run rt).stub_calls = [(kind, next)] := by
    intro code hcode hcache
    obtain ⟨c, hc1, hc2⟩ := exists_class_id_not_mem type.type_class.id ids.list_cids
    obtain ⟨kind, hkind⟩ := hstub code hcode hcache
      ⟨⟨false, c, false, type.type_class.id + 1⟩,
        InstantiatorTypeArguments.typeArguments (fun _ => TypeArgument.other 0),
        fun _ _ => none⟩
      rfl hc1 hc2 rfl (by simp) rfl
    exact ⟨_, kind, hkind⟩
  obtain ⟨code, hcode, h⟩ := GenerateInlineInstanceof_cases ids next type
  refine ⟨code, hcode, ?_⟩
  rcases h with ⟨hty, hc, ha, hrun⟩ | ⟨⟨hv, hty⟩, hc, ha, hrun⟩
    | ⟨⟨hv, he, hi, hu⟩, hc, ha, hrun⟩
  · refine ⟨by omega, ⟨fun _ => ?_, fun _ => hc⟩, fun _ => ⟨ha, fun rt => by rw [hrun rt]⟩,
      fun _ => hrun, ?_, fun h => absurd hc h⟩
    · rcases hty with h | ⟨-, h2, h3, h4⟩
      · exact Or.inl h
      · exact Or.inr (Or.inr (Or.inr ⟨h2, h3, h4⟩))
    · rintro ⟨hv, hty2⟩ rt
      exfalso
      rcases hty with h | ⟨h1, h2, -, -⟩
      · rw [hv] at h; cases h
      · rcases hty2 with h | ⟨h, -⟩
        · rw [h1] at h; cases h
        · rw [h2] at h; cases h
  · refine ⟨by omega, ⟨fun _ => ?_, fun _ => hc⟩, fun _ => ⟨ha, fun rt => (hrun rt).1⟩,
      ?_, fun _ rt => (hrun rt).2, fun h => absurd hc h⟩
    · rcases hty with h | h
      · exact Or.inr (Or.inl h)
      · exact Or.inr (Or.inr (Or.inl h))
    · intro h rt
      exfalso
      rcases h with h | ⟨h1, h2, -, -⟩
      · rw [hv] at h; cases h
      · rcases hty with h | ⟨h, -⟩
        · rw [h1] at h; cases h
        · rw [h2] at h; cases h
  · have hne : code.cache ≠ none := by rw [hc]; exact fun h => by cases h
    refine ⟨by omega, ⟨fun h => absurd h hne, ?_⟩, fun h => absurd h hne, ?_, ?_,
      fun _ => ⟨hc, ha, hrun, hstub code hcode hne, hexists code hcode hne⟩⟩
    · intro h
      exfalso
      rcases h with h | h | ⟨h1, h2⟩ | ⟨h1, h2, h3⟩
      · rw [hv] at h; cases h
      · rw [he] at h; cases h
      · exact hi h1 h2
      · rcases hu h1 with h | h
        · rw [h2] at h; cases h
        · rw [h3] at h; cases h
    · intro h
      exfalso
      rcases h with h | ⟨-, h1, h2, h3⟩
      · rw [hv] at h; cases h
      · rcases hu h1 with h | h
        · rw [h2] at h; cases h
        · rw [h3] at h; cases h
    · rintro ⟨-, h | ⟨h1, h2⟩⟩
      · rw [he] at h; cases h
      · exact absurd h2 (hi h1)

/-! ### The code of `EmitMove` executed -/

theorem Int_xor_self (x : Int) : Int.xor x x = 0 := by
  cases x <;> simp [Int.xor, Nat.xor_self]

theorem EmitMoveCode_spec (source destination : Location) (st : MachineState)
    (hshape :
      ((source.IsRegister = true ∨ source.IsStackSlot = true)
          ∧ (destination.IsRegister = true ∨ destination.IsStackSlot = true))
      ∨ (source.IsFpuRegister = true
          ∧ (destination.IsFpuRegister = true ∨ destination.IsDoubleStackSlot = true
              ∨ destination.IsQuadStackSlot = true))
      ∨ (source.IsDoubleStackSlot = true
          ∧ (destination.IsFpuRegister = true ∨ destination.IsDoubleStackSlot = true))
      ∨ (source.IsQuadStackSlot = true
          ∧ (destination.IsFpuRegister = true ∨ destination.IsQuadStackSlot = true))
      ∨ (source.IsConstant = true
          ∧ (destination.IsRegister = true ∨ destination.IsStackSlot = true))) :
    ∃ code,
      ParallelMoveResolver.EmitMoveCode source destination = some code
      ∧ (MoveInstr.run code st).loc destination = st.valueAt source
      ∧ (∀ l, l ≠ destination → l ≠ Location.fpuReg XMM0 →
          (MoveInstr.run code st).loc l = st.loc l)
      ∧ (MoveInstr.run code st).spill = st.spill := by
  cases source <;> cases destination <;>
    simp [Location.IsRegister, Location.IsStackSlot, Location.IsFpuRegister,
      Location.IsDoubleStackSlot, Location.IsQuadStackSlot, Location.IsConstant] at hshape <;>
    simp +contextual [ParallelMoveResolver.EmitMoveCode, Location.IsRegister,
      Location.IsStackSlot, Location.IsFpuRegister, Location.IsDoubleStackSlot,
      Location.IsQuadStackSlot, MoveInstr.run, MoveInstr.step, MachineState.store,
      MachineState.valueAt]
  case constant.reg obj r =>
    by_cases h : obj = Object.smi 0
    · subst h
      simp +contextual [MoveInstr.run, MoveInstr.step, MachineState.store, Int_xor_self,
        Object.raw]
    · simp +contextual [h, MoveInstr.run, MoveInstr.step, MachineState.store]

/-- C22: for a move of the batch whose source and destination have matching width classes
    (general register or word slot to general register or word slot; FPU register, double slot or
    quad slot to FPU register or slot of the same width; constant to general register or word
    slot), `EmitMove` reaches no failing assertion, and executing the emitted sequence leaves the
    destination holding the value the source held before (for a constant the constant's tagged
    word; `xorq` of a register with itself leaves the same state as loading Smi 0), changes no
    location other than the destination and XMM0 and no spilled word; the move is marked
    eliminated and no other move of the batch is modified. This holds in particular when neither
    location is XMM0. -/
theorem EmitMove_transfers_value (moves_ : List MoveOperands) (index : Nat)
    (move : MoveOperands) (st : MachineState)
    (hmove : moves_[index]? = some move)
    (hshape :
      ((move.src.IsRegister = true ∨ move.src.IsStackSlot = true)
          ∧ (move.dest.IsRegister = true ∨ move.dest.IsStackSlot = true))
      ∨ (move.src.IsFpuRegister = true
          ∧ (move.dest.IsFpuRegister = true ∨ move.dest.IsDoubleStackSlot = true
              ∨ move.dest.IsQuadStackSlot = true))
      ∨ (move.src.IsDoubleStackSlot = true
          ∧ (move.dest.IsFpuRegister = true ∨ move.dest.IsDoubleStackSlot = true))
      ∨ (move.src.IsQuadStackSlot = true
          ∧ (move.dest.IsFpuRegister = true ∨ move.dest.IsQuadStackSlot = true))
      ∨ (move.src.IsConstant = true
          ∧ (move.dest.IsRegister = true ∨ move.dest.IsStackSlot = true))) :
    ∃ code moves',
      ParallelMoveResolver.EmitMove moves_ index = some (code, moves')
      ∧ (MoveInstr.run code st).loc move.dest = st.valueAt move.src
      ∧ (∀ l, l ≠ move.dest → l ≠ Location.fpuReg XMM0 →
          (MoveInstr.run code st).loc l = st.loc l)
      ∧ (MoveInstr.run code st).spill = st.spill
      ∧ (∀ d, (MoveInstr.step st (MoveInstr.xorq d d)).loc
          = (MoveInstr.step st (MoveInstr.LoadObject d (Object.smi 0))).loc)
      ∧ moves'.length = moves_.length
      ∧ moves'[index]? = some { src := move.src, dest := move.dest, eliminated := true }
      ∧ ∀ j, j ≠ index → moves'[j]? = moves_[j]? := by
  obtain ⟨code, hcode, h1, h2, h3⟩ := EmitMoveCode_spec move.src move.dest st hshape
  have hindex : index < moves_.length := by
    rcases List.getElem?_eq_some_iff.mp hmove with ⟨h, -⟩
    exact h
  refine ⟨code, moves_.set index move.Eliminate, ?_, h1, h2, h3, ?_, by simp, ?_, ?_⟩
  · simp only [ParallelMoveResolver.EmitMove, hmove, hcode]
  · intro d
    simp [MoveInstr.step, MachineState.store, Int_xor_self, Object.raw]
  · simp [List.getElem?_set, hindex, MoveOperands.Eliminate]
  · intro j hj
    have hne : ¬ index = j := fun h => hj h.symm
    simp [List.getElem?_set, hne]

/-- C22 on the batch with a constant: Smi 0 is moved into RAX by `xorq RAX, RAX`. -/
theorem EmitMove_transfers_value_witness :
    sampleConstantMoves[0]? = some ⟨Location.constant (Object.smi 0), Location.reg RAX, false⟩
    ∧ ∃ code moves',
      ParallelMoveResolver.EmitMove sampleConstantMoves 0 = some (code, moves')
      ∧ (MoveInstr.run code sampleMachine).loc (Location.reg RAX) = 0
      ∧ (∀ l, l ≠ Location.reg RAX → l ≠ Location.fpuReg XMM0 →
          (MoveInstr.run code sampleMachine).loc l = sampleMachine.loc l)
      ∧ (MoveInstr.run code sampleMachine).spill = sampleMachine.spill
      ∧ (∀ d, (MoveInstr.step sampleMachine (MoveInstr.xorq d d)).loc
          = (MoveInstr.step sampleMachine (MoveInstr.LoadObject d (Object.smi 0))).loc)
      ∧ moves'.length = sampleConstantMoves.length
      ∧ moves'[0]? = some ⟨Location.constant (Object.smi 0), Location.reg RAX, true⟩
      ∧ ∀ j, j ≠ 0 → moves'[j]? = sampleConstantMoves[j]? :=
  ⟨by decide,
    EmitMove_transfers_value sampleConstantMoves 0
      ⟨Location.constant (Object.smi 0), Location.reg RAX, false⟩ sampleMachine
      (by decide) (by decide)⟩

/-! ### The code of `EmitSwap` executed -/

theorem swap_via_scratch (st : MachineState) (a b : Location) (reg : FpuRegister)
    (hab : a ≠ b) (ha0 : a ≠ Location.fpuReg XMM0) (hb0 : b ≠ Location.fpuReg XMM0)
    (har : a ≠ Location.fpuReg reg) (hbr : b ≠ Location.fpuReg reg) (hreg : reg ≠ XMM0) :
    let s1 := st.store (Location.fpuReg XMM0) (st.loc a)
    let s2 := s1.store (Location.fpuReg reg) (s1.loc b)
    let s3 := s2.store b (s2.loc (Location.fpuReg XMM0))
    let s4 := s3.store a (s3.loc (Location.fpuReg reg))
    s4.loc b = st.loc a ∧ s4.loc a = st.loc b
    ∧ (∀ l, l ≠ a → l ≠ b → l ≠ Location.fpuReg XMM0 → l ≠ Location.fpuReg reg →
        s4.loc l = st.loc l)
    ∧ s4.spill = st.spill := by
  have hreg' : ¬ XMM0 = reg := fun h => hreg h.symm
  have hba : ¬ b = a := fun h => hab h.symm
  have hra : ¬ Location.fpuReg reg = a := fun h => har h.symm
  have hrb : ¬ Location.fpuReg reg = b := fun h => hbr h.symm
  have h0a : ¬ Location.fpuReg XMM0 = a := fun h => ha0 h.symm
  have h0b : ¬ Location.fpuReg XMM0 = b := fun h => hb0 h.symm
  refine ⟨?_, ?_, ?_, rfl⟩
  · simp [MachineState.store, hba, hb0, hbr, hreg', ha0, har, hab, hra, hrb, h0a, h0b]
  · simp [MachineState.store, hba, hb0, hbr, hreg', ha0, har, hab, hra, hrb, h0a, h0b]
  · intro l h1 h2 h3 h4
    simp [MachineState.store, h1, h2, h3, h4]

theorem swap_via_spilled_scratch (st : MachineState) (a b : Location) (reg : FpuRegister)
    (hab : a ≠ b) (ha0 : a ≠ Location.fpuReg XMM0) (hb0 : b ≠ Location.fpuReg XMM0)
    (har : a ≠ Location.fpuReg reg) (hbr : b ≠ Location.fpuReg reg) (hreg : reg ≠ XMM0) :
    let s0 : MachineState := { st with spill := st.loc (Location.fpuReg reg) :: st.spill }
    let s1 := s0.store (Location.fpuReg XMM0) (s0.loc a)
    let s2 := s1.store (Location.fpuReg reg) (s1.loc b)
    let s3 := s2.store b (s2.loc (Location.fpuReg XMM0))
    let s4 := s3.store a (s3.loc (Location.fpuReg reg))
    let s5 : MachineState :=
      { (s4.store (Location.fpuReg reg) (s4.spill.headD 0)) with spill := s4.spill.tail }
    s5.loc b = st.loc a ∧ s5.loc a = st.loc b
    ∧ (∀ l, l ≠ a → l ≠ b → l ≠ Location.fpuReg XMM0 → s5.loc l = st.loc l)
    ∧ s5.spill = st.spill := by
  have hreg' : ¬ XMM0 = reg := fun h => hreg h.symm
  have hba : ¬ b = a := fun h => hab h.symm
  have hra : ¬ Location.fpuReg reg = a := fun h => har h.symm
  have hrb : ¬ Location.fpuReg reg = b := fun h => hbr h.symm
  have h0a : ¬ Location.fpuReg XMM0 = a := fun h => ha0 h.symm
  have h0b : ¬ Location.fpuReg XMM0 = b := fun h => hb0 h.symm
  refine ⟨?_, ?_, ?_, rfl⟩
  · simp [MachineState.store, hba, hb0, hbr, hreg', ha0, har, hab, hra, hrb, h0a, h0b]
  · simp [MachineState.store, hba, hb0, hbr, hreg', ha0, har, hab, hra, hrb, h0a, h0b]
  · intro l h1 h2 h3
    by_cases h4 : l = Location.fpuReg reg
    · subst h4
      simp [MachineState.store]
    · simp [MachineState.store, h1, h2, h3, h4]

set_option maxHeartbeats 800000 in
theorem EmitSwapCode_spec (scope : ScratchFpuRegisterScope) (source destination : Location)
    (st : MachineState)
    (hne : source ≠ destination)
    (hshape :
      ((source.IsRegister = true ∨ source.IsStackSlot = true)
          ∧ (destination.IsRegister = true ∨ destination.IsStackSlot = true))
      ∨ (source.IsFpuRegister = true
          ∧ (destination.IsFpuRegister = true ∨ destination.IsDoubleStackSlot = true
              ∨ destination.IsQuadStackSlot = true))
      ∨ ((source.IsDoubleStackSlot = true ∨ source.IsQuadStackSlot = true)
          ∧ destination.IsFpuRegister = true)
      ∨ (source.IsDoubleStackSlot = true ∧ destination.IsDoubleStackSlot = true)
      ∨ (source.IsQuadStackSlot = true ∧ destination.IsQuadStackSlot = true))
    (hsrc : source ≠ Location.fpuReg XMM0) (hdest : destination ≠ Location.fpuReg XMM0)
    (hscratch : scope.reg ≠ XMM0) :
    ∃ code,
      ParallelMoveResolver.EmitSwapCode scope source destination = some code
      ∧ (MoveInstr.run code st).loc destination = st.loc source
      ∧ (MoveInstr.run code st).loc source = st.loc destination
      ∧ (∀ l, l ≠ source → l ≠ destination → l ≠ Location.fpuReg XMM0 →
          (l = Location.fpuReg scope.reg →
            scope.spilled = true
            ∨ ¬ ((source.IsDoubleStackSlot = true ∧ destination.IsDoubleStackSlot = true)
                ∨ (source.IsQuadStackSlot = true ∧ destination.IsQuadStackSlot = true))) →
          (MoveInstr.run code st).loc l = st.loc l)
      ∧ (MoveInstr.run code st).spill = st.spill := by
  obtain ⟨reg, spilled⟩ := scope
  cases source <;> cases destination <;>
    simp [Location.IsRegister, Location.IsStackSlot, Location.IsFpuRegister,
      Location.IsDoubleStackSlot, Location.IsQuadStackSlot] at hshape <;>
    refine ⟨_, rfl, ?_, ?_, ?_, ?_⟩
  case doubleStackSlot.doubleStackSlot.refine_1 a b =>
    cases spilled
    · exact (swap_via_scratch st _ _ reg hne hsrc hdest (by simp) (by simp) hscratch).1
    · exact (swap_via_spilled_scratch st _ _ reg hne hsrc hdest (by simp) (by simp) hscratch).1
  case doubleStackSlot.doubleStackSlot.refine_2 a b =>
    cases spilled
    · exact (swap_via_scratch st _ _ reg hne hsrc hdest (by simp) (by simp) hscratch).2.1
    · exact (swap_via_spilled_scratch st _ _ reg hne hsrc hdest (by simp) (by simp)
        hscratch).2.1
  case doubleStackSlot.doubleStackSlot.refine_3 a b =>
    intro l h1 h2 h3 h4
    cases spilled
    · refine (swap_via_scratch st _ _ reg hne hsrc hdest (by simp) (by simp) hscratch).2.2.1
        l h1 h2 h3 ?_
      intro h
      simpa [Location.IsDoubleStackSlot] using h4 h
    · exact (swap_via_spilled_scratch st _ _ reg hne hsrc hdest (by simp) (by simp)
        hscratch).2.2.1 l h1 h2 h3
  case doubleStackSlot.doubleStackSlot.refine_4 a b =>
    cases spilled <;> rfl
  case quadStackSlot.quadStackSlot.refine_1 a b =>
    cases spilled
    · exact (swap_via_scratch st _ _ reg hne hsrc hdest (by simp) (by simp) hscratch).1
    · exact (swap_via_spilled_scratch st _ _ reg hne hsrc hdest (by simp) (by simp) hscratch).1
  case quadStackSlot.quadStackSlot.refine_2 a b =>
    cases spilled
    · exact (swap_via_scratch st _ _ reg hne hsrc hdest (by simp) (by simp) hscratch).2.1
    · exact (swap_via_spilled_scratch st _ _ reg hne hsrc hdest (by simp) (by simp)
        hscratch).2.1
  case quadStackSlot.quadStackSlot.refine_3 a b =>
    intro l h1 h2 h3 h4
    cases spilled
    · refine (swap_via_scratch st _ _ reg hne hsrc hdest (by simp) (by simp) hscratch).2.2.1
        l h1 h2 h3 ?_
      intro h
      simpa [Location.IsQuadStackSlot] using h4 h
    · exact (swap_via_spilled_scratch st _ _ reg hne hsrc hdest (by simp) (by simp)
        hscratch).2.2.1 l h1 h2 h3
  case quadStackSlot.quadStackSlot.refine_4 a b =>
    cases spilled <;> rfl
  case fpuReg.fpuReg.refine_1 s d =>
    have h0 : ¬ XMM0 = s := fun h => hsrc (by rw [h])
    have h1 : ¬ s = d := fun h => hne (by rw [h])
    have h2 : ¬ d = s := fun h => hne (by rw [h])
    simp [MoveInstr.run, MoveInstr.step, MachineState.store, h0, h1, h2]
  all_goals
    first
    | rfl
    | (intro l h1 h2 h3 _
       simp [MoveInstr.run, MoveInstr.step, MachineState.store, h1, h2, h3])
    | simp_all [MoveInstr.run, MoveInstr.step, MachineState.store]

/-- C23: for a move of the batch between two distinct locations of a shape `EmitSwap` accepts
    (general register or word slot with general register or word slot; two FPU registers; an FPU
    register with a double or quad slot; two double slots; two quad slots), neither being XMM0,
    with the scratch FPU register handed out different from XMM0: `EmitSwap` reaches no failing
    assertion, and executing the emitted sequence exchanges the contents of the two locations and
    leaves every other location unchanged except XMM0 and, in a slot-to-slot FPU exchange, the
    scratch FPU register when it did not have to be spilled; a spilled scratch register is
    restored, and the spill area is as before. -/
theorem EmitSwap_exchanges_contents (scope : ScratchFpuRegisterScope)
    (moves_ : List MoveOperands) (index : Nat) (move : MoveOperands) (st : MachineState)
    (hmove : moves_[index]? = some move)
    (hne : move.src ≠ move.dest)
    (hshape :
      ((move.src.IsRegister = true ∨ move.src.IsStackSlot = true)
          ∧ (move.dest.IsRegister = true ∨ move.dest.IsStackSlot = true))
      ∨ (move.src.IsFpuRegister = true
          ∧ (move.dest.IsFpuRegister = true ∨ move.dest.IsDoubleStackSlot = true
              ∨ move.dest.IsQuadStackSlot = true))
      ∨ ((move.src.IsDoubleStackSlot = true ∨ move.src.IsQuadStackSlot = true)
          ∧ move.dest.IsFpuRegister = true)
      ∨ (move.src.IsDoubleStackSlot = true ∧ move.dest.IsDoubleStackSlot = true)
      ∨ (move.src.IsQuadStackSlot = true ∧ move.dest.IsQuadStackSlot = true))
    (hsrc : move.src ≠ Location.fpuReg XMM0) (hdest : move.dest ≠ Location.fpuReg XMM0)
    (hscratch : scope.reg ≠ XMM0) :
    ∃ code moves',
      ParallelMoveResolver.EmitSwap scope moves_ index = some (code, moves')
      ∧ (MoveInstr.run code st).loc move.dest = st.loc move.src
      ∧ (MoveInstr.run code st).loc move.src = st.loc move.dest
      ∧ (∀ l, l ≠ move.src → l ≠ move.dest → l ≠ Location.fpuReg XMM0 →
          (l = Location.fpuReg scope.reg →
            scope.spilled = true
            ∨ ¬ ((move.src.IsDoubleStackSlot = true ∧ move.dest.IsDoubleStackSlot = true)
                ∨ (move.src.IsQuadStackSlot = true ∧ move.dest.IsQuadStackSlot = true))) →
          (MoveInstr.run code st).loc l = st.loc l)
      ∧ (MoveInstr.run code st).spill = st.spill := by
  obtain ⟨code, hcode, h⟩ :=
    EmitSwapCode_spec scope move.src move.dest st hne hshape hsrc hdest hscratch
  refine ⟨code,
    (moves_.set index move.Eliminate).map
      (ParallelMoveResolver.rewriteSource move.src move.dest), ?_, h⟩
  simp only [ParallelMoveResolver.EmitSwap, hmove, hcode]

/-- C23 on the batch with two double slots, the scratch register XMM1 being in use: the slots
    trade their contents and XMM1 is restored from the spill area. -/
theorem EmitSwap_exchanges_contents_witness :
    sampleConstantMoves[1]? = some ⟨Location.doubleStackSlot 1, Location.doubleStackSlot 2, false⟩
    ∧ ∃ code moves',
      ParallelMoveResolver.EmitSwap sampleSpilledScope sampleConstantMoves 1 = some (code, moves')
      ∧ (MoveInstr.run code sampleMachine).loc (Location.doubleStackSlot 2)
          = sampleMachine.loc (Location.doubleStackSlot 1)
      ∧ (MoveInstr.run code sampleMachine).loc (Location.doubleStackSlot 1)
          = sampleMachine.loc (Location.doubleStackSlot 2)
      ∧ (∀ l, l ≠ Location.doubleStackSlot 1 → l ≠ Location.doubleStackSlot 2 →
          l ≠ Location.fpuReg XMM0 →
          (l = Location.fpuReg sampleSpilledScope.reg →
            sampleSpilledScope.spilled = true
            ∨ ¬ (((Location.doubleStackSlot 1).IsDoubleStackSlot = true
                  ∧ (Location.doubleStackSlot 2).IsDoubleStackSlot = true)
                ∨ ((Location.doubleStackSlot 1).IsQuadStackSlot = true
                  ∧ (Location.doubleStackSlot 2).IsQuadStackSlot = true))) →
          (MoveInstr.run code sampleMachine).loc l = sampleMachine.loc l)
      ∧ (MoveInstr.run code sampleMachine).spill = sampleMachine.spill :=
  ⟨by decide,
    EmitSwap_exchanges_contents sampleSpilledScope sampleConstantMoves 1
      ⟨Location.doubleStackSlot 1, Location.doubleStackSlot 2, false⟩ sampleMachine
      (by decide) (by decide) (by decide) (by decide) (by decide) (by decide)⟩

/-! ### The bookkeeping of `EmitSwap` against the emitted code -/

theorem positionalCopyLoop_spec (rbx rdi : Int) :
    ∀ (n fuel : Nat) (mem : FrameMemory) (copies : List FlowGraphCompiler.ArgumentCopy),
      n < fuel →
      FlowGraphCompiler.positionalCopyLoop rbx rdi fuel (n : Int) mem copies
        = some (FlowGraphCompiler.copyPositional rbx rdi n mem,
            copies ++ (List.range n).map (fun (i : Nat) =>
              (⟨rbx + 8 * ((n - 1 - i : Nat) : Int), rdi + 8 * ((n - 1 - i : Nat) : Int)⟩ :
                FlowGraphCompiler.ArgumentCopy))) := by
  intro n
  induction n with
  | zero =>
      intro fuel mem copies hfuel
      obtain ⟨f, rfl⟩ : ∃ f, fuel = f + 1 := ⟨fuel - 1, by omega⟩
      simp [FlowGraphCompiler.positionalCopyLoop, FlowGraphCompiler.copyPositional]
  | succ n ih =>
      intro fuel mem copies hfuel
      obtain ⟨f, rfl⟩ : ∃ f, fuel = f + 1 := ⟨fuel - 1, by omega⟩
      have hcast : ((n + 1 : Nat) : Int) - 1 = (n : Int) := by omega
      rw [FlowGraphCompiler.positionalCopyLoop]
      simp only [hcast]
      rw [if_pos (Int.ofNat_nonneg n), ih f _ _ (by omega), FlowGraphCompiler.copyPositional,
        List.range_succ_eq_map]
      simp only [List.map_cons, List.map_map, List.append_assoc, List.singleton_append,
        Nat.add_sub_cancel, Nat.sub_zero]
      congr 4
      apply List.map_congr_left
      intro i _
      simp only [Function.comp]
      have : n - Nat.succ i = n - 1 - i := by omega
      rw [this]

theorem copyPositional_eq_foldl (rbx rdi : Int) :
    ∀ (n : Nat) (mem : FrameMemory),
      FlowGraphCompiler.copyPositional rbx rdi n mem
        = ((List.range n).map (fun (i : Nat) =>
              (⟨rbx + 8 * ((n - 1 - i : Nat) : Int), rdi + 8 * ((n - 1 - i : Nat) : Int)⟩ :
                FlowGraphCompiler.ArgumentCopy))).foldl
            (fun m c => m.write c.copy_addr (m c.argument_addr)) mem := by
  intro n
  induction n with
  | zero => intro mem; rfl
  | succ n ih =>
      intro mem
      rw [FlowGraphCompiler.copyPositional, ih, List.range_succ_eq_map]
      simp only [List.map_cons, List.map_map, List.foldl_cons, Nat.add_sub_cancel, Nat.sub_zero]
      congr 1
      apply List.map_congr_left
      intro i _
      simp only [Function.comp]
      have : n - Nat.succ i = n - 1 - i := by omega
      rw [this]

theorem argument_addr_eq (count pc kpe : Int) (n i : Nat) (hn : pc = (n : Int)) (hi : i < n) :
    4 * (2 * count - 2 * pc) + (kpe + 1) * 8 + 8 * ((n - 1 - i : Nat) : Int)
      = (kpe + count - (i : Int)) * 8 := by
  omega

theorem copy_addr_eq (kfl : Int) (n i : Nat) (hi : i < n) :
    8 * (-(n : Int)) + (kfl + 1) * 8 + 8 * ((n - 1 - i : Nat) : Int)
      = (kfl - (i : Int)) * 8 := by
  omega

theorem argument_addr_ne_copy_addr (count pc kpe kfl : Int) (n j k : Nat) (hn : pc = (n : Int))
    (h1 : pc ≤ count) (hlayout : kfl ≤ kpe) (hk : k < n) :
    4 * (2 * count - 2 * pc) + (kpe + 1) * 8 + 8 * (j : Int)
      ≠ 8 * (-(n : Int)) + (kfl + 1) * 8 + 8 * (k : Int) := by
  omega

/-- C24: for an arguments descriptor with `num_args` arguments of which `num_pos` are positional,
    `0 <= num_pos <= num_args`, the positional copy loop of `CopyParameters` is left after exactly
    `num_pos` turns. Turn `i` (counted from 0, the loop counter going down from `num_pos - 1` to 0
    and the addresses going down with it) copies the word at `fp[kParamEndSlotFromFp + num_args - i]`
    to `fp[kFirstLocalSlotFromFp - i]`; the frame left is the frame after these copies in this
    order, no other slot is written, and when the local slots lie below the argument slots every
    copy holds the word its argument slot held on entry. With `num_pos = 0` nothing is copied. -/
theorem CopyParameters_positional_loop {Name : Type} (layout : FrameLayout)
    (desc : ArgumentsDescriptor Name) (mem : FrameMemory) (fuel : Nat)
    (h0 : 0 ≤ desc.positional_count) (h1 : desc.positional_count ≤ desc.count)
    (hfuel : desc.positional_count.toNat < fuel) :
    ∃ mem' copies,
      FlowGraphCompiler.copyPositionalArguments layout desc fuel mem = some (mem', copies)
      ∧ copies = (List.range desc.positional_count.toNat).map (fun (i : Nat) =>
          (⟨(layout.kParamEndSlotFromFp + desc.count - (i : Int)) * kWordSize,
            (layout.kFirstLocalSlotFromFp - (i : Int)) * kWordSize⟩ :
              FlowGraphCompiler.ArgumentCopy))
      ∧ copies.length = desc.positional_count.toNat
      ∧ mem' = copies.foldl (fun m c => m.write c.copy_addr (m c.argument_addr)) mem
      ∧ (∀ x : Int,
          (∀ i : Nat, (i : Int) < desc.positional_count →
            x ≠ (layout.kFirstLocalSlotFromFp - (i : Int)) * kWordSize) →
          mem' x = mem x)
      ∧ (layout.kFirstLocalSlotFromFp ≤ layout.kParamEndSlotFromFp →
          ∀ i : Nat, (i : Int) < desc.positional_count →
            mem' ((layout.kFirstLocalSlotFromFp - (i : Int)) * kWordSize)
              = mem ((layout.kParamEndSlotFromFp + desc.count - (i : Int)) * kWordSize))
      ∧ (desc.positional_count = 0 → copies = [] ∧ mem' = mem) := by
  obtain ⟨n, hn⟩ : ∃ n : Nat, desc.positional_count = (n : Int) :=
    ⟨desc.positional_count.toNat, (Int.toNat_of_nonneg h0).symm⟩
  have htoNat : desc.positional_count.toNat = n := by rw [hn]; rfl
  have huntag : SmiUntag (Smi.RawValue desc.positional_count) = (n : Int) := by
    have h : ∀ z : Int, 2 * z / 2 = z := fun z => by omega
    rw [hn]
    exact h _
  rw [htoNat] at hfuel
  have hlist :
      (List.range n).map (fun (i : Nat) =>
          (⟨4 * (Smi.RawValue desc.count - Smi.RawValue desc.positional_count)
                + (layout.kParamEndSlotFromFp + 1) * kWordSize + 8 * ((n - 1 - i : Nat) : Int),
            8 * (-(n : Int)) + (layout.kFirstLocalSlotFromFp + 1) * kWordSize
                + 8 * ((n - 1 - i : Nat) : Int)⟩ : FlowGraphCompiler.ArgumentCopy))
        = (List.range n).map (fun (i : Nat) =>
          (⟨(layout.kParamEndSlotFromFp + desc.count - (i : Int)) * kWordSize,
            (layout.kFirstLocalSlotFromFp - (i : Int)) * kWordSize⟩ :
              FlowGraphCompiler.ArgumentCopy)) := by
    apply List.map_congr_left
    intro i hi
    have hi' : i < n := List.mem_range.mp hi
    have e1 : 4 * (Smi.RawValue desc.count - Smi.RawValue desc.positional_count)
          + (layout.kParamEndSlotFromFp + 1) * kWordSize + 8 * ((n - 1 - i : Nat) : Int)
        = (layout.kParamEndSlotFromFp + desc.count - (i : Int)) * kWordSize := by
      exact argument_addr_eq desc.count desc.positional_count layout.kParamEndSlotFromFp
        n i hn hi'
    have e2 : 8 * (-(n : Int)) + (layout.kFirstLocalSlotFromFp + 1) * kWordSize
          + 8 * ((n - 1 - i : Nat) : Int)
        = (layout.kFirstLocalSlotFromFp - (i : Int)) * kWordSize := by
      exact copy_addr_eq layout.kFirstLocalSlotFromFp n i hi'
    rw [e1, e2]
  have hrun := positionalCopyLoop_spec
    (4 * (Smi.RawValue desc.count - Smi.RawValue desc.positional_count)
      + (layout.kParamEndSlotFromFp + 1) * kWordSize)
    (8 * (-(n : Int)) + (layout.kFirstLocalSlotFromFp + 1) * kWordSize) n fuel mem [] hfuel
  rw [List.nil_append, hlist] at hrun
  have hfirst := hrun
  rw [← huntag] at hfirst
  rw [htoNat]
  refine ⟨_, _, hfirst, rfl, ?_, ?_, ?_, ?_, ?_⟩ <;> try simp only [huntag]
  · simp
  · rw [← hlist]
    exact copyPositional_eq_foldl _ _ n mem
  · intro x hx
    apply copyPositional_of_ne
    intro j hj
    have := hx (n - 1 - j) (by omega)
    intro h
    apply this
    rw [h]
    have hj' : n - 1 - j < n := by omega
    have e := copy_addr_eq layout.kFirstLocalSlotFromFp n (n - 1 - j) hj'
    have hjj : n - 1 - (n - 1 - j) = j := by omega
    rw [hjj] at e
    exact e
  · intro hlayout i hi
    have hi' : i < n := by omega
    have hcopied := copyPositional_copied
      (4 * (Smi.RawValue desc.count - Smi.RawValue desc.positional_count)
        + (layout.kParamEndSlotFromFp + 1) * kWordSize)
      (8 * (-(n : Int)) + (layout.kFirstLocalSlotFromFp + 1) * kWordSize) n mem
      (fun j k _ hk =>
        argument_addr_ne_copy_addr desc.count desc.positional_count
          layout.kParamEndSlotFromFp layout.kFirstLocalSlotFromFp n j k hn h1 hlayout hk)
      (n - 1 - i) (by omega)
    have e1 : 4 * (Smi.RawValue desc.count - Smi.RawValue desc.positional_count)
          + (layout.kParamEndSlotFromFp + 1) * kWordSize + 8 * ((n - 1 - i : Nat) : Int)
        = (layout.kParamEndSlotFromFp + desc.count - (i : Int)) * kWordSize := by
      exact argument_addr_eq desc.count desc.positional_count layout.kParamEndSlotFromFp
        n i hn hi'
    have e2 : 8 * (-(n : Int)) + (layout.kFirstLocalSlotFromFp + 1) * kWordSize
          + 8 * ((n - 1 - i : Nat) : Int)
        = (layout.kFirstLocalSlotFromFp - (i : Int)) * kWordSize := by
      exact copy_addr_eq layout.kFirstLocalSlotFromFp n i hi'
    rw [e1, e2] at hcopied
    exact hcopied
  · intro hzero
    have hn0 : n = 0 := by omega
    subst hn0
    exact ⟨rfl, rfl⟩

/-- C24 on the call `(5, 6, w: 9)`: the two positional arguments at `fp[4]` and `fp[3]` are copied
    to `fp[-2]` and `fp[-3]`, in this order. -/
theorem CopyParameters_positional_loop_witness :
    (0 : Int) ≤ sampleCall.positional_count
    ∧ sampleCall.positional_count ≤ sampleCall.count
    ∧ sampleCall.positional_count.toNat < 3
    ∧ ∃ mem' copies,
      FlowGraphCompiler.copyPositionalArguments sampleLayout sampleCall 3 sampleFrame
        = some (mem', copies)
      ∧ copies = (List.range sampleCall.positional_count.toNat).map (fun (i : Nat) =>
          (⟨(sampleLayout.kParamEndSlotFromFp + sampleCall.count - (i : Int)) * kWordSize,
            (sampleLayout.kFirstLocalSlotFromFp - (i : Int)) * kWordSize⟩ :
              FlowGraphCompiler.ArgumentCopy))
      ∧ copies.length = sampleCall.positional_count.toNat
      ∧ mem' = copies.foldl (fun m c => m.write c.copy_addr (m c.argument_addr)) sampleFrame
      ∧ (∀ x : Int,
          (∀ i : Nat, (i : Int) < sampleCall.positional_count →
            x ≠ (sampleLayout.kFirstLocalSlotFromFp - (i : Int)) * kWordSize) →
          mem' x = sampleFrame x)
      ∧ (sampleLayout.kFirstLocalSlotFromFp ≤ sampleLayout.kParamEndSlotFromFp →
          ∀ i : Nat, (i : Int) < sampleCall.positional_count →
            mem' ((sampleLayout.kFirstLocalSlotFromFp - (i : Int)) * kWordSize)
              = sampleFrame
                  ((sampleLayout.kParamEndSlotFromFp + sampleCall.count - (i : Int)) * kWordSize))
      ∧ (sampleCall.positional_count = 0 → copies = [] ∧ mem' = sampleFrame) :=
  ⟨by decide, by decide, by decide,
    CopyParameters_positional_loop sampleLayout sampleCall sampleFrame 3
      (by decide) (by decide) (by decide)⟩

/-- C25: with `2 ^ k` buckets, the mask `2 ^ k - 1` held Smi-tagged, and some bucket that is empty
    or holds the receiver's key, let bucket `(c + d) mod 2 ^ k` be the first one in probe order
    from `c mod 2 ^ k` (`c` the class id the probe is keyed by) whose key is 0 or the receiver's
    key. Then the probe stops there, the word loaded as the function to call is the target stored
    beside that bucket, and the buckets inspected are exactly those up to it, the first being at
    `key AND mask`: none of the earlier ones is empty or holds the key, and no later one is read.
    The key of a Smi receiver is the immediate `Smi::RawValue(kSmiCid)`, that of any other receiver
    its class id, Smi-tagged. -/
theorem EmitMegamorphicInstanceCall_calls_first_match (kSmiCid : Nat) (cache : MegamorphicCache)
    (receiver : Receiver) (k : Nat) (hk : k < 64) (hmask : cache.mask = 2 * (2 ^ k - 1))
    (hstop : ∃ e, e < 2 ^ k
      ∧ (cache.buckets (2 * e) = 0
          ∨ cache.buckets (2 * e) = FlowGraphCompiler.receiverKey kSmiCid receiver)) :
    ∃ d, d < 2 ^ k
      ∧ (cache.buckets (2 * ((receiver.classId kSmiCid + d) % 2 ^ k)) = 0
          ∨ cache.buckets (2 * ((receiver.classId kSmiCid + d) % 2 ^ k))
              = FlowGraphCompiler.receiverKey kSmiCid receiver)
      ∧ (∀ j, j < d →
          cache.buckets (2 * ((receiver.classId kSmiCid + j) % 2 ^ k)) ≠ 0
          ∧ cache.buckets (2 * ((receiver.classId kSmiCid + j) % 2 ^ k))
              ≠ FlowGraphCompiler.receiverKey kSmiCid receiver)
      ∧ (∀ fuel, d < fuel →
          ∃ r,
            FlowGraphCompiler.EmitMegamorphicInstanceCall kSmiCid cache receiver fuel
              = some (r, cache.buckets (2 * ((receiver.classId kSmiCid + d) % 2 ^ k) + 1))
            ∧ r.inspected
                = (List.range (d + 1)).map
                    (fun i => 2 * ((receiver.classId kSmiCid + i) % 2 ^ k))
            ∧ r.inspected.head?
                = some (FlowGraphCompiler.receiverKey kSmiCid receiver &&& cache.mask))
      ∧ FlowGraphCompiler.receiverKey kSmiCid Receiver.smi = wrap64 (2 * kSmiCid)
      ∧ ∀ cid, FlowGraphCompiler.receiverKey kSmiCid (Receiver.object cid) = wrap64 (cid * 2) := by
  obtain ⟨e, he, hfound⟩ := hstop
  let c := receiver.classId kSmiCid
  let rax := FlowGraphCompiler.receiverKey kSmiCid receiver
  let stop : Nat → Prop := fun i =>
    cache.buckets (2 * ((c + (0 + i)) % 2 ^ k)) = 0
      ∨ cache.buckets (2 * ((c + (0 + i)) % 2 ^ k)) = rax
  have hreach : stop ((e + 2 ^ k - c % 2 ^ k) % 2 ^ k) := by
    show _ ∨ _
    rw [Nat.zero_add, probe_reaches_bucket c e k he]
    exact hfound
  have hex : ∃ i, stop i := ⟨_, hreach⟩
  have hdec : DecidablePred stop := fun i => by
    show Decidable (_ ∨ _)
    infer_instance
  let d := Nat.find hex
  have hd : d ≤ (e + 2 ^ k - c % 2 ^ k) % 2 ^ k := Nat.find_min' hex hreach
  have hdlt : d < 2 ^ k := lt_of_le_of_lt hd (Nat.mod_lt _ (by positivity))
  have hspec : stop d := Nat.find_spec hex
  have hmin : ∀ j, j < d → ¬ stop j := fun j hj => Nat.find_min hex hj
  have hstart : rax &&& cache.mask = 2 * ((c + 0) % 2 ^ k) := by
    rw [hmask, Nat.add_zero]
    exact receiverKey_land_mask kSmiCid receiver k hk
  refine ⟨d, hdlt, ?_, ?_, ?_, rfl, fun _ => rfl⟩
  · have := hspec
    simp only [stop, Nat.zero_add] at this
    exact this
  · intro j hj
    have := hmin j hj
    simp only [stop, Nat.zero_add, not_or] at this
    exact this
  · intro fuel hfuel
    have hrun := probeLoop_steps cache rax c k hk hmask d 0 rax fuel hstart hmin hspec hfuel
    refine ⟨{ inspected := (List.range (d + 1)).map (fun j => 2 * ((c + (0 + j)) % 2 ^ k)),
               rcx := 2 * ((c + (0 + d)) % 2 ^ k) }, ?_, ?_, ?_⟩
    · show FlowGraphCompiler.EmitMegamorphicInstanceCall kSmiCid cache receiver fuel = _
      unfold FlowGraphCompiler.EmitMegamorphicInstanceCall
      rw [hrun]
      simp only [Nat.zero_add]
    · simp only [Nat.zero_add]
    · show _ = some (rax &&& cache.mask)
      rw [hstart, List.range_succ_eq_map]
      simp

/-- C25 on the sample cache of four buckets: a receiver of class id 6 starts at bucket 2, which
    holds its key, and the target beside it is called. -/
theorem EmitMegamorphicInstanceCall_calls_first_match_witness :
    (2 : Nat) < 64 ∧ sampleCache.mask = 2 * (2 ^ 2 - 1)
    ∧ (∃ e, e < 2 ^ 2
        ∧ (sampleCache.buckets (2 * e) = 0
            ∨ sampleCache.buckets (2 * e)
                = FlowGraphCompiler.receiverKey 3 (Receiver.object 6)))
    ∧ ∃ d, d < 2 ^ 2
      ∧ (sampleCache.buckets (2 * (((Receiver.object 6).classId 3 + d) % 2 ^ 2)) = 0
          ∨ sampleCache.buckets (2 * (((Receiver.object 6).classId 3 + d) % 2 ^ 2))
              = FlowGraphCompiler.receiverKey 3 (Receiver.object 6))
      ∧ (∀ j, j < d →
          sampleCache.buckets (2 * (((Receiver.object 6).classId 3 + j) % 2 ^ 2)) ≠ 0
          ∧ sampleCache.buckets (2 * (((Receiver.object 6).classId 3 + j) % 2 ^ 2))
              ≠ FlowGraphCompiler.receiverKey 3 (Receiver.object 6))
      ∧ (∀ fuel, d < fuel →
          ∃ r,
            FlowGraphCompiler.EmitMegamorphicInstanceCall 3 sampleCache (Receiver.object 6) fuel
              = some (r,
                  sampleCache.buckets (2 * (((Receiver.object 6).classId 3 + d) % 2 ^ 2) + 1))
            ∧ r.inspected
                = (List.range (d + 1)).map
                    (fun i => 2 * (((Receiver.object 6).classId 3 + i) % 2 ^ 2))
            ∧ r.inspected.head?
                = some (FlowGraphCompiler.receiverKey 3 (Receiver.object 6)
                    &&& sampleCache.mask))
      ∧ FlowGraphCompiler.receiverKey 3 Receiver.smi = wrap64 (2 * 3)
      ∧ ∀ cid, FlowGraphCompiler.receiverKey 3 (Receiver.object cid) = wrap64 (cid * 2) :=
  ⟨by decide, by decide, ⟨2, by decide, Or.inr (by decide)⟩,
    EmitMegamorphicInstanceCall_calls_first_match 3 sampleCache (Receiver.object 6) 2
      (by decide) (by decide) ⟨2, by decide, Or.inr (by decide)⟩⟩

/-! ## Properties of the register save and restore -/

theorem StackInstr_run_append (xs ys : List StackInstr) (st : CpuState) :
    StackInstr.run (xs ++ ys) st = StackInstr.run ys (StackInstr.run xs st) := by
  induction xs generalizing st with
  | nil => rfl
  | cons x xs ih => exact ih _

/-- The pushes move RSP down by one word each and write only below the old
RSP. -/
theorem pushes_frame :
    ∀ (L : List Register) (st : CpuState),
      (StackInstr.run (L.map StackInstr.pushq) st).regs RSP
          = st.regs RSP - kWordSize * (L.length : Int)
      ∧ (∀ r, r ≠ RSP → (StackInstr.run (L.map StackInstr.pushq) st).regs r = st.regs r)
      ∧ (StackInstr.run (L.map StackInstr.pushq) st).xmm = st.xmm
      ∧ (∀ a, st.regs RSP ≤ a →
          (StackInstr.run (L.map StackInstr.pushq) st).mem a = st.mem a) := by
  intro L
  induction L with
  | nil =>
      intro st
      simp [StackInstr.run]
  | cons g rest ih =>
      intro st
      obtain ⟨h1, h2, h3, h4⟩ := ih (StackInstr.step st (StackInstr.pushq g))
      simp only [List.map_cons, StackInstr.run]
      refine ⟨?_, ?_, ?_, ?_⟩
      · rw [h1]
        simp only [StackInstr.step, CpuState.setMem, CpuState.setReg, if_true, List.length_cons,
          kWordSize]
        push_cast
        ring
      · intro r hr
        rw [h2 r hr]
        simp [StackInstr.step, CpuState.setMem, CpuState.setReg, hr]
      · rw [h3]
        rfl
      · intro a ha
        have hrsp : (StackInstr.step st (StackInstr.pushq g)).regs RSP
            = st.regs RSP - kWordSize := by
          simp [StackInstr.step, CpuState.setMem, CpuState.setReg]
        rw [h4 a (by rw [hrsp]; unfold kWordSize; omega)]
        have hne : a ≠ st.regs RSP - kWordSize := by unfold kWordSize; omega
        simp [StackInstr.step, CpuState.setMem, CpuState.setReg, hne]

/-- Pushing the registers of a list and, from a state with the same RSP and
the same words in the pushed area, popping them in reverse order brings back
RSP and every register of the list. -/
theorem pushes_then_pops :
    ∀ (L : List Register), L.Nodup → ∀ (st mid : CpuState),
      mid.regs RSP = (StackInstr.run (L.map StackInstr.pushq) st).regs RSP →
      (∀ a, (StackInstr.run (L.map StackInstr.pushq) st).regs RSP ≤ a → a < st.regs RSP →
          mid.mem a = (StackInstr.run (L.map StackInstr.pushq) st).mem a) →
      (StackInstr.run (L.reverse.map StackInstr.popq) mid).regs RSP = st.regs RSP
      ∧ (∀ r, r ∈ L → (StackInstr.run (L.reverse.map StackInstr.popq) mid).regs r = st.regs r)
      ∧ (∀ r, r ∉ L → r ≠ RSP →
          (StackInstr.run (L.reverse.map StackInstr.popq) mid).regs r = mid.regs r)
      ∧ (StackInstr.run (L.reverse.map StackInstr.popq) mid).xmm = mid.xmm
      ∧ (StackInstr.run (L.reverse.map StackInstr.popq) mid).mem = mid.mem := by
  intro L
  induction L with
  | nil =>
      intro _ st mid hrsp _
      simp only [List.map_nil, List.reverse_nil, StackInstr.run] at hrsp ⊢
      refine ⟨hrsp, ?_⟩
      simp
  | cons g rest ih =>
      intro hnodup st mid hrsp hmem
      have hg : g ∉ rest := (List.nodup_cons.mp hnodup).1
      have hrest : rest.Nodup := (List.nodup_cons.mp hnodup).2
      simp only [List.map_cons, StackInstr.run] at hrsp hmem
      -- the state after the first push
      have hst' : (StackInstr.step st (StackInstr.pushq g)).regs RSP
          = st.regs RSP - kWordSize := by
        simp [StackInstr.step, CpuState.setMem, CpuState.setReg]
      have hpushed : (StackInstr.step st (StackInstr.pushq g)).mem (st.regs RSP - kWordSize)
          = st.regs g := by
        simp [StackInstr.step, CpuState.setMem, CpuState.setReg]
      obtain ⟨f1, f2, f3, f4⟩ := pushes_frame rest (StackInstr.step st (StackInstr.pushq g))
      have hlen : (0 : Int) ≤ (rest.length : Int) := Int.ofNat_nonneg _
      obtain ⟨i1, i2, i3, i4, i5⟩ := ih hrest (StackInstr.step st (StackInstr.pushq g)) mid hrsp
        (fun a ha1 ha2 => hmem a ha1 (by rw [hst'] at ha2; unfold kWordSize at ha2; omega))
      -- the word the last pop reads
      have hword : mid.mem (st.regs RSP - kWordSize) = st.regs g := by
        rw [hmem _ (by rw [f1, hst']; unfold kWordSize; omega) (by unfold kWordSize; omega),
          f4 _ (by rw [hst']), hpushed]
      simp only [List.reverse_cons, List.map_append, List.map_cons, List.map_nil,
        StackInstr_run_append, StackInstr.run]
      generalize StackInstr.run (List.map StackInstr.popq rest.reverse) mid = st2 at i1 i2 i3 i4 i5
      rw [hst'] at i1
      have hread : st2.mem (st2.regs RSP) = st.regs g := by rw [i5, i1, hword]
      refine ⟨?_, ?_, ?_, ?_, ?_⟩
      · by_cases hgr : RSP = g
        · subst hgr
          simp only [StackInstr.step, CpuState.setReg, if_true]
          exact hread
        · simp only [StackInstr.step, CpuState.setReg, hgr, if_false, if_true, i1]
          unfold kWordSize
          omega
      · intro r hr
        rcases List.mem_cons.mp hr with rfl | hr'
        · simp [StackInstr.step, CpuState.setReg, hread]
        · have hne : r ≠ g := fun h => hg (h ▸ hr')
          by_cases hrr : r = RSP
          · subst hrr
            simp only [StackInstr.step, CpuState.setReg, hne, if_false, if_true, i1]
            unfold kWordSize
            omega
          · simp only [StackInstr.step, CpuState.setReg, hne, hrr, if_false]
            rw [i2 r hr']
            simp [StackInstr.step, CpuState.setMem, CpuState.setReg, hrr]
      · intro r hr hrr
        have hne : r ≠ g := fun h => hr (h ▸ List.mem_cons_self _ _)
        have hr' : r ∉ rest := fun h => hr (List.mem_cons_of_mem _ h)
        simp only [StackInstr.step, CpuState.setReg, hne, hrr, if_false]
        exact i3 r hr' hrr
      · simp only [StackInstr.step, CpuState.setReg]
        exact i4
      · simp only [StackInstr.step, CpuState.setReg]
        exact i5

/-- The stores of the XMM loop leave the registers alone, write only at and
above `RSP + offset`, and advance `offset` by one register size for every live
register. -/
theorem saveXmmLoop_frame (consts : RegisterConstants) (live : RegisterSet)
    (hsize : 0 ≤ consts.kFpuRegisterSize) :
    ∀ (L : List FpuRegister) (offset : Int) (st : CpuState),
      (FlowGraphCompiler.saveXmmLoop consts live L offset).2
          = offset + consts.kFpuRegisterSize * ((L.filter live.ContainsFpuRegister).length : Int)
      ∧ (StackInstr.run (FlowGraphCompiler.saveXmmLoop consts live L offset).1 st).regs = st.regs
      ∧ (StackInstr.run (FlowGraphCompiler.saveXmmLoop consts live L offset).1 st).xmm = st.xmm
      ∧ (∀ a, a < st.regs RSP + offset →
          (StackInstr.run (FlowGraphCompiler.saveXmmLoop consts live L offset).1 st).mem a
            = st.mem a) := by
  intro L
  induction L with
  | nil =>
      intro offset st
      simp [FlowGraphCompiler.saveXmmLoop, StackInstr.run]
  | cons x rest ih =>
      intro offset st
      by_cases hx : live.ContainsFpuRegister x = true
      · obtain ⟨h1, h2, h3, h4⟩ := ih (offset + consts.kFpuRegisterSize)
          (StackInstr.step st (StackInstr.movups_store RSP offset x))
        simp only [FlowGraphCompiler.saveXmmLoop, hx, if_true, StackInstr.run, List.filter_cons,
          List.length_cons]
        refine ⟨?_, ?_, ?_, ?_⟩
        · rw [h1]
          push_cast
          ring
        · rw [h2]
          rfl
        · rw [h3]
          rfl
        · intro a ha
          have hregs : (StackInstr.step st (StackInstr.movups_store RSP offset x)).regs RSP
              = st.regs RSP := rfl
          rw [h4 a (by rw [hregs]; omega)]
          have hne1 : a ≠ st.regs RSP + offset := by omega
          have hne2 : a ≠ st.regs RSP + offset + kWordSize := by unfold kWordSize; omega
          simp [StackInstr.step, CpuState.setMem, hne1, hne2]
      · have hx' : live.ContainsFpuRegister x = false := by
          cases h : live.ContainsFpuRegister x
          · rfl
          · exact absurd h hx
        simp only [FlowGraphCompiler.saveXmmLoop, hx', Bool.false_eq_true, if_false,
          List.filter_cons]
        exact ih offset st

theorem restoreXmmLoop_offset (consts : RegisterConstants) (live : RegisterSet) :
    ∀ (L : List FpuRegister) (offset : Int),
      (FlowGraphCompiler.restoreXmmLoop consts live L offset).2
          = offset + consts.kFpuRegisterSize
              * ((L.filter live.ContainsFpuRegister).length : Int) := by
  intro L
  induction L with
  | nil =>
      intro offset
      simp [FlowGraphCompiler.restoreXmmLoop]
  | cons x rest ih =>
      intro offset
      by_cases hx : live.ContainsFpuRegister x = true
      · simp only [FlowGraphCompiler.restoreXmmLoop, hx, if_true, List.filter_cons,
          List.length_cons]
        rw [ih]
        push_cast
        ring
      · have hx' : live.ContainsFpuRegister x = false := by
          cases h : live.ContainsFpuRegister x
          · rfl
          · exact absurd h hx
        simp only [FlowGraphCompiler.restoreXmmLoop, hx', Bool.false_eq_true, if_false,
          List.filter_cons]
        exact ih offset

/-- Storing the live XMM registers and, from a state with the same RSP and the
same words in the stored area, loading them brings back every live XMM
register of the list. -/
theorem saves_then_restores (consts : RegisterConstants) (live : RegisterSet)
    (hsize : 2 * kWordSize ≤ consts.kFpuRegisterSize) :
    ∀ (L : List FpuRegister), L.Nodup → ∀ (offset : Int) (st mid : CpuState),
      mid.regs RSP = st.regs RSP →
      (∀ a, st.regs RSP + offset ≤ a →
          a < st.regs RSP + (FlowGraphCompiler.saveXmmLoop consts live L offset).2 →
          mid.mem a
            = (StackInstr.run (FlowGraphCompiler.saveXmmLoop consts live L offset).1 st).mem a) →
      (∀ x, x ∈ L → live.ContainsFpuRegister x = true →
          (StackInstr.run (FlowGraphCompiler.restoreXmmLoop consts live L offset).1 mid).xmm x
            = st.xmm x)
      ∧ (∀ x, x ∉ L →
          (StackInstr.run (FlowGraphCompiler.restoreXmmLoop consts live L offset).1 mid).xmm x
            = mid.xmm x)
      ∧ (StackInstr.run (FlowGraphCompiler.restoreXmmLoop consts live L offset).1 mid).regs
          = mid.regs
      ∧ (StackInstr.run (FlowGraphCompiler.restoreXmmLoop consts live L offset).1 mid).mem
          = mid.mem := by
  have hsize0 : 0 ≤ consts.kFpuRegisterSize := by unfold kWordSize at hsize; omega
  intro L
  induction L with
  | nil =>
      intro _ offset st mid _ _
      simp [FlowGraphCompiler.restoreXmmLoop, StackInstr.run]
  | cons x rest ih =>
      intro hnodup offset st mid hrsp hmem
      have hxr : x ∉ rest := (List.nodup_cons.mp hnodup).1
      have hrest : rest.Nodup := (List.nodup_cons.mp hnodup).2
      by_cases hx : live.ContainsFpuRegister x = true
      · obtain ⟨f1, f2, f3, f4⟩ := saveXmmLoop_frame consts live hsize0 rest
          (offset + consts.kFpuRegisterSize)
          (StackInstr.step st (StackInstr.movups_store RSP offset x))
        have hlen : (0 : Int) ≤ ((rest.filter live.ContainsFpuRegister).length : Int) :=
          Int.ofNat_nonneg _
        have hprod : 0 ≤ consts.kFpuRegisterSize
            * ((rest.filter live.ContainsFpuRegister).length : Int) :=
          Int.mul_nonneg hsize0 hlen
        simp only [FlowGraphCompiler.saveXmmLoop, hx, if_true, StackInstr.run] at hmem
        have hregs : (StackInstr.step st (StackInstr.movups_store RSP offset x)).regs RSP
            = st.regs RSP := rfl
        -- the two quadwords the load reads
        have hlo : mid.mem (mid.regs RSP + offset) = (st.xmm x).1 := by
          rw [hrsp, hmem _ (by omega) (by rw [f1]; unfold kWordSize at hsize; omega),
            f4 _ (by rw [hregs]; unfold kWordSize at hsize; omega)]
          have hne : st.regs RSP + offset ≠ st.regs RSP + offset + kWordSize := by
            unfold kWordSize; omega
          simp [StackInstr.step, CpuState.setMem, hne]
        have hhi : mid.mem (mid.regs RSP + offset + kWordSize) = (st.xmm x).2 := by
          rw [hrsp, hmem _ (by unfold kWordSize; omega)
              (by rw [f1]; unfold kWordSize at hsize ⊢; omega),
            f4 _ (by rw [hregs]; unfold kWordSize at hsize ⊢; omega)]
          simp [StackInstr.step, CpuState.setMem]
        obtain ⟨i1, i2, i3, i4⟩ := ih hrest (offset + consts.kFpuRegisterSize)
          (StackInstr.step st (StackInstr.movups_store RSP offset x))
          (StackInstr.step mid (StackInstr.movups_load x RSP offset))
          (by rw [hregs]; exact hrsp)
          (fun a ha1 ha2 => by
            rw [hregs] at ha1 ha2
            exact hmem a (by omega) ha2)
        simp only [FlowGraphCompiler.restoreXmmLoop, hx, if_true, StackInstr.run]
        refine ⟨?_, ?_, ?_, ?_⟩
        · intro y hy hlive
          rcases List.mem_cons.mp hy with rfl | hy'
          · rw [i2 y hxr]
            simp only [StackInstr.step, CpuState.setXmm, if_true, hlo, hhi]
          · rw [i1 y hy' hlive]
            rfl
        · intro y hy
          have hne : y ≠ x := fun h => hy (h ▸ List.mem_cons_self _ _)
          rw [i2 y (fun h => hy (List.mem_cons_of_mem _ h))]
          simp [StackInstr.step, CpuState.setXmm, hne]
        · rw [i3]
          rfl
        · rw [i4]
          rfl
      · have hx' : live.ContainsFpuRegister x = false := by
          cases h : live.ContainsFpuRegister x
          · rfl
          · exact absurd h hx
        simp only [FlowGraphCompiler.saveXmmLoop, hx', Bool.false_eq_true, if_false] at hmem
        obtain ⟨i1, i2, i3, i4⟩ := ih hrest offset st mid hrsp hmem
        simp only [FlowGraphCompiler.restoreXmmLoop, hx', Bool.false_eq_true, if_false]
        refine ⟨?_, ?_, i3, i4⟩
        · intro y hy hlive
          rcases List.mem_cons.mp hy with rfl | hy'
          · rw [hx'] at hlive
            cases hlive
          · exact i1 y hy' hlive
        · intro y hy
          exact i2 y (fun h => hy (List.mem_cons_of_mem _ h))

/-- C26: let an XMM register take at least its 16 bytes in the save area, and let
    `FpuRegisterCount` be the number of XMM registers the live set contains. Then the offset
    assertions of `SaveLiveRegisters` and `RestoreLiveRegisters` hold, and running the saving code,
    then anything that leaves a state with the same stack pointer and the same words in the saved
    area, then the restoring code leaves every live general-purpose register and every live XMM
    register with the value it held before the save, and the stack pointer where it was before
    the save. -/
theorem SaveLiveRegisters_then_RestoreLiveRegisters (consts : RegisterConstants)
    (live : RegisterSet)
    (hsize : 2 * kWordSize ≤ consts.kFpuRegisterSize)
    (hcount : live.FpuRegisterCount
      = (((List.range consts.kNumberOfXmmRegisters).filter live.ContainsFpuRegister).length
          : Int)) :
    ∃ save restore,
      FlowGraphCompiler.SaveLiveRegisters consts live = some save
      ∧ FlowGraphCompiler.RestoreLiveRegisters consts live = some restore
      ∧ ∀ st mid : CpuState,
          mid.regs RSP = (StackInstr.run save st).regs RSP →
          (∀ a, (StackInstr.run save st).regs RSP ≤ a → a < st.regs RSP →
            mid.mem a = (StackInstr.run save st).mem a) →
          (∀ r, r < consts.kNumberOfCpuRegisters → live.ContainsRegister r = true →
            (StackInstr.run restore mid).regs r = st.regs r)
          ∧ (∀ x, x < consts.kNumberOfXmmRegisters → live.ContainsFpuRegister x = true →
            (StackInstr.run restore mid).xmm x = st.xmm x)
          ∧ (StackInstr.run restore mid).regs RSP = st.regs RSP := by
  have hsize0 : 0 ≤ consts.kFpuRegisterSize := by unfold kWordSize at hsize; omega
  have hG : ((List.range consts.kNumberOfCpuRegisters).filter live.ContainsRegister).Nodup :=
    (List.nodup_range _).filter _
  have hX : (List.range consts.kNumberOfXmmRegisters).Nodup := List.nodup_range _
  have hoff := (saveXmmLoop_frame consts live hsize0 (List.range consts.kNumberOfXmmRegisters) 0
    { regs := fun _ => 0, xmm := fun _ => (0, 0), mem := fun _ => 0 }).1
  have hoff' := restoreXmmLoop_offset consts live (List.range consts.kNumberOfXmmRegisters) 0
  rw [Int.zero_add, ← hcount, Int.mul_comm] at hoff hoff'
  have hGmem : ∀ r, r < consts.kNumberOfCpuRegisters → live.ContainsRegister r = true →
      r ∈ (List.range consts.kNumberOfCpuRegisters).filter live.ContainsRegister :=
    fun r hr hlive => List.mem_filter.mpr ⟨List.mem_range.mpr hr, hlive⟩
  by_cases hpos : live.FpuRegisterCount > 0
  · -- there are XMM registers to save
    refine ⟨StackInstr.AddImmediate RSP (-live.FpuRegisterCount * consts.kFpuRegisterSize)
          :: (FlowGraphCompiler.saveXmmLoop consts live
                (List.range consts.kNumberOfXmmRegisters) 0).1
        ++ ((List.range consts.kNumberOfCpuRegisters).filter
              live.ContainsRegister).map StackInstr.pushq,
      ((List.range consts.kNumberOfCpuRegisters).filter
              live.ContainsRegister).reverse.map StackInstr.popq
        ++ (FlowGraphCompiler.restoreXmmLoop consts live
              (List.range consts.kNumberOfXmmRegisters) 0).1
        ++ [StackInstr.AddImmediate RSP (live.FpuRegisterCount * consts.kFpuRegisterSize)],
      ?_, ?_, ?_⟩
    · simp only [FlowGraphCompiler.SaveLiveRegisters, hpos, if_true, hoff]
    · simp only [FlowGraphCompiler.RestoreLiveRegisters, hpos, if_true, hoff',
        List.filter_reverse]
    · intro st mid hrsp hmem
      simp only [StackInstr_run_append] at hrsp hmem ⊢
      simp only [StackInstr.run] at hrsp hmem ⊢
      have hcs : 0 ≤ live.FpuRegisterCount * consts.kFpuRegisterSize :=
        Int.mul_nonneg (le_of_lt hpos) hsize0
      have hlenG : (0 : Int)
          ≤ (((List.range consts.kNumberOfCpuRegisters).filter live.ContainsRegister).length
              : Int) := Int.ofNat_nonneg _
      -- the state after the stack pointer is lowered
      have hA : (StackInstr.step st
            (StackInstr.AddImmediate RSP (-live.FpuRegisterCount * consts.kFpuRegisterSize))).regs
              RSP
          = st.regs RSP - live.FpuRegisterCount * consts.kFpuRegisterSize := by
        simp only [StackInstr.step, CpuState.setReg, if_true]
        ring
      have hAregs : ∀ r, r ≠ RSP → (StackInstr.step st
            (StackInstr.AddImmediate RSP (-live.FpuRegisterCount * consts.kFpuRegisterSize))).regs
              r = st.regs r := by
        intro r hr
        simp [StackInstr.step, CpuState.setReg, hr]
      have hAxmm : (StackInstr.step st
            (StackInstr.AddImmediate RSP (-live.FpuRegisterCount * consts.kFpuRegisterSize))).xmm
          = st.xmm := rfl
      generalize StackInstr.step st
        (StackInstr.AddImmediate RSP (-live.FpuRegisterCount * consts.kFpuRegisterSize)) = stA
        at hrsp hmem hA hAregs hAxmm
      -- the state after the XMM registers are stored
      obtain ⟨-, b2, -, -⟩ := saveXmmLoop_frame consts live hsize0
        (List.range consts.kNumberOfXmmRegisters) 0 stA
      have hsave := saves_then_restores consts live hsize
        (List.range consts.kNumberOfXmmRegisters) hX 0 stA
      rw [hoff] at hsave
      generalize StackInstr.run (FlowGraphCompiler.saveXmmLoop consts live
        (List.range consts.kNumberOfXmmRegisters) 0).1 stA = stB at hrsp hmem b2 hsave
      -- the state after the pushes
      obtain ⟨p1, -, -, p4⟩ := pushes_frame
        ((List.range consts.kNumberOfCpuRegisters).filter live.ContainsRegister) stB
      have hBrsp : stB.regs RSP = st.regs RSP - live.FpuRegisterCount * consts.kFpuRegisterSize := by
        rw [b2, hA]
      obtain ⟨q1, q2, -, q4, q5⟩ := pushes_then_pops
        ((List.range consts.kNumberOfCpuRegisters).filter live.ContainsRegister) hG stB mid hrsp
        (fun a h1 h2 => hmem a h1 (by rw [hBrsp] at h2; omega))
      generalize StackInstr.run
        (((List.range consts.kNumberOfCpuRegisters).filter
            live.ContainsRegister).reverse.map StackInstr.popq) mid = st2a at q1 q2 q4 q5
      obtain ⟨r1, -, r3, -⟩ := hsave st2a (by rw [q1, b2])
        (fun a h1 h2 => by
          rw [q5, hmem a (by rw [p1, hBrsp]; rw [hA] at h1; unfold kWordSize; omega)
              (by rw [hA] at h2; omega),
            p4 a (by rw [hBrsp]; rw [hA] at h1; omega)])
      generalize StackInstr.run (FlowGraphCompiler.restoreXmmLoop consts live
        (List.range consts.kNumberOfXmmRegisters) 0).1 st2a = st2b at r1 r3
      have hfinal : (StackInstr.step st2b
            (StackInstr.AddImmediate RSP (live.FpuRegisterCount * consts.kFpuRegisterSize))).regs
              RSP = st.regs RSP := by
        simp only [StackInstr.step, CpuState.setReg, if_true]
        rw [r3, q1, hBrsp]
        ring
      refine ⟨?_, ?_, hfinal⟩
      · intro r hr hlive
        by_cases hrr : r = RSP
        · rw [hrr]
          exact hfinal
        · have : (StackInstr.step st2b
              (StackInstr.AddImmediate RSP
                (live.FpuRegisterCount * consts.kFpuRegisterSize))).regs r = st2b.regs r := by
            simp [StackInstr.step, CpuState.setReg, hrr]
          rw [this, r3, q2 r (hGmem r hr hlive), b2, hAregs r hrr]
      · intro x hx hlive
        have : (StackInstr.step st2b
            (StackInstr.AddImmediate RSP
              (live.FpuRegisterCount * consts.kFpuRegisterSize))).xmm x = st2b.xmm x := rfl
        rw [this, r1 x (List.mem_range.mpr hx) hlive, hAxmm]
  · -- no XMM register is live
    have hzero : ((List.range consts.kNumberOfXmmRegisters).filter
        live.ContainsFpuRegister).length = 0 := by omega
    refine ⟨((List.range consts.kNumberOfCpuRegisters).filter
              live.ContainsRegister).map StackInstr.pushq,
      ((List.range consts.kNumberOfCpuRegisters).filter
              live.ContainsRegister).reverse.map StackInstr.popq, ?_, ?_, ?_⟩
    · simp only [FlowGraphCompiler.SaveLiveRegisters, hpos, if_false, List.nil_append]
    · simp only [FlowGraphCompiler.RestoreLiveRegisters, hpos, if_false, List.filter_reverse]
    · intro st mid hrsp hmem
      obtain ⟨q1, q2, -, -, -⟩ := pushes_then_pops
        ((List.range consts.kNumberOfCpuRegisters).filter live.ContainsRegister) hG st mid
        hrsp hmem
      refine ⟨fun r hr hlive => q2 r (hGmem r hr hlive), ?_, q1⟩
      intro x hx hlive
      have hmem' : x ∈ (List.range consts.kNumberOfXmmRegisters).filter
          live.ContainsFpuRegister := List.mem_filter.mpr ⟨List.mem_range.mpr hx, hlive⟩
      rw [List.length_eq_zero.mp hzero] at hmem'
      cases hmem'

/-- C26 on x64 with RAX, RSP, R10, XMM1 and XMM3 live: the count 2 is the number of live XMM
    registers, both functions emit their code, and the restore undoes the save. -/
theorem SaveLiveRegisters_then_RestoreLiveRegisters_witness :
    2 * kWordSize ≤ sampleConstants.kFpuRegisterSize
    ∧ sampleLiveRegisters.FpuRegisterCount
        = (((List.range sampleConstants.kNumberOfXmmRegisters).filter
              sampleLiveRegisters.ContainsFpuRegister).length : Int)
    ∧ ∃ save restore,
      FlowGraphCompiler.SaveLiveRegisters sampleConstants sampleLiveRegisters = some save
      ∧ FlowGraphCompiler.RestoreLiveRegisters sampleConstants sampleLiveRegisters = some restore
      ∧ ∀ st mid : CpuState,
          mid.regs RSP = (StackInstr.run save st).regs RSP →
          (∀ a, (StackInstr.run save st).regs RSP ≤ a → a < st.regs RSP →
            mid.mem a = (StackInstr.run save st).mem a) →
          (∀ r, r < sampleConstants.kNumberOfCpuRegisters →
            sampleLiveRegisters.ContainsRegister r = true →
            (StackInstr.run restore mid).regs r = st.regs r)
          ∧ (∀ x, x < sampleConstants.kNumberOfXmmRegisters →
            sampleLiveRegisters.ContainsFpuRegister x = true →
            (StackInstr.run restore mid).xmm x = st.xmm x)
          ∧ (StackInstr.run restore mid).regs RSP = st.regs RSP :=
  ⟨by decide, by decide,
    SaveLiveRegisters_then_RestoreLiveRegisters sampleConstants sampleLiveRegisters
      (by decide) (by decide)⟩

/-! ### Slot indices of the deoptimization table -/

theorem slotsOf_append (ema : Int → Int) (xs ys : List BuilderCall) :
    slotsOf ema (xs ++ ys) = slotsOf ema xs ++ slotsOf ema ys := by
  induction xs with
  | nil => rfl
  | cons x xs ih => cases x <;> simp [slotsOf, ih]

theorem slotsOf_materializations (ema : Int → Int) (ms : List Value) :
    slotsOf ema (ms.map BuilderCall.AddMaterialization) = [] := by
  induction ms with
  | nil => rfl
  | cons m ms ih => simpa [slotsOf] using ih

theorem consecutive_append (s : Int) (a b : Nat) :
    (List.range a).map (fun (j : Nat) => s + (j : Int))
        ++ (List.range b).map (fun (j : Nat) => s + (a : Int) + (j : Int))
      = (List.range (a + b)).map (fun (j : Nat) => s + (j : Int)) := by
  rw [List.range_add, List.map_append, List.map_map]
  congr 1
  apply List.map_congr_left
  intro j _
  simp only [Function.comp]
  push_cast
  ring

theorem consecutive_cons (s : Int) (n : Nat) :
    s :: (List.range n).map (fun (j : Nat) => s + 1 + (j : Int))
      = (List.range (n + 1)).map (fun (j : Nat) => s + (j : Int)) := by
  rw [List.range_succ_eq_map]
  simp only [List.map_cons, List.map_map, Nat.cast_zero, add_zero]
  congr 1
  apply List.map_congr_left
  intro j _
  simp only [Function.comp, Nat.cast_succ]
  ring

theorem slotsOf_copyLoop (ema : Int → Int) (env : Environment) :
    ∀ (n : Nat) (i s : Int),
      slotsOf ema (copyLoop env n i s) = (List.range n).map (fun (j : Nat) => s + (j : Int)) := by
  intro n
  induction n with
  | zero => intro i s; rfl
  | succ n ih =>
      intro i s
      rw [copyLoop, slotsOf, ih, consecutive_cons]

theorem length_copyLoop (env : Environment) :
    ∀ (n : Nat) (i s : Int), (copyLoop env n i s).length = n := by
  intro n
  induction n with
  | zero => intro i s; rfl
  | succ n ih => intro i s; rw [copyLoop, List.length_cons, ih]

/-- The outer-frame loop fills consecutive slots from the slot it starts at;
their number plus the fixed parameters of the environment left in `previous`
is four per frame plus the entries of the frames plus the fixed parameters of
the environment the loop starts from. -/
theorem slotsOf_outerFrames (collab : DeoptCollaborators) :
    ∀ (outer : List Environment) (previous : Environment) (s : Int),
      (∀ e ∈ previous :: outer,
          0 ≤ e.fixed_parameter_count ∧ e.fixed_parameter_count ≤ e.Length) →
      ∃ n : Nat,
        slotsOf collab.EmitMaterializationArguments (outerFrames collab previous outer s).1
            = (List.range n).map (fun (j : Nat) => s + (j : Int))
        ∧ (outerFrames collab previous outer s).2.2 = s + (n : Int)
        ∧ (n : Int) + (outerFrames collab previous outer s).2.1.fixed_parameter_count
            = previous.fixed_parameter_count + 4 * (outer.length : Int)
                + (outer.map Environment.Length).sum
        ∧ 0 ≤ (outerFrames collab previous outer s).2.1.fixed_parameter_count := by
  intro outer
  induction outer with
  | nil =>
      intro previous s h
      refine ⟨0, rfl, by simp [outerFrames], by simp [outerFrames], ?_⟩
      exact (h previous (List.mem_cons_self _ _)).1
  | cons current outer ih =>
      intro previous s h
      have hp := h previous (List.mem_cons_self _ _)
      have hc := h current (List.mem_cons_of_mem _ (List.mem_cons_self _ _))
      rw [outerFrames_cons]
      simp only [copyFixedParameters, copyLocals, length_copyLoop]
      obtain ⟨n, h1, h2, h3, h4⟩ := ih current
        (s + 4 + ((tripCount (previous.fixed_parameter_count - 1) 0 : Nat) : Int)
          + ((tripCount (current.Length - 1) current.fixed_parameter_count : Nat) : Int))
        (fun e he => h e (List.mem_cons_of_mem _ he))
      have ha : ((tripCount (previous.fixed_parameter_count - 1) 0 : Nat) : Int)
          = previous.fixed_parameter_count := by
        unfold tripCount
        omega
      have hb : ((tripCount (current.Length - 1) current.fixed_parameter_count : Nat) : Int)
          = current.Length - current.fixed_parameter_count := by
        unfold tripCount
        omega
      refine ⟨4 + tripCount (previous.fixed_parameter_count - 1) 0
          + tripCount (current.Length - 1) current.fixed_parameter_count + n, ?_, ?_, ?_, h4⟩
      · simp only [slotsOf_append, slotsOf, slotsOf_copyLoop, h1, List.cons_append,
          List.nil_append]
        rw [← consecutive_append s (4 + tripCount (previous.fixed_parameter_count - 1) 0
            + tripCount (current.Length - 1) current.fixed_parameter_count) n,
          ← consecutive_append s (4 + tripCount (previous.fixed_parameter_count - 1) 0)
            (tripCount (current.Length - 1) current.fixed_parameter_count),
          ← consecutive_append s 4 (tripCount (previous.fixed_parameter_count - 1) 0)]
        simp [List.range_succ, ← add_assoc]
        rw [slotsOf_append, slotsOf_append, slotsOf_copyLoop, slotsOf_copyLoop, h1]
      · rw [h2]
        push_cast
        ring
      · simp only [List.length_cons, List.map_cons, List.sum_cons]
        push_cast
        omega

/-- C27: for a non-null chain `e0 ... ek` with `0 <= fixed_parameter_count(ej) <= Length(ej)` and a
    builder whose `EmitMaterializationArguments(4)` returns a slot index `4 + m`, `m >= 0`, the
    frame slots filled by the calls of `CreateDeoptInfo` are, in call order, `0, 1, 2, ...` with no
    index skipped or repeated (the materialization arguments taking the `m` indices from 4 on), and
    their number is `4 * (k + 2) + m` plus the sum of `Length(ej)` over the chain, whatever the
    fixed parameter counts. -/
theorem CreateDeoptInfo_slots_consecutive (collab : DeoptCollaborators)
    (self : CompilerDeoptInfo)
    (hne : self.deopt_env ≠ [])
    (hfixed : ∀ e ∈ self.deopt_env,
      0 ≤ e.fixed_parameter_count ∧ e.fixed_parameter_count ≤ e.Length)
    (hmat : 4 ≤ collab.EmitMaterializationArguments 4) :
    ∃ (calls : List BuilderCall) (N : Nat),
      CompilerDeoptInfo.CreateDeoptInfo collab self = RawDeoptInfo.info calls
      ∧ slotsOf collab.EmitMaterializationArguments calls
          = (List.range N).map (fun (j : Nat) => (j : Int))
      ∧ (N : Int) = 4 * ((self.deopt_env.length : Int) + 1)
          + (collab.EmitMaterializationArguments 4 - 4)
          + (self.deopt_env.map Environment.Length).sum := by
  obtain ⟨deopt_id, deopt_env⟩ := self
  cases deopt_env with
  | nil => exact absurd rfl hne
  | cons current outer =>
      simp only at hfixed
      obtain ⟨m, hm⟩ : ∃ m : Nat, collab.EmitMaterializationArguments 4 = 4 + (m : Int) :=
        ⟨(collab.EmitMaterializationArguments 4 - 4).toNat, by omega⟩
      have hmm : (4 + (m : Int) - 4).toNat = m := by omega
      have hc := hfixed current (List.mem_cons_self _ _)
      obtain ⟨n, h1, h2, h3, h4⟩ := slotsOf_outerFrames collab outer current
        (collab.EmitMaterializationArguments 4
          + ((copyLocals current (collab.EmitMaterializationArguments 4)).length : Int)) hfixed
      have hb : ((tripCount (current.Length - 1) current.fixed_parameter_count : Nat) : Int)
          = current.Length - current.fixed_parameter_count := by
        unfold tripCount
        omega
      refine ⟨_, 4 + m + tripCount (current.Length - 1) current.fixed_parameter_count + n + 4
          + tripCount ((outerFrames collab current outer
              (collab.EmitMaterializationArguments 4
                + ((copyLocals current (collab.EmitMaterializationArguments 4)).length
                    : Int))).2.1.fixed_parameter_count - 1) 0,
        CreateDeoptInfo_cons collab deopt_id current outer, ?_, ?_⟩
      · simp only [slotsOf_append, slotsOf_materializations, slotsOf, List.nil_append, h1, h2]
        simp only [copyFixedParameters, copyLocals, length_copyLoop, slotsOf_copyLoop, hm, hmm]
        have hcast : (fun (j : Nat) => (j : Int)) = fun (j : Nat) => (0 : Int) + (j : Int) := by
          funext j
          simp
        rw [hcast]
        generalize tripCount (current.Length - 1) current.fixed_parameter_count = b
        generalize tripCount
          ((outerFrames collab current outer (4 + (m : Int) + (b : Int))).2.1.fixed_parameter_count
            - 1) 0 = d
        rw [← consecutive_append 0 (4 + m + b + n + 4) d,
          ← consecutive_append 0 (4 + m + b + n) 4,
          ← consecutive_append 0 (4 + m + b) n,
          ← consecutive_append 0 (4 + m) b,
          ← consecutive_append 0 4 m]
        simp [List.range_succ, ← add_assoc]
      · simp only [List.length_cons, List.map_cons, List.sum_cons]
        have hd : ((tripCount ((outerFrames collab current outer
              (collab.EmitMaterializationArguments 4
                + ((copyLocals current (collab.EmitMaterializationArguments 4)).length
                    : Int))).2.1.fixed_parameter_count - 1) 0 : Nat) : Int)
            = (outerFrames collab current outer
              (collab.EmitMaterializationArguments 4
                + ((copyLocals current (collab.EmitMaterializationArguments 4)).length
                    : Int))).2.1.fixed_parameter_count := by
          unfold tripCount
          omega
        push_cast
        omega

/-- C27 on the chain of three inlined frames, with two materialization arguments: the slots are
    numbered from 0 without a gap. -/
theorem CreateDeoptInfo_slots_consecutive_witness :
    sampleDeoptInfo.deopt_env ≠ []
    ∧ (∀ e ∈ sampleDeoptInfo.deopt_env,
        0 ≤ e.fixed_parameter_count ∧ e.fixed_parameter_count ≤ e.Length)
    ∧ 4 ≤ sampleCollaborators.EmitMaterializationArguments 4
    ∧ ∃ (calls : List BuilderCall) (N : Nat),
      CompilerDeoptInfo.CreateDeoptInfo sampleCollaborators sampleDeoptInfo
        = RawDeoptInfo.info calls
      ∧ slotsOf sampleCollaborators.EmitMaterializationArguments calls
          = (List.range N).map (fun (j : Nat) => (j : Int))
      ∧ (N : Int) = 4 * ((sampleDeoptInfo.deopt_env.length : Int) + 1)
          + (sampleCollaborators.EmitMaterializationArguments 4 - 4)
          + (sampleDeoptInfo.deopt_env.map Environment.Length).sum :=
  ⟨by decide, by decide, by decide,
    CreateDeoptInfo_slots_consecutive sampleCollaborators sampleDeoptInfo
      (by decide) (by decide) (by decide)⟩

/-! ## Properties of the `instanceof` operator -/

/-- C28: for every type, `GenerateInstanceOf` emits code with and without `negate_result`, and
    for the same tested value, the same state of the inline test and the same answer of the
    runtime entry (a canonical Boolean), both codes leave through the same exit (the inline
    `is_instance` exit, the inline `is_not_instance` exit, or the runtime call) with a canonical
    Boolean in RAX, the one left with `negate_result` being the negation of the one left
    without. -/
theorem GenerateInstanceOf_negate_result (ids : ClassIds) (next : SubtypeTestCache)
    (type : AbstractType) (value_is_null : Bool) (rt : TestRuntime)
    (runtime_result : ResultObject)
    (hcanonical : runtime_result = ResultObject.Bool_True
      ∨ runtime_result = ResultObject.Bool_False) :
    ∃ plain negated,
      FlowGraphCompiler.GenerateInstanceOf ids next type false = some plain
      ∧ FlowGraphCompiler.GenerateInstanceOf ids next type true = some negated
      ∧ (negated.run value_is_null rt runtime_result).exit
          = (plain.run value_is_null rt runtime_result).exit
      ∧ (((plain.run value_is_null rt runtime_result).rax = ResultObject.Bool_True
            ∧ (negated.run value_is_null rt runtime_result).rax = ResultObject.Bool_False)
          ∨ ((plain.run value_is_null rt runtime_result).rax = ResultObject.Bool_False
            ∧ (negated.run value_is_null rt runtime_result).rax = ResultObject.Bool_True)) := by
  obtain ⟨inline, hinline, -⟩ := GenerateInlineInstanceof_cases ids next type
  refine ⟨_, _, by simp only [FlowGraphCompiler.GenerateInstanceOf, hinline]; rfl,
    by simp only [FlowGraphCompiler.GenerateInstanceOf, hinline]; rfl, ?_, ?_⟩
  all_goals
    simp only
    cases h1 : (type.IsInstantiated && value_is_null) <;>
    cases hv : (inline.run rt).verdict with
    | none =>
        cases hc : inline.cache <;> rcases hcanonical with rfl | rfl <;>
          simp [ResultObject.Bool_Get]
    | some v =>
        cases v <;> simp [ResultObject.Bool_Get]

/-- C28 on the inline test of a class equality: an object of the class leaves through
    `is_instance` with `Bool::True()`, and with `Bool::False()` when the result is negated. -/
theorem GenerateInstanceOf_negate_result_witness :
    (ResultObject.Bool_True = ResultObject.Bool_True
      ∨ ResultObject.Bool_True = ResultObject.Bool_False)
    ∧ ∃ plain negated,
      FlowGraphCompiler.GenerateInstanceOf sampleClassIds 0 sampleExactClass false = some plain
      ∧ FlowGraphCompiler.GenerateInstanceOf sampleClassIds 0 sampleExactClass true
          = some negated
      ∧ (negated.run false ⟨sampleExactInstance, InstantiatorTypeArguments.null,
            fun _ _ => none⟩ ResultObject.Bool_True).exit
          = (plain.run false ⟨sampleExactInstance, InstantiatorTypeArguments.null,
            fun _ _ => none⟩ ResultObject.Bool_True).exit
      ∧ (((plain.run false ⟨sampleExactInstance, InstantiatorTypeArguments.null,
              fun _ _ => none⟩ ResultObject.Bool_True).rax = ResultObject.Bool_True
            ∧ (negated.run false ⟨sampleExactInstance, InstantiatorTypeArguments.null,
              fun _ _ => none⟩ ResultObject.Bool_True).rax = ResultObject.Bool_False)
          ∨ ((plain.run false ⟨sampleExactInstance, InstantiatorTypeArguments.null,
              fun _ _ => none⟩ ResultObject.Bool_True).rax = ResultObject.Bool_False
            ∧ (negated.run false ⟨sampleExactInstance, InstantiatorTypeArguments.null,
              fun _ _ => none⟩ ResultObject.Bool_True).rax = ResultObject.Bool_True)) :=
  ⟨Or.inl rfl,
    GenerateInstanceOf_negate_result sampleClassIds 0 sampleExactClass false
      ⟨sampleExactInstance, InstantiatorTypeArguments.null, fun _ _ => none⟩
      ResultObject.Bool_True (Or.inl rfl)⟩

/-! ## Properties of `EmitTrySync` -/

theorem SyncInstr_run_append (xs ys : List SyncInstr) (st : CpuState) :
    SyncInstr.run (xs ++ ys) st = SyncInstr.run ys (SyncInstr.run xs st) := by
  induction xs generalizing st with
  | nil => rfl
  | cons x xs ih => exact ih _

/-- One call of `EmitTrySyncMove`, run from a state in which RBP is the frame
pointer of the entry state and RAX is either untouched (no push yet) or saved
in the word below the entry stack pointer. -/
theorem EmitTrySyncMove_spec (ToStackSlotAddress : Int → Int) (entry s : CpuState)
    (dest_offset : Int) (loc : Location) (push_emitted : Bool)
    (hloc : loc.IsConstant = true ∨ loc.IsRegister = true ∨ loc.IsStackSlot = true
      ∨ loc.IsDoubleStackSlot = true ∨ loc.IsQuadStackSlot = true)
    (hframe : entry.regs RSP ≤ entry.regs RBP + dest_offset)
    (hrbp : s.regs RBP = entry.regs RBP)
    (hsaved : push_emitted = true →
      s.regs RSP = entry.regs RSP - kWordSize
      ∧ s.mem (entry.regs RSP - kWordSize) = entry.regs RAX)
    (hfresh : push_emitted = false →
      s.regs RSP = entry.regs RSP ∧ s.regs RAX = entry.regs RAX) :
    ∃ code push_emitted1,
      FlowGraphCompiler.EmitTrySyncMove ToStackSlotAddress dest_offset loc push_emitted
        = some (code, push_emitted1)
      ∧ (push_emitted = true → push_emitted1 = true)
      ∧ code.count (SyncInstr.pushq RAX) = (if push_emitted1 && !push_emitted then 1 else 0)
      ∧ (∀ i ∈ code, ∀ r, i ≠ SyncInstr.popq r)
      ∧ (SyncInstr.run code s).regs RBP = entry.regs RBP
      ∧ (push_emitted1 = true →
          (SyncInstr.run code s).regs RSP = entry.regs RSP - kWordSize
          ∧ (SyncInstr.run code s).mem (entry.regs RSP - kWordSize) = entry.regs RAX)
      ∧ (push_emitted1 = false →
          (SyncInstr.run code s).regs RSP = entry.regs RSP
          ∧ (SyncInstr.run code s).regs RAX = entry.regs RAX)
      ∧ (loc = Location.reg RAX →
          (SyncInstr.run code s).mem (entry.regs RBP + dest_offset) = entry.regs RAX) := by
  have hne : entry.regs RSP - kWordSize ≠ entry.regs RBP + dest_offset := by
    unfold kWordSize
    omega
  have h54 : (RBP = RSP) = False := by simp [RBP, RSP]
  have h50 : (RBP = RAX) = False := by simp [RBP, RAX]
  have h40 : (RSP = RAX) = False := by simp [RSP, RAX]
  have hzero : ∀ x : Int, x + 0 = x := fun x => by omega
  cases push_emitted with
  | false =>
      obtain ⟨f1, f2⟩ := hfresh rfl
      cases loc with
      | invalid => simp [Location.IsConstant, Location.IsRegister, Location.IsStackSlot,
          Location.IsDoubleStackSlot, Location.IsQuadStackSlot] at hloc
      | fpuReg x => simp [Location.IsConstant, Location.IsRegister, Location.IsStackSlot,
          Location.IsDoubleStackSlot, Location.IsQuadStackSlot] at hloc
      | constant obj =>
          refine ⟨_, _, rfl, ?_, ?_, ?_, ?_, ?_, ?_, ?_⟩ <;>
            simp [SyncInstr.run, SyncInstr.step, CpuState.setReg, CpuState.setMem, h54, h50, h40,
              hrbp, f1, f2, hne]
      | reg r =>
          refine ⟨_, _, rfl, ?_, ?_, ?_, ?_, ?_, ?_, ?_⟩ <;>
            simp [SyncInstr.run, SyncInstr.step, CpuState.setReg, CpuState.setMem, h54, h50, h40,
              hrbp, f1, f2, hne]
          intro h
          rw [h, f2]
      | stackSlot index =>
          by_cases hsrc : ToStackSlotAddress index = dest_offset
          · refine ⟨[], false, by simp [FlowGraphCompiler.EmitTrySyncMove, hsrc],
              ?_, ?_, ?_, ?_, ?_, ?_, ?_⟩ <;>
              simp [SyncInstr.run, hrbp, f1, f2]
          · refine ⟨[SyncInstr.pushq RAX, SyncInstr.movq_load RAX RBP (ToStackSlotAddress index),
                SyncInstr.movq_store RBP dest_offset RAX], true,
              by simp [FlowGraphCompiler.EmitTrySyncMove, hsrc], ?_, ?_, ?_, ?_, ?_, ?_, ?_⟩ <;>
              simp [SyncInstr.run, SyncInstr.step, CpuState.setReg, CpuState.setMem, h54, h50,
                h40, hrbp, f1, f2, hne]
      | doubleStackSlot index =>
          by_cases hsrc : ToStackSlotAddress index = dest_offset
          · refine ⟨[], false, by simp [FlowGraphCompiler.EmitTrySyncMove, hsrc],
              ?_, ?_, ?_, ?_, ?_, ?_, ?_⟩ <;>
              simp [SyncInstr.run, hrbp, f1, f2]
          · refine ⟨[SyncInstr.pushq RAX, SyncInstr.movq_load RAX RBP (ToStackSlotAddress index),
                SyncInstr.movq_store RBP dest_offset RAX], true,
              by simp [FlowGraphCompiler.EmitTrySyncMove, hsrc], ?_, ?_, ?_, ?_, ?_, ?_, ?_⟩ <;>
              simp [SyncInstr.run, SyncInstr.step, CpuState.setReg, CpuState.setMem, h54, h50,
                h40, hrbp, f1, f2, hne]
      | quadStackSlot index =>
          by_cases hsrc : ToStackSlotAddress index = dest_offset
          · refine ⟨[], false, by simp [FlowGraphCompiler.EmitTrySyncMove, hsrc],
              ?_, ?_, ?_, ?_, ?_, ?_, ?_⟩ <;>
              simp [SyncInstr.run, hrbp, f1, f2]
          · refine ⟨[SyncInstr.pushq RAX, SyncInstr.movq_load RAX RBP (ToStackSlotAddress index),
                SyncInstr.movq_store RBP dest_offset RAX], true,
              by simp [FlowGraphCompiler.EmitTrySyncMove, hsrc], ?_, ?_, ?_, ?_, ?_, ?_, ?_⟩ <;>
              simp [SyncInstr.run, SyncInstr.step, CpuState.setReg, CpuState.setMem, h54, h50,
                h40, hrbp, f1, f2, hne]
  | true =>
      obtain ⟨g1, g2⟩ := hsaved rfl
      cases loc with
      | invalid => simp [Location.IsConstant, Location.IsRegister, Location.IsStackSlot,
          Location.IsDoubleStackSlot, Location.IsQuadStackSlot] at hloc
      | fpuReg x => simp [Location.IsConstant, Location.IsRegister, Location.IsStackSlot,
          Location.IsDoubleStackSlot, Location.IsQuadStackSlot] at hloc
      | constant obj =>
          refine ⟨_, _, rfl, ?_, ?_, ?_, ?_, ?_, ?_, ?_⟩ <;>
            simp [SyncInstr.run, SyncInstr.step, CpuState.setReg, CpuState.setMem, h54, h50, h40,
              hrbp, g1, g2, hne]
      | reg r =>
          by_cases hr : r = RAX
          · subst hr
            refine ⟨[SyncInstr.movq_load RAX RSP 0, SyncInstr.movq_store RBP dest_offset RAX],
              true, by simp [FlowGraphCompiler.EmitTrySyncMove], ?_, ?_, ?_, ?_, ?_, ?_, ?_⟩ <;>
              simp [SyncInstr.run, SyncInstr.step, CpuState.setReg, CpuState.setMem, h54, h50,
                h40, hrbp, g1, g2, hne, hzero]
          · refine ⟨[SyncInstr.movq_store RBP dest_offset r], true,
              by simp [FlowGraphCompiler.EmitTrySyncMove, hr], ?_, ?_, ?_, ?_, ?_, ?_, ?_⟩ <;>
              simp [SyncInstr.run, SyncInstr.step, CpuState.setReg, CpuState.setMem, h54, h50,
                h40, hrbp, g1, g2, hne, hr]
      | stackSlot index =>
          by_cases hsrc : ToStackSlotAddress index = dest_offset
          · refine ⟨[], true, by simp [FlowGraphCompiler.EmitTrySyncMove, hsrc],
              ?_, ?_, ?_, ?_, ?_, ?_, ?_⟩ <;>
              simp [SyncInstr.run, hrbp, g1, g2]
          · refine ⟨[SyncInstr.movq_load RAX RBP (ToStackSlotAddress index),
                SyncInstr.movq_store RBP dest_offset RAX], true,
              by simp [FlowGraphCompiler.EmitTrySyncMove, hsrc], ?_, ?_, ?_, ?_, ?_, ?_, ?_⟩ <;>
              simp [SyncInstr.run, SyncInstr.step, CpuState.setReg, CpuState.setMem, h54, h50,
                h40, hrbp, g1, g2, hne]
      | doubleStackSlot index =>
          by_cases hsrc : ToStackSlotAddress index = dest_offset
          · refine ⟨[], true, by simp [FlowGraphCompiler.EmitTrySyncMove, hsrc],
              ?_, ?_, ?_, ?_, ?_, ?_, ?_⟩ <;>
              simp [SyncInstr.run, hrbp, g1, g2]
          · refine ⟨[SyncInstr.movq_load RAX RBP (ToStackSlotAddress index),
                SyncInstr.movq_store RBP dest_offset RAX], true,
              by simp [FlowGraphCompiler.EmitTrySyncMove, hsrc], ?_, ?_, ?_, ?_, ?_, ?_, ?_⟩ <;>
              simp [SyncInstr.run, SyncInstr.step, CpuState.setReg, CpuState.setMem, h54, h50,
                h40, hrbp, g1, g2, hne]
      | quadStackSlot index =>
          by_cases hsrc : ToStackSlotAddress index = dest_offset
          · refine ⟨[], true, by simp [FlowGraphCompiler.EmitTrySyncMove, hsrc],
              ?_, ?_, ?_, ?_, ?_, ?_, ?_⟩ <;>
              simp [SyncInstr.run, hrbp, g1, g2]
          · refine ⟨[SyncInstr.movq_load RAX RBP (ToStackSlotAddress index),
                SyncInstr.movq_store RBP dest_offset RAX], true,
              by simp [FlowGraphCompiler.EmitTrySyncMove, hsrc], ?_, ?_, ?_, ?_, ?_, ?_, ?_⟩ <;>
              simp [SyncInstr.run, SyncInstr.step, CpuState.setReg, CpuState.setMem, h54, h50,
                h40, hrbp, g1, g2, hne]

/-- The calls of `EmitTrySyncMove` in sequence keep the invariant of
`EmitTrySyncMove_spec`, push RAX at most once, never pop, and every move whose
source is RAX has stored the entry value of RAX when its code has run. -/
theorem emitTrySyncMoves_spec (ToStackSlotAddress : Int → Int) (entry : CpuState) :
    ∀ (moves : List (Int × Location)) (push_emitted : Bool) (s : CpuState),
      (∀ m ∈ moves, m.2.IsConstant = true ∨ m.2.IsRegister = true ∨ m.2.IsStackSlot = true
        ∨ m.2.IsDoubleStackSlot = true ∨ m.2.IsQuadStackSlot = true) →
      (∀ m ∈ moves, entry.regs RSP ≤ entry.regs RBP + m.1) →
      s.regs RBP = entry.regs RBP →
      (push_emitted = true →
        s.regs RSP = entry.regs RSP - kWordSize
        ∧ s.mem (entry.regs RSP - kWordSize) = entry.regs RAX) →
      (push_emitted = false →
        s.regs RSP = entry.regs RSP ∧ s.regs RAX = entry.regs RAX) →
      ∃ segments push_emitted1,
        FlowGraphCompiler.emitTrySyncMoves ToStackSlotAddress moves push_emitted
          = some (segments, push_emitted1)
        ∧ segments.length = moves.length
        ∧ (push_emitted = true → push_emitted1 = true)
        ∧ segments.flatten.count (SyncInstr.pushq RAX)
            = (if push_emitted1 && !push_emitted then 1 else 0)
        ∧ (∀ i ∈ segments.flatten, ∀ r, i ≠ SyncInstr.popq r)
        ∧ (SyncInstr.run segments.flatten s).regs RBP = entry.regs RBP
        ∧ (push_emitted1 = true →
            (SyncInstr.run segments.flatten s).regs RSP = entry.regs RSP - kWordSize
            ∧ (SyncInstr.run segments.flatten s).mem (entry.regs RSP - kWordSize)
                = entry.regs RAX)
        ∧ (push_emitted1 = false →
            (SyncInstr.run segments.flatten s).regs RSP = entry.regs RSP
            ∧ (SyncInstr.run segments.flatten s).regs RAX = entry.regs RAX)
        ∧ ∀ (k : Nat) (dest_offset : Int),
            moves[k]? = some (dest_offset, Location.reg RAX) →
            (SyncInstr.run (segments.take (k + 1)).flatten s).mem
                (entry.regs RBP + dest_offset) = entry.regs RAX := by
  intro moves
  induction moves with
  | nil =>
      intro push_emitted s _ _ hrbp hsaved hfresh
      refine ⟨[], push_emitted, rfl, rfl, fun h => h, by simp, by simp, hrbp, hsaved, hfresh, ?_⟩
      intro k dest_offset hk
      simp at hk
  | cons m rest ih =>
      intro push_emitted s hlocs hframe hrbp hsaved hfresh
      obtain ⟨dest, loc⟩ := m
      obtain ⟨code, p1, hcode, hmono, hcount, hpop, hrbp1, hsaved1, hfresh1, hstored⟩ :=
        EmitTrySyncMove_spec ToStackSlotAddress entry s dest loc push_emitted
          (hlocs _ (List.mem_cons_self _ _)) (hframe _ (List.mem_cons_self _ _))
          hrbp hsaved hfresh
      obtain ⟨segs, p2, hsegs, hlen, hmono2, hcount2, hpop2, hrbp2, hsaved2, hfresh2, hstored2⟩ :=
        ih p1 (SyncInstr.run code s) (fun m hm => hlocs m (List.mem_cons_of_mem _ hm))
          (fun m hm => hframe m (List.mem_cons_of_mem _ hm)) hrbp1 hsaved1 hfresh1
      refine ⟨code :: segs, p2, ?_, ?_, ?_, ?_, ?_, ?_, ?_, ?_, ?_⟩
      · simp only [FlowGraphCompiler.emitTrySyncMoves, hcode, hsegs]
      · simp [hlen]
      · exact fun h => hmono2 (hmono h)
      · rw [List.flatten_cons, List.count_append, hcount, hcount2]
        have hbool : ∀ a b c : Bool, (a = true → b = true) → (b = true → c = true) →
            (if b && !a then 1 else 0) + (if c && !b then 1 else 0)
              = (if c && !a then 1 else 0) := by decide
        exact hbool _ _ _ hmono hmono2
      · intro i hi r
        rw [List.flatten_cons, List.mem_append] at hi
        rcases hi with hi | hi
        · exact hpop i hi r
        · exact hpop2 i hi r
      · rw [List.flatten_cons, SyncInstr_run_append]
        exact hrbp2
      · rw [List.flatten_cons, SyncInstr_run_append]
        exact hsaved2
      · rw [List.flatten_cons, SyncInstr_run_append]
        exact hfresh2
      · intro k dest_offset hk
        cases k with
        | zero =>
            simp only [List.getElem?_cons_zero, Option.some.injEq, Prod.mk.injEq] at hk
            obtain ⟨rfl, rfl⟩ := hk
            simp only [Nat.zero_add, List.take_succ_cons, List.take_zero, List.flatten_cons,
              List.flatten_nil, List.append_nil]
            exact hstored rfl
        | succ k =>
            simp only [List.getElem?_cons_succ] at hk
            rw [List.take_succ_cons, List.flatten_cons, SyncInstr_run_append]
            exact hstored2 k dest_offset hk

/-- C29: let `EmitTrySync` run in an optimizing compilation, every location it is given being a
    constant, a register or a stack slot, and every destination slot lying at or above the stack
    pointer. Then code is emitted, one piece per call of `EmitTrySyncMove`, in which RAX is
    pushed at most once and never popped; the code ends with `popq RAX` exactly when RAX was
    pushed; after the whole code the stack pointer and RAX are what they were on entry; and when
    the piece of a move whose source is register RAX has run, the destination of that move holds
    the value RAX held on entry, whatever moves came before it. -/
theorem EmitTrySync_keeps_RAX (layout : FrameLayout) (ToStackSlotAddress : Int → Int)
    (site : TrySyncSite) (entry : CpuState)
    (hopt : site.is_optimizing = true)
    (hlocs : ∀ m ∈ FlowGraphCompiler.trySyncMoves layout site,
      m.2.IsConstant = true ∨ m.2.IsRegister = true ∨ m.2.IsStackSlot = true
        ∨ m.2.IsDoubleStackSlot = true ∨ m.2.IsQuadStackSlot = true)
    (hframe : ∀ m ∈ FlowGraphCompiler.trySyncMoves layout site,
      entry.regs RSP ≤ entry.regs RBP + m.1) :
    ∃ emitted,
      FlowGraphCompiler.EmitTrySync layout ToStackSlotAddress site = some emitted
      ∧ emitted.moves.length = (FlowGraphCompiler.trySyncMoves layout site).length
      ∧ emitted.code.count (SyncInstr.pushq RAX) ≤ 1
      ∧ (∀ i ∈ emitted.moves.flatten, ∀ r, i ≠ SyncInstr.popq r)
      ∧ (emitted.epilogue
          = if SyncInstr.pushq RAX ∈ emitted.moves.flatten then [SyncInstr.popq RAX] else [])
      ∧ (SyncInstr.run emitted.code entry).regs RSP = entry.regs RSP
      ∧ (SyncInstr.run emitted.code entry).regs RAX = entry.regs RAX
      ∧ ∀ (k : Nat) (dest_offset : Int),
          (FlowGraphCompiler.trySyncMoves layout site)[k]?
            = some (dest_offset, Location.reg RAX) →
          (SyncInstr.run (emitted.moves.take (k + 1)).flatten entry).mem
              (entry.regs RBP + dest_offset) = entry.regs RAX := by
  obtain ⟨segs, p, hsegs, hlen, -, hcount, hpop, -, hsaved, hfresh, hstored⟩ :=
    emitTrySyncMoves_spec ToStackSlotAddress entry (FlowGraphCompiler.trySyncMoves layout site)
      false entry hlocs hframe rfl (fun h => by cases h) (fun _ => ⟨rfl, rfl⟩)
  refine ⟨{ moves := segs, epilogue := if p then [SyncInstr.popq RAX] else [] },
    ?_, hlen, ?_, hpop, ?_, ?_, ?_, hstored⟩
  · simp only [FlowGraphCompiler.EmitTrySync, hopt, if_true, hsegs]
  · simp only [TrySyncCode.code, List.count_append, hcount]
    cases p <;> simp
  · cases p
    · have : SyncInstr.pushq RAX ∉ segs.flatten := by
        rw [← List.count_eq_zero]
        simpa using hcount
      simp [this]
    · have : SyncInstr.pushq RAX ∈ segs.flatten := by
        rw [← List.count_pos_iff]
        simp [hcount]
      simp [this]
  · simp only [TrySyncCode.code, SyncInstr_run_append]
    cases p
    · exact (hfresh rfl).1
    · obtain ⟨g1, -⟩ := hsaved rfl
      have h40 : (RSP = RAX) = False := by simp [RSP, RAX]
      simp only [SyncInstr.run, SyncInstr.step, CpuState.setReg, h40, if_false, if_true, g1]
      unfold kWordSize
      omega
  · simp only [TrySyncCode.code, SyncInstr_run_append]
    cases p
    · exact (hfresh rfl).2
    · obtain ⟨g1, g2⟩ := hsaved rfl
      simp [SyncInstr.run, SyncInstr.step, CpuState.setReg, g1, g2]

/-- C29 on a frame whose parameter and last local live in RAX, with a constant local between
    them: the constant is moved through RAX, which is pushed once and popped at the end, and both
    moves from RAX store the value RAX held on entry. -/
theorem EmitTrySync_keeps_RAX_witness :
    sampleTrySyncSite.is_optimizing = true
    ∧ (∀ m ∈ FlowGraphCompiler.trySyncMoves sampleLayout sampleTrySyncSite,
        m.2.IsConstant = true ∨ m.2.IsRegister = true ∨ m.2.IsStackSlot = true
          ∨ m.2.IsDoubleStackSlot = true ∨ m.2.IsQuadStackSlot = true)
    ∧ (∀ m ∈ FlowGraphCompiler.trySyncMoves sampleLayout sampleTrySyncSite,
        sampleSyncCpu.regs RSP ≤ sampleSyncCpu.regs RBP + m.1)
    ∧ ∃ emitted,
      FlowGraphCompiler.EmitTrySync sampleLayout
          (fun index => (sampleLayout.kFirstLocalSlotFromFp - index) * kWordSize)
          sampleTrySyncSite = some emitted
      ∧ emitted.moves.length
          = (FlowGraphCompiler.trySyncMoves sampleLayout sampleTrySyncSite).length
      ∧ emitted.code.count (SyncInstr.pushq RAX) ≤ 1
      ∧ (∀ i ∈ emitted.moves.flatten, ∀ r, i ≠ SyncInstr.popq r)
      ∧ (emitted.epilogue
          = if SyncInstr.pushq RAX ∈ emitted.moves.flatten then [SyncInstr.popq RAX] else [])
      ∧ (SyncInstr.run emitted.code sampleSyncCpu).regs RSP = sampleSyncCpu.regs RSP
      ∧ (SyncInstr.run emitted.code sampleSyncCpu).regs RAX = sampleSyncCpu.regs RAX
      ∧ ∀ (k : Nat) (dest_offset : Int),
          (FlowGraphCompiler.trySyncMoves sampleLayout sampleTrySyncSite)[k]?
            = some (dest_offset, Location.reg RAX) →
          (SyncInstr.run (emitted.moves.take (k + 1)).flatten sampleSyncCpu).mem
              (sampleSyncCpu.regs RBP + dest_offset) = sampleSyncCpu.regs RAX :=
  ⟨by decide, by decide, by decide,
    EmitTrySync_keeps_RAX sampleLayout
      (fun index => (sampleLayout.kFirstLocalSlotFromFp - index) * kWordSize)
      sampleTrySyncSite sampleSyncCpu (by decide) (by decide) (by decide)⟩

/-! ## The arguments as the handler of `wrong_num_arguments` finds them -/

section ParameterBinderHandler

variable {Name : Type} [LinearOrder Name]

/-- Whatever path the emitted code takes, the frame it has when it leaves the
binding code differs from the frame on entry only in local slots
`fp[kFirstLocalSlotFromFp - q]`, and the result is what `finish` makes of it. -/
theorem CopyParameters_frame_local_slots (DEBUG : Bool) (layout : FrameLayout) (null : Word)
    (function : ParsedFunction Name) (desc : ArgumentsDescriptor Name) (mem : FrameMemory)
    (hwf : function.HasOptionalParameters) :
    ∃ (r : BinderResult) (bound : FrameMemory),
      FlowGraphCompiler.CopyParameters DEBUG layout null function desc mem = some r
      ∧ r = FlowGraphCompiler.finish layout null desc r.exit r.after_copy r.cursor bound
      ∧ ∀ x : Int,
          (∀ q : Nat, x ≠ (layout.kFirstLocalSlotFromFp - (q : Int)) * kWordSize) →
          bound x = mem x := by
  have hfinish : ∀ (exit : BinderExit) (after_copy : Bool) (cursor : Nat) (m : FrameMemory),
      FlowGraphCompiler.finish layout null desc exit after_copy cursor m
        = FlowGraphCompiler.finish layout null desc
            (FlowGraphCompiler.finish layout null desc exit after_copy cursor m).exit
            (FlowGraphCompiler.finish layout null desc exit after_copy cursor m).after_copy
            (FlowGraphCompiler.finish layout null desc exit after_copy cursor m).cursor m := by
    intro exit after_copy cursor m
    rw [(finish_exit _ _ _ _ _ _ _).1, (finish_exit _ _ _ _ _ _ _).2.1,
      (finish_exit _ _ _ _ _ _ _).2.2]
  have hslot : ∀ (x kfl : Int) (n j : Nat), j < n →
      (∀ q : Nat, x ≠ (kfl - (q : Int)) * 8) → x ≠ 8 * (-(n : Int)) + (kfl + 1) * 8 + 8 * (j : Int) := by
    intro x kfl n j hj hx h
    apply hx (n - 1 - j)
    rw [h]
    omega
  by_cases hrange : desc.positional_count < (function.num_fixed_parameters : Int)
      ∨ ((function.num_fixed_parameters + function.NumOptionalPositionalParameters : Nat)
          : Int) < desc.positional_count
  · obtain ⟨r, hr⟩ := CopyParameters_total DEBUG layout null function desc mem hwf
    obtain ⟨h1, h2⟩ := CopyParameters_count_check_of_some DEBUG layout null function desc mem r hr
    have hr2 := h2 (h1.mpr hrange)
    refine ⟨r, mem, hr, ?_, fun _ _ => rfl⟩
    rw [hr2]
    exact hfinish _ _ _ _
  · have hge : (function.num_fixed_parameters : Int) ≤ desc.positional_count := by omega
    have hle : desc.positional_count
        ≤ ((function.num_fixed_parameters + function.NumOptionalPositionalParameters : Nat)
            : Int) := by omega
    rcases hwf with hnamed | ⟨hn, hp⟩
    · have hcount : desc.positional_count = (function.num_fixed_parameters : Int) := by
        have := hnamed.2.1
        rw [this] at hle
        push_cast at hle
        omega
      obtain ⟨arrays, L, -, -, -, -, bound, hbound, hrun⟩ :=
        CopyParameters_named_run DEBUG layout null function desc mem hnamed hcount
      have hsame : ∀ x : Int,
          (∀ q : Nat, x ≠ (layout.kFirstLocalSlotFromFp - (q : Int)) * kWordSize) →
          bound.2 x = mem x := by
        intro x hx
        rw [hbound, foldl_bindNamedParameter_of_ne]
        · apply copyPositional_of_ne
          intro j hj
          exact hslot x layout.kFirstLocalSlotFromFp function.num_fixed_parameters j hj hx
        · intro e _
          exact hx e.2
      by_cases hcond : ((DEBUG || function.IsClosureFunction)
          && decide (desc.nameAt bound.1 = none)) = true
      · rw [if_pos hcond] at hrun
        exact ⟨_, bound.2, hrun, hfinish _ _ _ _, hsame⟩
      · rw [if_neg hcond] at hrun
        exact ⟨_, bound.2, hrun, hfinish _ _ _ _, hsame⟩
    · obtain ⟨bound, hbound, hrun⟩ :=
        CopyParameters_positional_run DEBUG layout null function desc mem hn hp hge hle
      obtain ⟨n, hn'⟩ : ∃ n : Nat, desc.positional_count = (n : Int) :=
        ⟨desc.positional_count.toNat, by omega⟩
      have hsame : ∀ x : Int,
          (∀ q : Nat, x ≠ (layout.kFirstLocalSlotFromFp - (q : Int)) * kWordSize) →
          bound x = mem x := by
        intro x hx
        rw [hbound, bindOptionalPositional_of_ne]
        · apply copyPositional_of_ne
          intro j hj
          rw [hn'] at hj ⊢
          exact hslot x layout.kFirstLocalSlotFromFp n j (by simpa using hj) hx
        · intro j _ _ _
          have := hx (function.num_fixed_parameters + j)
          push_cast at this
          exact this
      by_cases hcond : ((DEBUG || function.IsClosureFunction)
          && decide (desc.positional_count = desc.count)) = true
      · rw [if_pos hcond] at hrun
        exact ⟨_, bound, hrun, hfinish _ _ _ _, hsame⟩
      · rw [if_neg hcond] at hrun
        exact ⟨_, bound, hrun, hfinish _ _ _ _, hsame⟩

/-- C30: for a function with optional parameters whose local slots lie below the argument
    slots, the code of `CopyParameters` up to the labels `wrong_num_arguments` and
    `all_arguments_processed` (the positional and named copies and the default stores) writes only
    local slots `fp[kFirstLocalSlotFromFp - q]`, `q >= 0`: in the frame `bound` it leaves, every
    slot above `fp[kParamEndSlotFromFp]`, so every originally passed argument slot, holds the word
    it had on entry. The handler of `wrong_num_arguments` (the no-such-method call, or the stop)
    is entered with this frame, the clearing loop not having run, and finds the original values
    of the arguments. -/
theorem CopyParameters_handler_arguments_intact (DEBUG : Bool) (layout : FrameLayout)
    (null : Word) (function : ParsedFunction Name) (desc : ArgumentsDescriptor Name)
    (mem : FrameMemory)
    (hwf : function.HasOptionalParameters)
    (hlayout : layout.kFirstLocalSlotFromFp ≤ layout.kParamEndSlotFromFp) :
    ∃ (r : BinderResult) (bound : FrameMemory),
      FlowGraphCompiler.CopyParameters DEBUG layout null function desc mem = some r
      ∧ r = FlowGraphCompiler.finish layout null desc r.exit r.after_copy r.cursor bound
      ∧ (∀ x : Int,
          (∀ q : Nat, x ≠ (layout.kFirstLocalSlotFromFp - (q : Int)) * kWordSize) →
          bound x = mem x)
      ∧ (∀ i : Nat,
          bound ((layout.kParamEndSlotFromFp + 1 + (i : Int)) * kWordSize)
            = mem ((layout.kParamEndSlotFromFp + 1 + (i : Int)) * kWordSize))
      ∧ ((r.exit = BinderExit.CallNoSuchMethodFunction ∨ r.exit = BinderExit.Stop) →
          r.mem = bound
          ∧ ∀ i : Nat, (i : Int) < desc.count →
              r.mem ((layout.kParamEndSlotFromFp + 1 + (i : Int)) * kWordSize)
                = mem ((layout.kParamEndSlotFromFp + 1 + (i : Int)) * kWordSize)) := by
  obtain ⟨r, bound, hr, hfinish, hsame⟩ :=
    CopyParameters_frame_local_slots DEBUG layout null function desc mem hwf
  have hargs : ∀ i : Nat,
      bound ((layout.kParamEndSlotFromFp + 1 + (i : Int)) * kWordSize)
        = mem ((layout.kParamEndSlotFromFp + 1 + (i : Int)) * kWordSize) := by
    intro i
    apply hsame
    intro q h
    have h' : (layout.kParamEndSlotFromFp + 1 + (i : Int)) * 8
        = (layout.kFirstLocalSlotFromFp - (q : Int)) * 8 := h
    omega
  refine ⟨r, bound, hr, hfinish, hsame, hargs, ?_⟩
  intro hexit
  have hmem : r.mem = bound := by
    rw [hfinish]
    rcases hexit with h | h <;> rw [h] <;> rfl
  exact ⟨hmem, fun i _ => by rw [hmem]; exact hargs i⟩

/-- C30 on the closure `(x, y, {z, w})` called with `(5, 6, v: 9)`, which ends in the
    no-such-method call. -/
theorem CopyParameters_handler_arguments_intact_witness :
    sampleClosure.HasOptionalParameters
    ∧ sampleLayout.kFirstLocalSlotFromFp ≤ sampleLayout.kParamEndSlotFromFp
    ∧ ∃ (r : BinderResult) (bound : FrameMemory),
      FlowGraphCompiler.CopyParameters false sampleLayout 0 sampleClosure sampleBadCall
        sampleFrame = some r
      ∧ r = FlowGraphCompiler.finish sampleLayout 0 sampleBadCall r.exit r.after_copy r.cursor
          bound
      ∧ (∀ x : Int,
          (∀ q : Nat, x ≠ (sampleLayout.kFirstLocalSlotFromFp - (q : Int)) * kWordSize) →
          bound x = sampleFrame x)
      ∧ (∀ i : Nat,
          bound ((sampleLayout.kParamEndSlotFromFp + 1 + (i : Int)) * kWordSize)
            = sampleFrame ((sampleLayout.kParamEndSlotFromFp + 1 + (i : Int)) * kWordSize))
      ∧ ((r.exit = BinderExit.CallNoSuchMethodFunction ∨ r.exit = BinderExit.Stop) →
          r.mem = bound
          ∧ ∀ i : Nat, (i : Int) < sampleBadCall.count →
              r.mem ((sampleLayout.kParamEndSlotFromFp + 1 + (i : Int)) * kWordSize)
                = sampleFrame
                    ((sampleLayout.kParamEndSlotFromFp + 1 + (i : Int)) * kWordSize)) :=
  ⟨Or.inl sampleClosure_HasNamedParameters, by decide,
    CopyParameters_handler_arguments_intact false sampleLayout 0 sampleClosure sampleBadCall
      sampleFrame (Or.inl sampleClosure_HasNamedParameters) (by decide)⟩

end ParameterBinderHandler

end Dart
